import Mathlib

/-!
Jing Wei: board representation, attack queries and move generation

A shallow embedding of `src/chess/board/{board,attack,movegen}.cpp` and
`src/chess/types/{square,move}.h`.  Bitboards and hashes are natural numbers
(every value that occurs is below `2 ^ 64`), squares are the numbers `0..63`
with `A8 = 0` and `H1 = 63`, piece kinds are the numbers `0..7`.
-/

set_option maxRecDepth 100000

namespace JingWei

/-! ## Primitive types -/

-- The source's `Bitboard`, `Hash` (64-bit words), `Square`, `PieceType`,
-- `CastleRights` (enums) and `NodeCount` are all modelled by `Nat`; `Score` by `Int`.

/-- Modelled from the spec: `game/types/color.h` is not part of the sources;
the two colours of section 3. -/
inductive Color where
  | WHITE
  | BLACK
  deriving DecidableEq, Repr

/-- The source's `~sideToMove`. -/
def Color.flip : Color → Color
  | .WHITE => .BLACK
  | .BLACK => .WHITE

/-! ### `enum Square` (square.h) -/

@[simp] def A8 : Nat := 0
@[simp] def B8 : Nat := 1
@[simp] def C8 : Nat := 2
@[simp] def D8 : Nat := 3
@[simp] def E8 : Nat := 4
@[simp] def F8 : Nat := 5
@[simp] def G8 : Nat := 6
@[simp] def H8 : Nat := 7
@[simp] def A1 : Nat := 56
@[simp] def B1 : Nat := 57
@[simp] def C1 : Nat := 58
@[simp] def D1 : Nat := 59
@[simp] def E1 : Nat := 60
@[simp] def F1 : Nat := 61
@[simp] def G1 : Nat := 62
@[simp] def H1 : Nat := 63
@[simp] def SQUARE_COUNT : Nat := 64
@[simp] def NO_SQUARE : Nat := 65
@[simp] def FIRST_SQUARE : Nat := 0

/-- `FlipSqY(src)`, the macro `Square((src) ^ 56)`. -/
def FlipSqY (src : Nat) : Nat := src ^^^ 56

/-- `getFile`: `int(s) % 8`. -/
def getFile (s : Nat) : Nat := s % 8

/-- `getRank`: `int(s) / 8`; `Rank::_8 = 0`, ..., `Rank::_1 = 7`. -/
def getRank (s : Nat) : Nat := s / 8

@[simp] def Rank_8 : Nat := 0
@[simp] def Rank_7 : Nat := 1
@[simp] def Rank_5 : Nat := 3
@[simp] def Rank_4 : Nat := 4
@[simp] def Rank_2 : Nat := 6
@[simp] def Rank_1 : Nat := 7

/-! ### Piece kinds and castle rights

Modelled from the spec: `chess/types/piece.h` and `chess/types/castlerights.h`
are not part of the sources.  The piece numbering is the one forced by
`PieceToChar = " PNBRQK  pnbrqk"` in board.cpp together with the order
`{NONE, PAWN, KNIGHT, BISHOP, ROOK, QUEEN, KING, ALL}` of section 3; the castle
rights are the four bits `WOO, WOOO, BOO, BOOO` of section 3. -/

@[simp] def NO_PIECE : Nat := 0
@[simp] def PAWN : Nat := 1
@[simp] def KNIGHT : Nat := 2
@[simp] def BISHOP : Nat := 3
@[simp] def ROOK : Nat := 4
@[simp] def QUEEN : Nat := 5
@[simp] def KING : Nat := 6
@[simp] def ALL : Nat := 7
@[simp] def PIECETYPE_COUNT : Nat := 8

@[simp] def CASTLE_NONE : Nat := 0
@[simp] def WHITE_OO : Nat := 1
@[simp] def WHITE_OOO : Nat := 2
@[simp] def BLACK_OO : Nat := 4
@[simp] def BLACK_OOO : Nat := 8
@[simp] def WHITE_ALL : Nat := 3
@[simp] def BLACK_ALL : Nat := 12
@[simp] def CASTLE_ALL : Nat := 15

/-! ## Bitboard primitives

Modelled from the spec: `game/math/{shift,bitscan,bitreset,popcount}.h` and
`game/types/bitboard.h` are not part of the sources; section 3 fixes
"bit `i` set iff square `i` is in the set". -/

@[simp] def EmptyBitboard : Nat := 0

def AllBits : Nat := 0xffffffffffffffff

/-- `OneShiftedBy(s)`: the bitboard holding only square `s`. -/
def OneShiftedBy (s : Nat) : Nat := 1 <<< s

/-- The 64-bit complement `~b`. -/
def bbNot (b : Nat) : Nat := AllBits ^^^ b

/-- 64-bit left shift. -/
def shl64 (b : Nat) (n : Nat) : Nat := (b <<< n) % 2 ^ 64

/-- The squares of a bitboard in ascending order: the sequence visited by the
source's loops `while (BitScanForward64(&sq, bb)) { bb = ResetLowestSetBit(bb); .. }`. -/
def squaresOf (b : Nat) : List Nat :=
  (List.range 64).filter (fun s => b.testBit s)

/-- `BitScanForward64`: the lowest square of the bitboard, if any. -/
def BitScanForward64 (b : Nat) : Option Nat := (squaresOf b).head?

/-- `popCount` / `popCountSparse`. -/
def popCount (b : Nat) : Nat := (squaresOf b).length

def popCountIsOne (b : Nat) : Bool := popCount b == 1

/-- Union of the bitboards `f k` for `k = 0 .. n-1`. -/
def orUpTo (n : Nat) (f : Nat → Nat) : Nat :=
  (List.range n).foldl (fun acc k => acc ||| f k) 0

/-! ## Precomputed tables

Modelled from the spec: `chess/board/moves.{h,cpp}`, which fills the tables
`PieceMoves`, `InBetween`, `WhitePawnMoves`, `WhitePawnCaptures`,
`BlackPawnMoves`, `BlackPawnCaptures` and `EnPassant`, is not part of the
sources.  Section 4.A describes them: pseudo-attacks from an empty board,
single and double pawn pushes, pawn capture targets, and the squares strictly
between two collinear squares; section 4.B describes `EnPassant[src]` as the
squares beside the double-push destination of the pawn on `src`. -/

/-- The square `df - 2` files and `dr - 2` ranks away from `s`, as a bitboard
(empty when it falls off the board). -/
def stepBit (s : Nat) (df dr : Nat) : Nat :=
  let f := s % 8 + df
  let r := s / 8 + dr
  if 2 ≤ f ∧ f < 10 ∧ 2 ≤ r ∧ r < 10 then OneShiftedBy ((r - 2) * 8 + (f - 2)) else 0

/-- The `k`-th square from `s` in direction `(df - 1, dr - 1)`. -/
def rayBit (s : Nat) (df dr k : Nat) : Nat :=
  let f := s % 8 + k * df
  let r := s / 8 + k * dr
  if k ≤ f ∧ f < 8 + k ∧ k ≤ r ∧ r < 8 + k then OneShiftedBy ((r - k) * 8 + (f - k)) else 0

/-- All squares from `s` to the edge in direction `(df - 1, dr - 1)`. -/
def ray (s : Nat) (df dr : Nat) : Nat :=
  orUpTo 7 (fun k => rayBit s df dr (k + 1))

def knightMoves (s : Nat) : Nat :=
  stepBit s 1 0 ||| stepBit s 3 0 ||| stepBit s 0 1 ||| stepBit s 4 1 |||
  stepBit s 0 3 ||| stepBit s 4 3 ||| stepBit s 1 4 ||| stepBit s 3 4

def kingMoves (s : Nat) : Nat :=
  stepBit s 1 1 ||| stepBit s 2 1 ||| stepBit s 3 1 ||| stepBit s 1 2 |||
  stepBit s 3 2 ||| stepBit s 1 3 ||| stepBit s 2 3 ||| stepBit s 3 3

def bishopMoves (s : Nat) : Nat :=
  ray s 0 0 ||| ray s 2 0 ||| ray s 0 2 ||| ray s 2 2

def rookMoves (s : Nat) : Nat :=
  ray s 1 0 ||| ray s 1 2 ||| ray s 0 1 ||| ray s 2 1

/-- `PieceMoves[kind][sq]`: pseudo-attacks from an empty board.  The rows of
`NO_PIECE`, `PAWN` and `ALL` are never relied upon by the code and are empty. -/
def PieceMoves (piece : Nat) (s : Nat) : Nat :=
  if piece = KNIGHT then knightMoves s
  else if piece = BISHOP then bishopMoves s
  else if piece = ROOK then rookMoves s
  else if piece = QUEEN then bishopMoves s ||| rookMoves s
  else if piece = KING then kingMoves s
  else 0

/-- `WhitePawnCaptures[s]`: the two squares diagonally up (towards rank 8). -/
def WhitePawnCaptures (s : Nat) : Nat := stepBit s 1 1 ||| stepBit s 3 1

/-- `BlackPawnCaptures[s]`: the two squares diagonally down (towards rank 1). -/
def BlackPawnCaptures (s : Nat) : Nat := stepBit s 1 3 ||| stepBit s 3 3

/-- `WhitePawnMoves[s]`: single push, and the double push from rank 2. -/
def WhitePawnMoves (s : Nat) : Nat :=
  stepBit s 2 1 ||| (if getRank s = Rank_2 then stepBit s 2 0 else 0)

/-- `BlackPawnMoves[s]`: single push, and the double push from rank 7. -/
def BlackPawnMoves (s : Nat) : Nat :=
  stepBit s 2 3 ||| (if getRank s = Rank_7 then stepBit s 2 4 else 0)

/-- `EnPassant[src]`: for a pawn on its starting rank, the squares horizontally
adjacent to its double-push destination. -/
def EnPassant (s : Nat) : Nat :=
  if getRank s = Rank_2 then stepBit s 1 0 ||| stepBit s 3 0
  else if getRank s = Rank_7 then stepBit s 1 4 ||| stepBit s 3 4
  else 0

/-- Index distance between neighbouring squares of the line through `lo < hi`
(`1` rank, `8` file, `9` and `7` the two diagonals); `0` when not collinear. -/
def lineStep (lo hi : Nat) : Nat :=
  if lo / 8 = hi / 8 then 1
  else if lo % 8 = hi % 8 then 8
  else if lo % 8 < hi % 8 ∧ hi % 8 - lo % 8 = hi / 8 - lo / 8 then 9
  else if hi % 8 < lo % 8 ∧ lo % 8 - hi % 8 = hi / 8 - lo / 8 then 7
  else 0

/-- `InBetween[a][b]`: the squares strictly between `a` and `b` when they share
a rank, file or diagonal; empty otherwise. -/
def InBetween (a b : Nat) : Nat :=
  let lo := min a b
  let hi := max a b
  let st := lineStep lo hi
  if st = 0 then 0
  else orUpTo 6 (fun k => if lo + (k + 1) * st < hi then OneShiftedBy (lo + (k + 1) * st) else 0)

/-! ## Scores, evaluation pairs and parameter tables -/

/-- Modelled from the spec: `game/types/score.h` is not part of the sources.
An `Evaluation` is the middlegame/endgame pair `{mg, eg}` of section 3. -/
structure Evaluation where
  mg : Int
  eg : Int
  deriving DecidableEq, Repr

/-- Modelled from the spec: the cleared board has "zero hashes and evaluations"
(section 7), so the sentinel the evaluations start from is zero. -/
@[simp] def NO_SCORE : Int := 0

@[simp] def EmptyHash : Nat := 0

def Evaluation.add (a b : Evaluation) : Evaluation := ⟨a.mg + b.mg, a.eg + b.eg⟩

def Evaluation.sub (a b : Evaluation) : Evaluation := ⟨a.mg - b.mg, a.eg - b.eg⟩

/-- `multiplier * evaluation`. -/
def Evaluation.smul (k : Int) (a : Evaluation) : Evaluation := ⟨k * a.mg, k * a.eg⟩

/-- The Zobrist tables of `chess/hash/hash.cpp` (filled from a pseudo-random
generator that is not part of the sources) and the evaluation parameter tables
`MaterialParameters`, `PstParameters`: arbitrary values. -/
structure Tables where
  PieceHashValues : Color → Nat → Nat → Nat
  WhiteToMoveHash : Nat
  CastleRightsHashValues : Nat → Nat
  EnPassantHashValues : Nat → Nat
  MaterialParameters : Nat → Evaluation
  PstParameters : Nat → Nat → Evaluation

/-! ## Moves (move.h) -/

@[simp] def NO_CHESS_MOVE_ORDINAL : Int := 0

structure ChessMove where
  ordinal : Int
  src : Nat
  dst : Nat
  promotionPiece : Nat
  capturedPiece : Nat := NO_PIECE
  movedPiece : Nat := NO_PIECE
  deriving DecidableEq, Repr

/-- The source's `operator ==` on moves: ordinal and the moved/captured cache
are ignored. -/
def ChessMove.same (m1 m2 : ChessMove) : Bool :=
  m1.src == m2.src && m1.dst == m2.dst && m1.promotionPiece == m2.promotionPiece

/-- The `(src, dst, promotion)` triple of a move. -/
def ChessMove.key (m : ChessMove) : Nat × Nat × Nat :=
  (m.src, m.dst, m.promotionPiece)

/-! ## The board (board.h) -/

/-- Array store `a[i] = v`. -/
def setAt {α : Type} (a : Nat → α) (i : Nat) (v : α) : Nat → α :=
  fun j => if j = i then v else a j

structure ChessBoard where
  whitePieces : Nat → Nat
  blackPieces : Nat → Nat
  allPieces : Nat
  pieces : Nat → Nat
  fiftyMoveCount : Nat
  fullMoveCount : Nat
  blockedPieces : Nat
  checkingPieces : Nat
  inBetweenSquares : Nat
  pinnedPieces : Nat
  hashValue : Nat
  materialHashValue : Nat
  pawnHashValue : Nat
  materialEvaluation : Evaluation
  pstEvaluation : Evaluation
  castleRights : Nat
  sideToMove : Color
  enPassant : Nat
  whiteKingPosition : Nat
  blackKingPosition : Nat
  nullMove : Bool

/-- The bitboard array of one colour (`whitePieces` or `blackPieces`). -/
def ChessBoard.piecesOf (b : ChessBoard) : Color → Nat → Nat
  | .WHITE => b.whitePieces
  | .BLACK => b.blackPieces

/-- Store through the source's `piecesToMove` / `otherPieces` pointers. -/
def ChessBoard.setPiecesOf (b : ChessBoard) (c : Color) (piece : Nat) (v : Nat) :
    ChessBoard :=
  match c with
  | .WHITE => { b with whitePieces := setAt b.whitePieces piece v }
  | .BLACK => { b with blackPieces := setAt b.blackPieces piece v }

/-- The king square of a colour. -/
def ChessBoard.kingPosition (b : ChessBoard) : Color → Nat
  | .WHITE => b.whiteKingPosition
  | .BLACK => b.blackKingPosition

/-- `ChessBoard::clearEverything` (board.cpp 281-319). -/
def clearEverything : ChessBoard where
  whitePieces := fun _ => EmptyBitboard
  blackPieces := fun _ => EmptyBitboard
  allPieces := EmptyBitboard
  pieces := fun _ => NO_PIECE
  fiftyMoveCount := 0
  fullMoveCount := 1
  blockedPieces := EmptyBitboard
  checkingPieces := EmptyBitboard
  inBetweenSquares := EmptyBitboard
  pinnedPieces := EmptyBitboard
  hashValue := EmptyHash
  materialHashValue := EmptyHash
  pawnHashValue := EmptyHash
  materialEvaluation := ⟨NO_SCORE, NO_SCORE⟩
  pstEvaluation := ⟨NO_SCORE, NO_SCORE⟩
  castleRights := CASTLE_ALL
  sideToMove := Color.WHITE
  enPassant := NO_SQUARE
  whiteKingPosition := NO_SQUARE
  blackKingPosition := NO_SQUARE
  nullMove := false

/-- The four locals of `buildAttackBoards`. -/
structure AttackBoards where
  checkingPieces : Nat
  blockedPieces : Nat
  pinnedPieces : Nat
  inBetweenSquares : Nat

/-- One round of the two slider loops of `buildAttackBoards` (board.cpp 87-100
and 106-119). -/
def attackBoardsStep (allPieces : Nat) (kingPosition : Nat) (acc : AttackBoards)
    (src : Nat) : AttackBoards :=
  let inBetween := InBetween kingPosition src &&& allPieces
  let inBetweenSquares := acc.inBetweenSquares ||| InBetween kingPosition src
  if inBetween = EmptyBitboard then
    { acc with inBetweenSquares := inBetweenSquares,
               checkingPieces := acc.checkingPieces ||| OneShiftedBy src }
  else
    { acc with inBetweenSquares := inBetweenSquares,
               blockedPieces := acc.blockedPieces ||| OneShiftedBy src,
               pinnedPieces :=
                 if popCountIsOne inBetween then acc.pinnedPieces ||| inBetween
                 else acc.pinnedPieces }

/-- The locals of `buildAttackBoards` at its end (board.cpp 64-119). -/
def attackBoardsOf (b : ChessBoard) : AttackBoards :=
  let whiteToMove := b.sideToMove = Color.WHITE
  let kingPosition := if whiteToMove then b.whiteKingPosition else b.blackKingPosition
  let otherPieces := if whiteToMove then b.blackPieces else b.whitePieces
  let pawnAttacks :=
    (if whiteToMove then WhitePawnCaptures kingPosition else BlackPawnCaptures kingPosition)
      &&& otherPieces PAWN
  let knightAttacks := PieceMoves KNIGHT kingPosition &&& otherPieces KNIGHT
  let start : AttackBoards :=
    { checkingPieces := pawnAttacks ||| knightAttacks, blockedPieces := EmptyBitboard,
      pinnedPieces := EmptyBitboard, inBetweenSquares := EmptyBitboard }
  let bishopAttacks := PieceMoves BISHOP kingPosition &&& (otherPieces BISHOP ||| otherPieces QUEEN)
  let afterBishops :=
    (squaresOf bishopAttacks).foldl (attackBoardsStep b.allPieces kingPosition) start
  let rookAttacks := PieceMoves ROOK kingPosition &&& (otherPieces ROOK ||| otherPieces QUEEN)
  (squaresOf rookAttacks).foldl (attackBoardsStep b.allPieces kingPosition) afterBishops

/-- `ChessBoard::buildAttackBoards` (board.cpp 62-125). -/
def buildAttackBoards (b : ChessBoard) : ChessBoard :=
  let r := attackBoardsOf b
  { b with blockedPieces := r.blockedPieces, checkingPieces := r.checkingPieces,
           pinnedPieces := r.pinnedPieces, inBetweenSquares := r.inBetweenSquares }

/-- One round of the mailbox loop of `buildBitboardsFromMailbox` (board.cpp 137-160). -/
def buildBitboardsStep (b : ChessBoard) (src : Nat) : ChessBoard :=
  if b.pieces src = NO_PIECE then b
  else
    let bit := OneShiftedBy src
    let whitepiece := (b.whitePieces ALL &&& bit) ≠ EmptyBitboard
    let piece := b.pieces src
    let b1 :=
      if whitepiece then { b with whitePieces := setAt b.whitePieces piece (b.whitePieces piece ||| bit) }
      else { b with blackPieces := setAt b.blackPieces piece (b.blackPieces piece ||| bit) }
    if b.pieces src = KING then
      if whitepiece then { b1 with whiteKingPosition := src }
      else { b1 with blackKingPosition := src }
    else b1

/-- `ChessBoard::buildBitboardsFromMailbox` (board.cpp 127-161). -/
def buildBitboardsFromMailbox (b : ChessBoard) : ChessBoard :=
  let clearKinds (a : Nat → Nat) : Nat → Nat :=
    fun k => if PAWN ≤ k ∧ k ≤ KING then EmptyBitboard else a k
  let b0 : ChessBoard :=
    { b with whitePieces := clearKinds b.whitePieces, blackPieces := clearKinds b.blackPieces,
             allPieces := b.whitePieces ALL ||| b.blackPieces ALL }
  (List.range SQUARE_COUNT).foldl buildBitboardsStep b0

/-! ### Recomputation of the incremental scalars (board.cpp 163-279) -/

/-- XOR of `PieceHashValues[color][piece][src]` over the squares of a bitboard. -/
def xorSquares (T : Tables) (color : Color) (piece : Nat) (bb : Nat) (h : Nat) : Nat :=
  (squaresOf bb).foldl (fun acc src => acc ^^^ T.PieceHashValues color piece src) h

/-- The piece kinds `PAWN .. KING` in the order of the source's loops. -/
def pieceKinds : List Nat := [PAWN, KNIGHT, BISHOP, ROOK, QUEEN, KING]

/-- `ChessBoard::calculateHash` (board.cpp 163-196). -/
def calculateHash (T : Tables) (b : ChessBoard) : Nat :=
  let pieceHash :=
    [Color.WHITE, Color.BLACK].foldl (fun acc color =>
      pieceKinds.foldl (fun acc piece => xorSquares T color piece (b.piecesOf color piece) acc) acc)
      EmptyHash
  let withCastle := pieceHash ^^^ T.CastleRightsHashValues b.castleRights
  let withSide := withCastle ^^^ (if b.sideToMove = Color.WHITE then T.WhiteToMoveHash else EmptyHash)
  if b.enPassant ≠ NO_SQUARE then withSide ^^^ T.EnPassantHashValues b.enPassant else withSide

/-- `ChessBoard::calculateMaterialHash` (board.cpp 198-215). -/
def calculateMaterialHash (T : Tables) (b : ChessBoard) : Nat :=
  [Color.WHITE, Color.BLACK].foldl (fun acc color =>
    pieceKinds.foldl (fun acc pieceType =>
      acc ^^^ T.PieceHashValues color pieceType (popCount (b.piecesOf color pieceType))) acc)
    EmptyHash

/-- `ChessBoard::calculateMaterialEvaluation` (board.cpp 217-227); the loop
runs over `PAWN .. QUEEN`. -/
def calculateMaterialEvaluation (T : Tables) (b : ChessBoard) : Evaluation :=
  [PAWN, KNIGHT, BISHOP, ROOK, QUEEN].foldl (fun acc piece =>
    (acc.add ((T.MaterialParameters piece).smul (popCount (b.whitePieces piece)))).sub
      ((T.MaterialParameters piece).smul (popCount (b.blackPieces piece))))
    ⟨NO_SCORE, NO_SCORE⟩

/-- `ChessBoard::calculatePawnHash` (board.cpp 229-248). -/
def calculatePawnHash (T : Tables) (b : ChessBoard) : Nat :=
  [Color.WHITE, Color.BLACK].foldl (fun acc color =>
    xorSquares T color PAWN (b.piecesOf color PAWN) acc) EmptyHash

/-- `ChessBoard::calculatePstEvaluation` (board.cpp 250-279). -/
def calculatePstEvaluation (T : Tables) (b : ChessBoard) : Evaluation :=
  [Color.WHITE, Color.BLACK].foldl (fun acc color =>
    let multiplier : Int := if color = Color.WHITE then 1 else -1
    pieceKinds.foldl (fun acc piece =>
      (squaresOf (b.piecesOf color piece)).foldl (fun acc src =>
        let sq := if color = Color.WHITE then src else FlipSqY src
        acc.add ((T.PstParameters piece sq).smul multiplier)) acc) acc)
    ⟨NO_SCORE, NO_SCORE⟩

/-! ## Move application (board.cpp 321-629) -/

/-- `this->castleRights = (this->castleRights | right) ^ right`. -/
def stripRight (cr right : Nat) : Nat := (cr ||| right) ^^^ right

/-- Source step 1 (board.cpp 344-370): an en-passant capture first moves the
captured pawn back onto the destination square. -/
def doMoveEnPassant (pre : Bool) (T : Tables) (b : ChessBoard) (move : ChessMove) : ChessBoard :=
  let whiteToMove := b.sideToMove = Color.WHITE
  let otherColor := if whiteToMove then Color.BLACK else Color.WHITE
  let multiplier : Int := if whiteToMove then 1 else -1
  let dst := move.dst
  if dst = b.enPassant ∧ b.pieces move.src = PAWN then
    -- `dst + dir` with `dir = DOWN` for White and `UP` for Black
    let victim := if whiteToMove then dst + 8 else dst - 8
    let otherPieces := b.piecesOf otherColor
    let b1 := b.setPiecesOf otherColor PAWN
      ((otherPieces PAWN ^^^ OneShiftedBy victim) ||| OneShiftedBy dst)
    let b2 := b1.setPiecesOf otherColor ALL
      ((otherPieces ALL ^^^ OneShiftedBy victim) ||| OneShiftedBy dst)
    let b3 := { b2 with pieces := setAt (setAt b2.pieces dst PAWN) victim NO_PIECE }
    if pre then
      { b3 with
        hashValue := b3.hashValue ^^^ T.PieceHashValues otherColor PAWN dst
          ^^^ T.PieceHashValues otherColor PAWN victim
        pawnHashValue := b3.pawnHashValue ^^^ T.PieceHashValues otherColor PAWN dst
          ^^^ T.PieceHashValues otherColor PAWN victim
        pstEvaluation :=
          if whiteToMove then
            (b3.pstEvaluation.add ((T.PstParameters PAWN (FlipSqY victim)).smul multiplier)).sub
              ((T.PstParameters PAWN (FlipSqY dst)).smul multiplier)
          else
            (b3.pstEvaluation.add ((T.PstParameters PAWN victim).smul multiplier)).sub
              ((T.PstParameters PAWN dst).smul multiplier) }
    else b3
  else b

/-- Source step 4 (board.cpp 376-397): the move itself in mailbox and
bitboards, and the reset of the en-passant square. -/
def doMoveMovePiece (pre : Bool) (T : Tables) (b : ChessBoard) (move : ChessMove)
    (movingPiece : Nat) : ChessBoard :=
  let whiteToMove := b.sideToMove = Color.WHITE
  let colorToMove := if whiteToMove then Color.WHITE else Color.BLACK
  let multiplier : Int := if whiteToMove then 1 else -1
  let src := move.src
  let dst := move.dst
  let b1 := { b with pieces := setAt (setAt b.pieces dst movingPiece) src NO_PIECE }
  let b2 :=
    if pre then
      { b1 with
        pstEvaluation :=
          if whiteToMove then
            (b1.pstEvaluation.add ((T.PstParameters movingPiece dst).smul multiplier)).sub
              ((T.PstParameters movingPiece src).smul multiplier)
          else
            (b1.pstEvaluation.add ((T.PstParameters movingPiece (FlipSqY dst)).smul multiplier)).sub
              ((T.PstParameters movingPiece (FlipSqY src)).smul multiplier)
        hashValue := b1.hashValue ^^^ T.PieceHashValues colorToMove movingPiece src
          ^^^ T.PieceHashValues colorToMove movingPiece dst }
    else b1
  let piecesToMove := b2.piecesOf colorToMove
  let b3 := b2.setPiecesOf colorToMove movingPiece
    ((piecesToMove movingPiece ^^^ OneShiftedBy src) ||| OneShiftedBy dst)
  let b4 := b3.setPiecesOf colorToMove ALL
    ((b3.piecesOf colorToMove ALL ^^^ OneShiftedBy src) ||| OneShiftedBy dst)
  { b4 with enPassant := NO_SQUARE }

/-- The rook part of a castling move (board.cpp 443-457 and its three
siblings): the rook goes from `rookSrc` to `rookDst`; `pstSrc`, `pstDst` are
the squares used to index the piece-square table. -/
def doMoveCastleRook (pre : Bool) (T : Tables) (b : ChessBoard) (color : Color)
    (rookSrc rookDst pstSrc pstDst : Nat) : ChessBoard :=
  let multiplier : Int := if color = Color.WHITE then 1 else -1
  let b1 := { b with pieces := setAt (setAt b.pieces rookDst ROOK) rookSrc NO_PIECE }
  let b2 :=
    if pre then
      { b1 with
        pstEvaluation :=
          (b1.pstEvaluation.add ((T.PstParameters ROOK pstDst).smul multiplier)).sub
            ((T.PstParameters ROOK pstSrc).smul multiplier)
        hashValue := b1.hashValue ^^^ T.PieceHashValues color ROOK rookDst
          ^^^ T.PieceHashValues color ROOK rookSrc }
    else b1
  let piecesToMove := b2.piecesOf color
  let b3 := b2.setPiecesOf color ROOK
    ((piecesToMove ROOK ^^^ OneShiftedBy rookSrc) ||| OneShiftedBy rookDst)
  b3.setPiecesOf color ALL ((piecesToMove ALL ^^^ OneShiftedBy rookSrc) ||| OneShiftedBy rookDst)

/-- Source step 5 (board.cpp 399-511): side effects of pawn, rook and king
moves.  `src + twoDir == dst` is `src - 16 == dst` for White and
`src + 16 == dst` for Black. -/
def doMoveSpecial (pre : Bool) (T : Tables) (b : ChessBoard) (move : ChessMove)
    (movingPiece : Nat) : ChessBoard :=
  let whiteToMove := b.sideToMove = Color.WHITE
  let colorToMove := if whiteToMove then Color.WHITE else Color.BLACK
  let otherColor := if whiteToMove then Color.BLACK else Color.WHITE
  let src := move.src
  let dst := move.dst
  if movingPiece = PAWN then
    let enPassantPieces := EnPassant src &&& b.piecesOf otherColor PAWN
    let isTwoStep := if whiteToMove then src = dst + 16 else src + 16 = dst
    let b1 :=
      if isTwoStep ∧ enPassantPieces ≠ EmptyBitboard then
        { b with enPassant := if whiteToMove then src - 8 else src + 8 }
      else b
    if pre then
      { b1 with pawnHashValue := b1.pawnHashValue ^^^ T.PieceHashValues colorToMove PAWN src
          ^^^ T.PieceHashValues colorToMove PAWN dst }
    else b1
  else if movingPiece = ROOK then
    if whiteToMove then
      if src = A1 then { b with castleRights := stripRight b.castleRights WHITE_OOO }
      else if src = H1 then { b with castleRights := stripRight b.castleRights WHITE_OO }
      else b
    else
      if src = A8 then { b with castleRights := stripRight b.castleRights BLACK_OOO }
      else if src = H8 then { b with castleRights := stripRight b.castleRights BLACK_OO }
      else b
  else if movingPiece = KING then
    if whiteToMove then
      let b1 := { b with whiteKingPosition := dst, castleRights := b.castleRights &&& BLACK_ALL }
      if src = E1 ∧ dst = G1 then doMoveCastleRook pre T b1 Color.WHITE H1 F1 H1 F1
      else if src = E1 ∧ dst = C1 then doMoveCastleRook pre T b1 Color.WHITE A1 D1 A1 D1
      else b1
    else
      let b1 := { b with blackKingPosition := dst, castleRights := b.castleRights &&& WHITE_ALL }
      if src = E8 ∧ dst = G8 then
        doMoveCastleRook pre T b1 Color.BLACK H8 F8 (FlipSqY H8) (FlipSqY F8)
      else if src = E8 ∧ dst = C8 then
        doMoveCastleRook pre T b1 Color.BLACK A8 D8 (FlipSqY A8) (FlipSqY D8)
      else b1
  else b

/-- Source step 6 (board.cpp 513-559): removal of the captured piece. -/
def doMoveCapture (pre : Bool) (T : Tables) (b : ChessBoard) (move : ChessMove)
    (capturedPiece : Nat) : ChessBoard :=
  let whiteToMove := b.sideToMove = Color.WHITE
  let otherColor := if whiteToMove then Color.BLACK else Color.WHITE
  let multiplier : Int := if whiteToMove then 1 else -1
  let dst := move.dst
  if capturedPiece ≠ NO_PIECE then
    let otherPieces := b.piecesOf otherColor
    let b1 :=
      if pre then
        let pieceTypeCount := popCount (otherPieces capturedPiece)
        { b with
          materialEvaluation :=
            b.materialEvaluation.add ((T.MaterialParameters capturedPiece).smul multiplier)
          materialHashValue := b.materialHashValue
            ^^^ (T.PieceHashValues otherColor capturedPiece pieceTypeCount
              ^^^ T.PieceHashValues otherColor capturedPiece (pieceTypeCount - 1))
          pstEvaluation :=
            if whiteToMove then
              b.pstEvaluation.add ((T.PstParameters capturedPiece (FlipSqY dst)).smul multiplier)
            else b.pstEvaluation.add ((T.PstParameters capturedPiece dst).smul multiplier)
          hashValue := b.hashValue ^^^ T.PieceHashValues otherColor capturedPiece dst }
      else b
    let b2 := b1.setPiecesOf otherColor capturedPiece (otherPieces capturedPiece ^^^ OneShiftedBy dst)
    let b3 := b2.setPiecesOf otherColor ALL (b2.piecesOf otherColor ALL ^^^ OneShiftedBy dst)
    if capturedPiece = PAWN then
      if pre then
        { b3 with pawnHashValue := b3.pawnHashValue ^^^ T.PieceHashValues otherColor PAWN dst }
      else b3
    else if capturedPiece = ROOK then
      if whiteToMove then
        if dst = A8 then { b3 with castleRights := stripRight b3.castleRights BLACK_OOO }
        else if dst = H8 then { b3 with castleRights := stripRight b3.castleRights BLACK_OO }
        else b3
      else
        if dst = A1 then { b3 with castleRights := stripRight b3.castleRights WHITE_OOO }
        else if dst = H1 then { b3 with castleRights := stripRight b3.castleRights WHITE_OO }
        else b3
    else b3
  else b

/-- Source step 7 (board.cpp 561-593): promotion of the moved pawn. -/
def doMovePromotion (pre : Bool) (T : Tables) (b : ChessBoard) (move : ChessMove)
    (movingPiece : Nat) : ChessBoard :=
  let whiteToMove := b.sideToMove = Color.WHITE
  let colorToMove := if whiteToMove then Color.WHITE else Color.BLACK
  let multiplier : Int := if whiteToMove then 1 else -1
  let dst := move.dst
  let promotionPiece := move.promotionPiece
  if movingPiece = PAWN ∧ promotionPiece ≠ NO_PIECE then
    let b1 := { b with pieces := setAt b.pieces dst promotionPiece }
    let piecesToMove := b1.piecesOf colorToMove
    let b2 :=
      if pre then
        let promotionCount := popCount (piecesToMove promotionPiece)
        let pawnCount := popCount (piecesToMove PAWN)
        { b1 with
          materialEvaluation :=
            (b1.materialEvaluation.add ((T.MaterialParameters promotionPiece).smul multiplier)).sub
              ((T.MaterialParameters PAWN).smul multiplier)
          materialHashValue := b1.materialHashValue
            ^^^ (T.PieceHashValues colorToMove promotionPiece promotionCount
              ^^^ T.PieceHashValues colorToMove promotionPiece (promotionCount + 1))
            ^^^ (T.PieceHashValues colorToMove PAWN pawnCount
              ^^^ T.PieceHashValues colorToMove PAWN (pawnCount - 1))
          pstEvaluation :=
            if whiteToMove then
              (b1.pstEvaluation.add ((T.PstParameters promotionPiece dst).smul multiplier)).sub
                ((T.PstParameters PAWN dst).smul multiplier)
            else
              (b1.pstEvaluation.add
                ((T.PstParameters promotionPiece (FlipSqY dst)).smul multiplier)).sub
                ((T.PstParameters PAWN (FlipSqY dst)).smul multiplier)
          hashValue := b1.hashValue ^^^ T.PieceHashValues colorToMove PAWN dst
            ^^^ T.PieceHashValues colorToMove promotionPiece dst
          pawnHashValue := b1.pawnHashValue ^^^ T.PieceHashValues colorToMove PAWN dst }
      else b1
    let b3 := b2.setPiecesOf colorToMove promotionPiece
      (piecesToMove promotionPiece ||| OneShiftedBy dst)
    b3.setPiecesOf colorToMove PAWN ((b3.piecesOf colorToMove PAWN) ^^^ OneShiftedBy dst)
  else b

/-- Source steps 9-11 (board.cpp 595-626): side to move, hash of en-passant
and castle rights, fifty-move counter, `allPieces`.  The counter is a
`NodeCount`, an unsigned 64-bit integer (the type `initFromFen` reads it
into), so `fiftyMoveCount++` wraps from `2^64 - 1` to 0. -/
def doMoveFinish (pre : Bool) (T : Tables) (b : ChessBoard) (oldEnPassant : Nat)
    (oldCastleRights : Nat) (movingPiece capturedPiece : Nat) : ChessBoard :=
  let b1 := { b with sideToMove := b.sideToMove.flip }
  let b2 :=
    if pre then
      let h0 := b1.hashValue ^^^ T.WhiteToMoveHash
      let h1 := if oldEnPassant ≠ NO_SQUARE then h0 ^^^ T.EnPassantHashValues oldEnPassant else h0
      let h2 := if b1.enPassant ≠ NO_SQUARE then h1 ^^^ T.EnPassantHashValues b1.enPassant else h1
      let h3 :=
        if b1.castleRights ≠ oldCastleRights then
          h2 ^^^ T.CastleRightsHashValues oldCastleRights ^^^ T.CastleRightsHashValues b1.castleRights
        else h2
      { b1 with hashValue := h3 }
    else b1
  let b3 :=
    if capturedPiece = NO_PIECE ∧ movingPiece ≠ PAWN then
      { b2 with fiftyMoveCount := (b2.fiftyMoveCount + 1) % 2 ^ 64 }
    else { b2 with fiftyMoveCount := 0 }
  { b3 with allPieces := b3.whitePieces ALL ||| b3.blackPieces ALL }

/-- The board before the final `buildAttackBoards()` of `doMoveImplementation`. -/
def doMoveCore (pre : Bool) (T : Tables) (b : ChessBoard) (move : ChessMove) : ChessBoard :=
  let oldEnPassant := b.enPassant
  let movingPiece := b.pieces move.src
  let b1 := doMoveEnPassant pre T b move
  let capturedPiece := b1.pieces move.dst
  let b2 := doMoveMovePiece pre T b1 move movingPiece
  let oldCastleRights := b2.castleRights
  let b3 := doMoveSpecial pre T b2 move movingPiece
  let b4 := doMoveCapture pre T b3 move capturedPiece
  let b5 := doMovePromotion pre T b4 move movingPiece
  doMoveFinish pre T b5 oldEnPassant oldCastleRights movingPiece capturedPiece

/-- `ChessBoard::doMoveImplementation<performPreCalculations>` (board.cpp
321-629): the board after the move. -/
def doMoveImplementation (performPreCalculations : Bool) (T : Tables) (b : ChessBoard)
    (move : ChessMove) : ChessBoard :=
  buildAttackBoards (doMoveCore performPreCalculations T b move)

/-- The move after `doMoveImplementation`, which fills in `movedPiece` and
`capturedPiece` (board.cpp 342 and 373). -/
def doMoveRecord (T : Tables) (b : ChessBoard) (move : ChessMove) : ChessMove :=
  { move with movedPiece := b.pieces move.src,
              capturedPiece := (doMoveEnPassant true T b move).pieces move.dst }

/-- `board.doMove(move)`: the template default `performPreCalculations = true`. -/
def doMove (T : Tables) (b : ChessBoard) (move : ChessMove) : ChessBoard :=
  doMoveImplementation true T b move

/-- `ChessBoard::doNullMove` (board.cpp 631-645). -/
def doNullMove (T : Tables) (b : ChessBoard) : ChessBoard :=
  let b1 := { b with nullMove := true, hashValue := b.hashValue ^^^ T.WhiteToMoveHash,
                     sideToMove := if b.sideToMove = Color.WHITE then Color.BLACK else Color.WHITE }
  let b2 :=
    if b1.enPassant ≠ NO_SQUARE then
      { b1 with hashValue := b1.hashValue ^^^ T.EnPassantHashValues b1.enPassant,
                enPassant := NO_SQUARE }
    else b1
  buildAttackBoards b2

/-! ## Attack queries (attack.cpp) -/

/-- The slider loops of `getAttackingPieces` (attack.cpp 71-77 and 87-93):
the candidates with nothing but `attackThrough` squares on the way to `dst`. -/
def unblockedSliders (b : ChessBoard) (dst : Nat) (attackThrough : Nat)
    (candidates : Nat) (attackingPieces : Nat) : Nat :=
  (squaresOf candidates).foldl (fun acc src =>
    if InBetween dst src &&& (b.allPieces &&& bbNot attackThrough) = EmptyBitboard then
      acc ||| OneShiftedBy src
    else acc) attackingPieces

/-- `ChessAttackGenerator::getAttackingPieces` (attack.cpp 47-97). -/
def getAttackingPieces (b : ChessBoard) (dst : Nat) (earlyExit : Bool)
    (attackThrough : Nat) : Nat :=
  let whiteToMove := b.sideToMove = Color.WHITE
  let otherPieces := if whiteToMove then b.blackPieces else b.whitePieces
  let pawnAttacks :=
    (if whiteToMove then WhitePawnCaptures dst else BlackPawnCaptures dst) &&& otherPieces PAWN
  let knightAttacks := PieceMoves KNIGHT dst &&& otherPieces KNIGHT
  let kingAttacks := PieceMoves KING dst &&& otherPieces KING
  let attacking1 := EmptyBitboard ||| (pawnAttacks ||| knightAttacks ||| kingAttacks)
  if earlyExit ∧ attacking1 ≠ EmptyBitboard then attacking1
  else
    let bishopAttacks := PieceMoves BISHOP dst &&& (otherPieces BISHOP ||| otherPieces QUEEN)
    let attacking2 := unblockedSliders b dst attackThrough bishopAttacks attacking1
    if earlyExit ∧ attacking2 ≠ EmptyBitboard then attacking2
    else
      let rookAttacks := PieceMoves ROOK dst &&& (otherPieces ROOK ||| otherPieces QUEEN)
      unblockedSliders b dst attackThrough rookAttacks attacking2

/-- `ChessAttackGenerator::isInCheck` (attack.cpp 99-154). -/
def isInCheck (b : ChessBoard) (otherSide : Bool := false) : Bool :=
  let whiteToMove0 := decide (b.sideToMove = Color.WHITE)
  let whiteToMove := if otherSide then !whiteToMove0 else whiteToMove0
  if whiteToMove = decide (b.sideToMove = Color.WHITE) then
    decide (b.checkingPieces ≠ EmptyBitboard)
  else
    let kingPosition := if whiteToMove then b.whiteKingPosition else b.blackKingPosition
    let otherPieces := if whiteToMove then b.blackPieces else b.whitePieces
    let ourPawnAttacks :=
      if whiteToMove then WhitePawnCaptures kingPosition else BlackPawnCaptures kingPosition
    if PieceMoves KNIGHT kingPosition &&& otherPieces KNIGHT ≠ EmptyBitboard then true
    else if ourPawnAttacks &&& otherPieces PAWN ≠ EmptyBitboard then true
    else
      let bishops := otherPieces BISHOP ||| otherPieces QUEEN
      if (squaresOf (PieceMoves BISHOP kingPosition &&& bishops)).any
          (fun dst => InBetween kingPosition dst &&& b.allPieces = EmptyBitboard) then true
      else
        let rooks := otherPieces ROOK ||| otherPieces QUEEN
        (squaresOf (PieceMoves ROOK kingPosition &&& rooks)).any
          (fun dst => InBetween kingPosition dst &&& b.allPieces = EmptyBitboard)

/-- `ChessAttackGenerator::isSquareAttacked` (attack.cpp 156-162). -/
def isSquareAttacked (b : ChessBoard) (dst : Nat) : Bool :=
  let whiteToMove := b.sideToMove = Color.WHITE
  let kingBitboard := if whiteToMove then b.whitePieces KING else b.blackPieces KING
  decide (getAttackingPieces b dst false kingBitboard ≠ EmptyBitboard)

/-! ## Move generation (movegen.cpp) -/

abbrev MoveList := List ChessMove

/-- `moveList.push_back({ NO_CHESS_MOVE_ORDINAL, src, dst, promotion })`. -/
def pushMove (moveList : MoveList) (src dst : Nat) (promotion : Nat) : MoveList :=
  moveList ++ [{ ordinal := NO_CHESS_MOVE_ORDINAL, src := src, dst := dst,
                 promotionPiece := promotion }]

/-- The four `push_back`s of a promoting pawn move, in source order. -/
def pushPromotions (moveList : MoveList) (src dst : Nat) : MoveList :=
  pushMove (pushMove (pushMove (pushMove moveList src dst QUEEN) src dst ROOK) src dst BISHOP)
    src dst KNIGHT

/-- `ChessMoveGenerator::shouldDoubleCheckGeneratedMoves` (movegen.cpp 726-730). -/
def shouldDoubleCheckGeneratedMoves (b : ChessBoard) : Bool :=
  decide (b.pinnedPieces ≠ EmptyBitboard) || decide (b.enPassant ≠ NO_SQUARE)

/-- `ChessMoveGenerator::doubleCheckGeneratedMoves` (movegen.cpp 61-92): moves
of pinned pieces and en-passant captures are played on a copy and erased when
they leave the mover in check. -/
def doubleCheckGeneratedMoves (T : Tables) (b : ChessBoard) (moveList : MoveList) : MoveList :=
  moveList.filterMap (fun move =>
    let isPinnedPiece := b.pinnedPieces &&& OneShiftedBy move.src ≠ EmptyBitboard
    let isEnPassant := b.pieces move.src = PAWN ∧ b.enPassant = move.dst
    if isPinnedPiece ∨ isEnPassant then
      if isInCheck (doMove T b move) true then none else some (doMoveRecord T b move)
    else some move)

/-- Castling destinations added to the king's `dstMoves` (movegen.cpp 245-282). -/
def castleMoves (b : ChessBoard) (src : Nat) (dstMoves : Nat) : Nat :=
  let whiteToMove := b.sideToMove = Color.WHITE
  if src = (if whiteToMove then E1 else E8) then
    if whiteToMove then
      let d1 :=
        if b.castleRights &&& WHITE_OOO ≠ CASTLE_NONE then
          if b.allPieces &&& 0x0e00000000000000 = EmptyBitboard ∧ ¬ isSquareAttacked b D1 then
            dstMoves ||| OneShiftedBy C1
          else dstMoves
        else dstMoves
      if b.castleRights &&& WHITE_OO ≠ CASTLE_NONE then
        if b.allPieces &&& 0x6000000000000000 = EmptyBitboard ∧ ¬ isSquareAttacked b F1 then
          d1 ||| OneShiftedBy G1
        else d1
      else d1
    else
      let d1 :=
        if b.castleRights &&& BLACK_OOO ≠ CASTLE_NONE then
          if b.allPieces &&& 0x000000000000000e = EmptyBitboard ∧ ¬ isSquareAttacked b D8 then
            dstMoves ||| OneShiftedBy C8
          else dstMoves
        else dstMoves
      if b.castleRights &&& BLACK_OO ≠ CASTLE_NONE then
        if b.allPieces &&& 0x0000000000000060 = EmptyBitboard ∧ ¬ isSquareAttacked b F8 then
          d1 ||| OneShiftedBy G8
        else d1
      else d1
  else dstMoves

/-- Pawn destinations (movegen.cpp 229-242): pushes onto empty squares,
captures of enemy pieces, the double-push block test and the en-passant square. -/
def pawnDstMoves (b : ChessBoard) (src : Nat) : Nat :=
  let whiteToMove := b.sideToMove = Color.WHITE
  let otherPieces := if whiteToMove then b.blackPieces else b.whitePieces
  let pushes := (if whiteToMove then WhitePawnMoves src else BlackPawnMoves src) &&& bbNot b.allPieces
  let captures :=
    (if whiteToMove then WhitePawnCaptures src else BlackPawnCaptures src) &&& otherPieces ALL
  let d1 := pushes ||| captures
  let d2 :=
    if getRank src = (if whiteToMove then Rank_2 else Rank_7) then
      d1 &&& bbNot (if whiteToMove then (b.allPieces &&& 0x0000ff0000000000) >>> 8
                    else shl64 (b.allPieces &&& 0x0000000000ff0000) 8)
    else d1
  if b.enPassant ≠ NO_SQUARE then
    if (if whiteToMove then WhitePawnCaptures src else BlackPawnCaptures src)
        &&& OneShiftedBy b.enPassant ≠ EmptyBitboard then
      d2 ||| OneShiftedBy b.enPassant
    else d2
  else d2

/-- The candidate destinations of the piece on `src` before the inner loop
(movegen.cpp 224-292). -/
def dstMovesOf (b : ChessBoard) (src : Nat) : Nat :=
  let whiteToMove := b.sideToMove = Color.WHITE
  let piecesToMove := if whiteToMove then b.whitePieces ALL else b.blackPieces ALL
  let movingPiece := b.pieces src
  let d0 :=
    if movingPiece = PAWN then pawnDstMoves b src
    else if movingPiece = KING then castleMoves b src (PieceMoves movingPiece src)
    else PieceMoves movingPiece src
  let d1 := d0 &&& bbNot piecesToMove
  if b.pinnedPieces ≠ EmptyBitboard then
    if OneShiftedBy src &&& b.pinnedPieces ≠ EmptyBitboard then
      d1 &&& (b.inBetweenSquares ||| b.blockedPieces)
    else d1
  else d1

/-- One round of the inner loop of `generateAllMovesImplementation`
(movegen.cpp 294-348) on the pair `(moveCount, moveList)`. -/
def emitMove (b : ChessBoard) (countOnly : Bool) (src : Nat) (acc : Nat × MoveList)
    (dst : Nat) : Nat × MoveList :=
  let whiteToMove := b.sideToMove = Color.WHITE
  let movingPiece := b.pieces src
  if movingPiece = PAWN then
    if getRank dst = (if whiteToMove then Rank_8 else Rank_1) then
      if countOnly then (acc.1 + 4, acc.2) else (acc.1, pushPromotions acc.2 src dst)
    else
      if countOnly then (acc.1 + 1, acc.2) else (acc.1, pushMove acc.2 src dst NO_PIECE)
  else if movingPiece = KNIGHT then
    if countOnly then (acc.1 + 1, acc.2) else (acc.1, pushMove acc.2 src dst NO_PIECE)
  else if movingPiece = KING then
    if ¬ isSquareAttacked b dst then
      if countOnly then (acc.1 + 1, acc.2) else (acc.1, pushMove acc.2 src dst NO_PIECE)
    else acc
  else
    if InBetween src dst &&& b.allPieces = EmptyBitboard then
      if countOnly then (acc.1 + 1, acc.2) else (acc.1, pushMove acc.2 src dst NO_PIECE)
    else acc

/-- One round of the inner loops of `generateAttacksOnSquares` (movegen.cpp
392-406). -/
def emitAttack (b : ChessBoard) (piece : Nat) (dst : Nat) (moveList : MoveList)
    (src : Nat) : MoveList :=
  let whiteToMove := b.sideToMove = Color.WHITE
  let piecesToMove := if whiteToMove then b.whitePieces else b.blackPieces
  if piece = PAWN ∧ getRank dst = (if whiteToMove then Rank_8 else Rank_1) then
    pushPromotions moveList src dst
  else if OneShiftedBy src &&& piecesToMove ALL ≠ EmptyBitboard ∧ b.pieces src = piece
      ∧ InBetween src dst &&& b.allPieces = EmptyBitboard then
    pushMove moveList src dst NO_PIECE
  else moveList

/-- `ChessMoveGenerator::generateAttacksOnSquares` (movegen.cpp 365-411); the
piece loop runs over `PAWN .. ALL`. -/
def generateAttacksOnSquares (b : ChessBoard) (moveList : MoveList) (dstSquares : Nat)
    (excludeSrcSquares : Nat) : MoveList :=
  let whiteToMove := b.sideToMove = Color.WHITE
  let includeSrcSquares := bbNot excludeSrcSquares
  let piecesToMove := if whiteToMove then b.whitePieces else b.blackPieces
  (squaresOf dstSquares).foldl (fun moveList dst =>
    [PAWN, KNIGHT, BISHOP, ROOK, QUEEN, KING, ALL].foldl (fun moveList piece =>
      let srcSquares0 :=
        if piece = PAWN then
          (if whiteToMove then BlackPawnCaptures dst else WhitePawnCaptures dst)
            &&& piecesToMove PAWN
        else PieceMoves piece dst &&& piecesToMove piece
      let srcSquares := srcSquares0 &&& includeSrcSquares
      (squaresOf srcSquares).foldl (emitAttack b piece dst) moveList) moveList) moveList

/-- One round of the inner loops of `generateMovesToSquares` (movegen.cpp
559-574). -/
def emitMoveTo (b : ChessBoard) (piece : Nat) (dst : Nat) (moveList : MoveList)
    (src : Nat) : MoveList :=
  let whiteToMove := b.sideToMove = Color.WHITE
  let piecesToMove := if whiteToMove then b.whitePieces else b.blackPieces
  if OneShiftedBy src &&& piecesToMove ALL ≠ EmptyBitboard ∧ b.pieces src = piece
      ∧ InBetween src dst &&& b.allPieces = EmptyBitboard then
    if piece = PAWN ∧ getRank dst = (if whiteToMove then Rank_8 else Rank_1) then
      pushPromotions moveList src dst
    else pushMove moveList src dst NO_PIECE
  else moveList

/-- Pawn sources for a destination square in `generateMovesToSquares`
(movegen.cpp 519-551); `dst + dir` is `dst + 8` for White and `dst - 8` for
Black. -/
def pawnSourcesTo (b : ChessBoard) (dst : Nat) : Nat :=
  let whiteToMove := b.sideToMove = Color.WHITE
  let piecesToMove := if whiteToMove then b.whitePieces else b.blackPieces
  let otherPieces := if whiteToMove then b.blackPieces else b.whitePieces
  let pawnCaptures := if whiteToMove then BlackPawnCaptures dst else WhitePawnCaptures dst
  let srcSquares := (otherPieces ALL &&& OneShiftedBy dst) &&& (pawnCaptures &&& piecesToMove PAWN)
  if whiteToMove then
    if getRank dst = Rank_4 then srcSquares ||| (OneShiftedBy (dst + 8) ||| OneShiftedBy (dst + 16))
    else if getRank dst = Rank_1 then srcSquares
    else srcSquares ||| OneShiftedBy (dst + 8)
  else
    if getRank dst = Rank_5 then srcSquares ||| (OneShiftedBy (dst - 8) ||| OneShiftedBy (dst - 16))
    else if getRank dst = Rank_8 then srcSquares
    else srcSquares ||| OneShiftedBy (dst - 8)

/-- `ChessMoveGenerator::generateMovesToSquares` (movegen.cpp 498-579). -/
def generateMovesToSquares (b : ChessBoard) (moveList : MoveList) (dstSquares : Nat)
    (excludeSrcSquares : Nat) : MoveList :=
  let whiteToMove := b.sideToMove = Color.WHITE
  let includeSrcSquares := bbNot excludeSrcSquares
  let piecesToMove := if whiteToMove then b.whitePieces else b.blackPieces
  (squaresOf dstSquares).foldl (fun moveList dst =>
    pieceKinds.foldl (fun moveList piece =>
      let srcSquares0 :=
        if piece = PAWN then pawnSourcesTo b dst
        else PieceMoves piece dst &&& piecesToMove piece
      let srcSquares := srcSquares0 &&& includeSrcSquares
      (squaresOf srcSquares).foldl (emitMoveTo b piece dst) moveList) moveList) moveList

/-- The king moves of `generateCheckEvasions` (movegen.cpp 424-434). -/
def kingEvasions (b : ChessBoard) : MoveList :=
  let whiteToMove := b.sideToMove = Color.WHITE
  let kingPosition := if whiteToMove then b.whiteKingPosition else b.blackKingPosition
  let piecesToMove := if whiteToMove then b.whitePieces else b.blackPieces
  let dstMoves := PieceMoves KING kingPosition &&& bbNot (piecesToMove ALL)
  (squaresOf dstMoves).foldl (fun moveList dst =>
    if ¬ isSquareAttacked b dst then pushMove moveList kingPosition dst NO_PIECE
    else moveList) []

/-- The en-passant captures of a checking pawn in `generateCheckEvasions`
(movegen.cpp 454-471); `enPassant + dir` is `+ 8` for White, `- 8` for Black. -/
def enPassantEvasions (b : ChessBoard) (moveList : MoveList) : MoveList :=
  let whiteToMove := b.sideToMove = Color.WHITE
  let piecesToMove := if whiteToMove then b.whitePieces else b.blackPieces
  if b.enPassant ≠ NO_SQUARE then
    let victim := if whiteToMove then b.enPassant + 8 else b.enPassant - 8
    if OneShiftedBy victim &&& b.checkingPieces ≠ EmptyBitboard then
      let pawnCaptures :=
        if whiteToMove then BlackPawnCaptures b.enPassant else WhitePawnCaptures b.enPassant
      let srcPawns := pawnCaptures &&& piecesToMove PAWN &&& bbNot b.pinnedPieces
      (squaresOf srcPawns).foldl (fun moveList src => pushMove moveList src b.enPassant NO_PIECE)
        moveList
    else moveList
  else moveList

/-- `ChessMoveGenerator::generateCheckEvasions` (movegen.cpp 413-496).  When
`checkingPieces` is empty `BitScanForward64` leaves `checkingPosition`
unwritten; the model reads square 0 there. -/
def generateCheckEvasions (b : ChessBoard) : MoveList :=
  let whiteToMove := b.sideToMove = Color.WHITE
  let kingPosition := if whiteToMove then b.whiteKingPosition else b.blackKingPosition
  let moveList1 := kingEvasions b
  let checkingPieces := b.checkingPieces
  if popCount checkingPieces = 2 then moveList1
  else
    let checkingPosition := (BitScanForward64 checkingPieces).getD 0
    let moveList2 := enPassantEvasions b moveList1
    let ourKing := if whiteToMove then b.whitePieces KING else b.blackPieces KING
    if b.pieces checkingPosition ≤ KNIGHT
        ∨ PieceMoves KING kingPosition &&& checkingPieces ≠ EmptyBitboard then
      generateAttacksOnSquares b moveList2 checkingPieces (ourKing ||| b.pinnedPieces)
    else if b.inBetweenSquares = EmptyBitboard then moveList2
    else
      let moveList3 :=
        generateAttacksOnSquares b moveList2 checkingPieces (ourKing ||| b.pinnedPieces)
      let inBetweenSquares := InBetween kingPosition checkingPosition
      generateMovesToSquares b moveList3 inBetweenSquares (ourKing ||| b.pinnedPieces)

/-- `ChessMoveGenerator::generateAllMovesImplementation` (movegen.cpp 189-363):
the returned count together with the move list left behind.  `moveList` is
the caller's list on entry. -/
def generateAllMovesImplementation (T : Tables) (b : ChessBoard) (moveList : MoveList)
    (countOnly : Bool) : Nat × MoveList :=
  if isInCheck b then
    let evasions := generateCheckEvasions b
    (evasions.length, evasions)
  else
    let countOnly :=
      if countOnly then
        if b.pinnedPieces ≠ EmptyBitboard ∨ b.enPassant ≠ NO_SQUARE then false else countOnly
      else countOnly
    let moveList := if ¬ countOnly then [] else moveList
    let whiteToMove := b.sideToMove = Color.WHITE
    let piecesToMove := if whiteToMove then b.whitePieces ALL else b.blackPieces ALL
    let generated : Nat × MoveList :=
      (squaresOf piecesToMove).foldl (fun acc src =>
        (squaresOf (dstMovesOf b src)).foldl (emitMove b countOnly src) acc) (0, moveList)
    let moveList :=
      if ¬ countOnly ∧ shouldDoubleCheckGeneratedMoves b then
        doubleCheckGeneratedMoves T b generated.2
      else generated.2
    if countOnly then (generated.1, moveList) else (moveList.length, moveList)

/-- `generateAllMoves(board, moveList, countOnly)`: the number it returns. -/
def generateAllMovesCount (T : Tables) (b : ChessBoard) (moveList : MoveList)
    (countOnly : Bool) : Nat :=
  (generateAllMovesImplementation T b moveList countOnly).1

/-- `generateAllMoves(board, moveList)` with `countOnly = false`: the move
list it produces (the incoming list is cleared first). -/
def generateAllMoves (T : Tables) (b : ChessBoard) : MoveList :=
  (generateAllMovesImplementation T b [] false).2

/-! ## FEN input (board.cpp 652-732, square.cpp 59-70) -/

/-- Modelled from the spec: the `std::stringstream` the FEN is read from; the
C++ library is not part of the sources.  `rest` is the unread input, `eof` and
`fail` the stream's `eofbit` and `failbit`. -/
structure IStream where
  rest : List Char
  eof : Bool := false
  fail : Bool := false

def IStream.good (ss : IStream) : Bool := !ss.eof && !ss.fail

/-- The C library's `isspace`. -/
def isspace (c : Char) : Bool := c.toNat == 32 || (9 ≤ c.toNat && c.toNat ≤ 13)

/-- The C library's `isdigit`. -/
def isdigit (c : Char) : Bool := 48 ≤ c.toNat && c.toNat ≤ 57

/-- The C library's `isupper`. -/
def isupper (c : Char) : Bool := 65 ≤ c.toNat && c.toNat ≤ 90

/-- `ss >> token` for a `char` with `noskipws`: the stream, the token and
whether the extraction succeeded.  A failed extraction leaves the token. -/
def readChar (ss : IStream) (token : Char) : IStream × Char × Bool :=
  if ss.good then
    match ss.rest with
    | [] => ({ ss with eof := true, fail := true }, token, false)
    | c :: cs => ({ ss with rest := cs }, c, true)
  else ({ ss with fail := true }, token, false)

/-- `ss >> str` for a `std::string` with `noskipws`: the characters up to the
next white space; the string is emptied first and an empty result sets `fail`. -/
def readString (ss : IStream) (str : List Char) : IStream × List Char :=
  if ss.good then
    let word := ss.rest.takeWhile (fun c => !isspace c)
    let rest := ss.rest.dropWhile (fun c => !isspace c)
    ({ rest := rest, eof := rest.isEmpty, fail := word.isEmpty }, word)
  else ({ ss with fail := true }, str)

/-- Value of a string of decimal digits. -/
def digitsValue (ds : List Char) : Nat := ds.foldl (fun acc c => 10 * acc + (c.toNat - 48)) 0

/-- `ss >> std::skipws >> n` for an unsigned 64-bit `NodeCount`, read by the
C++ library like `strtoull`: leading white space is skipped, one sign `+` or
`-` is accepted, then the decimal digits are read.  Without a digit the value
becomes zero and `fail` is set; digits with a value above `2^64 - 1` give
`2^64 - 1` and set `fail`; after a `-` the value is negated modulo `2^64`.  A
stream that is not good, or that ends in the white space, leaves the value. -/
def readCount (ss : IStream) (old : Nat) : IStream × Nat :=
  if ss.good then
    let rest := ss.rest.dropWhile isspace
    if rest.isEmpty then ({ rest := rest, eof := true, fail := true }, old)
    else
      let negative : Bool := rest.head? == some '-'
      let signed : Bool := negative || rest.head? == some '+'
      let rest1 := if signed then rest.tail else rest
      let digits := rest1.takeWhile isdigit
      let rest2 := rest1.dropWhile isdigit
      if digits.isEmpty then ({ rest := rest1, eof := rest1.isEmpty, fail := true }, 0)
      else if digitsValue digits < 2 ^ 64 then
        ({ rest := rest2, eof := rest2.isEmpty, fail := false },
          if negative then (2 ^ 64 - digitsValue digits) % 2 ^ 64 else digitsValue digits)
      else ({ rest := rest2, eof := rest2.isEmpty, fail := true }, 2 ^ 64 - 1)
  else ({ ss with fail := true }, old)

/-- `PieceToChar` of board.cpp. -/
def PieceToChar : List Char := " PNBRQK  pnbrqk".toList

def FileToChar : List Char := "abcdefgh".toList

def RankToChar : List Char := "87654321".toList

/-- `std::string::find(char)`: the first index, or `none` for `npos`. -/
def findChar (l : List Char) (c : Char) : Option Nat :=
  if l.indexOf c < l.length then some (l.indexOf c) else none

/-- `StringToSquare` (square.cpp 59-70).  `c_str()[i]` past the end of the
string is the terminating `'\0'`.  A character that is not found gives `npos`,
which the enum conversion turns into `-1`; the resulting square `8 * rank + file`
is kept modulo `2 ^ 32` (the representation of the enum). -/
def StringToSquare (str : List Char) : Nat :=
  let c0 := str.getD 0 (Char.ofNat 0)
  let c1 := str.getD 1 (Char.ofNat 0)
  let file : Int := match findChar FileToChar c0 with
    | some i => i
    | none => -1
  let rank : Int := match findChar RankToChar c1 with
    | some i => i
    | none => -1
  ((8 * rank + file) % 2 ^ 32).toNat

/-- State of the piece-placement loop of `initFromFen`; `written` records the
mailbox indices stored to, in order. -/
structure FenPlacement where
  board : ChessBoard
  src : Nat
  token : Char
  ss : IStream
  written : List Nat

/-- The stores of the placement loop for a piece letter found at `index` of
`PieceToChar` (board.cpp 673-683). -/
def fenPlacePiece (b : ChessBoard) (src : Nat) (token : Char) (index : Nat) : ChessBoard :=
  let white := isupper token
  let piece : Nat := if white then index else index - 8
  let b1 := { b with pieces := setAt b.pieces src piece }
  if white then
    { b1 with whitePieces := setAt b1.whitePieces ALL (b1.whitePieces ALL ||| OneShiftedBy src) }
  else
    { b1 with blackPieces := setAt b1.blackPieces ALL (b1.blackPieces ALL ||| OneShiftedBy src) }

/-- The piece-placement loop `while ((ss >> token) && !isspace(token))`
(board.cpp 666-687) on a good stream holding the given characters. -/
def fenPlacement (b : ChessBoard) (src : Nat) (token : Char) (written : List Nat) :
    List Char → FenPlacement
  | [] => ⟨b, src, token, { rest := [], eof := true, fail := true }, written⟩
  | c :: cs =>
    if isspace c then ⟨b, src, c, { rest := cs }, written⟩
    else if isdigit c then fenPlacement b (src + (c.toNat - 48)) c written cs
    else if c = '/' then fenPlacement b src c written cs
    else
      match findChar PieceToChar c with
      | none => fenPlacement b src c written cs
      | some index => fenPlacement (fenPlacePiece b src c index) (src + 1) c (written ++ [src]) cs

/-- The castle-rights loop (board.cpp 695-710) on a good stream. -/
def fenCastle (castleRights : Nat) (token : Char) :
    List Char → Nat × Char × IStream
  | [] => (castleRights, token, { rest := [], eof := true, fail := true })
  | c :: cs =>
    if isspace c then (castleRights, c, { rest := cs })
    else if c = 'K' then fenCastle (castleRights ||| WHITE_OO) c cs
    else if c = 'Q' then fenCastle (castleRights ||| WHITE_OOO) c cs
    else if c = 'k' then fenCastle (castleRights ||| BLACK_OO) c cs
    else if c = 'q' then fenCastle (castleRights ||| BLACK_OOO) c cs
    else fenCastle castleRights c cs

/-- The board and stream of `initFromFen` after the en-passant field, before
the two counters are read (board.cpp 652-719).  The uninitialised `char token`
is modelled as `'\0'`. -/
def fenFields (fen : String) : FenPlacement :=
  let placed := fenPlacement clearEverything FIRST_SQUARE (Char.ofNat 0) [] fen.toList
  let (ss1, token1, _) := readChar placed.ss placed.token
  let sideToMove := if token1 = 'w' then Color.WHITE else Color.BLACK
  let (ss2, token2, _) := readChar ss1 token1
  let (castleRights, token3, ss3) :=
    if ss2.good then fenCastle CASTLE_NONE token2 ss2.rest
    else (CASTLE_NONE, token2, { ss2 with fail := true })
  let (ss4, enPassant) := readString ss3 []
  let enPassantSquare := if enPassant ≠ "-".toList then StringToSquare enPassant else NO_SQUARE
  { placed with
    ss := ss4
    token := token3
    board :=
      { placed.board with sideToMove := sideToMove, castleRights := castleRights,
                          enPassant := enPassantSquare } }

/-- The read of the two counters `ss >> std::skipws >> fiftyMoveCount >>
fullMoveCount` (board.cpp 721). -/
def fenCounters (fields : FenPlacement) : FenPlacement :=
  let r5 := readCount fields.ss fields.board.fiftyMoveCount
  let r6 := readCount r5.1 fields.board.fullMoveCount
  { fields with
    ss := r6.1
    board := { fields.board with fiftyMoveCount := r5.2, fullMoveCount := r6.2 } }

/-- The board of `initFromFen` after all fields are read (board.cpp 652-721),
before the bitboards, attack boards and scalars are derived. -/
def fenParse (fen : String) : FenPlacement := fenCounters (fenFields fen)

/-- The board of `initFromFen` after `buildBitboardsFromMailbox()` and
`buildAttackBoards()` (board.cpp 652-724). -/
def fenPosition (fen : String) : ChessBoard :=
  buildAttackBoards (buildBitboardsFromMailbox (fenParse fen).board)

/-- The last five assignments of `initFromFen` (board.cpp 726-731): the
evaluations and hashes are recomputed from the position. -/
def recomputeScalars (T : Tables) (b1 : ChessBoard) : ChessBoard :=
  let b2 := { b1 with materialEvaluation := calculateMaterialEvaluation T b1 }
  let b3 := { b2 with pstEvaluation := calculatePstEvaluation T b2 }
  let b4 := { b3 with hashValue := calculateHash T b3 }
  let b5 := { b4 with materialHashValue := calculateMaterialHash T b4 }
  { b5 with pawnHashValue := calculatePawnHash T b5 }

/-- `ChessBoard::initFromFen` (board.cpp 652-732). -/
def initFromFen (T : Tables) (fen : String) : ChessBoard :=
  recomputeScalars T (fenPosition fen)

/-- The mailbox indices `initFromFen` stores to while reading the placement
field, in order. -/
def fenWrittenSquares (fen : String) : List Nat := (fenParse fen).written

/-! ## The invariants of section 3 -/

/-- Invariant 1: `allPieces` is the disjoint union of the two `ALL` bitboards. -/
def Invariant1 (b : ChessBoard) : Prop :=
  b.allPieces = b.whitePieces ALL ||| b.blackPieces ALL
    ∧ b.whitePieces ALL &&& b.blackPieces ALL = EmptyBitboard

/-- The union of the bitboards `PAWN .. KING` of one colour. -/
def kindsUnion (a : Nat → Nat) : Nat :=
  a PAWN ||| a KNIGHT ||| a BISHOP ||| a ROOK ||| a QUEEN ||| a KING

/-- Invariant 2: each colour's `ALL` is the union of its `PAWN .. KING` bitboards. -/
def Invariant2 (b : ChessBoard) : Prop :=
  b.whitePieces ALL = kindsUnion b.whitePieces ∧ b.blackPieces ALL = kindsUnion b.blackPieces

/-- Invariant 3: `pieces[s] != NONE` iff bit `s` is set in `allPieces`. -/
def Invariant3 (b : ChessBoard) : Prop :=
  ∀ s < 64, (b.pieces s ≠ NO_PIECE ↔ b.allPieces.testBit s = true)

/-- Invariant 4: exactly one king per colour, on the recorded king square. -/
def Invariant4 (b : ChessBoard) : Prop :=
  b.whiteKingPosition < 64 ∧ b.whitePieces KING = OneShiftedBy b.whiteKingPosition
    ∧ b.blackKingPosition < 64 ∧ b.blackPieces KING = OneShiftedBy b.blackKingPosition

/-- Invariant 5: the incremental hashes and evaluations agree with recomputation. -/
def Invariant5 (T : Tables) (b : ChessBoard) : Prop :=
  b.hashValue = calculateHash T b ∧ b.materialHashValue = calculateMaterialHash T b
    ∧ b.pawnHashValue = calculatePawnHash T b
    ∧ b.materialEvaluation = calculateMaterialEvaluation T b
    ∧ b.pstEvaluation = calculatePstEvaluation T b

/-- Invariant 6: the attack cache is the one `buildAttackBoards` computes. -/
def Invariant6 (b : ChessBoard) : Prop :=
  b.checkingPieces = (attackBoardsOf b).checkingPieces
    ∧ b.blockedPieces = (attackBoardsOf b).blockedPieces
    ∧ b.pinnedPieces = (attackBoardsOf b).pinnedPieces
    ∧ b.inBetweenSquares = (attackBoardsOf b).inBetweenSquares

/-- The square of the pawn an en-passant capture onto `ep` removes: `ep + 8`
when White is to move, `ep - 8` when Black is. -/
def enPassantVictim (b : ChessBoard) : Nat :=
  if b.sideToMove = Color.WHITE then b.enPassant + 8 else b.enPassant - 8

/-- The pawns of the side to move that pseudo-attack the en-passant square. -/
def enPassantCapturers (b : ChessBoard) : Nat :=
  (if b.sideToMove = Color.WHITE then BlackPawnCaptures b.enPassant
   else WhitePawnCaptures b.enPassant) &&& b.piecesOf b.sideToMove PAWN

/-- Invariant 7: a stored en-passant square is empty, has the enemy pawn that
just passed it right behind, and is pseudo-attacked by a pawn of the side to
move. -/
def Invariant7 (b : ChessBoard) : Prop :=
  b.enPassant ≠ NO_SQUARE →
    b.enPassant < 64 ∧ 8 ≤ b.enPassant ∧ enPassantVictim b < 64
      ∧ b.pieces b.enPassant = NO_PIECE
      ∧ (b.piecesOf b.sideToMove.flip PAWN).testBit (enPassantVictim b) = true
      ∧ enPassantCapturers b ≠ EmptyBitboard

instance (b : ChessBoard) : Decidable (Invariant1 b) := by unfold Invariant1; infer_instance
instance (b : ChessBoard) : Decidable (Invariant2 b) := by unfold Invariant2; infer_instance
instance (b : ChessBoard) : Decidable (Invariant3 b) := by unfold Invariant3; infer_instance
instance (b : ChessBoard) : Decidable (Invariant4 b) := by unfold Invariant4; infer_instance
instance (T : Tables) (b : ChessBoard) : Decidable (Invariant5 T b) := by
  unfold Invariant5; infer_instance
instance (b : ChessBoard) : Decidable (Invariant6 b) := by unfold Invariant6; infer_instance
instance (b : ChessBoard) : Decidable (Invariant7 b) := by unfold Invariant7; infer_instance

/-- Tables filled with zeros, for evaluating the code on concrete positions
(move generation and the structural part of `doMove` never read them). -/
def zeroTables : Tables where
  PieceHashValues := fun _ _ _ => 0
  WhiteToMoveHash := 0
  CastleRightsHashValues := fun _ => 0
  EnPassantHashValues := fun _ => 0
  MaterialParameters := fun _ => ⟨0, 0⟩
  PstParameters := fun _ _ => ⟨0, 0⟩

/-- Tables with distinct entries, for evaluating the incremental hashes and
evaluations on concrete positions. -/
def sampleTables : Tables where
  PieceHashValues := fun c piece s =>
    (if c = Color.WHITE then 7 else 13) * (100003 * (piece + 1) + 917 * (s + 1))
  WhiteToMoveHash := 987654321
  CastleRightsHashValues := fun cr => 5000011 * (cr + 1)
  EnPassantHashValues := fun s => 31 * s + 17
  MaterialParameters := fun piece => ⟨100 * piece, 120 * piece + 7⟩
  PstParameters := fun piece s => ⟨(piece : Int) * s - 50, (s : Int) - 3 * piece⟩

/-! ## Well-formedness of boards and moves

Conditions under which `doMove` is applied in the engine, stated on the board
representation.  Invariants 1-4 of section 3 do not by themselves tie the
mailbox to the per-kind bitboards, nor the castle rights to the rooks; these
predicates do. -/

/-- Every piece bitboard (indices `PAWN .. ALL`) is a 64-bit value. -/
def Board64 (b : ChessBoard) : Prop :=
  ∀ k ≤ 7, 1 ≤ k → b.whitePieces k < 2 ^ 64 ∧ b.blackPieces k < 2 ^ 64

/-- On every square the mailbox names the kind of the per-kind bitboard that
holds the square. -/
def MailboxAgrees (b : ChessBoard) : Prop :=
  ∀ s < 64, ∀ k ≤ 6, 1 ≤ k →
    ((b.whitePieces k).testBit s = true → b.pieces s = k)
      ∧ ((b.blackPieces k).testBit s = true → b.pieces s = k)

/-- Every castle right still has its rook on the matching corner. -/
def CastleBacked (b : ChessBoard) : Prop :=
  (b.castleRights &&& WHITE_OO ≠ CASTLE_NONE → (b.whitePieces ROOK).testBit H1 = true)
    ∧ (b.castleRights &&& WHITE_OOO ≠ CASTLE_NONE → (b.whitePieces ROOK).testBit A1 = true)
    ∧ (b.castleRights &&& BLACK_OO ≠ CASTLE_NONE → (b.blackPieces ROOK).testBit H8 = true)
    ∧ (b.castleRights &&& BLACK_OOO ≠ CASTLE_NONE → (b.blackPieces ROOK).testBit A8 = true)

/-- The board seen from the side not to move (only `sideToMove` differs). -/
def ChessBoard.flipSide (b : ChessBoard) : ChessBoard :=
  { b with sideToMove := b.sideToMove.flip }

/-- The king of the side not to move is attacked by no piece of the side to
move (pawn, knight, king or unblocked slider): the position is one that can
arise after a legal move. -/
def OpponentSafe (b : ChessBoard) : Prop :=
  getAttackingPieces b.flipSide (b.kingPosition b.sideToMove.flip) false EmptyBitboard
    = EmptyBitboard

/-- The squares a pawn of the given colour on `s` can reach by a push or a
capture. -/
def pawnReach (c : Color) (s : Nat) : Nat :=
  match c with
  | .WHITE => WhitePawnMoves s ||| WhitePawnCaptures s
  | .BLACK => BlackPawnMoves s ||| BlackPawnCaptures s

/-- The rook squares `(from, to)` of the castling move of colour `c` whose king
goes from `src` to `dst`, if it is one. -/
def castleRook (c : Color) (src dst : Nat) : Option (Nat × Nat) :=
  match c with
  | .WHITE =>
    if src = E1 ∧ dst = G1 then some (H1, F1)
    else if src = E1 ∧ dst = C1 then some (A1, D1)
    else none
  | .BLACK =>
    if src = E8 ∧ dst = G8 then some (H8, F8)
    else if src = E8 ∧ dst = C8 then some (A8, D8)
    else none

/-- A move `doMove` can be applied to: a piece of the side to move goes to a
square not held by its own side and not by the enemy king; a pawn moves like a
pawn and promotes, if at all, to knight, bishop, rook or queen; a king that
makes a castling step has its rook in the corner and the rook's target square
free. -/
def Playable (b : ChessBoard) (m : ChessMove) : Prop :=
  m.src < 64 ∧ m.dst < 64
    ∧ (b.piecesOf b.sideToMove ALL).testBit m.src = true
    ∧ (b.piecesOf b.sideToMove ALL).testBit m.dst = false
    ∧ b.pieces m.dst ≠ KING
    ∧ (b.pieces m.src = PAWN →
        (pawnReach b.sideToMove m.src).testBit m.dst = true
          ∧ (m.promotionPiece = NO_PIECE
              ∨ (KNIGHT ≤ m.promotionPiece ∧ m.promotionPiece ≤ QUEEN)))
    ∧ (b.pieces m.src = KING →
        ∀ r ∈ castleRook b.sideToMove m.src m.dst,
          (b.piecesOf b.sideToMove ROOK).testBit r.1 = true ∧ b.pieces r.2 = NO_PIECE)

/-- The claim's "pawn double push": a pawn goes from its starting rank two
squares straight ahead. -/
def isDoublePush (b : ChessBoard) (m : ChessMove) : Prop :=
  b.pieces m.src = PAWN
    ∧ (if b.sideToMove = Color.WHITE then getRank m.src = Rank_2 ∧ m.src = m.dst + 16
       else getRank m.src = Rank_7 ∧ m.src + 16 = m.dst)

/-- The square a double-pushed pawn passes over. -/
def passThroughSquare (b : ChessBoard) (m : ChessMove) : Nat :=
  if b.sideToMove = Color.WHITE then m.src - 8 else m.src + 8

/-- An enemy pawn stands on a square horizontally adjacent to the destination
of the move. -/
def adjacentEnemyPawn (b : ChessBoard) (m : ChessMove) : Prop :=
  ∃ s < 64, getRank s = getRank m.dst ∧ (s + 1 = m.dst ∨ m.dst + 1 = s)
    ∧ (b.piecesOf b.sideToMove.flip PAWN).testBit s = true

/-- The squares from which a pawn of colour `c` pseudo-attacks `s`. -/
def pawnAttackersOf (c : Color) (s : Nat) : Nat :=
  match c with
  | .WHITE => BlackPawnCaptures s
  | .BLACK => WhitePawnCaptures s

instance (b : ChessBoard) : Decidable (Board64 b) := by unfold Board64; infer_instance
instance (b : ChessBoard) (m : ChessMove) : Decidable (isDoublePush b m) := by
  unfold isDoublePush; infer_instance
instance (b : ChessBoard) (m : ChessMove) : Decidable (adjacentEnemyPawn b m) := by
  unfold adjacentEnemyPawn; infer_instance
instance (b : ChessBoard) : Decidable (MailboxAgrees b) := by unfold MailboxAgrees; infer_instance
instance (b : ChessBoard) (m : ChessMove) : Decidable (Playable b m) := by
  unfold Playable; infer_instance
instance (b : ChessBoard) : Decidable (CastleBacked b) := by unfold CastleBacked; infer_instance
instance (b : ChessBoard) : Decidable (OpponentSafe b) := by unfold OpponentSafe; infer_instance

/-- The content of square `s` in the two bitboard arrays and the mailbox: the
arrays `own` and `other` hold exactly the kinds `a` and `c` there (`0` for
none) and the mailbox holds `m`. -/
def HasShape (own other : Nat → Nat) (pieces : Nat → Nat) (s : Nat)
    (a c m : Nat) : Prop :=
  (∀ j, 1 ≤ j → j ≤ 6 → ((own j).testBit s = true ↔ j = a))
    ∧ ((own ALL).testBit s = true ↔ a ≠ 0)
    ∧ (∀ j, 1 ≤ j → j ≤ 6 → ((other j).testBit s = true ↔ j = c))
    ∧ ((other ALL).testBit s = true ↔ c ≠ 0)
    ∧ pieces s = m

/-- The square `s` is consistent: empty, or held by one piece of one side, with
the mailbox naming its kind. -/
def SquareOK (own other : Nat → Nat) (pieces : Nat → Nat) (s : Nat) :
    Prop :=
  ∃ a c, a ≤ 6 ∧ c ≤ 6 ∧ (a = 0 ∨ c = 0) ∧ HasShape own other pieces s a c (a + c)

/-- Content of square `s` of a board, seen from colour `us`: see `HasShape`. -/
def HasShapeB (b : ChessBoard) (us : Color) (s a c m : Nat) : Prop :=
  HasShape (b.piecesOf us) (b.piecesOf us.flip) b.pieces s a c m

/-- The square `s` of a board seen from colour `us` holds the kind `a` of `us`
and the kind `c` of the other side (`0` for none): at most one of them, none
beyond square 63, the mailbox names the kind, and the recorded king squares
are where the kings are. -/
def SquareState (b : ChessBoard) (us : Color) (s a c : Nat) : Prop :=
  a ≤ 6 ∧ c ≤ 6 ∧ (a = 0 ∨ c = 0) ∧ (64 ≤ s → a = 0 ∧ c = 0)
    ∧ (s < 64 → b.pieces s = a + c)
    ∧ (a = KING ↔ s = b.kingPosition us) ∧ (c = KING ↔ s = b.kingPosition us.flip)
    ∧ HasShapeB b us s a c (b.pieces s)

/-- Every square of the board has a consistent content (`SquareState`). -/
def WellShaped (b : ChessBoard) (us : Color) : Prop :=
  ∀ s, ∃ a c, SquareState b us s a c

/-- The two stores `a[k] = (a[k] ^ bit(x)) | bit(y); a[ALL] = (a[ALL] ^ bit(x)) | bit(y)`
with which `doMove` takes a piece of kind `k` from `x` to `y`. -/
def relocateBits (a : Nat → Nat) (k x y : Nat) : Nat → Nat :=
  let a1 := setAt a k ((a k ^^^ OneShiftedBy x) ||| OneShiftedBy y)
  setAt a1 ALL ((a1 ALL ^^^ OneShiftedBy x) ||| OneShiftedBy y)

/-- The two stores `a[k] ^= bit(y); a[ALL] ^= bit(y)` that remove a captured piece. -/
def removeBits (a : Nat → Nat) (k y : Nat) : Nat → Nat :=
  let a1 := setAt a k (a k ^^^ OneShiftedBy y)
  setAt a1 ALL (a1 ALL ^^^ OneShiftedBy y)

/-- The two stores `a[p] |= bit(y); a[PAWN] ^= bit(y)` of a promotion. -/
def promoteBits (a : Nat → Nat) (p y : Nat) : Nat → Nat :=
  let a1 := setAt a p (a p ||| OneShiftedBy y)
  setAt a1 PAWN (a1 PAWN ^^^ OneShiftedBy y)


/-! ### The content of one square through the steps of `doMove`

The piece kind on a square `s` before a step determines the one after it; the
functions below give, step by step, the kind of the mover's side (`a`), of the
other side (`c`) and of the mailbox. -/

/-- After step 1: an en-passant capture puts the captured pawn on `dst`. -/
def shapeAfterEnPassant (b : ChessBoard) (mv : ChessMove) (s x : Nat) : Nat :=
  if mv.dst = b.enPassant ∧ b.pieces mv.src = PAWN then
    (if s = enPassantVictim b then 0 else if s = mv.dst then PAWN else x)
  else x

/-- After step 4: the moving piece leaves `src` and stands on `dst`. -/
def shapeAfterMove (b : ChessBoard) (mv : ChessMove) (s x : Nat) : Nat :=
  if s = mv.src then 0 else if s = mv.dst then b.pieces mv.src else x

/-- After step 5: a castling king takes its rook along. -/
def shapeAfterCastle (b : ChessBoard) (mv : ChessMove) (s x : Nat) : Nat :=
  match (if b.pieces mv.src = KING then castleRook b.sideToMove mv.src mv.dst else none) with
  | some r => if s = r.1 then 0 else if s = r.2 then ROOK else x
  | none => x

/-- After step 6: the captured piece is gone from `dst`. -/
def shapeAfterCapture (mv : ChessMove) (s x : Nat) : Nat :=
  if s = mv.dst then 0 else x

/-- After step 7: a promoting pawn has become the promotion piece. -/
def shapeAfterPromotion (b : ChessBoard) (mv : ChessMove) (s x : Nat) : Nat :=
  if b.pieces mv.src = PAWN ∧ mv.promotionPiece ≠ NO_PIECE ∧ s = mv.dst then mv.promotionPiece
  else x

/-! ### Recomputation colour by colour

The recomputing functions of board.cpp 163-279 add up one contribution per
colour; the functions below are these contributions, as functions of the
colour's bitboard array. -/

/-- The contribution of colour `c` to the piece part of `calculateHash`. -/
def pieceHashSide (T : Tables) (c : Color) (arr : Nat → Nat) : Nat :=
  pieceKinds.foldl (fun acc piece =>
    (squaresOf (arr piece)).foldl (fun acc src => acc ^^^ T.PieceHashValues c piece src) acc)
    EmptyHash

/-- The squares a pawn of colour `c` on `s` pseudo-attacks. -/
def pawnCapturesOf (c : Color) (s : Nat) : Nat :=
  match c with
  | .WHITE => WhitePawnCaptures s
  | .BLACK => BlackPawnCaptures s

/-- The piece on `src` pseudo-attacks `dst`: a pawn by its capture table, the
other kinds by `PieceMoves`, bishops, rooks and queens with no piece on the
squares in between. -/
def PseudoAttacks (b : ChessBoard) (src dst : Nat) : Prop :=
  if b.pieces src = PAWN then (pawnCapturesOf b.sideToMove src).testBit dst = true
  else (PieceMoves (b.pieces src) src).testBit dst = true
    ∧ (BISHOP ≤ b.pieces src ∧ b.pieces src ≤ QUEEN →
        InBetween src dst &&& b.allPieces = EmptyBitboard)

instance (b : ChessBoard) (src dst : Nat) : Decidable (PseudoAttacks b src dst) := by
  unfold PseudoAttacks; infer_instance

/-! ## Draw detection (searcher.cpp 67-102, movehistory.h, evaluator.cpp 68-99,
bitboard.h) -/

/-- Modelled from the spec: `TwoPlayerGameResult` (`game/types/`, not part of
the sources); the values `checkBoardGameResult` returns. -/
inductive TwoPlayerGameResult where
  | NO_GAMERESULT
  | LOSS
  | DRAW
  deriving DecidableEq, Repr

/-- `struct ChessMoveHistoryStruct` (movehistory.h 32-35). -/
structure ChessMoveHistoryStruct where
  hashValue : Nat
  capturedPiece : Nat
  movedPiece : Nat
  deriving DecidableEq, Repr

/-- The move history: the records in the order they were pushed. -/
abbrev ChessMoveHistory := List ChessMoveHistoryStruct

/-- `ChessMoveHistory::afterDuplicateHashCheckImplementation` (movehistory.h
41-52): the scan stops behind a record made by a pawn move or a capture. -/
def afterDuplicateHashCheckImplementation (_hashValue : Nat)
    (chessMoveHistoryStruct : ChessMoveHistoryStruct) : Bool :=
  if chessMoveHistoryStruct.movedPiece = PAWN then true
  else if chessMoveHistoryStruct.capturedPiece ≠ NO_PIECE then true
  else false

/-- `ChessMoveHistory::beforeDuplicateHashCheckImplementation` (movehistory.h
54-57). -/
def beforeDuplicateHashCheckImplementation (_hashValue : Nat)
    (_chessMoveHistoryStruct : ChessMoveHistoryStruct) : Bool :=
  false

/-- Modelled from the spec: the scan of `MoveHistory::checkForDuplicateHash`
(`game/search/movehistory.h`, not part of the sources) over the records from
the newest to the oldest.  Section 3: the history is "an append-only stack of
`{hash, movedPiece, capturedPiece}` records"; "earlier irreversible entries
stop the scan".  Each record is offered to the `before` hook, compared with the
hash, and offered to the `after` hook. -/
def duplicateHashScan (hashValue : Nat) : List ChessMoveHistoryStruct → Nat → Nat
  | [], count => count
  | e :: rest, count =>
    if beforeDuplicateHashCheckImplementation hashValue e then count
    else
      let count1 := if e.hashValue = hashValue then count + 1 else count
      if afterDuplicateHashCheckImplementation hashValue e then count1
      else duplicateHashScan hashValue rest count1

/-- Modelled from the spec: `MoveHistory::checkForDuplicateHash`, the number of
records with the given hash that the backward scan meets. -/
def checkForDuplicateHash (moveHistory : ChessMoveHistory) (hashValue : Nat) : Nat :=
  duplicateHashScan hashValue moveHistory.reverse 0

/-- Modelled from the spec: `ChessMoveHistory::getNextMoveHistoryEntry`
(movehistory.cpp is not part of the sources): the record of a move, taken from
the board the move led to. -/
def getNextMoveHistoryEntry (board : ChessBoard) (move : ChessMove) : ChessMoveHistoryStruct :=
  { hashValue := board.hashValue, capturedPiece := move.capturedPiece,
    movedPiece := move.movedPiece }

/-- Modelled from the spec: the `usermove` command of section 6, "apply the
move to the current board and push history". -/
def applyUserMove (T : Tables) (state : ChessBoard × ChessMoveHistory) (move : ChessMove) :
    ChessBoard × ChessMoveHistory :=
  (doMove T state.1 move,
    state.2 ++ [getNextMoveHistoryEntry (doMove T state.1 move) (doMoveRecord T state.1 move)])

/-- `DarkSquares` and `LightSquares` of bitboard.h. -/
def DarkSquares : Nat := 0xaaaaaaaaaaaaaaaa

def LightSquares : Nat := 0x5555555555555555

/-- The macro `DarkSquarePieces(x)`. -/
def DarkSquarePieces (x : Nat) : Nat := x &&& DarkSquares

/-- The macro `LightSquarePieces(x)`. -/
def LightSquarePieces (x : Nat) : Nat := x &&& LightSquares

/-- The macro `IsDarkSquare(x)` of bitboard.h: `(DarkSquarePieces(x) == EmptyBitboard)`. -/
def IsDarkSquare (x : Nat) : Bool := DarkSquarePieces x == EmptyBitboard

/-- The macro `SameColorAsPiece(x,b)` of bitboard.h. -/
def SameColorAsPiece (x b : Nat) : Nat :=
  if IsDarkSquare b then DarkSquarePieces x else LightSquarePieces x

/-- `ChessEvaluator::checkBoardForInsufficientMaterial` (evaluator.cpp 68-99). -/
def checkBoardForInsufficientMaterial (board : ChessBoard) : Bool :=
  let pieceCount := popCount board.allPieces
  if pieceCount = 2 then true
  else if pieceCount = 3 then
    decide ((board.whitePieces KNIGHT ||| board.whitePieces BISHOP ||| board.blackPieces KNIGHT
      ||| board.blackPieces BISHOP) ≠ EmptyBitboard)
  else if pieceCount = 4 then
    if popCount (board.whitePieces KNIGHT) = 2 then true
    else if popCount (board.blackPieces KNIGHT) = 2 then true
    else if popCountIsOne (board.whitePieces BISHOP) ∧ popCountIsOne (board.blackPieces BISHOP)
    then
      decide (SameColorAsPiece (board.whitePieces BISHOP) (board.blackPieces BISHOP)
        ≠ EmptyBitboard)
    else false
  else false

/-- `ChessSearcher::checkBoardGameResult` (searcher.cpp 67-102); the move list
handed to the generator is a fresh local. -/
def checkBoardGameResult (T : Tables) (board : ChessBoard) (moveHistory : ChessMoveHistory)
    (checkMoveCount : Bool) : TwoPlayerGameResult :=
  if checkMoveCount ∧ generateAllMovesCount T board [] true = 0 then
    if isInCheck board then TwoPlayerGameResult.LOSS else TwoPlayerGameResult.DRAW
  else if board.fiftyMoveCount ≥ 100 then TwoPlayerGameResult.DRAW
  else if checkForDuplicateHash moveHistory board.hashValue > 1 then TwoPlayerGameResult.DRAW
  else if checkBoardForInsufficientMaterial board then TwoPlayerGameResult.DRAW
  else TwoPlayerGameResult.NO_GAMERESULT

/-! ### Material of a position, for stating what the material test decides -/

/-- Number of pieces of one colour and kind. -/
def pieceCountOf (b : ChessBoard) (c : Color) (k : Nat) : Nat := popCount (b.piecesOf c k)

/-- The numbers of pawns, knights, bishops, rooks and queens, White's first. -/
def materialOf (b : ChessBoard) : List Nat :=
  [pieceCountOf b Color.WHITE PAWN, pieceCountOf b Color.WHITE KNIGHT,
   pieceCountOf b Color.WHITE BISHOP, pieceCountOf b Color.WHITE ROOK,
   pieceCountOf b Color.WHITE QUEEN, pieceCountOf b Color.BLACK PAWN,
   pieceCountOf b Color.BLACK KNIGHT, pieceCountOf b Color.BLACK BISHOP,
   pieceCountOf b Color.BLACK ROOK, pieceCountOf b Color.BLACK QUEEN]

/-- King and bishop against king and bishop. -/
def IsKBvKB (b : ChessBoard) : Prop := materialOf b = [0, 0, 1, 0, 0, 0, 0, 1, 0, 0]

/-- King against king. -/
def IsKvK (b : ChessBoard) : Prop := materialOf b = [0, 0, 0, 0, 0, 0, 0, 0, 0, 0]

/-- King and one knight or bishop against king. -/
def IsKMinorvK (b : ChessBoard) : Prop :=
  materialOf b = [0, 1, 0, 0, 0, 0, 0, 0, 0, 0] ∨ materialOf b = [0, 0, 1, 0, 0, 0, 0, 0, 0, 0]
    ∨ materialOf b = [0, 0, 0, 0, 0, 0, 1, 0, 0, 0]
    ∨ materialOf b = [0, 0, 0, 0, 0, 0, 0, 1, 0, 0]

/-- King and two knights against king. -/
def IsKNNvK (b : ChessBoard) : Prop :=
  materialOf b = [0, 2, 0, 0, 0, 0, 0, 0, 0, 0] ∨ materialOf b = [0, 0, 0, 0, 0, 0, 2, 0, 0, 0]

/-- Some pawn, rook or queen is on the board. -/
def HasPawnRookQueen (b : ChessBoard) : Prop :=
  0 < pieceCountOf b Color.WHITE PAWN + pieceCountOf b Color.WHITE ROOK
    + pieceCountOf b Color.WHITE QUEEN + pieceCountOf b Color.BLACK PAWN
    + pieceCountOf b Color.BLACK ROOK + pieceCountOf b Color.BLACK QUEEN

/-- The colour of a square: the parity of file plus rank. -/
def squareColor (s : Nat) : Nat := (getFile s + getRank s) % 2

instance (b : ChessBoard) : Decidable (IsKBvKB b) := by unfold IsKBvKB; infer_instance
instance (b : ChessBoard) : Decidable (IsKvK b) := by unfold IsKvK; infer_instance
instance (b : ChessBoard) : Decidable (IsKMinorvK b) := by unfold IsKMinorvK; infer_instance
instance (b : ChessBoard) : Decidable (IsKNNvK b) := by unfold IsKNNvK; infer_instance
instance (b : ChessBoard) : Decidable (HasPawnRookQueen b) := by
  unfold HasPawnRookQueen; infer_instance

/-! ## Move text (chesspv.cpp) -/

def FilePrint : List Char := "abcdefgh".toList

def PiecePrint : List Char := ".pnbrqk".toList

def RankPrint : List Char := "87654321".toList

/-- `ChessPrincipalVariation::printMoveToConsoleImplementation` (chesspv.cpp
37-56): the characters written to `std::cout`.  An index past the end of a
table string reads the terminating `'\0'`. -/
def printMoveToConsoleImplementation (move : ChessMove) : List Char :=
  let src := move.src
  let dst := move.dst
  let srcFile := getFile src
  let dstFile := getFile dst
  let srcRank := getRank src
  let dstRank := getRank dst
  let out := [FilePrint.getD srcFile (Char.ofNat 0), RankPrint.getD srcRank (Char.ofNat 0),
    FilePrint.getD dstFile (Char.ofNat 0), RankPrint.getD dstRank (Char.ofNat 0)]
  if move.promotionPiece ≠ NO_PIECE then out ++ [PiecePrint.getD move.promotionPiece (Char.ofNat 0)]
  else out

/-- `std::string::find(char)` converted to an enum: the index, `-1` for `npos`. -/
def findIndexInt (l : List Char) (c : Char) : Int :=
  match findChar l c with
  | some i => i
  | none => -1

/-- `operator * (File f, Rank r)` (square.h): `Square(int(f) + 8 * int(r))`, kept
modulo `2 ^ 32`. -/
def squareOfFileRank (file rank : Int) : Nat := ((file + 8 * rank) % 2 ^ 32).toNat

/-- `tolower` on the characters `A..Z`. -/
def tolower (c : Char) : Char := if isupper c then Char.ofNat (c.toNat + 32) else c

/-- `ChessPrincipalVariation::stringToMoveImplementation` (chesspv.cpp 58-88).
`c_str()[i]` past the end of the string is the terminating `'\0'`; the fields
`capturedPiece` and `movedPiece` of the move passed in are left as they are. -/
def stringToMoveImplementation (moveString : List Char) (move : ChessMove) : ChessMove :=
  let moveChars := fun i => moveString.getD i (Char.ofNat 0)
  let srcFile := findIndexInt FilePrint (moveChars 0)
  let srcRank := findIndexInt RankPrint (moveChars 1)
  let src := squareOfFileRank srcFile srcRank
  let isCapture := moveChars 2 = 'x'
  let dstFile := findIndexInt FilePrint (moveChars (if isCapture then 3 else 2))
  let dstRank := findIndexInt RankPrint (moveChars (if isCapture then 4 else 3))
  let dst := squareOfFileRank dstFile dstRank
  let promotion := moveChars (if isCapture then 5 else 4)
  let promotionPiece :=
    if promotion ≠ Char.ofNat 0 then
      ((findIndexInt PiecePrint (tolower promotion)) % 2 ^ 32).toNat
    else NO_PIECE
  { move with src := src, dst := dst, promotionPiece := promotionPiece,
              ordinal := NO_CHESS_MOVE_ORDINAL }

/-- The move text with an `x` put between the source and destination squares. -/
def insertCaptureMark (text : List Char) : List Char := text.take 2 ++ 'x' :: text.drop 2

/-! ## Null moves and sequences of calls (board.cpp 631-650) -/

/-- `ChessBoard::hasMadeNullMove` (board.cpp 647-650). -/
def hasMadeNullMove (b : ChessBoard) : Bool := b.nullMove

/-- One call on a board: `doMove(move)` or `doNullMove()`. -/
inductive BoardCall where
  | move (m : ChessMove)
  | null
  deriving DecidableEq

/-- The board after one call. -/
def applyCall (T : Tables) (b : ChessBoard) : BoardCall → ChessBoard
  | .move m => doMove T b m
  | .null => doNullMove T b

/-- The board after a sequence of calls, first call first. -/
def applyCalls (T : Tables) (b : ChessBoard) (calls : List BoardCall) : ChessBoard :=
  calls.foldl (applyCall T) b

/-! ## Static exchange evaluation (searcher.cpp 762-882) -/

/-- The macro `SeeMaterialValue(x)`. -/
def SeeMaterialValue (T : Tables) (x : Nat) : Int := (T.MaterialParameters x).mg

/-- Modelled from the spec: `ResetLowestSetBit` (`game/math/bitreset.h`, not
part of the sources), `b & (b - 1)`. -/
def ResetLowestSetBit (b : Nat) : Nat := b &&& (b - 1)

/-- The locals of `staticExchangeEvaluation` that its loop changes.
`piecesToMove` is the array of the colour `whiteToMove` names; `bestKnown` is
indexed by `whiteToMove`; the array `gain[32]` is a map from indices. -/
structure SeeState where
  validAttackers : Nat
  sideToMoveAttackers : Nat
  whiteToMove : Bool
  bestKnown : Bool → Nat
  gain : Nat → Int
  depth : Nat
  capturedPiece : Nat

/-- Step 7 of `staticExchangeEvaluation`: the first kind from `start` up to
`KING` of which the side to move has an attacker; `none` when `found` stays
false. -/
def seeLeastAttacker (piecesToMove : Nat → Nat) (sideToMoveAttackers : Nat) (start : Nat) :
    Option Nat :=
  (List.range 7).find? (fun k =>
    decide (start ≤ k) && decide (sideToMoveAttackers &&& piecesToMove k ≠ EmptyBitboard))

/-- One round of the `do .. while` loop of `staticExchangeEvaluation`
(searcher.cpp 824-872): the state after it, and whether the loop goes on. -/
def seeRound (T : Tables) (board : ChessBoard) (dst : Nat) (s : SeeState) : SeeState × Bool :=
  let piecesToMove := if s.whiteToMove then board.whitePieces else board.blackPieces
  match seeLeastAttacker piecesToMove s.sideToMoveAttackers (s.bestKnown s.whiteToMove) with
  | none => (s, false)
  | some currentPiece =>
    let bestKnown := fun w => if w = s.whiteToMove then currentPiece else s.bestKnown w
    let attackingPieces := piecesToMove currentPiece
    let attackSrc := (BitScanForward64 (s.sideToMoveAttackers &&& attackingPieces)).getD 0
    let validAttackers := ResetLowestSetBit s.validAttackers
    if InBetween attackSrc dst &&& board.allPieces = EmptyBitboard then
      let g := SeeMaterialValue T s.capturedPiece - s.gain (s.depth - 1)
      let gain := setAt s.gain s.depth g
      if s.capturedPiece = KING then
        ({ s with bestKnown := bestKnown, validAttackers := validAttackers, gain := gain }, false)
      else if -(s.gain (s.depth - 1)) < 0 ∧ g < 0 then
        ({ s with bestKnown := bestKnown, validAttackers := validAttackers, gain := gain }, false)
      else
        let whiteToMove := !s.whiteToMove
        let piecesToMove1 := if whiteToMove then board.whitePieces else board.blackPieces
        let sideToMoveAttackers := validAttackers &&& piecesToMove1 ALL
        ({ validAttackers := validAttackers, sideToMoveAttackers := sideToMoveAttackers,
           whiteToMove := whiteToMove, bestKnown := bestKnown, gain := gain,
           depth := s.depth + 1, capturedPiece := currentPiece },
         decide (sideToMoveAttackers ≠ EmptyBitboard))
    else
      let sideToMoveAttackers := validAttackers &&& piecesToMove ALL
      ({ s with bestKnown := bestKnown, validAttackers := validAttackers,
                sideToMoveAttackers := sideToMoveAttackers },
       decide (sideToMoveAttackers ≠ EmptyBitboard))

/-- The `do .. while` loop with a bound on the number of rounds. -/
def seeLoop (T : Tables) (board : ChessBoard) (dst : Nat) : Nat → SeeState → SeeState
  | 0, s => s
  | fuel + 1, s =>
    if (seeRound T board dst s).2 then seeLoop T board dst fuel (seeRound T board dst s).1
    else (seeRound T board dst s).1

/-- Step 11 (searcher.cpp 875-879): `while (depth--) gain[depth - 1] =
min(-gain[depth], gain[depth - 1])`.  The last round of the source, with
`depth = 0`, reads and writes `gain[-1]` and leaves `gain[0]` alone; it is left
out. -/
def seeUnwind : Nat → (Nat → Int) → (Nat → Int)
  | 0, gain => gain
  | depth + 1, gain =>
    if depth = 0 then gain
    else seeUnwind depth (setAt gain (depth - 1) (min (-(gain depth)) (gain (depth - 1))))

/-- Step 2 of `staticExchangeEvaluation` (searcher.cpp 783-789): the pieces of
both colours that pseudo-attack `dst`. -/
def seeValidAttackers (board : ChessBoard) (dst : Nat) : Nat :=
  let pawnAttackers := (WhitePawnCaptures dst &&& board.blackPieces PAWN)
    ||| (BlackPawnCaptures dst &&& board.whitePieces PAWN)
  [KNIGHT, BISHOP, ROOK, QUEEN, KING].foldl (fun acc piece =>
    acc ||| (PieceMoves piece dst &&& (board.whitePieces piece ||| board.blackPieces piece)))
    pawnAttackers

/-- Steps 3, 4 and 6 of `staticExchangeEvaluation` (searcher.cpp 795-817): the
locals on entry to the loop. -/
def seeStart (T : Tables) (board : ChessBoard) (src dst : Nat) : SeeState :=
  let validAttackers := seeValidAttackers board dst ^^^ (OneShiftedBy src ^^^ OneShiftedBy dst)
  let whiteToMove := !decide (board.sideToMove = Color.WHITE)
  let piecesToMove := if whiteToMove then board.whitePieces else board.blackPieces
  { validAttackers := validAttackers, sideToMoveAttackers := validAttackers &&& piecesToMove ALL,
    whiteToMove := whiteToMove, bestKnown := fun _ => PAWN,
    gain := setAt (fun _ => 0) 0 (SeeMaterialValue T (board.pieces dst)), depth := 1,
    capturedPiece := board.pieces src }

/-- `ChessSearcher::staticExchangeEvaluation` (searcher.cpp 764-882).  Every
round of the loop clears a bit of `validAttackers` and the loop goes on only
while `validAttackers` is not empty, so `validAttackers + 1` rounds are never
used up. -/
def staticExchangeEvaluation (T : Tables) (board : ChessBoard) (src dst : Nat) : Int :=
  let movingPiece := board.pieces src
  let capturedPiece := board.pieces dst
  if SeeMaterialValue T capturedPiece > SeeMaterialValue T movingPiece then
    SeeMaterialValue T capturedPiece - SeeMaterialValue T movingPiece
  else if seeValidAttackers board dst &&& board.allPieces = EmptyBitboard then 0
  else if (seeStart T board src dst).sideToMoveAttackers = EmptyBitboard then
    SeeMaterialValue T capturedPiece
  else
    let final := seeLoop T board dst ((seeStart T board src dst).validAttackers + 1)
      (seeStart T board src dst)
    seeUnwind final.depth final.gain 0

/-! ## Move ordering (movegen.cpp 622-677, move.h) -/

@[simp] def PV_MOVE : Int := -1000000
@[simp] def GOOD_CAPTURE_MOVE : Int := -2000000
@[simp] def EQUAL_CAPTURE_MOVE : Int := -3000000
@[simp] def KILLER1_MOVE : Int := -4000000
@[simp] def KILLER2_MOVE : Int := -5000000
@[simp] def BUTTERFLY_MOVE : Int := -6000000
@[simp] def BAD_CAPTURE_MOVE : Int := -7000000
@[simp] def UNSAFE_MOVE : Int := -8000000

/-- The part of the search stack `reorderMoves` reads. -/
structure SearchStack where
  principalVariation : List ChessMove
  killer1 : ChessMove
  killer2 : ChessMove

/-- The body of the loop of `ChessMoveGenerator::reorderMoves<nodeType>`
(movegen.cpp 635-676): the ordinal given to one move.  `pvNode` is
`nodeType == PV_NODETYPE`; `unsafeSquares` (computed from the table `bbFile`,
which is not part of the sources) and the butterfly table are taken as they
are. -/
def reorderOrdinal (T : Tables) (board : ChessBoard) (pvNode : Bool)
    (searchStack : SearchStack) (unsafeSquares : Nat) (butterflyTable : Nat → Nat → Nat)
    (move : ChessMove) : Int :=
  let src := move.src
  let dst := move.dst
  let movingPiece := board.pieces src
  let capturedPiece := board.pieces dst
  if pvNode ∧ searchStack.principalVariation.length > 0
      ∧ (searchStack.principalVariation.head?.map (fun m => m.same move)) = some true then
    PV_MOVE
  else if capturedPiece ≠ NO_PIECE then
    if (T.MaterialParameters capturedPiece).mg > (T.MaterialParameters movingPiece).mg then
      GOOD_CAPTURE_MOVE
    else if (T.MaterialParameters capturedPiece).mg = (T.MaterialParameters movingPiece).mg then
      EQUAL_CAPTURE_MOVE
    else BAD_CAPTURE_MOVE
  else if searchStack.killer1.same move then KILLER1_MOVE
  else if searchStack.killer2.same move then KILLER2_MOVE
  else if movingPiece ≠ PAWN ∧ unsafeSquares &&& OneShiftedBy src ≠ EmptyBitboard then
    UNSAFE_MOVE
  else BUTTERFLY_MOVE + (butterflyTable movingPiece dst : Int)

/-- Modelled from the spec: the values `WIN_SCORE` of `game/types/score.h` is
not part of the sources; the parameter `win` stands for it.  The material table
of parameters.cpp 31-39 with the scores of `chess/types/score.h`. -/
def defaultMaterialParameters (win : Int) (piece : Nat) : Evaluation :=
  if piece = PAWN then ⟨128, 128⟩
  else if piece = KNIGHT then ⟨416, 416⟩
  else if piece = BISHOP then ⟨416, 416⟩
  else if piece = ROOK then ⟨736, 736⟩
  else if piece = QUEEN then ⟨1344, 1344⟩
  else if piece = KING then ⟨win, win⟩
  else ⟨0, 0⟩

/-- Tables with the material values of parameters.cpp and zeros elsewhere. -/
def materialTables (win : Int) : Tables :=
  { zeroTables with MaterialParameters := defaultMaterialParameters win }

/-! ### Repetition, stated on the history -/

/-- The record was made by a move that can be taken back by later moves: not a
pawn move, not a capture. -/
def ChessMoveHistoryStruct.reversible (e : ChessMoveHistoryStruct) : Prop :=
  e.movedPiece ≠ PAWN ∧ e.capturedPiece = NO_PIECE

instance (e : ChessMoveHistoryStruct) : Decidable e.reversible := by
  unfold ChessMoveHistoryStruct.reversible; infer_instance

/-- The hash stands in two records of the history, and every record behind the
older of the two was made by a reversible move. -/
def RepeatedInHistory (moveHistory : ChessMoveHistory) (hashValue : Nat) : Prop :=
  ∃ older e1 between e2 newer, moveHistory = older ++ e1 :: (between ++ e2 :: newer)
    ∧ e1.hashValue = hashValue ∧ e2.hashValue = hashValue
    ∧ (∀ e ∈ between, e.reversible) ∧ e2.reversible ∧ (∀ e ∈ newer, e.reversible)

/-- A move without promotion, as `stringToMove` makes it from the text. -/
def plainMove (src dst : Nat) : ChessMove :=
  { ordinal := NO_CHESS_MOVE_ORDINAL, src := src, dst := dst, promotionPiece := NO_PIECE }

/-- The initial position. -/
def startingFen : String := "rnbqkbnr/pppppppp/8/8/8/8/PPPPPPPP/RNBQKBNR w KQkq - 0 1"

/-- Scenario 4 of section 8: `g1f3 g8f6 f3g1 f6g8 g1f3 g8f6 f3g1 f6g8`. -/
def repetitionLine : List ChessMove :=
  [plainMove 62 45, plainMove 6 21, plainMove 45 62, plainMove 21 6,
   plainMove 62 45, plainMove 6 21, plainMove 45 62, plainMove 21 6]

/-- Board and history after the moves of a line were played from a position. -/
def playLine (T : Tables) (fen : String) (line : List ChessMove) :
    ChessBoard × ChessMoveHistory :=
  line.foldl (applyUserMove T) (initFromFen T fen, [])

/-! ## Capture generation (movegen.cpp 94-187) -/

/-- The candidate destinations of the piece on `src` in `generateAllCaptures`
before the inner loop (movegen.cpp 117-141): the pawn capture squares with the
en-passant square added, or the `PieceMoves` row, then restricted to the
squares the other side holds, and for a pinned piece to `blockedPieces`. -/
def captureDstMoves (b : ChessBoard) (src : Nat) : Nat :=
  let whiteToMove := b.sideToMove = Color.WHITE
  let otherPieces := if whiteToMove then b.blackPieces else b.whitePieces
  let movingPiece := b.pieces src
  let d0 :=
    if movingPiece = PAWN then
      let dstMoves := if whiteToMove then WhitePawnCaptures src else BlackPawnCaptures src
      if b.enPassant ≠ NO_SQUARE then
        if (if whiteToMove then WhitePawnCaptures src else BlackPawnCaptures src)
            &&& OneShiftedBy b.enPassant ≠ EmptyBitboard then
          dstMoves ||| OneShiftedBy b.enPassant
        else dstMoves
      else dstMoves
    else PieceMoves movingPiece src
  let d1 := d0 &&& otherPieces ALL
  if OneShiftedBy src &&& b.pinnedPieces ≠ EmptyBitboard then d1 &&& b.blockedPieces else d1

/-- One round of the inner loop of `generateAllCaptures` (movegen.cpp 143-177). -/
def emitCapture (b : ChessBoard) (src : Nat) (moveList : MoveList) (dst : Nat) : MoveList :=
  let whiteToMove := b.sideToMove = Color.WHITE
  let movingPiece := b.pieces src
  if movingPiece = PAWN then
    if getRank dst = (if whiteToMove then Rank_8 else Rank_1) then pushPromotions moveList src dst
    else pushMove moveList src dst NO_PIECE
  else if movingPiece = KNIGHT then pushMove moveList src dst NO_PIECE
  else if movingPiece = KING then
    if ¬ isSquareAttacked b dst then pushMove moveList src dst NO_PIECE else moveList
  else
    if b.allPieces &&& InBetween src dst = EmptyBitboard then pushMove moveList src dst NO_PIECE
    else moveList

/-- `ChessMoveGenerator::generateAllCaptures` (movegen.cpp 94-187): the move
list it leaves behind (its return value is the length of that list). -/
def generateAllCaptures (T : Tables) (b : ChessBoard) : MoveList :=
  if isInCheck b then generateCheckEvasions b
  else
    let whiteToMove := b.sideToMove = Color.WHITE
    let piecesToMove := if whiteToMove then b.whitePieces else b.blackPieces
    let generated : MoveList :=
      (squaresOf (piecesToMove ALL)).foldl (fun moveList src =>
        (squaresOf (captureDstMoves b src)).foldl (emitCapture b src) moveList) []
    if shouldDoubleCheckGeneratedMoves b then doubleCheckGeneratedMoves T b generated
    else generated

/-! ## Perft (movegen.cpp 581-622) -/

/-- `ChessMoveGenerator::perft(board, maxDepth, currentDepth)` (movegen.cpp
581-622) with a bound on the nesting of calls: the node count together with
the scratch lists `PerftMoveList` it leaves behind, `none` when the bound is
used up.  Modelled from the spec: `Depth` (`game/types/depth.h`, not part of
the sources) is counted in plies, `Depth::ONE = 1`; `result` is a `NodeCount`,
an unsigned 64-bit integer, so `result++` and `result += nodeCount` are taken
modulo `2^64`.  The lines written to the
console are left out, as are the `movedPiece` and `capturedPiece` that
`doMove` writes into the entries of the scratch list (perft never reads them). -/
def perft (T : Tables) : Nat → ChessBoard → Nat → Nat → (Nat → MoveList) →
    Option (Nat × (Nat → MoveList))
  | 0, _, _, _, _ => none
  | fuel + 1, board, maxDepth, currentDepth, perftMoveList =>
    if currentDepth = maxDepth ∧ currentDepth > 1 then
      let r := generateAllMovesImplementation T board (perftMoveList currentDepth) true
      some (r.1, setAt perftMoveList currentDepth r.2)
    else
      let r := generateAllMovesImplementation T board (perftMoveList currentDepth) false
      r.2.foldl (fun acc move =>
        match acc with
        | none => none
        | some (result, lists) =>
          let nextBoard := doMoveImplementation false T board move
          if maxDepth = 1 then some ((result + 1) % 2 ^ 64, lists)
          else
            match perft T fuel nextBoard maxDepth (currentDepth + 1) lists with
            | none => none
            | some (nodeCount, lists1) => some ((result + nodeCount) % 2 ^ 64, lists1))
        (some (0, setAt perftMoveList currentDepth r.2))

/-- The board with the five incrementally kept scalars (the three hashes and
the two evaluations) set to zero: what is left is the part of the board that
move generation and the attack queries read. -/
def ChessBoard.withoutScalars (b : ChessBoard) : ChessBoard :=
  { b with hashValue := 0, materialHashValue := 0, pawnHashValue := 0,
           materialEvaluation := ⟨0, 0⟩, pstEvaluation := ⟨0, 0⟩ }

/-- The five scalars `doMove` keeps up to date when `performPreCalculations`
is set. -/
def scalarsOf (b : ChessBoard) : Nat × Nat × Nat × Evaluation × Evaluation :=
  (b.hashValue, b.materialHashValue, b.pawnHashValue, b.materialEvaluation, b.pstEvaluation)

/-! ## Attacks, stated on single squares -/

/-- The piece of the side not to move on `src`, if it is a pawn, knight,
bishop, rook or queen, attacks `dst`: a pawn by its capture squares, a knight
by its jumps, a bishop, rook or queen along its lines when every occupied
square strictly between `src` and `dst` belongs to `through`. -/
def EnemyPieceAttacks (b : ChessBoard) (through : Nat) (src dst : Nat) : Prop :=
  src < 64 ∧
    (((b.piecesOf b.sideToMove.flip PAWN).testBit src = true
        ∧ (pawnCapturesOf b.sideToMove.flip src).testBit dst = true)
    ∨ ((b.piecesOf b.sideToMove.flip KNIGHT).testBit src = true
        ∧ (PieceMoves KNIGHT src).testBit dst = true)
    ∨ (((b.piecesOf b.sideToMove.flip BISHOP).testBit src = true
          ∨ (b.piecesOf b.sideToMove.flip QUEEN).testBit src = true)
        ∧ (PieceMoves BISHOP src).testBit dst = true
        ∧ ∀ t, (InBetween src dst).testBit t = true → b.allPieces.testBit t = true →
            through.testBit t = true)
    ∨ (((b.piecesOf b.sideToMove.flip ROOK).testBit src = true
          ∨ (b.piecesOf b.sideToMove.flip QUEEN).testBit src = true)
        ∧ (PieceMoves ROOK src).testBit dst = true
        ∧ ∀ t, (InBetween src dst).testBit t = true → b.allPieces.testBit t = true →
            through.testBit t = true))

/-- The piece of the side not to move on `src` attacks `dst`, the king
included. -/
def EnemyAttacks (b : ChessBoard) (through : Nat) (src dst : Nat) : Prop :=
  EnemyPieceAttacks b through src dst
    ∨ (src < 64 ∧ (b.piecesOf b.sideToMove.flip KING).testBit src = true
        ∧ (PieceMoves KING src).testBit dst = true)

/-- A bishop, rook or queen of the side not to move stands on `src`, on a line
of its kind through the king square of the side to move. -/
def AlignedSlider (b : ChessBoard) (src : Nat) : Prop :=
  src < 64 ∧
    ((((b.piecesOf b.sideToMove.flip BISHOP).testBit src = true
          ∨ (b.piecesOf b.sideToMove.flip QUEEN).testBit src = true)
        ∧ (PieceMoves BISHOP src).testBit (b.kingPosition b.sideToMove) = true)
    ∨ (((b.piecesOf b.sideToMove.flip ROOK).testBit src = true
          ∨ (b.piecesOf b.sideToMove.flip QUEEN).testBit src = true)
        ∧ (PieceMoves ROOK src).testBit (b.kingPosition b.sideToMove) = true))

/-- The square `t` lies strictly between the king of the side to move and
`src`, and holds a piece. -/
def BlockerBetween (b : ChessBoard) (src t : Nat) : Prop :=
  (InBetween (b.kingPosition b.sideToMove) src).testBit t = true ∧ b.allPieces.testBit t = true

instance (b : ChessBoard) (src : Nat) : Decidable (AlignedSlider b src) := by
  unfold AlignedSlider; infer_instance

instance (b : ChessBoard) (src t : Nat) : Decidable (BlockerBetween b src t) := by
  unfold BlockerBetween; infer_instance

/-! ## Move ordering: the squares enemy pawns attack (movegen.cpp 631-636) -/

/-- Modelled from the spec: the table `bbFile` (filled in `chess/board/moves.cpp`,
not part of the sources), the squares of a file; file `_A` is `0`. -/
def bbFile (file : Nat) : Nat := 0x0101010101010101 <<< file

@[simp] def DOWN_LEFT : Int := 7
@[simp] def DOWN_RIGHT : Int := 9
@[simp] def UP_LEFT : Int := -9
@[simp] def UP_RIGHT : Int := -7

/-- `operator + (Bitboard b, Direction d)` of square.h: `b >> (-d)` for a
negative direction, the 64-bit `b << d` otherwise. -/
def shiftBy (b : Nat) (d : Int) : Nat :=
  if d < 0 then b >>> (-d).toNat else shl64 b d.toNat

/-- The local `unsafeSquares` of `reorderMoves` (movegen.cpp 631-636). -/
def unsafeSquaresOf (board : ChessBoard) : Nat :=
  let whiteToMove := board.sideToMove = Color.WHITE
  let otherPieces := if whiteToMove then board.blackPieces else board.whitePieces
  let left := if whiteToMove then DOWN_LEFT else UP_LEFT
  let right := if whiteToMove then DOWN_RIGHT else UP_RIGHT
  shiftBy (otherPieces PAWN &&& bbNot (bbFile 0)) left
    ||| shiftBy (otherPieces PAWN &&& bbNot (bbFile 7)) right

/-- The ordinal `reorderMoves<nodeType>` gives to one move of the list
(movegen.cpp 624-688). -/
def reorderMovesOrdinal (T : Tables) (board : ChessBoard) (pvNode : Bool)
    (searchStack : SearchStack) (butterflyTable : Nat → Nat → Nat) (move : ChessMove) : Int :=
  reorderOrdinal T board pvNode searchStack (unsafeSquaresOf board) butterflyTable move

/-- An enemy pawn stands on a square from which it attacks `s`. -/
def AttackedByEnemyPawn (board : ChessBoard) (s : Nat) : Prop :=
  ∃ p < 64, (board.piecesOf board.sideToMove.flip PAWN).testBit p = true
    ∧ (pawnCapturesOf board.sideToMove.flip p).testBit s = true

instance (board : ChessBoard) (s : Nat) : Decidable (AttackedByEnemyPawn board s) := by
  unfold AttackedByEnemyPawn; infer_instance

/-! ## Static exchange evaluation: the attacker a round selects -/

/-- Steps 7 and 8 of the loop of `staticExchangeEvaluation` (searcher.cpp
824-848): the locals `currentPiece` and `attackSrc`, kind and square of the
attacker the round selects; `none` when `found` stays false. -/
def seeSelected (board : ChessBoard) (s : SeeState) : Option (Nat × Nat) :=
  let piecesToMove := if s.whiteToMove then board.whitePieces else board.blackPieces
  match seeLeastAttacker piecesToMove s.sideToMoveAttackers (s.bestKnown s.whiteToMove) with
  | none => none
  | some currentPiece =>
    let attackingPieces := piecesToMove currentPiece
    some (currentPiece, (BitScanForward64 (s.sideToMoveAttackers &&& attackingPieces)).getD 0)

/-! ## Transposition table use in `search` (searcher.cpp 104-121, 476-502, 575-589) -/

/-- Modelled from the spec: `HashtableEntryType` (`game/search/hashtable.h`,
not part of the sources), the entry types of section 3. -/
inductive HashtableEntryType where
  | HASHENTRYTYPE_NONE
  | HASHENTRYTYPE_EXACT_VALUE
  | HASHENTRYTYPE_LOWER_BOUND
  | HASHENTRYTYPE_UPPER_BOUND
  deriving DecidableEq, Repr

/-- What `hashtable.search(hash, hashScore, currentDepth, hashDepthLeft,
custom)` answers: the entry type it returns and the two values it writes that
`search` reads. -/
structure HashtableAnswer where
  entryType : HashtableEntryType
  hashScore : Int
  hashDepthLeft : Int

/-- `ChessSearcher::checkHashtable<nodeType>` (searcher.cpp 104-121); `pvNode`
is `nodeType == PV_NODETYPE`, `answer` what `hashtable.search` answers. -/
def checkHashtable (pvNode : Bool) (answer : HashtableAnswer) (depthLeft : Int) :
    HashtableEntryType :=
  if ¬ pvNode then
    if answer.entryType ≠ HashtableEntryType.HASHENTRYTYPE_NONE
        ∧ answer.hashDepthLeft ≥ depthLeft then answer.entryType
    else HashtableEntryType.HASHENTRYTYPE_NONE
  else HashtableEntryType.HASHENTRYTYPE_NONE

/-- Step 6 of `ChessSearcher::search` (searcher.cpp 476-502): the score
`search` returns at this step, `none` when it goes on to step 7.
`enableSearchHashtable` is the constant of searcher.cpp 36 (its factor
`enableAllSearchFeatures` is not part of the sources). -/
def searchProbe (enableSearchHashtable : Bool) (pvNode : Bool) (answer : HashtableAnswer)
    (alpha : Int) (depthLeft : Int) : Option Int :=
  if enableSearchHashtable then
    match checkHashtable pvNode answer depthLeft with
    | HashtableEntryType.HASHENTRYTYPE_LOWER_BOUND =>
      if answer.hashScore ≥ alpha then some answer.hashScore else none
    | HashtableEntryType.HASHENTRYTYPE_UPPER_BOUND =>
      if answer.hashScore ≤ alpha then some answer.hashScore else none
    | _ => none
  else none

/-- The arguments of a call `hashtable.insert(hash, score, currentDepth,
depthLeft, entryType, custom)`. -/
structure HashtableInsert where
  hashValue : Nat
  score : Int
  currentDepth : Int
  depthLeft : Int
  entryType : HashtableEntryType
  custom : Nat
  deriving DecidableEq

/-- The local `hashtableEntryType` of step 11 of `ChessSearcher::search`
(searcher.cpp 577-584). -/
def storeEntryType (resultScore alpha beta : Int) : HashtableEntryType :=
  if resultScore ≥ beta then HashtableEntryType.HASHENTRYTYPE_LOWER_BOUND
  else if resultScore < alpha then HashtableEntryType.HASHENTRYTYPE_UPPER_BOUND
  else HashtableEntryType.HASHENTRYTYPE_NONE

/-- Step 11 of `ChessSearcher::search` (searcher.cpp 575-589): the call of
`hashtable.insert` it makes, `none` when it makes none. -/
def searchStore (enableSearchHashtable : Bool) (board : ChessBoard) (resultScore alpha beta : Int)
    (currentDepth depthLeft : Int) : Option HashtableInsert :=
  if enableSearchHashtable then
    if storeEntryType resultScore alpha beta ≠ HashtableEntryType.HASHENTRYTYPE_NONE then
      some { hashValue := board.hashValue, score := resultScore, currentDepth := currentDepth,
             depthLeft := depthLeft, entryType := storeEntryType resultScore alpha beta,
             custom := 0 }
    else none
  else none

/-! ## Square colours (square.cpp 26-57) -/

/-- `GetDarkSquares` of square.cpp; its constant `DarkSquares` has the value of
the one of bitboard.h. -/
def GetDarkSquares (squares : Nat) : Nat := squares &&& DarkSquares

/-- `GetLightSquares` of square.cpp. -/
def GetLightSquares (squares : Nat) : Nat := squares &&& LightSquares

/-- `IsDarkSquare(Square src)` of square.cpp (the function on squares, not the
macro of bitboard.h on bitboards). -/
def Square.IsDarkSquare (src : Nat) : Bool :=
  decide (DarkSquares &&& OneShiftedBy src ≠ EmptyBitboard)

/-- `IsLightSquare(Square src)` of square.cpp. -/
def Square.IsLightSquare (src : Nat) : Bool :=
  decide (LightSquares &&& OneShiftedBy src ≠ EmptyBitboard)

/-- `SquaresOppositeColorAs` of square.cpp. -/
def SquaresOppositeColorAs (squares : Nat) (src : Nat) : Nat :=
  if Square.IsDarkSquare src then GetLightSquares squares else GetDarkSquares squares

/-- `SquaresSameColorAs` of square.cpp. -/
def SquaresSameColorAs (squares : Nat) (src : Nat) : Nat :=
  if Square.IsDarkSquare src then GetDarkSquares squares else GetLightSquares squares

/-! ## The weak-king endgame function (endgame/function.h) -/

/-- Modelled from the spec: `DRAW_SCORE` of `game/types/score.h` (not part of
the sources); the draw handler "returns 0". -/
@[simp] def DRAW_SCORE : Int := 0

/-- Modelled from the spec: `ZERO_SCORE` of `game/types/score.h` (not part of
the sources). -/
@[simp] def ZERO_SCORE : Int := 0

/-- The table `GeneralMate[SQUARE_COUNT]` of function.h. -/
def GeneralMate (s : Nat) : Int :=
  ([5000, 4500, 4000, 3500, 3500, 4000, 4500, 5000,
    4500, 4000, 3500, 3000, 3000, 3500, 4000, 4500,
    4000, 3500, 3000, 2500, 2500, 3000, 3500, 4000,
    3500, 3000, 2500, 2000, 2000, 2500, 3000, 3500,
    3500, 3000, 2500, 2000, 2000, 2500, 3000, 3500,
    4000, 3500, 3000, 2500, 2500, 3000, 3500, 4000,
    4500, 4000, 3500, 3000, 3000, 3500, 4000, 4500,
    5000, 4500, 4000, 3500, 3500, 4000, 4500, 5000] : List Int).getD s 0

/-- The table `Proximity[11]` of function.h. -/
def Proximity (d : Nat) : Int :=
  ([0, 0, 90, 80, 70, 60, 50, 40, 30, 20, 10] : List Int).getD d 0

/-- `FileDistance` of square.h. -/
def FileDistance (s1 s2 : Nat) : Nat := Int.natAbs ((getFile s1 : Int) - (getFile s2 : Int))

/-- `RankDistance` of square.h. -/
def RankDistance (s1 s2 : Nat) : Nat := Int.natAbs ((getRank s1 : Int) - (getRank s2 : Int))

/-- `FindStrongSide` of function.h. -/
def FindStrongSide (board : ChessBoard) : Color :=
  let materialScore := board.materialEvaluation.eg
  if materialScore = DRAW_SCORE then board.sideToMove
  else if materialScore > DRAW_SCORE then Color.WHITE else Color.BLACK

/-- Step 3 of `weakKingEndgameFunction`: the local `kingDistance`,
`(std::int32_t) std::sqrt(file * file + rank * rank)` with the `int` products of
the file and rank differences of the two kings; the conversion to the integer
rounds the square root down. -/
def kingDistance (board : ChessBoard) : Nat :=
  let file : Int := (getFile board.whiteKingPosition : Int) - (getFile board.blackKingPosition : Int)
  let rank : Int := (getRank board.whiteKingPosition : Int) - (getRank board.blackKingPosition : Int)
  Nat.sqrt (file * file + rank * rank).toNat

/-- `weakKingEndgameFunction<baseScore>` of function.h: the value it stores in
`score` (it always returns `true`).  `baseScore` is the template argument, by
default `BASICALLY_WINNING_SCORE` of `game/types/score.h`, which is not part of
the sources. -/
def weakKingEndgameFunction (baseScore : Int) (board : ChessBoard) : Int :=
  let strongSide := FindStrongSide board
  let weakKingPosition :=
    if strongSide = Color.WHITE then board.blackKingPosition else board.whiteKingPosition
  let pst := if strongSide = Color.BLACK then -board.pstEvaluation.eg else board.pstEvaluation.eg
  let score := baseScore + GeneralMate weakKingPosition + Proximity (kingDistance board) + pst
  if board.sideToMove ≠ strongSide then -score else score

/-- The distance the specification names: the Chebyshev distance
`max(|file difference|, |rank difference|)` of the two kings. -/
def chebyshevKingDistance (board : ChessBoard) : Nat :=
  max (FileDistance board.whiteKingPosition board.blackKingPosition)
    (RankDistance board.whiteKingPosition board.blackKingPosition)

/-- The score of the specification's sentence on the weak-king endgame: the
formula of `weakKingEndgameFunction` with the Chebyshev distance as the index
of `Proximity`. -/
def weakKingEndgameSpec (baseScore : Int) (board : ChessBoard) : Int :=
  let strongSide := FindStrongSide board
  let weakKingPosition :=
    if strongSide = Color.WHITE then board.blackKingPosition else board.whiteKingPosition
  let pst := if strongSide = Color.BLACK then -board.pstEvaluation.eg else board.pstEvaluation.eg
  let score := baseScore + GeneralMate weakKingPosition
    + Proximity (chebyshevKingDistance board) + pst
  if board.sideToMove ≠ strongSide then -score else score

/-! ## The bishop term of the evaluator (evaluator.cpp 343-360) -/

/-- A read `GoodBishopPawns[i]` of the array `Evaluation GoodBishopPawns[8]`
(parameters.cpp 51): there is no element outside `0..7`. -/
def GoodBishopPawnsAt (GoodBishopPawns : Nat → Evaluation) (i : Nat) : Option Evaluation :=
  if i < 8 then some (GoodBishopPawns i) else none

/-- `ChessEvaluator::evaluateBishop` (evaluator.cpp 343-360); `none` when the
read of `GoodBishopPawns` is outside the array. -/
def evaluateBishop (GoodBishopPawns : Nat → Evaluation) (otherPieces : Nat → Nat) (src : Nat)
    (hasPiecePair : Bool) : Option Evaluation :=
  let result : Evaluation := ⟨ZERO_SCORE, ZERO_SCORE⟩
  if !hasPiecePair then
    let goodPawnCount := popCount (SquaresSameColorAs (otherPieces PAWN) src)
    let badPawnCount := popCount (SquaresOppositeColorAs (otherPieces PAWN) src)
    if goodPawnCount > badPawnCount then
      (GoodBishopPawnsAt GoodBishopPawns (goodPawnCount - badPawnCount)).map
        (fun e => result.add e)
    else if goodPawnCount < badPawnCount then
      (GoodBishopPawnsAt GoodBishopPawns (badPawnCount - goodPawnCount)).map
        (fun e => result.sub e)
    else some result
  else some result

/-! ## Move ordering on the list (movegen.cpp 624-724) -/

/-- `ChessMoveGenerator::reorderMoves<nodeType>` (movegen.cpp 624-688): the
loop writes `move.ordinal` of every move of the list, in place. -/
def reorderMoves (T : Tables) (board : ChessBoard) (pvNode : Bool) (searchStack : SearchStack)
    (butterflyTable : Nat → Nat → Nat) (moveList : MoveList) : MoveList :=
  moveList.map (fun move =>
    { move with ordinal := reorderMovesOrdinal T board pvNode searchStack butterflyTable move })

@[simp] def QUIESENCE_MOVE : Int := -1000000

/-- The body of the loop of `reorderQuiescenceMoves` (movegen.cpp 702-720): the
ordinal given to one move. -/
def reorderQuiescenceOrdinal (T : Tables) (board : ChessBoard) (move : ChessMove) : Int :=
  let src := move.src
  let dst := move.dst
  let movingPiece := board.pieces src
  let capturedPiece := board.pieces dst
  if movingPiece ≠ PAWN ∧ unsafeSquaresOf board &&& OneShiftedBy src ≠ EmptyBitboard then
    UNSAFE_MOVE
  else
    QUIESENCE_MOVE
      + (1024 * (T.MaterialParameters capturedPiece).mg - (T.MaterialParameters movingPiece).mg)

/-- The source's `operator >` on moves (move.h): by ordinal. -/
def ChessMove.greater (m1 m2 : ChessMove) : Bool := decide (m1.ordinal > m2.ordinal)

/-- Insertion of a move into a list sorted by `greater`: behind the moves that
are greater than it, in front of the others. -/
def stableInsert (m : ChessMove) : MoveList → MoveList
  | [] => [m]
  | x :: rest => if x.greater m then x :: stableInsert m rest else m :: x :: rest

/-- Modelled from the spec: `std::stable_sort(begin, end, greater<MoveType>)`
of the C++ library with the comparator of `game/math/sort.h` (not part of the
sources), "the engine sorts stably" under a "greater-is-better" comparator:
moves with the greater ordinal come first, moves with equal ordinals keep their
order. -/
def stableSortGreater (moveList : MoveList) : MoveList :=
  moveList.foldr stableInsert []

/-- `ChessMoveGenerator::reorderQuiescenceMoves<nodeType>` (movegen.cpp
690-724). -/
def reorderQuiescenceMoves (T : Tables) (board : ChessBoard) (moveList : MoveList) : MoveList :=
  stableSortGreater
    (moveList.map (fun move => { move with ordinal := reorderQuiescenceOrdinal T board move }))

/-- King and rook against king with the kings in opposite corners (a1, h8). -/
def cornerKingsBoard : ChessBoard :=
  initFromFen (materialTables 32000) "7k/8/8/8/8/8/8/KR6 w - - 0 1"

/-- Eight black pawns on the files a, c, e and g against a single bishop. -/
def eightPawnsBoard : ChessBoard :=
  fenPosition "4k3/p1p1p1p1/p1p1p1p1/8/8/8/8/2B1K3 w - - 0 1"

/-! ## Static exchange evaluation: passes of the loop and accesses to `gain` -/

/-- The number of passes the `do .. while` loop of `staticExchangeEvaluation`
makes from the state `s`, counted up to a bound. -/
def seePasses (T : Tables) (board : ChessBoard) (dst : Nat) : Nat → SeeState → Nat
  | 0, _ => 0
  | fuel + 1, s =>
    if (seeRound T board dst s).2 then 1 + seePasses T board dst fuel (seeRound T board dst s).1
    else 1

/-- The indices of `gain` one pass of the loop uses, in the order of the source
text (searcher.cpp 849-860): `gain[depth] = .. - gain[depth - 1]`, and, unless
the captured piece is the king, the test `-gain[depth - 1] < 0 && gain[depth] < 0`,
whose second operand is evaluated when the first holds. -/
def seeRoundGainIndices (board : ChessBoard) (dst : Nat) (s : SeeState) :
    List Int :=
  let piecesToMove := if s.whiteToMove then board.whitePieces else board.blackPieces
  match seeLeastAttacker piecesToMove s.sideToMoveAttackers (s.bestKnown s.whiteToMove) with
  | none => []
  | some currentPiece =>
    let attackingPieces := piecesToMove currentPiece
    let attackSrc := (BitScanForward64 (s.sideToMoveAttackers &&& attackingPieces)).getD 0
    if InBetween attackSrc dst &&& board.allPieces = EmptyBitboard then
      let first : List Int := [(s.depth : Int), (s.depth : Int) - 1]
      if s.capturedPiece = KING then first
      else if -(s.gain (s.depth - 1)) < 0 then
        first ++ [(s.depth : Int) - 1, (s.depth : Int)]
      else first ++ [(s.depth : Int) - 1]
    else []

/-- The indices of `gain` the `do .. while` loop uses from the state `s`. -/
def seeLoopGainIndices (T : Tables) (board : ChessBoard) (dst : Nat) :
    Nat → SeeState → List Int
  | 0, _ => []
  | fuel + 1, s =>
    seeRoundGainIndices board dst s
      ++ (if (seeRound T board dst s).2 then
            seeLoopGainIndices T board dst fuel (seeRound T board dst s).1
          else [])

/-- The indices of `gain` step 11 uses (searcher.cpp 875-879),
`while (depth--) { gain[depth - 1] = std::min(-gain[depth], gain[depth - 1]); }`:
the test passes for `depth + 1`, the body runs with `depth`. -/
def seeUnwindGainIndices : Nat → List Int
  | 0 => []
  | depth + 1 =>
    [(depth : Int) - 1, (depth : Int), (depth : Int) - 1] ++ seeUnwindGainIndices depth

/-- The indices at which `staticExchangeEvaluation` reads or writes its local
array `Score gain[32]`, in the order of the accesses (searcher.cpp 764-882). -/
def seeGainIndices (T : Tables) (board : ChessBoard) (src dst : Nat) : List Int :=
  let movingPiece := board.pieces src
  let capturedPiece := board.pieces dst
  if SeeMaterialValue T capturedPiece > SeeMaterialValue T movingPiece then []
  else if seeValidAttackers board dst &&& board.allPieces = EmptyBitboard then []
  else if (seeStart T board src dst).sideToMoveAttackers = EmptyBitboard then []
  else
    let fuel := (seeStart T board src dst).validAttackers + 1
    let final := seeLoop T board dst fuel (seeStart T board src dst)
    [(0 : Int)] ++ seeLoopGainIndices T board dst fuel (seeStart T board src dst)
      ++ seeUnwindGainIndices final.depth ++ [(0 : Int)]

/-! ## The pawn evaluator (pawnevaluator.cpp) -/

/-- `ChessPawnEvaluator::evaluatePawnChain` (pawnevaluator.cpp 123-177): the
value of `evaluation` after the call.  The two parameter tables of
parameters.cpp are set at run time and are arbitrary; `-Direction::UP_LEFT` is
`9` and `-Direction::UP_RIGHT` is `7`. -/
def evaluatePawnChain (PawnChainBackPstParameters PawnChainFrontPstParameters : Nat → Evaluation)
    (evaluation : Evaluation) (board : ChessBoard) : Evaluation :=
  let whitePawns := board.whitePieces PAWN
  let blackPawns := board.blackPieces PAWN
  let upLeft := (whitePawns &&& bbNot (bbFile 0)) >>> 9
  let upRight := (whitePawns &&& bbNot (bbFile 7)) >>> 7
  let whitePawnChains := (upLeft ||| upRight) &&& whitePawns
  let evaluation1 := (squaresOf whitePawnChains).foldl (fun ev dst =>
    let ev1 := ev.add (PawnChainFrontPstParameters dst)
    let backChainPawns := BlackPawnCaptures dst &&& whitePawns
    (squaresOf backChainPawns).foldl (fun e src => e.add (PawnChainBackPstParameters src)) ev1)
    evaluation
  let downLeft := shl64 (blackPawns &&& bbNot (bbFile 0)) 7
  let downRight := shl64 (blackPawns &&& bbNot (bbFile 7)) 9
  let blackPawnChains := (downLeft ||| downRight) &&& blackPawns
  (squaresOf blackPawnChains).foldl (fun ev dst0 =>
    let dst := FlipSqY dst0
    let ev1 := ev.sub (PawnChainFrontPstParameters dst)
    let backChainPawns := WhitePawnCaptures dst &&& blackPawns
    (squaresOf backChainPawns).foldl
      (fun e src => e.sub (PawnChainBackPstParameters (FlipSqY src))) ev1)
    evaluation1

/-- Modelled from the spec: `SwapBytes` of `game/math/byteswap.h` (not part of
the sources), the 64-bit value with its bytes in reverse order; on a bitboard
it mirrors the board top to bottom, square `s` going to `FlipSqY s`. -/
def SwapBytes (b : Nat) : Nat :=
  (squaresOf b).foldl (fun acc s => acc ||| OneShiftedBy (FlipSqY s)) 0

/-- The colour-mirrored position: every piece changes its colour and goes to the
square mirrored top to bottom, and the other side is to move. -/
def ChessBoard.mirror (b : ChessBoard) : ChessBoard :=
  { b with
    whitePieces := fun k => SwapBytes (b.blackPieces k)
    blackPieces := fun k => SwapBytes (b.whitePieces k)
    allPieces := SwapBytes b.allPieces
    pieces := fun s => if s < 64 then b.pieces (FlipSqY s) else b.pieces s
    sideToMove := b.sideToMove.flip
    whiteKingPosition := FlipSqY b.blackKingPosition
    blackKingPosition := FlipSqY b.whiteKingPosition
    materialEvaluation := b.materialEvaluation.smul (-1)
    pstEvaluation := b.pstEvaluation.smul (-1) }

/-- Black pawns on d7 and e6: the pawn on d7 protects the pawn on e6. -/
def blackChainBoard : ChessBoard := fenPosition "4k3/3p4/4p3/8/8/8/8/4K3 w - - 0 1"

/-- White pawns on d2 and e3: the position of `blackChainBoard` with the colours
exchanged. -/
def whiteChainBoard : ChessBoard := fenPosition "4k3/8/8/8/8/4P3/3P4/4K3 b - - 0 1"

/-! ## The evaluator (evaluator.cpp, pawnevaluator.cpp 53-121) -/

/-- The evaluation parameters of parameters.cpp that the two evaluators read.
Their values are set at run time from the engine's parameters and are
arbitrary here. -/
structure EvalParameters where
  PiecePairs : Nat → Evaluation
  AttackParameters : Nat → Nat → Evaluation
  MobilityParameters : Nat → Nat → Evaluation
  SafeMobilityParameters : Nat → Nat → Evaluation
  BetterMobilityParameters : Nat → Nat → Evaluation
  TropismParameters : Nat → Nat → Evaluation
  Distance : Nat → Nat → Nat
  BoardControlPstParameters : Nat → Evaluation
  KingControlPstParameters : Nat → Evaluation
  DoubledRooks : Evaluation
  EmptyFileQueen : Evaluation
  EmptyFileRook : Evaluation
  GoodBishopPawns : Nat → Evaluation
  QueenBehindPassedPawnPst : Nat → Evaluation
  RookBehindPassedPawnPst : Nat → Evaluation
  PawnChainBackPstParameters : Nat → Evaluation
  PawnChainFrontPstParameters : Nat → Evaluation
  PawnDoubledPstParameters : Nat → Evaluation
  PawnPassedPstParameters : Nat → Evaluation
  PawnTripledPstParameters : Nat → Evaluation

/-- Modelled from the spec: the table `PassedPawnCheck` (filled in
`chess/board/moves.cpp`, not part of the sources), "the opposing-pawn mask that
must be empty for a pawn on `sq` to be passed": the squares ahead of `sq`,
towards rank 8, on its file and on the neighbouring files. -/
def PassedPawnCheck (s : Nat) : Nat :=
  orUpTo 64 (fun t =>
    if getRank t < getRank s ∧ FileDistance s t ≤ 1 then OneShiftedBy t else 0)

/-- Modelled from the spec: the table `SquaresInFront` (filled in
`chess/board/moves.cpp`, not part of the sources), "the squares on the same
file ahead of `sq`", towards rank 8. -/
def SquaresInFront (s : Nat) : Nat :=
  orUpTo 64 (fun t =>
    if getRank t < getRank s ∧ getFile t = getFile s then OneShiftedBy t else 0)

/-- One pass of the pawn loop of `ChessPawnEvaluator::evaluateImplementation`
(pawnevaluator.cpp 73-108) for the pawn on `src`: the locals `evaluation` and
`passedPawns` after it. -/
def pawnEvaluatorStep (P : EvalParameters) (colorIsWhite : Bool) (colorPawns otherPawns : Nat)
    (acc : Evaluation × Nat) (src : Nat) : Evaluation × Nat :=
  let multiplier : Int := if colorIsWhite then 1 else -1
  let evaluatedSquare := if colorIsWhite then src else FlipSqY src
  let evaluatedColorPawns := if colorIsWhite then colorPawns else SwapBytes colorPawns
  let evaluatedOtherPawns := if colorIsWhite then otherPawns else SwapBytes otherPawns
  let passed := PassedPawnCheck evaluatedSquare &&& evaluatedOtherPawns = EmptyBitboard
  let passedPawns := if passed then acc.2 ||| OneShiftedBy src else acc.2
  let evaluation1 :=
    if passed then acc.1.add ((P.PawnPassedPstParameters evaluatedSquare).smul multiplier)
    else acc.1
  let pawnsInFrontOfSrc := SquaresInFront evaluatedSquare &&& evaluatedColorPawns
  let evaluation2 :=
    if pawnsInFrontOfSrc ≠ EmptyBitboard then
      if popCountIsOne pawnsInFrontOfSrc then
        evaluation1.add ((P.PawnDoubledPstParameters evaluatedSquare).smul multiplier)
      else evaluation1.add ((P.PawnTripledPstParameters evaluatedSquare).smul multiplier)
    else evaluation1
  (evaluation2, passedPawns)

/-- The phase blend `((mg * pieceCount) + (eg * (32 - pieceCount))) / 32` with
the division of C++, which rounds towards zero. -/
def blendByPhase (evaluation : Evaluation) (pieceCount : Nat) : Int :=
  Int.tdiv (evaluation.mg * (pieceCount : Int) + evaluation.eg * (32 - (pieceCount : Int))) 32

/-- `ChessPawnEvaluator::evaluateImplementation` (pawnevaluator.cpp 53-121):
the score returned and the member `passedPawns` after the call (`alpha` and
`beta` are not used). -/
def ChessPawnEvaluator.evaluateImplementation (P : EvalParameters) (board : ChessBoard) :
    Int × (Color → Nat) :=
  let evaluation0 := evaluatePawnChain P.PawnChainBackPstParameters
    P.PawnChainFrontPstParameters ⟨ZERO_SCORE, ZERO_SCORE⟩ board
  let whitePawns := board.whitePieces PAWN
  let blackPawns := board.blackPieces PAWN
  let white := (squaresOf whitePawns).foldl (pawnEvaluatorStep P true whitePawns blackPawns)
    (evaluation0, EmptyBitboard)
  let black := (squaresOf blackPawns).foldl (pawnEvaluatorStep P false blackPawns whitePawns)
    (white.1, EmptyBitboard)
  let result := blendByPhase black.1 (popCount board.allPieces)
  (if board.sideToMove = Color.WHITE then result else -result,
    fun color => match color with
      | .WHITE => white.2
      | .BLACK => black.2)

/-- The entries of the local `EvaluationTable` of the evaluator that are read
after they are written (`WhiteControl`, `BlackControl` and `SafeMobility` are
only written). -/
structure EvaluationTable where
  Attacks : Color → Nat → Nat
  Mobility : Color → Nat → Int

/-- `ChessEvaluator::evaluateMobility` (evaluator.cpp 297-334): the evaluation
returned and the table after the call.  `outDstSquares ^= dst` has a square on
its right-hand side: the bitboard is combined with the number of the square. -/
def evaluateMobility (P : EvalParameters) (evaluationTable : EvaluationTable)
    (allPieces dstSquares unsafeSquares : Nat) (movingSide : Color) (pieceType src : Nat) :
    Evaluation × EvaluationTable :=
  if pieceType = KNIGHT ∨ pieceType = BISHOP ∨ pieceType = ROOK ∨ pieceType = QUEEN then
    let outDstSquares :=
      if pieceType = KNIGHT then dstSquares
      else (squaresOf dstSquares).foldl (fun out dst =>
        if InBetween src dst &&& allPieces ≠ EmptyBitboard then out ^^^ dst else out) dstSquares
    let mobility := popCount outDstSquares
    let safeDstSquares := outDstSquares &&& bbNot unsafeSquares
    let safeMobility := popCount safeDstSquares
    ((P.MobilityParameters pieceType mobility).add (P.SafeMobilityParameters pieceType safeMobility),
      { Attacks := fun c k =>
          if c = movingSide ∧ k = pieceType then outDstSquares else evaluationTable.Attacks c k
        Mobility := fun c k =>
          if c = movingSide ∧ k = pieceType then (mobility : Int)
          else evaluationTable.Mobility c k })
  else (⟨ZERO_SCORE, ZERO_SCORE⟩, evaluationTable)

/-- `ChessEvaluator::evaluateAttacks` (evaluator.cpp 233-236). -/
def evaluateAttacks (P : EvalParameters) (srcPiece attackedPiece : Nat) : Evaluation :=
  P.AttackParameters srcPiece attackedPiece

/-- `ChessEvaluator::evaluateTropism` (evaluator.cpp 336-341). -/
def evaluateTropism (P : EvalParameters) (pieceType src otherKingPosition : Nat) : Evaluation :=
  let tropism := P.Distance (FileDistance otherKingPosition src) (RankDistance otherKingPosition src)
  P.TropismParameters pieceType tropism

/-- `ChessEvaluator::evaluateRook` (evaluator.cpp 362-396). -/
def evaluateRook (P : EvalParameters) (piecesToMove : Nat → Nat) (allPieces passedPawns src : Nat)
    (hasPiecePair : Bool) : Evaluation :=
  let result0 : Evaluation := ⟨ZERO_SCORE, ZERO_SCORE⟩
  let result1 :=
    if hasPiecePair then
      let otherRooks := piecesToMove ROOK &&& PieceMoves ROOK src
      (squaresOf otherRooks).foldl (fun result dst =>
        if InBetween src dst &&& allPieces ≠ EmptyBitboard then result.add P.DoubledRooks
        else result) result0
    else result0
  let file := getFile src
  let piecesInSameFile := allPieces &&& bbFile file
  if piecesInSameFile = OneShiftedBy src then result1.add P.EmptyFileRook
  else if piecesInSameFile &&& passedPawns ≠ EmptyBitboard then
    (squaresOf passedPawns).foldl (fun result pawn => result.add (P.RookBehindPassedPawnPst pawn))
      result1
  else result1

/-- `ChessEvaluator::evaluateQueen` (evaluator.cpp 398-419). -/
def evaluateQueen (P : EvalParameters) (allPieces passedPawns src : Nat) : Evaluation :=
  let result : Evaluation := ⟨ZERO_SCORE, ZERO_SCORE⟩
  let file := getFile src
  let piecesInSameFile := allPieces &&& bbFile file
  if piecesInSameFile = OneShiftedBy src then result.add P.EmptyFileQueen
  else if piecesInSameFile &&& passedPawns ≠ EmptyBitboard then
    (squaresOf passedPawns).foldl (fun r pawn => r.add (P.QueenBehindPassedPawnPst pawn)) result
  else result

/-- `ChessEvaluator::evaluateBoardControl` (evaluator.cpp 238-295); the stores
to `WhiteControl` and `BlackControl` are never read again. -/
def evaluateBoardControl (P : EvalParameters) (board : ChessBoard)
    (evaluationTable : EvaluationTable) : Evaluation :=
  let control := [PAWN, KNIGHT, BISHOP, ROOK, QUEEN].foldl (fun (wb : Nat × Nat) pieceType =>
    let allControl := wb.1 ||| wb.2
    let whiteAttacks0 := bbNot allControl &&& evaluationTable.Attacks Color.WHITE pieceType
    let blackAttacks0 := bbNot allControl &&& evaluationTable.Attacks Color.BLACK pieceType
    let commonAttacks := whiteAttacks0 &&& blackAttacks0
    let whiteAttacks := whiteAttacks0 &&& bbNot commonAttacks
    let blackAttacks := blackAttacks0 &&& bbNot commonAttacks
    (wb.1 ||| whiteAttacks, wb.2 ||| blackAttacks)) (EmptyBitboard, EmptyBitboard)
  let whiteControl := control.1
  let blackControl := control.2
  let whiteKingControl := whiteControl &&& PieceMoves KING board.blackKingPosition
  let blackKingControl := blackControl &&& PieceMoves KING board.whiteKingPosition
  let result0 : Evaluation := ⟨ZERO_SCORE, ZERO_SCORE⟩
  let result1 := (squaresOf whiteControl).foldl
    (fun r dst => r.add ((P.BoardControlPstParameters dst).smul 1)) result0
  let result2 := (squaresOf whiteKingControl).foldl
    (fun r dst => r.add ((P.KingControlPstParameters dst).smul 1)) result1
  let result3 := (squaresOf blackControl).foldl
    (fun r dst => r.add ((P.BoardControlPstParameters (FlipSqY dst)).smul (-1))) result2
  (squaresOf blackKingControl).foldl
    (fun r dst => r.add ((P.KingControlPstParameters (FlipSqY dst)).smul (-1))) result3

/-- `ChessEvaluator::lazyEvaluateImplementation` (evaluator.cpp 421-432). -/
def lazyEvaluateImplementation (board : ChessBoard) : Int :=
  let evaluation := board.materialEvaluation.add board.pstEvaluation
  let result := blendByPhase evaluation (popCount board.allPieces)
  if board.sideToMove = Color.WHITE then result else -result

@[simp] def PAWN_SCORE : Int := 128

/-- The body of the loop over the pieces `src` of one kind in step 4 of
`ChessEvaluator::evaluateImplementation` (evaluator.cpp 160-205).  `passedPawns`
is the answer of `pawnEvaluator.getPassedPawns(color)`; the result is `none`
when `evaluateBishop` reads outside its table. -/
def evaluatePieceStep (P : EvalParameters) (board : ChessBoard) (passedPawns : Color → Nat)
    (color : Color) (unsafeSquares : Nat) (pieceType : Nat) (hasPiecePair : Bool)
    (acc : Option (Evaluation × EvaluationTable)) (src : Nat) :
    Option (Evaluation × EvaluationTable) :=
  acc.bind (fun state =>
    let colorIsWhite := color = Color.WHITE
    let multiplier : Int := if colorIsWhite then 1 else -1
    let piecesToMove := if colorIsWhite then board.whitePieces else board.blackPieces
    let otherPieces := if colorIsWhite then board.blackPieces else board.whitePieces
    let dstSquares := PieceMoves pieceType src
    let otherKingPosition :=
      if color = Color.WHITE then board.blackKingPosition else board.whiteKingPosition
    let state1 : Evaluation × EvaluationTable :=
      if pieceType ≠ PAWN then
        let r := evaluateMobility P state.2 board.allPieces dstSquares unsafeSquares color
          pieceType src
        (state.1.add (r.1.smul multiplier), r.2)
      else state
    let dstSquares1 := dstSquares &&& otherPieces ALL
    let evaluation2 := (squaresOf dstSquares1).foldl (fun ev dst =>
      if InBetween src dst &&& board.allPieces = EmptyBitboard then
        ev.add ((evaluateAttacks P pieceType (board.pieces dst)).smul multiplier)
      else ev) state1.1
    if pieceType > PAWN then
      let evaluation3 :=
        evaluation2.add ((evaluateTropism P pieceType src otherKingPosition).smul multiplier)
      let passed := passedPawns color
      if pieceType = BISHOP then
        (evaluateBishop P.GoodBishopPawns otherPieces src hasPiecePair).map
          (fun e => (evaluation3.add (e.smul multiplier), state1.2))
      else if pieceType = ROOK then
        some (evaluation3.add
          ((evaluateRook P piecesToMove board.allPieces passed src hasPiecePair).smul multiplier),
          state1.2)
      else if pieceType = QUEEN then
        some (evaluation3.add ((evaluateQueen P board.allPieces passed src).smul multiplier),
          state1.2)
      else some (evaluation3, state1.2)
    else some (evaluation2, state1.2))

/-- The body of the loop over the kinds `PAWN .. QUEEN` in step 4 of
`ChessEvaluator::evaluateImplementation` (evaluator.cpp 151-206). -/
def evaluateKindStep (P : EvalParameters) (board : ChessBoard) (passedPawns : Color → Nat)
    (color : Color) (unsafeSquares : Nat) (acc : Option (Evaluation × EvaluationTable))
    (pieceType : Nat) : Option (Evaluation × EvaluationTable) :=
  acc.bind (fun state =>
    let colorIsWhite := color = Color.WHITE
    let multiplier : Int := if colorIsWhite then 1 else -1
    let piecesToMove := if colorIsWhite then board.whitePieces else board.blackPieces
    let srcPieces := piecesToMove pieceType
    let hasPiecePair := decide (pieceType ≠ PAWN ∧ popCount srcPieces > 1)
    let evaluation1 :=
      if hasPiecePair then state.1.add ((P.PiecePairs pieceType).smul multiplier) else state.1
    (squaresOf srcPieces).foldl
      (evaluatePieceStep P board passedPawns color unsafeSquares pieceType hasPiecePair)
      (some (evaluation1, state.2)))

/-- The body of the loop over the colours in step 4 of
`ChessEvaluator::evaluateImplementation` (evaluator.cpp 139-207). -/
def evaluateColorStep (P : EvalParameters) (board : ChessBoard) (passedPawns : Color → Nat)
    (acc : Option (Evaluation × EvaluationTable)) (color : Color) :
    Option (Evaluation × EvaluationTable) :=
  acc.bind (fun state =>
    let colorIsWhite := color = Color.WHITE
    let otherPieces := if colorIsWhite then board.blackPieces else board.whitePieces
    let left := if colorIsWhite then DOWN_LEFT else UP_LEFT
    let right := if colorIsWhite then DOWN_RIGHT else UP_RIGHT
    let unsafeSquares := shiftBy (otherPieces PAWN &&& bbNot (bbFile 0)) left
      ||| shiftBy (otherPieces PAWN &&& bbNot (bbFile 7)) right
    let table1 : EvaluationTable :=
      { state.2 with
        Attacks := fun c k =>
          if c = color.flip ∧ k = PAWN then unsafeSquares else state.2.Attacks c k }
    [PAWN, KNIGHT, BISHOP, ROOK, QUEEN].foldl
      (evaluateKindStep P board passedPawns color unsafeSquares) (some (state.1, table1)))

/-- Step 6 of `ChessEvaluator::evaluateImplementation` (evaluator.cpp 212-222):
the mobility difference of one kind. -/
def evaluateBetterMobility (P : EvalParameters) (evaluationTable : EvaluationTable)
    (evaluation : Evaluation) (pieceType : Nat) : Evaluation :=
  let betterMobility : Int :=
    evaluationTable.Mobility Color.WHITE pieceType - evaluationTable.Mobility Color.BLACK pieceType
  let multiplier : Int := if betterMobility < 0 then -1 else 1
  evaluation.add
    ((P.BetterMobilityParameters pieceType (multiplier * betterMobility).toNat).smul multiplier)

/-- `ChessEvaluator::evaluateImplementation` (evaluator.cpp 100-231): the score
returned and the member `pawnEvaluator.passedPawns` after the call, from the
member before the call; `none` when `evaluateBishop` reads outside its table.
Modelled from the spec: `endgame.probe` (the class `ChessEndgame` of
`chess/endgame/endgame.h` is not part of the sources) is any function that
answers a score or nothing; `baseScore` stands for `BASICALLY_WINNING_SCORE`;
the wrappers `lazyEvaluate` and `pawnEvaluator.evaluate` of
`game/eval/evaluator.h` (not part of the sources) call
`lazyEvaluateImplementation` and `evaluateImplementation`. -/
def ChessEvaluator.evaluateImplementation (P : EvalParameters)
    (endgameProbe : ChessBoard → Option Int) (baseScore : Int) (passedPawns : Color → Nat)
    (board : ChessBoard) (alpha beta : Int) : Option (Int × (Color → Nat)) :=
  let whiteToMove := board.sideToMove = Color.WHITE
  let pieceCount := popCount board.allPieces
  let continueEvaluation : Option (Int × (Color → Nat)) :=
    let lazyEvaluation := lazyEvaluateImplementation board
    let LazyThreshold : Int := 4 * PAWN_SCORE
    if lazyEvaluation + LazyThreshold < alpha ∨ lazyEvaluation - LazyThreshold ≥ beta then
      some (lazyEvaluation, passedPawns)
    else
      let evaluationTable : EvaluationTable := { Attacks := fun _ _ => 0, Mobility := fun _ _ => 0 }
      let evaluation := board.materialEvaluation.add board.pstEvaluation
      ([Color.WHITE, Color.BLACK].foldl (evaluateColorStep P board passedPawns)
        (some (evaluation, evaluationTable))).map (fun state =>
          let evaluation5 := state.1.add (evaluateBoardControl P board state.2)
          let evaluation6 := [KNIGHT, BISHOP, ROOK, QUEEN].foldl
            (evaluateBetterMobility P state.2) evaluation5
          let result := blendByPhase evaluation6 pieceCount
          let result7 := if whiteToMove then result else -result
          let pawns := ChessPawnEvaluator.evaluateImplementation P board
          (result7 + pawns.1, pawns.2))
  if pieceCount ≤ 5 then
    match endgameProbe board with
    | some endgameScore => some (endgameScore, passedPawns)
    | none => continueEvaluation
  else if popCount (board.whitePieces ALL) = 1 ∨ popCount (board.blackPieces ALL) = 1 then
    some (weakKingEndgameFunction baseScore board, passedPawns)
  else continueEvaluation

/-- Consecutive calls `evaluate(board, alpha, beta)` on one evaluator, whose
member `pawnEvaluator.passedPawns` is `passedPawns` before the first call: the
scores returned.  Modelled from the spec: the wrapper `evaluate` of
`game/eval/evaluator.h` (not part of the sources) calls
`evaluateImplementation`. -/
def evaluateCalls (P : EvalParameters) (endgameProbe : ChessBoard → Option Int)
    (baseScore : Int) (alpha beta : Int) : (Color → Nat) → List ChessBoard → Option (List Int)
  | _, [] => some []
  | passedPawns, board :: rest =>
    (ChessEvaluator.evaluateImplementation P endgameProbe baseScore passedPawns board alpha
      beta).bind (fun r => (evaluateCalls P endgameProbe baseScore alpha beta r.2 rest).map
        (fun scores => r.1 :: scores))

/-- Parameters that are zero except for the rook behind a passed pawn. -/
def rookPasserParameters : EvalParameters where
  PiecePairs := fun _ => ⟨0, 0⟩
  AttackParameters := fun _ _ => ⟨0, 0⟩
  MobilityParameters := fun _ _ => ⟨0, 0⟩
  SafeMobilityParameters := fun _ _ => ⟨0, 0⟩
  BetterMobilityParameters := fun _ _ => ⟨0, 0⟩
  TropismParameters := fun _ _ => ⟨0, 0⟩
  Distance := fun f r => max f r
  BoardControlPstParameters := fun _ => ⟨0, 0⟩
  KingControlPstParameters := fun _ => ⟨0, 0⟩
  DoubledRooks := ⟨0, 0⟩
  EmptyFileQueen := ⟨0, 0⟩
  EmptyFileRook := ⟨0, 0⟩
  GoodBishopPawns := fun _ => ⟨0, 0⟩
  QueenBehindPassedPawnPst := fun _ => ⟨0, 0⟩
  RookBehindPassedPawnPst := fun _ => ⟨32, 32⟩
  PawnChainBackPstParameters := fun _ => ⟨0, 0⟩
  PawnChainFrontPstParameters := fun _ => ⟨0, 0⟩
  PawnDoubledPstParameters := fun _ => ⟨0, 0⟩
  PawnPassedPstParameters := fun _ => ⟨0, 0⟩
  PawnTripledPstParameters := fun _ => ⟨0, 0⟩

/-- White rook a1 and pawn a4 with a black pawn on a7 in the way: the pawn on
a4 is not passed. -/
def blockedPasserBoard : ChessBoard :=
  initFromFen (materialTables 32000) "4k3/p5pp/8/8/P7/8/8/R3K3 w - - 0 1"

/-- White rook a1 and passed pawn a4. -/
def rookPasserBoard : ChessBoard :=
  initFromFen (materialTables 32000) "4k3/6pp/8/8/P7/8/8/R3K3 w - - 0 1"

/-! ## Castle rights and the pieces behind them -/

/-- Every castle right still has its king on the home square: E1 for a right of
White, E8 for a right of Black. -/
def CastleKingBacked (b : ChessBoard) : Prop :=
  (b.castleRights &&& WHITE_ALL ≠ CASTLE_NONE →
      b.whiteKingPosition = E1 ∧ (b.whitePieces KING).testBit E1 = true)
    ∧ (b.castleRights &&& BLACK_ALL ≠ CASTLE_NONE →
      b.blackKingPosition = E8 ∧ (b.blackPieces KING).testBit E8 = true)

instance (b : ChessBoard) : Decidable (CastleKingBacked b) := by
  unfold CastleKingBacked; infer_instance

/-! ## The recursion of the search (searcher.cpp 136-310 and 424-760)

Modelled from the spec: the types `Depth` and `NodeType`, the constants
`Depth::MAX`, `WIN_SCORE` and `enableAllSearchFeatures`, the test `IsMateScore`,
the clock, the transposition table, the principal variations and the wrapper
`evaluate` belong to files that are not part of the sources.  Depths are
integers with `Depth::ONE = 1`, "`MAX_PLY` (the source uses 64) plies"; what the
missing classes answer and what they do to the members of the searcher is
given by the functions of `SearcherOps`, which are arbitrary. -/

/-- The template argument `nodeType`. -/
inductive NodeType where
  | PV_NODETYPE
  | CUT_NODETYPE
  | ALL_NODETYPE
  deriving DecidableEq, Repr

/-- The members of `ChessSearcher` are a value of the type `σ`; the fields are
the constants of the missing headers and the calls that read or change the
members. -/
structure SearcherOps (σ : Type) where
  /-- The constant `enableAllSearchFeatures`. -/
  enableAllSearchFeatures : Bool
  /-- The constant `Depth::MAX`. -/
  DepthMAX : Int
  /-- The constant `WIN_SCORE`. -/
  WIN_SCORE : Int
  /-- The test `IsMateScore(score)`. -/
  IsMateScore : Int → Bool
  /-- The store `this->abortedSearch = true`. -/
  setAbortedSearch : σ → σ
  /-- The call `this->clock.shouldContinueSearch(Depth::ZERO, this->getNodeCount())`. -/
  shouldContinueSearch : σ → Bool
  /-- The statement `this->nodeCount++`. -/
  incrementNodeCount : σ → σ
  /-- The member `this->moveHistory`. -/
  moveHistory : σ → ChessMoveHistory
  /-- The call `this->addMoveToHistory(nextBoard, move)`. -/
  addMoveToHistory : σ → ChessBoard → ChessMove → σ
  /-- The call `this->removeLastMoveFromHistory()`. -/
  removeLastMoveFromHistory : σ → σ
  /-- The principal variation and the killers of `this->searchStack[currentDepth]`. -/
  searchStack : σ → Int → SearchStack
  /-- The answers of `this->butterflyTable.get(piece, dst)`. -/
  butterflyTable : σ → Nat → Nat → Nat
  /-- The call `searchStack[currentDepth].principalVariation.clear()`. -/
  clearPrincipalVariation : σ → Int → σ
  /-- The call `this->hashtable.search(board.hashValue, .., currentDepth, .., ..)`. -/
  hashtableSearch : σ → Nat → Int → HashtableAnswer
  /-- The call `this->hashtable.insert(..)`. -/
  hashtableInsert : σ → HashtableInsert → σ
  /-- The call `this->evaluator.evaluate(board, alpha, beta)`: the score and the
  members after it. -/
  evaluate : σ → ChessBoard → Int → Int → Int × σ
  /-- The store `searchStack[currentDepth].staticEvaluation = ..`. -/
  setStaticEvaluation : σ → Int → Int → σ
  /-- The value `Depth::ONE * reduction` of the late-move reduction (searcher.cpp
  661-667), a floating-point expression in `currentDepth`, `depthLeft`,
  `searchedMoves` and the parameters `LateMoveReductions`. -/
  lateMoveReduction : σ → Int → Int → Nat → Int
  /-- The store `searchStack.bestMove = move`. -/
  setBestMove : σ → Int → ChessMove → σ
  /-- The statements of a fail high (searcher.cpp 731-745):
  `butterflyTable.add(movingPiece, dst, 1)`, the killer moves when the move is
  quiet (the flag), and the clearing of the principal variation. -/
  failHigh : σ → Int → Nat → ChessMove → Bool → σ
  /-- The statements after `alpha = nextScore` (searcher.cpp 750-751):
  `copyBackward` and `searchStack.pvMove = move`. -/
  raiseAlpha : σ → Int → ChessMove → σ

/-- The type of `quiescenceSearch<nodeType>(board, alpha, beta, currentDepth,
maxDepth)` as a function of the members: the score returned and the members
after the call, `none` when the call does not return. -/
abbrev QuiescenceFn (σ : Type) :=
  NodeType → ChessBoard → Int → Int → Int → Int → σ → Option (Int × σ)

/-- The type of `search<nodeType>(board, alpha, beta, maxDepth, currentDepth)`. -/
abbrev SearchFn (σ : Type) :=
  NodeType → ChessBoard → Int → Int → Int → Int → σ → Option (Int × σ)

/-- The type of `searchLoop<nodeType>(board, alpha, beta, maxDepth,
currentDepth)`; the list is the content of `searchStack[currentDepth].moveList`
on entry and on return. -/
abbrev SearchLoopFn (σ : Type) :=
  NodeType → ChessBoard → Int → Int → Int → Int → MoveList → σ → Option (Int × MoveList × σ)

/-- The body of a `for` loop over a move list that can leave the loop: `step`
answers the state after the pass and whether the loop goes on. -/
def forMoves {S : Type} (step : S → ChessMove → Option (S × Bool)) : MoveList → S → Option S
  | [], s => some s
  | move :: rest, s =>
    (step s move).bind (fun r => if r.2 then forMoves step rest r.1 else some r.1)

/-- The locals of the move loop of `quiescenceSearch`. -/
structure QuiescenceLoop (σ : Type) where
  bestScore : Int
  alpha : Int
  movesSearched : Nat
  members : σ

/-- Step 11 of `quiescenceSearch` (searcher.cpp 247-267): the recursive calls
for one move; `rec` is `quiescenceSearch` itself. -/
def quiescenceRecurse {σ : Type} (rec : QuiescenceFn σ) (nodeType : NodeType)
    (nextBoard : ChessBoard) (alpha beta currentDepth maxDepth : Int) (movesSearched : Nat)
    (members : σ) : Option (Int × σ) :=
  match nodeType with
  | .PV_NODETYPE =>
    if movesSearched = 0 then
      (rec .PV_NODETYPE nextBoard (-beta) (-alpha) (currentDepth + 1) maxDepth members).bind
        (fun r => some (-r.1, r.2))
    else
      (rec .CUT_NODETYPE nextBoard (-(alpha + 1)) (-alpha) (currentDepth + 1) maxDepth
        members).bind (fun r =>
          if -r.1 > alpha ∧ -r.1 < beta then
            (rec .PV_NODETYPE nextBoard (-beta) (-alpha) (currentDepth + 1) maxDepth r.2).bind
              (fun r2 => some (-r2.1, r2.2))
          else some (-r.1, r.2))
  | .CUT_NODETYPE =>
    (rec .ALL_NODETYPE nextBoard (-(alpha + 1)) (-alpha) (currentDepth + 1) maxDepth
      members).bind (fun r => some (-r.1, r.2))
  | .ALL_NODETYPE =>
    (rec .CUT_NODETYPE nextBoard (-(alpha + 1)) (-alpha) (currentDepth + 1) maxDepth
      members).bind (fun r => some (-r.1, r.2))

/-- One pass of the move loop of `quiescenceSearch` (searcher.cpp 219-287). -/
def quiescenceMove {σ : Type} (ops : SearcherOps σ) (T : Tables) (rec : QuiescenceFn σ)
    (nodeType : NodeType) (board : ChessBoard) (beta currentDepth maxDepth : Int)
    (isInCheck : Bool) (staticScore : Int) (loop : QuiescenceLoop σ) (move : ChessMove) :
    Option (QuiescenceLoop σ × Bool) :=
  let capturedPiece := board.pieces move.dst
  if ops.enableAllSearchFeatures ∧ isInCheck = false
      ∧ staticScore + (T.MaterialParameters capturedPiece).mg + 2 * PAWN_SCORE < loop.alpha then
    some (loop, true)
  else if ops.enableAllSearchFeatures ∧ isInCheck = false
      ∧ staticExchangeEvaluation T board move.src move.dst < 1 * PAWN_SCORE then
    some (loop, true)
  else
    (quiescenceRecurse rec nodeType (doMove T board move) loop.alpha beta currentDepth maxDepth
      loop.movesSearched loop.members).bind (fun r =>
        let nextScore := r.1
        let bestScore := if nextScore > loop.bestScore then nextScore else loop.bestScore
        if nextScore > loop.alpha then
          if nextScore ≥ beta then
            some ({ loop with bestScore := bestScore, members := r.2 }, false)
          else
            some ({ bestScore := bestScore, alpha := nextScore,
                    movesSearched := loop.movesSearched + 1, members := r.2 }, true)
        else
          some ({ loop with bestScore := bestScore, movesSearched := loop.movesSearched + 1,
                            members := r.2 }, true))

/-- The body of `ChessSearcher::quiescenceSearch<nodeType>` (searcher.cpp
136-310) with `rec` for its recursive calls.  `enableQuiscenceSearchHashtable`
is `false`, so the steps 3 and 14 do nothing. -/
def quiescenceSearchBody {σ : Type} (ops : SearcherOps σ) (T : Tables) (rec : QuiescenceFn σ) :
    QuiescenceFn σ :=
  fun nodeType board alpha beta currentDepth maxDepth members =>
    if currentDepth ≥ ops.DepthMAX - 1 then some (alpha, ops.setAbortedSearch members)
    else
      let members1 := ops.incrementNodeCount members
      let inCheck := isInCheck board
      let static : Int × σ :=
        if inCheck then (-ops.WIN_SCORE + currentDepth, members1)
        else ops.evaluate members1 board alpha beta
      let staticScore := static.1
      if inCheck = false ∧ staticScore > alpha ∧ staticScore ≥ beta then
        some (staticScore, static.2)
      else
        let alpha1 := if inCheck = false ∧ staticScore > alpha then staticScore else alpha
        let generated := generateAllCaptures T board
        if generated.length = 0 then
          some (if inCheck then -ops.WIN_SCORE + currentDepth else staticScore, static.2)
        else
          let moveList :=
            if inCheck then
              reorderMoves T board (decide (nodeType = NodeType.PV_NODETYPE))
                (ops.searchStack static.2 currentDepth) (ops.butterflyTable static.2) generated
            else reorderQuiescenceMoves T board generated
          (forMoves
            (quiescenceMove ops T rec nodeType board beta currentDepth maxDepth inCheck staticScore)
            moveList
            { bestScore := staticScore, alpha := alpha1, movesSearched := 0,
              members := static.2 }).bind (fun loop => some (loop.bestScore, loop.members))

/-- The function `quiescenceSearch` with a bound on the depth of the nesting of
its calls. -/
def quiescenceSearch {σ : Type} (ops : SearcherOps σ) (T : Tables) : Nat → QuiescenceFn σ
  | 0 => fun _ _ _ _ _ _ _ => none
  | fuel + 1 => quiescenceSearchBody ops T (quiescenceSearch ops T fuel)

/-- The locals of the move loop of `searchLoop`: the moves already gone through
(with the ordinals the loop has written), the counters, the best score, `alpha`
and the members; `returned` is the score of the `return` inside the loop. -/
structure SearchLoopState (σ : Type) where
  visited : MoveList
  searchedMoves : Nat
  quietMoves : Nat
  bestScore : Int
  alpha : Int
  members : σ
  returned : Option Int

/-- Step 6 of `searchLoop` (searcher.cpp 683-710): the recursive calls for one
move; `search` is the function `search` itself. -/
def searchRecurse {σ : Type} (search : SearchFn σ) (nodeType : NodeType) (nextBoard : ChessBoard)
    (alpha beta maxDepth currentDepth extensions : Int) (searchedMoves : Nat) (members : σ) :
    Option (Int × σ) :=
  match nodeType with
  | .PV_NODETYPE =>
    if searchedMoves = 0 then
      (search .PV_NODETYPE nextBoard (-beta) (-alpha) (maxDepth + extensions) (currentDepth + 1)
        members).bind (fun r => some (-r.1, r.2))
    else
      (search .CUT_NODETYPE nextBoard (-(alpha + 1)) (-alpha) (maxDepth + extensions)
        (currentDepth + 1) members).bind (fun r =>
          if -r.1 > alpha ∧ -r.1 < beta then
            (search .PV_NODETYPE nextBoard (-beta) (-alpha) (maxDepth + extensions)
              (currentDepth + 1) r.2).bind (fun r2 => some (-r2.1, r2.2))
          else some (-r.1, r.2))
  | .CUT_NODETYPE =>
    (search .ALL_NODETYPE nextBoard (-(alpha + 1)) (-alpha) (maxDepth + extensions)
      (currentDepth + 1) members).bind (fun r =>
        if -r.1 > alpha ∧ extensions < 0 then
          (search .ALL_NODETYPE nextBoard (-(alpha + 1)) (-alpha) maxDepth (currentDepth + 1)
            r.2).bind (fun r2 => some (-r2.1, r2.2))
        else some (-r.1, r.2))
  | .ALL_NODETYPE =>
    (search .CUT_NODETYPE nextBoard (-(alpha + 1)) (-alpha) (maxDepth + extensions)
      (currentDepth + 1) members).bind (fun r =>
        if -r.1 > alpha ∧ extensions < 0 then
          (search .CUT_NODETYPE nextBoard (-(alpha + 1)) (-alpha) maxDepth (currentDepth + 1)
            r.2).bind (fun r2 => some (-r2.1, r2.2))
        else some (-r.1, r.2))

/-- One pass of the move loop of `searchLoop` (searcher.cpp 644-759). -/
def searchLoopMove {σ : Type} (ops : SearcherOps σ) (T : Tables) (search : SearchFn σ)
    (nodeType : NodeType) (board : ChessBoard) (beta maxDepth currentDepth : Int)
    (positionExtensions : Int) (loop : SearchLoopState σ) (move : ChessMove) :
    Option (SearchLoopState σ × Bool) :=
  let depthLeft := maxDepth - currentDepth
  let src := move.src
  let dst := move.dst
  let movingPiece := board.pieces src
  let capturedPiece := board.pieces dst
  let promotionPiece := move.promotionPiece
  let extensions : Int :=
    if ops.enableAllSearchFeatures ∧ nodeType ≠ NodeType.PV_NODETYPE ∧ positionExtensions = 0
        ∧ loop.searchedMoves > 0 then
      let reduced :=
        positionExtensions - ops.lateMoveReduction loop.members currentDepth depthLeft
          loop.searchedMoves
      if staticExchangeEvaluation T board src dst < 1 * PAWN_SCORE then reduced - 1 else reduced
    else positionExtensions
  let nextBoard := doMove T board move
  let members1 := ops.addMoveToHistory loop.members nextBoard move
  (searchRecurse search nodeType nextBoard loop.alpha beta maxDepth currentDepth extensions
    loop.searchedMoves members1).bind (fun r =>
      let nextScore := r.1
      let members2 := ops.removeLastMoveFromHistory r.2
      let move1 : ChessMove := { doMoveRecord T board move with ordinal := nextScore }
      let better := decide (nextScore > loop.bestScore)
      let members3 := if better then ops.setBestMove members2 currentDepth move1 else members2
      let bestScore := if better then nextScore else loop.bestScore
      let quiet := decide (capturedPiece = NO_PIECE ∧ promotionPiece = NO_PIECE)
      if nextScore > loop.alpha then
        if nextScore ≥ beta then
          some ({ loop with visited := loop.visited ++ [move1], bestScore := bestScore,
                            members := ops.failHigh members3 currentDepth movingPiece move1 quiet,
                            returned := some nextScore }, false)
        else
          some ({ visited := loop.visited ++ [move1],
                  searchedMoves := loop.searchedMoves + 1,
                  quietMoves := if quiet then loop.quietMoves + 1 else loop.quietMoves,
                  bestScore := bestScore, alpha := nextScore,
                  members := ops.raiseAlpha members3 currentDepth move1,
                  returned := none }, true)
      else
        some ({ visited := loop.visited ++ [move1],
                searchedMoves := loop.searchedMoves + 1,
                quietMoves := if quiet then loop.quietMoves + 1 else loop.quietMoves,
                bestScore := bestScore, alpha := loop.alpha, members := members3,
                returned := none }, true))

/-- The body of `ChessSearcher::searchLoop<nodeType>` (searcher.cpp 594-760)
with `search` and `searchLoop` for the calls of the two functions.  Next to the
locals the loop carries the moves behind the current one, which keep their
place in the list when the loop returns. -/
def searchLoopBody {σ : Type} (ops : SearcherOps σ) (T : Tables) (search : SearchFn σ)
    (searchLoop : SearchLoopFn σ) : SearchLoopFn σ :=
  fun nodeType board alpha beta maxDepth currentDepth moveList members =>
    let depthLeft := maxDepth - currentDepth
    let ordered : Option (MoveList × σ) :=
      if ops.enableAllSearchFeatures ∧ depthLeft > 3 then
        (searchLoop nodeType board alpha beta (maxDepth - 3) currentDepth moveList members).bind
          (fun r => some (stableSortGreater r.2.1, r.2.2))
      else
        some (reorderMoves T board (decide (nodeType = NodeType.PV_NODETYPE))
          (ops.searchStack members currentDepth) (ops.butterflyTable members) moveList, members)
    ordered.bind (fun o =>
      let positionExtensions : Int :=
        if ops.enableAllSearchFeatures ∧ currentDepth ≥ 2 ∧ isInCheck board then 1 else 0
      (forMoves
        (fun (loop : SearchLoopState σ × MoveList) move =>
          (searchLoopMove ops T search nodeType board beta maxDepth currentDepth
            positionExtensions loop.1 move).bind
            (fun r => some ((r.1, if r.2 then loop.2.tail else loop.2), r.2)))
        o.1
        ({ visited := [], searchedMoves := 0, quietMoves := 0, bestScore := -ops.WIN_SCORE,
           alpha := alpha, members := o.2, returned := none }, o.1.tail)).bind
        (fun final =>
          match final.1.returned with
          | some nextScore => some (nextScore, final.1.visited ++ final.2, final.1.members)
          | none => some (final.1.bestScore, final.1.visited, final.1.members)))

/-- Step 7 of `search` (searcher.cpp 504-531), the null move: the score to
return at once, if any, the flag `isMateThreat` and the members afterwards. -/
def searchNullMove {σ : Type} (ops : SearcherOps σ) (T : Tables) (search : SearchFn σ)
    (nodeType : NodeType) (board : ChessBoard) (alpha beta maxDepth currentDepth : Int)
    (hashtableEntryType : HashtableEntryType) (inCheck : Bool) (members : σ) :
    Option (Option Int × Bool × σ) :=
  let depthLeft := maxDepth - currentDepth
  let isMateSearch := ops.IsMateScore alpha
  if ops.enableAllSearchFeatures ∧ isMateSearch = false
      ∧ hashtableEntryType = HashtableEntryType.HASHENTRYTYPE_NONE
      ∧ hasMadeNullMove board = false ∧ nodeType ≠ NodeType.PV_NODETYPE ∧ inCheck = false
      ∧ depthLeft > 2 then
    (search .ALL_NODETYPE (doNullMove T board) (-beta) (-beta + 1) (maxDepth - 3)
      (currentDepth + 1) members).bind (fun r =>
        let nullScore := -r.1
        if ops.IsMateScore nullScore = false ∧ nullScore ≥ beta then
          (search nodeType board (beta - 1) beta (maxDepth - 3) currentDepth r.2).bind (fun v =>
            if ops.IsMateScore v.1 = false ∧ v.1 ≥ beta then
              some (some nullScore, ops.IsMateScore v.1,
                ops.clearPrincipalVariation v.2 currentDepth)
            else some (none, ops.IsMateScore v.1, v.2))
        else some (none, ops.IsMateScore nullScore, r.2))
  else some (none, false, members)

/-- The steps 8-11 of `search` (searcher.cpp 533-591). -/
def searchFinish {σ : Type} (ops : SearcherOps σ) (T : Tables) (searchLoop : SearchLoopFn σ)
    (nodeType : NodeType) (board : ChessBoard) (alpha beta maxDepth currentDepth : Int)
    (hashtableEntryType : HashtableEntryType) (inCheck : Bool) (isMateThreat : Bool)
    (members : σ) : Option (Int × σ) :=
  let depthLeft := maxDepth - currentDepth
  let isMateSearch := ops.IsMateScore alpha
  let static : Int × σ :=
    if inCheck then (-ops.WIN_SCORE + currentDepth, members)
    else ops.evaluate members board alpha beta
  let members1 := ops.setStaticEvaluation static.2 currentDepth static.1
  if ops.enableAllSearchFeatures ∧ isMateThreat = false ∧ isMateSearch = false
      ∧ hashtableEntryType = HashtableEntryType.HASHENTRYTYPE_NONE
      ∧ nodeType ≠ NodeType.PV_NODETYPE ∧ inCheck = false ∧ depthLeft < 4
      ∧ static.1 - PAWN_SCORE * depthLeft ≥ beta then
    some (static.1, ops.clearPrincipalVariation members1 currentDepth)
  else
    let moveList := generateAllMoves T board
    if moveList.length = 0 then
      some (if inCheck then -ops.WIN_SCORE + currentDepth else DRAW_SCORE,
        ops.clearPrincipalVariation members1 currentDepth)
    else
      (searchLoop nodeType board alpha beta maxDepth currentDepth moveList members1).bind
        (fun r =>
          match searchStore ops.enableAllSearchFeatures board r.1 alpha beta currentDepth
              depthLeft with
          | some entry => some (r.1, ops.hashtableInsert r.2.2 entry)
          | none => some (r.1, r.2.2))

/-- The body of `ChessSearcher::search<nodeType>` (searcher.cpp 424-592) with
`quiescenceSearch`, `search` and `searchLoop` for the calls of the three
functions. -/
def searchBody {σ : Type} (ops : SearcherOps σ) (T : Tables) (quiescenceSearch : QuiescenceFn σ)
    (search : SearchFn σ) (searchLoop : SearchLoopFn σ) : SearchFn σ :=
  fun nodeType board alpha beta maxDepth currentDepth members =>
    if currentDepth ≥ ops.DepthMAX - 1 then some (NO_SCORE, ops.setAbortedSearch members)
    else if ops.shouldContinueSearch members = false then
      some (NO_SCORE, ops.setAbortedSearch members)
    else if checkBoardGameResult T board (ops.moveHistory members) false
        = TwoPlayerGameResult.DRAW then
      some (DRAW_SCORE, ops.clearPrincipalVariation members currentDepth)
    else
      let alpha1 :=
        if ops.enableAllSearchFeatures then max (-ops.WIN_SCORE + currentDepth) alpha else alpha
      let beta1 :=
        if ops.enableAllSearchFeatures then min (ops.WIN_SCORE - (currentDepth + 1)) beta
        else beta
      if ops.enableAllSearchFeatures ∧ alpha1 ≥ beta1 then
        some (alpha1, ops.clearPrincipalVariation members currentDepth)
      else
        let inCheck := isInCheck board
        if inCheck = false ∧ currentDepth ≥ maxDepth then
          quiescenceSearch nodeType board alpha1 beta1 currentDepth maxDepth
            (ops.clearPrincipalVariation members currentDepth)
        else
          let members1 := ops.incrementNodeCount members
          let depthLeft := maxDepth - currentDepth
          let answer := ops.hashtableSearch members1 board.hashValue currentDepth
          let hashtableEntryType :=
            if ops.enableAllSearchFeatures then
              checkHashtable (decide (nodeType = NodeType.PV_NODETYPE)) answer depthLeft
            else HashtableEntryType.HASHENTRYTYPE_NONE
          match searchProbe ops.enableAllSearchFeatures (decide (nodeType = NodeType.PV_NODETYPE))
              answer alpha1 depthLeft with
          | some hashScore =>
            some (hashScore, ops.clearPrincipalVariation members1 currentDepth)
          | none =>
            (searchNullMove ops T search nodeType board alpha1 beta1 maxDepth currentDepth
              hashtableEntryType inCheck members1).bind (fun n =>
                match n.1 with
                | some nullScore => some (nullScore, n.2.2)
                | none =>
                  searchFinish ops T searchLoop nodeType board alpha1 beta1 maxDepth currentDepth
                    hashtableEntryType inCheck n.2.1 n.2.2)

/-- The functions `search` and `searchLoop` with a bound on the depth of the
nesting of the calls of `quiescenceSearch`, `search` and `searchLoop`. -/
def searchFunctions {σ : Type} (ops : SearcherOps σ) (T : Tables) :
    Nat → SearchFn σ × SearchLoopFn σ
  | 0 => (fun _ _ _ _ _ _ _ => none, fun _ _ _ _ _ _ _ _ => none)
  | fuel + 1 =>
    (searchBody ops T (quiescenceSearch ops T fuel) (searchFunctions ops T fuel).1
        (searchFunctions ops T fuel).2,
      searchLoopBody ops T (searchFunctions ops T fuel).1 (searchFunctions ops T fuel).2)

/-- The function `search` with a bound on the depth of the nesting of calls. -/
def search {σ : Type} (ops : SearcherOps σ) (T : Tables) (fuel : Nat) : SearchFn σ :=
  (searchFunctions ops T fuel).1

/-- The function `searchLoop` with a bound on the depth of the nesting of
calls. -/
def searchLoop {σ : Type} (ops : SearcherOps σ) (T : Tables) (fuel : Nat) : SearchLoopFn σ :=
  (searchFunctions ops T fuel).2

/-- The computation `c`, which is given a bound, returns: from some bound on,
every bound gives the same result. -/
def Returns {α : Type} (c : Nat → Option α) : Prop :=
  ∃ n r, ∀ k, n ≤ k → c k = some r

/-! ## The rules of chess: the reference for "legal move"

Modelled from the spec: section 1 defines correctness "against the rules of
chess" and section 8 asks that `generateAllMoves(board)` equal the set of the
moves that are legal in `board`.  The definitions below state these rules on
the placement of the pieces, with files and rows of the squares (`A8 = 0`,
`H1 = 63`; row 0 is the eighth rank, row 7 the first).  They use neither the
move generator nor `doMove` nor the attack queries of the engine. -/

/-- Modelled from the spec: the content of every square, colour and kind of
the piece on it. -/
abbrev Placement := Nat → Option (Color × Nat)

/-- Modelled from the spec: the placement a board stands for: the colour from
the two `ALL` bitboards, the kind from the mailbox. -/
def ChessBoard.placement (b : ChessBoard) : Placement := fun s =>
  if s < 64 then
    if (b.whitePieces ALL).testBit s then some (Color.WHITE, b.pieces s)
    else if (b.blackPieces ALL).testBit s then some (Color.BLACK, b.pieces s)
    else none
  else none

/-- Modelled from the spec: the file of a square, 0 for the a-file. -/
def rulesFile (s : Nat) : Int := ((s % 8 : Nat) : Int)

/-- Modelled from the spec: the row of a square, 0 for the eighth rank and 7
for the first. -/
def rulesRow (s : Nat) : Int := ((s / 8 : Nat) : Int)

/-- Modelled from the spec: the square with the given file and row. -/
def rulesSquare (file row : Int) : Nat := (row * 8 + file).toNat

/-- Modelled from the spec: the direction in which the pawns of a colour move,
as a change of the row. -/
def rulesForward : Color → Int
  | .WHITE => -1
  | .BLACK => 1

/-- Modelled from the spec: the row on which the pawns of a colour start. -/
def rulesStartRow : Color → Int
  | .WHITE => 6
  | .BLACK => 1

/-- Modelled from the spec: the row on which the pawns of a colour promote. -/
def rulesLastRow : Color → Int
  | .WHITE => 0
  | .BLACK => 7

/-- Modelled from the spec: the squares strictly between `src` and `dst`, which
lie on one rank, file or diagonal, are all empty. -/
def rulesPathClear (p : Placement) (src dst : Nat) : Bool :=
  let df := rulesFile dst - rulesFile src
  let dr := rulesRow dst - rulesRow src
  (List.range (max df.natAbs dr.natAbs - 1)).all (fun k =>
    (p (rulesSquare (rulesFile src + ((k : Int) + 1) * Int.sign df)
      (rulesRow src + ((k : Int) + 1) * Int.sign dr))).isNone)

/-- Modelled from the spec: a piece of kind `k` and colour `c` on `src` attacks
the square `dst`: a pawn one step diagonally forward, a knight by its jump, a
king one step in any direction, a rook along ranks and files, a bishop along
diagonals, a queen along both, the last three over empty squares only. -/
def rulesPieceAttacks (p : Placement) (c : Color) (k : Nat) (src dst : Nat) : Bool :=
  let df := rulesFile dst - rulesFile src
  let dr := rulesRow dst - rulesRow src
  let straight := (decide (df = 0) != decide (dr = 0)) && rulesPathClear p src dst
  let diagonal := decide (df.natAbs = dr.natAbs ∧ df ≠ 0) && rulesPathClear p src dst
  if k = PAWN then decide (df.natAbs = 1 ∧ dr = rulesForward c)
  else if k = KNIGHT then
    decide ((df.natAbs = 1 ∧ dr.natAbs = 2) ∨ (df.natAbs = 2 ∧ dr.natAbs = 1))
  else if k = KING then decide (df.natAbs ≤ 1 ∧ dr.natAbs ≤ 1 ∧ src ≠ dst)
  else if k = ROOK then straight
  else if k = BISHOP then diagonal
  else if k = QUEEN then straight || diagonal
  else false

/-- Modelled from the spec: some piece of colour `c` attacks the square
`dst`. -/
def rulesAttacked (p : Placement) (c : Color) (dst : Nat) : Bool :=
  (List.range 64).any (fun src =>
    match p src with
    | some (c1, k) => decide (c1 = c) && rulesPieceAttacks p c k src dst
    | none => false)

/-- Modelled from the spec: the king of colour `c` is attacked by a piece of
the other colour. -/
def rulesInCheck (p : Placement) (c : Color) : Bool :=
  (List.range 64).any (fun s =>
    decide (p s = some (c, KING)) && rulesAttacked p c.flip s)

/-- Modelled from the spec: the castling move of the king of colour `c` from
`src` to `dst`: the right is still there, king and rook stand on their home
squares, the squares between them are empty, and the king is not in check and
neither passes over nor lands on an attacked square.  The value is the pair of
the rook's squares. -/
def rulesCastling (p : Placement) (c : Color) (castleRights : Nat) (src dst : Nat) :
    Option (Nat × Nat) :=
  let home : Nat := match c with | .WHITE => E1 | .BLACK => E8
  let kingSide := decide (dst = home + 2)
  let right : Nat :=
    match c, kingSide with
    | .WHITE, true => WHITE_OO
    | .WHITE, false => WHITE_OOO
    | .BLACK, true => BLACK_OO
    | .BLACK, false => BLACK_OOO
  let rookFrom : Nat := if kingSide then home + 3 else home - 4
  let rookTo : Nat := if kingSide then home + 1 else home - 1
  let empty : List Nat :=
    if kingSide then [home + 1, home + 2] else [home - 1, home - 2, home - 3]
  let safe : List Nat := [home, rookTo, dst]
  if src = home ∧ (dst = home + 2 ∨ dst + 2 = home)
      ∧ castleRights &&& right ≠ 0
      ∧ p home = some (c, KING) ∧ p rookFrom = some (c, ROOK)
      ∧ empty.all (fun s => (p s).isNone) = true
      ∧ safe.all (fun s => !rulesAttacked p c.flip s) = true then
    some (rookFrom, rookTo)
  else none

/-- Modelled from the spec: the capture en passant by the pawn of colour `c`
from `src` to `dst`: `dst` is the square the enemy pawn has just passed over,
one step diagonally forward of `src`, and that pawn stands beside `src`.  The
value is the square of the captured pawn. -/
def rulesEnPassant (p : Placement) (c : Color) (enPassant : Nat) (src dst : Nat) :
    Option Nat :=
  let df := rulesFile dst - rulesFile src
  let dr := rulesRow dst - rulesRow src
  let victim := rulesSquare (rulesFile dst) (rulesRow src)
  if dst = enPassant ∧ dst < 64 ∧ df.natAbs = 1 ∧ dr = rulesForward c ∧ (p dst).isNone = true
      ∧ p victim = some (c.flip, PAWN) then
    some victim
  else none

/-- Modelled from the spec: the move of a pawn of colour `c` from `src` to
`dst`, apart from the promotion: one step forward to an empty square, two
steps from the starting row over empty squares, a capture of an enemy piece
one step diagonally forward, or a capture en passant. -/
def rulesPawnMove (p : Placement) (c : Color) (enPassant : Nat) (src dst : Nat) : Bool :=
  let df := rulesFile dst - rulesFile src
  let dr := rulesRow dst - rulesRow src
  let middle := rulesSquare (rulesFile src) (rulesRow src + rulesForward c)
  (decide (df = 0 ∧ dr = rulesForward c) && (p dst).isNone)
    || (decide (df = 0 ∧ dr = 2 * rulesForward c ∧ rulesRow src = rulesStartRow c)
        && (p dst).isNone && (p middle).isNone)
    || (decide (df.natAbs = 1 ∧ dr = rulesForward c)
        && (match p dst with
            | some (c1, _) => decide (c1 = c.flip)
            | none => false))
    || (rulesEnPassant p c enPassant src dst).isSome

/-- Modelled from the spec: the move obeys the way the pieces move.  A piece
of the side to move stands on `src`; `dst` holds no piece of that side and no
king; a pawn moves as a pawn and names the piece it promotes to exactly when it
reaches the last row; every other piece moves to a square it attacks, the king
also by castling, and names no promotion. -/
def rulesPseudoLegal (p : Placement) (side : Color) (castleRights enPassant : Nat)
    (src dst promotion : Nat) : Bool :=
  decide (src < 64 ∧ dst < 64) &&
  match p src with
  | none => false
  | some (c, k) =>
    decide (c = side)
      && (match p dst with
          | some (c1, k1) => decide (c1 ≠ side ∧ k1 ≠ KING)
          | none => true)
      && (if k = PAWN then
            rulesPawnMove p c enPassant src dst
              && (if rulesRow dst = rulesLastRow c then
                    decide (promotion = KNIGHT ∨ promotion = BISHOP ∨ promotion = ROOK
                      ∨ promotion = QUEEN)
                  else decide (promotion = NO_PIECE))
          else
            decide (promotion = NO_PIECE)
              && (rulesPieceAttacks p c k src dst
                  || (decide (k = KING) && (rulesCastling p c castleRights src dst).isSome)))

/-- Modelled from the spec: the placement after the move: the piece, or the
piece the pawn promotes to, stands on `dst`; `src` is empty; a pawn captured en
passant is taken off; the rook of a castling move stands beside the king. -/
def rulesApply (p : Placement) (castleRights enPassant : Nat) (src dst promotion : Nat) :
    Placement :=
  match p src with
  | none => p
  | some (c, k) =>
    let victim : Option Nat := if k = PAWN then rulesEnPassant p c enPassant src dst else none
    let rook : Option (Nat × Nat) :=
      if k = KING then rulesCastling p c castleRights src dst else none
    fun s =>
      if s = dst then some (c, if promotion = NO_PIECE then k else promotion)
      else if s = src then none
      else if victim = some s then none
      else if rook.map Prod.fst = some s then none
      else if rook.map Prod.snd = some s then some (c, ROOK)
      else p s

/-- Modelled from the spec: the move is legal: it obeys the way the pieces
move and does not leave the king of the side that moves attacked. -/
def rulesLegal (p : Placement) (side : Color) (castleRights enPassant : Nat)
    (src dst promotion : Nat) : Bool :=
  rulesPseudoLegal p side castleRights enPassant src dst promotion
    && !rulesInCheck (rulesApply p castleRights enPassant src dst promotion) side

/-- Modelled from the spec: the legal moves of the position of the board, as
triples of source square, destination square and promotion piece, in the
order of the squares. -/
def legalMoves (b : ChessBoard) : List (Nat × Nat × Nat) :=
  (List.range 64).flatMap (fun src =>
    (List.range 64).flatMap (fun dst =>
      [NO_PIECE, KNIGHT, BISHOP, ROOK, QUEEN].filterMap (fun promotion =>
        if rulesLegal b.placement b.sideToMove b.castleRights b.enPassant src dst promotion
        then some (src, dst, promotion) else none)))

/-- The board after the move with the given squares and promotion piece. -/
def doMoveTriple (T : Tables) (b : ChessBoard) (m : Nat × Nat × Nat) : ChessBoard :=
  doMove T b { ordinal := 0, src := m.1, dst := m.2.1, promotionPiece := m.2.2 }

/-- Modelled from the spec: the number of sequences of `d` consecutive legal
moves from a position: one for `d = 0`; otherwise the sum, over the legal moves
`m` of the position, of the numbers for `d - 1` and the position `doMove(b, m)`
(the claim's recursion). -/
def legalMoveSequences (T : Tables) : Nat → ChessBoard → Nat
  | 0, _ => 1
  | d + 1, b => ((legalMoves b).map (fun m => legalMoveSequences T d (doMoveTriple T b m))).sum

/-- The position `4k3/1b6/6p1/3pP3/4K3/r7/4n3/8 w - d6 0 1`: the white king on
e4 is in check from the pawn on d5 and has no square to go to; capturing that
pawn en passant opens the diagonal of the bishop on b7. -/
def enPassantMateBoard : ChessBoard :=
  initFromFen zeroTables "4k3/1b6/6p1/3pP3/4K3/r7/4n3/8 w - d6 0 1"

/-- The position `4k3/1b6/8/3pP3/4K3/8/8/8 w - d6 0 1`: the white king on e4 is
in check from the pawn on d5 and has six squares to go to. -/
def enPassantCheckBoard : ChessBoard :=
  initFromFen zeroTables "4k3/1b6/8/3pP3/4K3/8/8/8 w - d6 0 1"

/-- The position `7k/5Q2/6K1/8/8/8/8/8 b - - 0 1`: Black is stalemated. -/
def stalemateBoard : ChessBoard := initFromFen zeroTables "7k/5Q2/6K1/8/8/8/8/8 b - - 0 1"

/-- The position `4k3/8/8/3p4/8/8/8/3QK3 w - - 18446744073709551615 30`, whose
fifty-move counter is the largest unsigned 64-bit value. -/
def fullCounterBoard : ChessBoard :=
  initFromFen zeroTables "4k3/8/8/3p4/8/8/8/3QK3 w - - 18446744073709551615 30"
/-! ## Theorems -/

/-- C1, evaluated at the position `4k3/1b6/8/3pP3/4K3/8/8/8 w - d6 0 1`: the
board satisfies invariants 1-7, has one king per side and the side not to move
is not in check; White is in check from the pawn on d5, and
`generateAllMoves` returns the en-passant capture e5xd6, after which the
bishop on b7 attacks the white king on e4 (`isInCheck` for the mover is true):
an illegal move is emitted. -/
theorem generateAllMoves_emits_illegal_enPassant_evasion :
    (Invariant1 (initFromFen zeroTables "4k3/1b6/8/3pP3/4K3/8/8/8 w - d6 0 1")
      ∧ Invariant2 (initFromFen zeroTables "4k3/1b6/8/3pP3/4K3/8/8/8 w - d6 0 1")
      ∧ Invariant3 (initFromFen zeroTables "4k3/1b6/8/3pP3/4K3/8/8/8 w - d6 0 1")
      ∧ Invariant4 (initFromFen zeroTables "4k3/1b6/8/3pP3/4K3/8/8/8 w - d6 0 1")
      ∧ Invariant5 zeroTables (initFromFen zeroTables "4k3/1b6/8/3pP3/4K3/8/8/8 w - d6 0 1")
      ∧ Invariant6 (initFromFen zeroTables "4k3/1b6/8/3pP3/4K3/8/8/8 w - d6 0 1")
      ∧ Invariant7 (initFromFen zeroTables "4k3/1b6/8/3pP3/4K3/8/8/8 w - d6 0 1"))
    ∧ isInCheck (initFromFen zeroTables "4k3/1b6/8/3pP3/4K3/8/8/8 w - d6 0 1") true = false
    ∧ (generateAllMoves zeroTables
        (initFromFen zeroTables "4k3/1b6/8/3pP3/4K3/8/8/8 w - d6 0 1")).map ChessMove.key
        = [(36, 29, 0), (36, 35, 0), (36, 37, 0), (36, 43, 0), (36, 44, 0), (36, 45, 0),
           (28, 19, 0)]
    ∧ isInCheck (doMove zeroTables (initFromFen zeroTables "4k3/1b6/8/3pP3/4K3/8/8/8 w - d6 0 1")
        { ordinal := 0, src := 28, dst := 19, promotionPiece := NO_PIECE }) true = true := by
  decide!

theorem recomputeScalars_enPassant (T : Tables) (b : ChessBoard) :
    (recomputeScalars T b).enPassant = b.enPassant := rfl

theorem recomputeScalars_sideToMove (T : Tables) (b : ChessBoard) :
    (recomputeScalars T b).sideToMove = b.sideToMove := rfl

theorem recomputeScalars_enPassantCapturers (T : Tables) (b : ChessBoard) :
    enPassantCapturers (recomputeScalars T b) = enPassantCapturers b := rfl

/-- C8, evaluated at the claim's own example: for
`rnbqkbnr/pppppppp/8/8/4P3/8/PPPP1PPP/RNBQKBNR b KQkq e3 0 1` the stored
`enPassant` is e3 (square 44), not `NO_SQUARE`, although no black pawn
pseudo-attacks e3. -/
theorem initFromFen_keeps_uncapturable_enPassant (T : Tables) :
    (initFromFen T "rnbqkbnr/pppppppp/8/8/4P3/8/PPPP1PPP/RNBQKBNR b KQkq e3 0 1").enPassant = 44
    ∧ (initFromFen T "rnbqkbnr/pppppppp/8/8/4P3/8/PPPP1PPP/RNBQKBNR b KQkq e3 0 1").sideToMove
        = Color.BLACK
    ∧ enPassantCapturers
        (initFromFen T "rnbqkbnr/pppppppp/8/8/4P3/8/PPPP1PPP/RNBQKBNR b KQkq e3 0 1")
        = EmptyBitboard := by
  rw [initFromFen, recomputeScalars_enPassant, recomputeScalars_sideToMove,
    recomputeScalars_enPassantCapturers]
  decide!

/-- C9, evaluated at the input `8/8/8/8/8/8/8/8K`: after eight empty ranks the
running square index is 64 and the piece letter is stored at `pieces[64]`,
outside the mailbox `pieces[0..63]`. -/
theorem initFromFen_writes_past_mailbox :
    fenWrittenSquares "8/8/8/8/8/8/8/8K" = [64] := by
  decide!

/-! ### FEN input: what an unfinished parse leaves behind -/

theorem buildBitboardsStep_frame (b : ChessBoard) (src : Nat) :
    (buildBitboardsStep b src).pieces = b.pieces
    ∧ (buildBitboardsStep b src).fiftyMoveCount = b.fiftyMoveCount
    ∧ (buildBitboardsStep b src).fullMoveCount = b.fullMoveCount
    ∧ (buildBitboardsStep b src).nullMove = b.nullMove
    ∧ (buildBitboardsStep b src).castleRights = b.castleRights := by
  unfold buildBitboardsStep
  by_cases h1 : b.pieces src = NO_PIECE
  · simp [h1]
  · by_cases h2 : b.whitePieces ALL &&& OneShiftedBy src = EmptyBitboard <;>
      by_cases h3 : b.pieces src = KING <;> simp_all

theorem buildBitboards_fold_frame (l : List Nat) (b : ChessBoard) :
    (l.foldl buildBitboardsStep b).pieces = b.pieces
    ∧ (l.foldl buildBitboardsStep b).fiftyMoveCount = b.fiftyMoveCount
    ∧ (l.foldl buildBitboardsStep b).fullMoveCount = b.fullMoveCount
    ∧ (l.foldl buildBitboardsStep b).nullMove = b.nullMove
    ∧ (l.foldl buildBitboardsStep b).castleRights = b.castleRights := by
  induction l generalizing b with
  | nil => simp
  | cons x xs ih =>
    obtain ⟨h1, h2, h3, h4, h5⟩ := ih (buildBitboardsStep b x)
    obtain ⟨g1, g2, g3, g4, g5⟩ := buildBitboardsStep_frame b x
    simp only [List.foldl_cons]
    exact ⟨h1.trans g1, h2.trans g2, h3.trans g3, h4.trans g4, h5.trans g5⟩

theorem buildBitboardsFromMailbox_frame (b : ChessBoard) :
    (buildBitboardsFromMailbox b).pieces = b.pieces
    ∧ (buildBitboardsFromMailbox b).fiftyMoveCount = b.fiftyMoveCount
    ∧ (buildBitboardsFromMailbox b).fullMoveCount = b.fullMoveCount
    ∧ (buildBitboardsFromMailbox b).nullMove = b.nullMove
    ∧ (buildBitboardsFromMailbox b).castleRights = b.castleRights := by
  unfold buildBitboardsFromMailbox
  exact buildBitboards_fold_frame _ _

theorem buildAttackBoards_frame (b : ChessBoard) :
    (buildAttackBoards b).pieces = b.pieces
    ∧ (buildAttackBoards b).fiftyMoveCount = b.fiftyMoveCount
    ∧ (buildAttackBoards b).fullMoveCount = b.fullMoveCount
    ∧ (buildAttackBoards b).nullMove = b.nullMove
    ∧ (buildAttackBoards b).castleRights = b.castleRights :=
  ⟨rfl, rfl, rfl, rfl, rfl⟩

theorem recomputeScalars_frame (T : Tables) (b : ChessBoard) :
    (recomputeScalars T b).pieces = b.pieces
    ∧ (recomputeScalars T b).fiftyMoveCount = b.fiftyMoveCount
    ∧ (recomputeScalars T b).fullMoveCount = b.fullMoveCount
    ∧ (recomputeScalars T b).nullMove = b.nullMove
    ∧ (recomputeScalars T b).castleRights = b.castleRights :=
  ⟨rfl, rfl, rfl, rfl, rfl⟩

theorem initFromFen_frame (T : Tables) (fen : String) :
    (initFromFen T fen).pieces = (fenParse fen).board.pieces
    ∧ (initFromFen T fen).fiftyMoveCount = (fenParse fen).board.fiftyMoveCount
    ∧ (initFromFen T fen).fullMoveCount = (fenParse fen).board.fullMoveCount
    ∧ (initFromFen T fen).nullMove = (fenParse fen).board.nullMove
    ∧ (initFromFen T fen).castleRights = (fenParse fen).board.castleRights := by
  obtain ⟨a1, a2, a3, a4, a5⟩ := recomputeScalars_frame T (fenPosition fen)
  obtain ⟨b1, b2, b3, b4, b5⟩ :=
    buildAttackBoards_frame (buildBitboardsFromMailbox (fenParse fen).board)
  obtain ⟨c1, c2, c3, c4, c5⟩ := buildBitboardsFromMailbox_frame (fenParse fen).board
  rw [initFromFen, a1, a2, a3, a4, a5, fenPosition, b1, b2, b3, b4, b5]
  exact ⟨c1, c2, c3, c4, c5⟩

theorem fenPlacePiece_frame (b : ChessBoard) (src : Nat) (token : Char) (index : Nat) :
    (fenPlacePiece b src token index).nullMove = b.nullMove
    ∧ (fenPlacePiece b src token index).fiftyMoveCount = b.fiftyMoveCount
    ∧ (fenPlacePiece b src token index).fullMoveCount = b.fullMoveCount := by
  unfold fenPlacePiece
  by_cases h : isupper token = true <;> simp [h]

theorem fenPlacement_frame (l : List Char) (b : ChessBoard) (src : Nat) (token : Char)
    (written : List Nat) :
    (fenPlacement b src token written l).board.nullMove = b.nullMove
    ∧ (fenPlacement b src token written l).board.fiftyMoveCount = b.fiftyMoveCount
    ∧ (fenPlacement b src token written l).board.fullMoveCount = b.fullMoveCount := by
  induction l generalizing b src token written with
  | nil => simp [fenPlacement]
  | cons c cs ih =>
    unfold fenPlacement
    split_ifs
    · simp
    · exact ih _ _ _ _
    · exact ih _ _ _ _
    · split
      · exact ih _ _ _ _
      · obtain ⟨h1, h2, h3⟩ := ih (fenPlacePiece b src c ‹_›) (src + 1) c (written ++ [src])
        obtain ⟨g1, g2, g3⟩ := fenPlacePiece_frame b src c ‹_›
        exact ⟨h1.trans g1, h2.trans g2, h3.trans g3⟩

theorem fenPlacement_no_space (l : List Char) (hl : ∀ c ∈ l, isspace c = false) (b : ChessBoard)
    (src : Nat) (token : Char) (written : List Nat) :
    (fenPlacement b src token written l).ss = { rest := [], eof := true, fail := true } := by
  induction l generalizing b src token written with
  | nil => simp [fenPlacement]
  | cons c cs ih =>
    have hc : isspace c = false := hl c (List.mem_cons_self _ _)
    have hcs : ∀ c ∈ cs, isspace c = false := fun d hd => hl d (List.mem_cons_of_mem _ hd)
    unfold fenPlacement
    simp only [hc, Bool.false_eq_true, if_false]
    split_ifs
    · exact ih hcs _ _ _ _
    · exact ih hcs _ _ _ _
    · split
      · exact ih hcs _ _ _ _
      · exact ih hcs _ _ _ _

theorem readCount_not_good (ss : IStream) (old : Nat) (h : ss.good = false) :
    readCount ss old = ({ ss with fail := true }, old) := by
  simp [readCount, h]

theorem fenFields_board (fen : String) :
    (fenFields fen).board.fiftyMoveCount = 0 ∧ (fenFields fen).board.fullMoveCount = 1
    ∧ (fenFields fen).board.nullMove = false
    ∧ (fenFields fen).board.pieces
        = (fenPlacement clearEverything FIRST_SQUARE (Char.ofNat 0) [] fen.toList).board.pieces := by
  obtain ⟨h1, h2, h3⟩ :=
    fenPlacement_frame fen.toList clearEverything FIRST_SQUARE (Char.ofNat 0) []
  refine ⟨?_, ?_, ?_, ?_⟩
  · simpa only [fenFields] using h2
  · simpa only [fenFields] using h3
  · simpa only [fenFields] using h1
  · simp only [fenFields]

theorem fenFields_no_space (fen : String) (hl : ∀ c ∈ fen.toList, isspace c = false) :
    (fenFields fen).ss.good = false ∧ (fenFields fen).board.castleRights = CASTLE_NONE := by
  have h := fenPlacement_no_space fen.toList hl clearEverything FIRST_SQUARE (Char.ofNat 0) []
  simp only [fenFields, h]
  simp [readChar, readString, IStream.good]

theorem fenCounters_not_good (fields : FenPlacement) (h : fields.ss.good = false) :
    (fenCounters fields).board.fiftyMoveCount = fields.board.fiftyMoveCount
    ∧ (fenCounters fields).board.fullMoveCount = fields.board.fullMoveCount
    ∧ (fenCounters fields).board.nullMove = fields.board.nullMove
    ∧ (fenCounters fields).board.pieces = fields.board.pieces
    ∧ (fenCounters fields).board.castleRights = fields.board.castleRights := by
  have h2 : ({ fields.ss with fail := true } : IStream).good = false := by
    simp [IStream.good]
  simp only [fenCounters, readCount_not_good _ _ h, readCount_not_good _ _ h2]
  exact ⟨trivial, trivial, trivial, trivial, trivial⟩

theorem fenCounters_pieces (fields : FenPlacement) :
    (fenCounters fields).board.pieces = fields.board.pieces := rfl

theorem recomputeScalars_consistent (T : Tables) (b : ChessBoard) :
    Invariant5 T (recomputeScalars T b) :=
  ⟨rfl, rfl, rfl, rfl, rfl⟩

/-- C10, refuted at the input `4k3/8/8/8/8/8/8/4K3`, which ends after the
piece-placement field: the stream has failed, yet for all tables the board
after `initFromFen` is not the cleared board (square e8 holds a king). -/
theorem initFromFen_truncated_not_cleared :
    (fenFields "4k3/8/8/8/8/8/8/4K3").ss.good = false
    ∧ (fenParse "4k3/8/8/8/8/8/8/4K3").ss.fail = true
    ∧ ∀ T : Tables, (initFromFen T "4k3/8/8/8/8/8/8/4K3").pieces E8 = KING
        ∧ clearEverything.pieces E8 = NO_PIECE
        ∧ initFromFen T "4k3/8/8/8/8/8/8/4K3" ≠ clearEverything := by
  refine ⟨by decide!, by decide!, fun T => ?_⟩
  have h1 : (initFromFen T "4k3/8/8/8/8/8/8/4K3").pieces E8 = KING := by
    rw [(initFromFen_frame T _).1]
    decide!
  refine ⟨h1, rfl, fun h => ?_⟩
  rw [h] at h1
  exact absurd h1 (by decide)

/-- C10 as amended: `initFromFen` clears the board once, before parsing, and
keeps whatever it parsed.  When the input ends before the two counters (the
stream is no longer good after the en-passant field), the mailbox holds every
piece of the placement field, `fiftyMoveCount`, `fullMoveCount` and `nullMove`
keep their cleared values, the hashes and evaluations are those recomputed from
the resulting position, and when the input ends inside the placement field
(no white space at all) `castleRights` is `CASTLE_NONE`. -/
theorem initFromFen_unfinished_parse (T : Tables) (fen : String)
    (h : (fenFields fen).ss.good = false) :
    (initFromFen T fen).pieces
        = (fenPlacement clearEverything FIRST_SQUARE (Char.ofNat 0) [] fen.toList).board.pieces
    ∧ (initFromFen T fen).fiftyMoveCount = clearEverything.fiftyMoveCount
    ∧ (initFromFen T fen).fullMoveCount = clearEverything.fullMoveCount
    ∧ (initFromFen T fen).nullMove = clearEverything.nullMove
    ∧ Invariant5 T (initFromFen T fen)
    ∧ ((∀ c ∈ fen.toList, isspace c = false) →
        (initFromFen T fen).castleRights = CASTLE_NONE) := by
  obtain ⟨a1, a2, a3, a4, a5⟩ := initFromFen_frame T fen
  obtain ⟨b1, b2, b3, b4, b5⟩ := fenCounters_not_good (fenFields fen) h
  obtain ⟨c1, c2, c3, c4⟩ := fenFields_board fen
  refine ⟨?_, ?_, ?_, ?_, recomputeScalars_consistent T _, fun hl => ?_⟩
  · rw [a1, fenParse, b4, c4]
  · rw [a2, fenParse, b1, c1]; rfl
  · rw [a3, fenParse, b2, c2]; rfl
  · rw [a4, fenParse, b3, c3]; rfl
  · rw [a5, fenParse, b5, (fenFields_no_space fen hl).2]

theorem initFromFen_unfinished_parse_witness :
    (initFromFen zeroTables "4k3/8/8/8/8/8/8/4K3").pieces
        = (fenPlacement clearEverything FIRST_SQUARE (Char.ofNat 0) []
            "4k3/8/8/8/8/8/8/4K3".toList).board.pieces
    ∧ (initFromFen zeroTables "4k3/8/8/8/8/8/8/4K3").fiftyMoveCount
        = clearEverything.fiftyMoveCount
    ∧ (initFromFen zeroTables "4k3/8/8/8/8/8/8/4K3").fullMoveCount
        = clearEverything.fullMoveCount
    ∧ (initFromFen zeroTables "4k3/8/8/8/8/8/8/4K3").nullMove = clearEverything.nullMove
    ∧ Invariant5 zeroTables (initFromFen zeroTables "4k3/8/8/8/8/8/8/4K3")
    ∧ ((∀ c ∈ "4k3/8/8/8/8/8/8/4K3".toList, isspace c = false) →
        (initFromFen zeroTables "4k3/8/8/8/8/8/8/4K3").castleRights = CASTLE_NONE) :=
  initFromFen_unfinished_parse zeroTables "4k3/8/8/8/8/8/8/4K3" (by decide!)

/-! ### Counting mode of the move generator -/

/-- Two folds over one list keep a relation between their accumulators when
every step does. -/
theorem foldl_rel {α β γ : Type} (R : β → γ → Prop) (f : β → α → β) (g : γ → α → γ)
    (l : List α) (h : ∀ a ∈ l, ∀ x y, R x y → R (f x a) (g y a)) :
    ∀ x y, R x y → R (l.foldl f x) (l.foldl g y) := by
  induction l with
  | nil => intro x y hxy; exact hxy
  | cons a as ih =>
    intro x y hxy
    simp only [List.foldl_cons]
    exact ih (fun c hc => h c (List.mem_cons_of_mem _ hc)) _ _
      (h a (List.mem_cons_self _ _) x y hxy)

theorem emitMove_count (b : ChessBoard) (src dst : Nat) (x y : Nat × MoveList)
    (h : x.1 = y.2.length) :
    (emitMove b true src x dst).1 = (emitMove b false src y dst).2.length := by
  unfold emitMove
  simp only [Bool.false_eq_true, if_true, if_false]
  split_ifs <;> simp [pushMove, pushPromotions, h]

theorem generate_loop_count (b : ChessBoard) (srcs : List Nat) (x y : Nat × MoveList)
    (h : x.1 = y.2.length) :
    (srcs.foldl (fun acc src =>
        (squaresOf (dstMovesOf b src)).foldl (emitMove b true src) acc) x).1
      = (srcs.foldl (fun acc src =>
        (squaresOf (dstMovesOf b src)).foldl (emitMove b false src) acc) y).2.length := by
  refine foldl_rel (fun (x y : Nat × MoveList) => x.1 = y.2.length) _ _ srcs ?_ x y h
  intro src _ x y hxy
  exact foldl_rel (fun (x y : Nat × MoveList) => x.1 = y.2.length) _ _ _
    (fun dst _ x y hxy => emitMove_count b src dst x y hxy) x y hxy

/-- C5: for every board and every incoming move list, the number returned by
`generateAllMoves(board, moveList, countOnly = true)` is the number of moves
in the list that `generateAllMoves(board, moveList, countOnly = false)`
produces: in check both modes run `generateCheckEvasions`, with a pinned piece
or an en-passant square the counting mode falls back to full generation, and
otherwise every counter increment mirrors the `push_back`s of the list mode. -/
theorem generateAllMoves_countOnly_eq_length (T : Tables) (b : ChessBoard)
    (moveList : MoveList) :
    generateAllMovesCount T b moveList true = (generateAllMoves T b).length := by
  unfold generateAllMovesCount generateAllMoves generateAllMovesImplementation
  by_cases hc : isInCheck b = true
  · simp [hc]
  · by_cases hs : b.pinnedPieces ≠ EmptyBitboard ∨ b.enPassant ≠ NO_SQUARE
    · simp only [hc, hs]
      simp
    · have h1 : b.pinnedPieces = EmptyBitboard := by
        by_contra h; exact hs (Or.inl h)
      have h2 : b.enPassant = NO_SQUARE := by
        by_contra h; exact hs (Or.inr h)
      have hd : shouldDoubleCheckGeneratedMoves b = false := by
        simp [shouldDoubleCheckGeneratedMoves, h1, h2]
      simp only [hc, hs, hd]
      simp
      exact generate_loop_count b _ (0, moveList) (0, []) rfl

/-! ### `isInCheck` against the attackers of the king square -/

theorem and_bbNot_zero (x : Nat) (h : x < 2 ^ 64) : x &&& bbNot 0 = x := by
  have : bbNot 0 = 2 ^ 64 - 1 := by decide
  rw [this, Nat.and_pow_two_sub_one_eq_mod, Nat.mod_eq_of_lt h]

theorem attackBoards_fold_checking (all : Nat) (king : Nat) (l : List Nat)
    (acc : AttackBoards) :
    (l.foldl (attackBoardsStep all king) acc).checkingPieces
      = l.foldl (fun a src =>
          if InBetween king src &&& all = EmptyBitboard then a ||| OneShiftedBy src else a)
          acc.checkingPieces := by
  induction l generalizing acc with
  | nil => rfl
  | cons x xs ih =>
    simp only [List.foldl_cons]
    rw [ih]
    congr 1
    unfold attackBoardsStep
    by_cases h : InBetween king x &&& all = 0 <;> simp [h]

theorem attackBoardsOf_checkingPieces (b : ChessBoard) (hall : b.allPieces < 2 ^ 64)
    (hk : PieceMoves KING (b.kingPosition b.sideToMove) &&& b.piecesOf b.sideToMove.flip KING
      = EmptyBitboard) :
    (attackBoardsOf b).checkingPieces
      = getAttackingPieces b (b.kingPosition b.sideToMove) false EmptyBitboard := by
  unfold attackBoardsOf getAttackingPieces unblockedSliders
  simp only [attackBoards_fold_checking]
  have h0 : b.allPieces &&& bbNot 0 = b.allPieces := and_bbNot_zero _ hall
  cases hs : b.sideToMove <;>
    simp [hs, ChessBoard.kingPosition, ChessBoard.piecesOf, Color.flip] at hk ⊢ <;>
    simp [h0, hk]

/-- C6: for every board whose attack cache was produced by `buildAttackBoards`
(with a 64-bit `allPieces`) and whose kings are not adjacent, `isInCheck(board)`
is true exactly when `getAttackingPieces(board, kingSquareOfSideToMove,
earlyExit = false, attackThrough = empty)` is non-empty. -/
theorem isInCheck_iff_king_attackers (b : ChessBoard) (hall : b.allPieces < 2 ^ 64)
    (hk : PieceMoves KING (b.kingPosition b.sideToMove) &&& b.piecesOf b.sideToMove.flip KING
      = EmptyBitboard) :
    isInCheck (buildAttackBoards b) = true ↔
      getAttackingPieces (buildAttackBoards b)
        ((buildAttackBoards b).kingPosition (buildAttackBoards b).sideToMove) false EmptyBitboard
        ≠ EmptyBitboard := by
  have h1 : getAttackingPieces (buildAttackBoards b)
      ((buildAttackBoards b).kingPosition (buildAttackBoards b).sideToMove) false EmptyBitboard
      = getAttackingPieces b (b.kingPosition b.sideToMove) false EmptyBitboard := rfl
  have h2 : (buildAttackBoards b).checkingPieces = (attackBoardsOf b).checkingPieces := rfl
  rw [h1, ← attackBoardsOf_checkingPieces b hall hk]
  simp [isInCheck, h2]

theorem isInCheck_iff_king_attackers_witness :
    (buildBitboardsFromMailbox
        (fenParse "4k3/1b6/8/3pP3/4K3/8/8/8 w - d6 0 1").board).allPieces < 2 ^ 64
    ∧ (isInCheck (fenPosition "4k3/1b6/8/3pP3/4K3/8/8/8 w - d6 0 1") = true ↔
        getAttackingPieces (fenPosition "4k3/1b6/8/3pP3/4K3/8/8/8 w - d6 0 1")
          ((fenPosition "4k3/1b6/8/3pP3/4K3/8/8/8 w - d6 0 1").kingPosition
            (fenPosition "4k3/1b6/8/3pP3/4K3/8/8/8 w - d6 0 1").sideToMove) false EmptyBitboard
          ≠ EmptyBitboard) :=
  ⟨by decide!,
   isInCheck_iff_king_attackers
    (buildBitboardsFromMailbox (fenParse "4k3/1b6/8/3pP3/4K3/8/8/8 w - d6 0 1").board)
    (by decide!) (by decide!)⟩

/-! ### Bitboard lemmas -/

theorem testBit_OneShiftedBy (s i : Nat) : (OneShiftedBy s).testBit i = decide (s = i) := by
  unfold OneShiftedBy
  rw [Nat.one_shiftLeft, Nat.testBit_two_pow]

theorem OneShiftedBy_lt (s : Nat) (h : s < 64) : OneShiftedBy s < 2 ^ 64 := by
  unfold OneShiftedBy
  rw [Nat.one_shiftLeft]
  exact Nat.pow_lt_pow_right (by norm_num) h

theorem testBit_of_lt_two_pow64 (x i : Nat) (hx : x < 2 ^ 64) (hi : 64 ≤ i) :
    x.testBit i = false :=
  Nat.testBit_lt_two_pow (lt_of_lt_of_le hx (Nat.pow_le_pow_right (by norm_num) hi))

theorem testBit_bbNot (x i : Nat) : (bbNot x).testBit i = (decide (i < 64) ^^ x.testBit i) := by
  unfold bbNot AllBits
  rw [Nat.testBit_xor]
  congr 1
  exact Nat.testBit_two_pow_sub_one 64 i

theorem mem_squaresOf (b : Nat) (s : Nat) :
    s ∈ squaresOf b ↔ s < 64 ∧ b.testBit s = true := by
  simp [squaresOf]

theorem and_ne_zero_iff (x y : Nat) :
    x &&& y ≠ 0 ↔ ∃ i, x.testBit i = true ∧ y.testBit i = true := by
  constructor
  · intro h
    obtain ⟨i, hi⟩ := Nat.ne_zero_implies_bit_true h
    exact ⟨i, by simpa [Nat.testBit_and] using hi⟩
  · rintro ⟨i, hx, hy⟩ h
    have : (x &&& y).testBit i = true := by simp [Nat.testBit_and, hx, hy]
    rw [h] at this
    simp at this

theorem and_eq_zero_iff (x y : Nat) :
    x &&& y = 0 ↔ ∀ i, x.testBit i = true → y.testBit i = false := by
  constructor
  · intro h i hx
    by_contra hy
    exact (and_ne_zero_iff x y).2 ⟨i, hx, by simpa using hy⟩ h
  · intro h
    by_contra hne
    obtain ⟨i, hx, hy⟩ := (and_ne_zero_iff x y).1 hne
    simp [h i hx] at hy

theorem OneShiftedBy_and_ne_zero (s x : Nat) :
    OneShiftedBy s &&& x ≠ 0 ↔ x.testBit s = true := by
  rw [and_ne_zero_iff]
  constructor
  · rintro ⟨i, h1, h2⟩
    rw [testBit_OneShiftedBy] at h1
    simp at h1
    rwa [h1]
  · intro h
    exact ⟨s, by simp [testBit_OneShiftedBy], h⟩

theorem and_OneShiftedBy_ne_zero (s x : Nat) :
    x &&& OneShiftedBy s ≠ 0 ↔ x.testBit s = true := by
  rw [Nat.and_comm]; exact OneShiftedBy_and_ne_zero s x


/-! ### From the invariants to the content of single squares -/

theorem testBit_kindsUnion (a : Nat → Nat) (s : Nat) :
    (kindsUnion a).testBit s = true ↔ ∃ j, 1 ≤ j ∧ j ≤ 6 ∧ (a j).testBit s = true := by
  unfold kindsUnion
  simp only [Nat.testBit_or, Bool.or_eq_true, PAWN, KNIGHT, BISHOP, ROOK, QUEEN, KING]
  constructor
  · rintro (((((h | h) | h) | h) | h) | h)
    exacts [⟨1, by omega, by omega, h⟩, ⟨2, by omega, by omega, h⟩, ⟨3, by omega, by omega, h⟩,
      ⟨4, by omega, by omega, h⟩, ⟨5, by omega, by omega, h⟩, ⟨6, by omega, by omega, h⟩]
  · rintro ⟨j, h1, h6, h⟩
    interval_cases j <;> simp [h]

theorem hasShape_of_array (a : Nat → Nat) (pieces : Nat → Nat) (s : Nat)
    (hu : a ALL = kindsUnion a)
    (hm : ∀ k ≤ 6, 1 ≤ k → (a k).testBit s = true → pieces s = k) :
    ((a ALL).testBit s = false ∧ ∀ j, 1 ≤ j → j ≤ 6 → (a j).testBit s = false)
    ∨ ((a ALL).testBit s = true ∧ 1 ≤ pieces s ∧ pieces s ≤ 6
        ∧ ∀ j, 1 ≤ j → j ≤ 6 → ((a j).testBit s = true ↔ j = pieces s)) := by
  by_cases h7 : (a ALL).testBit s = true
  · right
    have h7' := h7
    rw [hu, testBit_kindsUnion] at h7'
    obtain ⟨j, h1, h6, hj⟩ := h7'
    have hp : pieces s = j := hm j h6 h1 hj
    refine ⟨h7, by omega, by omega, fun j' h1' h6' => ⟨fun h => ?_, fun h => ?_⟩⟩
    · rw [hm j' h6' h1' h]
    · rw [h, hp]; exact hj
  · left
    refine ⟨by simpa using h7, fun j h1 h6 => ?_⟩
    by_contra hj
    apply h7
    rw [hu, testBit_kindsUnion]
    exact ⟨j, h1, h6, by simpa using hj⟩

theorem squareOK_white_black (b : ChessBoard) (h1 : Invariant1 b) (h2 : Invariant2 b)
    (h3 : Invariant3 b) (hm : MailboxAgrees b) (s : Nat) (hs : s < 64) :
    SquareOK b.whitePieces b.blackPieces b.pieces s := by
  have hw := hasShape_of_array b.whitePieces b.pieces s h2.1 (fun k hk6 hk1 => (hm s hs k hk6 hk1).1)
  have hb := hasShape_of_array b.blackPieces b.pieces s h2.2 (fun k hk6 hk1 => (hm s hs k hk6 hk1).2)
  have hdisj : ¬((b.whitePieces ALL).testBit s = true ∧ (b.blackPieces ALL).testBit s = true) := by
    rintro ⟨hw7, hb7⟩
    have := (and_eq_zero_iff _ _).1 h1.2 s hw7
    rw [this] at hb7
    exact Bool.noConfusion hb7
  have hall : b.allPieces.testBit s = ((b.whitePieces ALL).testBit s || (b.blackPieces ALL).testBit s) := by
    rw [h1.1, Nat.testBit_or]
  have h3s := h3 s hs
  rcases hw with ⟨hw7, hwj⟩ | ⟨hw7, hp1, hp6, hwj⟩
  · rcases hb with ⟨hb7, hbj⟩ | ⟨hb7, hq1, hq6, hbj⟩
    · have hp0 : b.pieces s = 0 := by
        by_contra hne
        have := h3s.1 hne
        rw [hall, hw7, hb7] at this
        exact Bool.noConfusion this
      refine ⟨0, 0, by omega, by omega, Or.inl rfl, ?_, ?_, ?_, ?_, ?_⟩
      · intro j hj1 hj6; rw [hwj j hj1 hj6]; constructor <;> intro h <;> [exact Bool.noConfusion h; omega]
      · simp only [hw7]; simp
      · intro j hj1 hj6; rw [hbj j hj1 hj6]; constructor <;> intro h <;> [exact Bool.noConfusion h; omega]
      · simp only [hb7]; simp
      · simpa using hp0
    · refine ⟨0, b.pieces s, by omega, hq6, Or.inl rfl, ?_, ?_, hbj, ?_, ?_⟩
      · intro j hj1 hj6; rw [hwj j hj1 hj6]; constructor <;> intro h <;> [exact Bool.noConfusion h; omega]
      · simp only [hw7]; simp
      · simp only [hb7, true_iff]; omega
      · simp
  · rcases hb with ⟨hb7, hbj⟩ | ⟨hb7, hq1, hq6, hbj⟩
    · refine ⟨b.pieces s, 0, hp6, by omega, Or.inr rfl, hwj, ?_, ?_, ?_, ?_⟩
      · simp only [hw7, true_iff]; omega
      · intro j hj1 hj6; rw [hbj j hj1 hj6]; constructor <;> intro h <;> [exact Bool.noConfusion h; omega]
      · simp only [hb7]; simp
      · simp
    · exact absurd ⟨hw7, hb7⟩ hdisj


/-! ### How array stores change the content of a square -/

theorem hasShape_swap (own other : Nat → Nat) (pieces : Nat → Nat) (s a c m : Nat) :
    HasShape own other pieces s a c m ↔ HasShape other own pieces s c a m := by
  unfold HasShape
  constructor <;> rintro ⟨h1, h2, h3, h4, h5⟩ <;> exact ⟨h3, h4, h1, h2, h5⟩

theorem testBit_toggle_set (v x y s : Nat) :
    ((v ^^^ OneShiftedBy x) ||| OneShiftedBy y).testBit s
      = ((v.testBit s ^^ decide (x = s)) || decide (y = s)) := by
  simp [testBit_OneShiftedBy]

theorem relocateBits_kind (a : Nat → Nat) (k x y : Nat) (hk : k ≠ 7) :
    relocateBits a k x y k = (a k ^^^ OneShiftedBy x) ||| OneShiftedBy y := by
  simp [relocateBits, setAt, hk]

theorem relocateBits_all (a : Nat → Nat) (k x y : Nat) (hk : k ≠ 7) :
    relocateBits a k x y 7 = (a 7 ^^^ OneShiftedBy x) ||| OneShiftedBy y := by
  simp [relocateBits, setAt, Ne.symm hk]

theorem relocateBits_other (a : Nat → Nat) (k x y j : Nat) (hj : j ≠ k) (hj7 : j ≠ 7) :
    relocateBits a k x y j = a j := by
  simp [relocateBits, setAt, hj, hj7]

/-- A piece of kind `k` is taken from `x` and put on `y`: what square `x` holds
afterwards. -/
theorem relocate_src (own other pieces : Nat → Nat) (k x y c m : Nat)
    (hk1 : 1 ≤ k) (hk6 : k ≤ 6) (hxy : x ≠ y)
    (h : HasShape own other pieces x k c m) :
    HasShape (relocateBits own k x y) other (setAt (setAt pieces y k) x NO_PIECE) x 0 c 0 := by
  obtain ⟨h1, h2, h3, h4, _⟩ := h
  have hk7 : k ≠ 7 := by omega
  have hyx : ¬ (y = x) := fun e => hxy e.symm
  refine ⟨fun j hj1 hj6 => ?_, ?_, h3, h4, ?_⟩
  · have hj0 : ¬ (j = 0) := by omega
    simp only [hj0, iff_false]
    by_cases hjk : j = k
    · subst hjk
      have hb : (own j).testBit x = true := (h1 j hj1 hj6).2 rfl
      rw [relocateBits_kind _ _ _ _ hk7, testBit_toggle_set]
      simp [hb, hyx]
    · have hb : ¬ ((own j).testBit x = true) := fun hb => hjk ((h1 j hj1 hj6).1 hb)
      rw [relocateBits_other _ _ _ _ _ hjk (by omega)]
      exact hb
  · have hb : (own 7).testBit x = true := h2.2 (by omega)
    simp only [ALL, ne_eq, not_true_eq_false, iff_false]
    rw [relocateBits_all _ _ _ _ hk7, testBit_toggle_set]
    simp [hb, hyx]
  · simp [setAt]

/-- What the target square `y` holds afterwards. -/
theorem relocate_dst (own other pieces : Nat → Nat) (k x y c m : Nat)
    (hk1 : 1 ≤ k) (hk6 : k ≤ 6) (hxy : x ≠ y)
    (h : HasShape own other pieces y 0 c m) :
    HasShape (relocateBits own k x y) other (setAt (setAt pieces y k) x NO_PIECE) y k c k := by
  obtain ⟨h1, h2, h3, h4, _⟩ := h
  have hk7 : k ≠ 7 := by omega
  have hyx : ¬ (y = x) := fun e => hxy e.symm
  refine ⟨fun j hj1 hj6 => ?_, ?_, h3, h4, ?_⟩
  · by_cases hjk : j = k
    · subst hjk
      rw [relocateBits_kind _ _ _ _ hk7, testBit_toggle_set]
      simp
    · have hb : ¬ ((own j).testBit y = true) := fun hb => by
        have := (h1 j hj1 hj6).1 hb; omega
      rw [relocateBits_other _ _ _ _ _ hjk (by omega)]
      simp only [hjk, iff_false]
      exact hb
  · have : k ≠ 0 := by omega
    simp only [ALL, ne_eq, this, not_false_eq_true, iff_true]
    rw [relocateBits_all _ _ _ _ hk7, testBit_toggle_set]
    simp
  · simp [setAt, hyx]

/-- Every other square is untouched. -/
theorem relocate_else (own other pieces : Nat → Nat) (k x y s a c m : Nat)
    (hsx : s ≠ x) (hsy : s ≠ y)
    (h : HasShape own other pieces s a c m) :
    HasShape (relocateBits own k x y) other (setAt (setAt pieces y k) x NO_PIECE) s a c m := by
  obtain ⟨h1, h2, h3, h4, h5⟩ := h
  have e1 : ∀ v : Nat, ((v ^^^ OneShiftedBy x) ||| OneShiftedBy y).testBit s = v.testBit s := by
    intro v
    rw [testBit_toggle_set]
    simp [Ne.symm hsx, Ne.symm hsy]
  have e2 : ∀ j, (relocateBits own k x y j).testBit s = (own j).testBit s := by
    intro j
    unfold relocateBits
    simp only [setAt]
    split_ifs <;> simp only [e1] <;> simp_all
  refine ⟨fun j hj1 hj6 => ?_, ?_, h3, h4, ?_⟩
  · rw [e2]; exact h1 j hj1 hj6
  · rw [e2]; exact h2
  · simp [setAt, hsx, hsy, h5]


theorem removeBits_kind (a : Nat → Nat) (k y : Nat) (hk : k ≠ 7) :
    removeBits a k y k = a k ^^^ OneShiftedBy y := by
  simp [removeBits, setAt, hk]

theorem removeBits_all (a : Nat → Nat) (k y : Nat) (hk : k ≠ 7) :
    removeBits a k y 7 = a 7 ^^^ OneShiftedBy y := by
  simp [removeBits, setAt, Ne.symm hk]

theorem removeBits_other (a : Nat → Nat) (k y j : Nat) (hj : j ≠ k) (hj7 : j ≠ 7) :
    removeBits a k y j = a j := by
  simp [removeBits, setAt, hj, hj7]

/-- The captured piece of kind `c` leaves square `y` of the second array. -/
theorem remove_at (own other pieces : Nat → Nat) (y a c m : Nat)
    (hc1 : 1 ≤ c) (hc6 : c ≤ 6)
    (h : HasShape own other pieces y a c m) :
    HasShape own (removeBits other c y) pieces y a 0 m := by
  obtain ⟨h1, h2, h3, h4, h5⟩ := h
  have hc7 : c ≠ 7 := by omega
  refine ⟨h1, h2, fun j hj1 hj6 => ?_, ?_, h5⟩
  · have hj0 : ¬ (j = 0) := by omega
    simp only [hj0, iff_false]
    by_cases hjc : j = c
    · subst hjc
      have hb : (other j).testBit y = true := (h3 j hj1 hj6).2 rfl
      rw [removeBits_kind _ _ _ hc7]
      simp [testBit_OneShiftedBy, hb]
    · rw [removeBits_other _ _ _ _ hjc (by omega)]
      exact fun hb => hjc ((h3 j hj1 hj6).1 hb)
  · have hb : (other 7).testBit y = true := h4.2 (by omega)
    simp only [ALL, ne_eq, not_true_eq_false, iff_false]
    rw [removeBits_all _ _ _ hc7]
    simp [testBit_OneShiftedBy, hb]

theorem remove_else (own other pieces : Nat → Nat) (k y s a c m : Nat) (hsy : s ≠ y)
    (h : HasShape own other pieces s a c m) :
    HasShape own (removeBits other k y) pieces s a c m := by
  obtain ⟨h1, h2, h3, h4, h5⟩ := h
  have e1 : ∀ v : Nat, (v ^^^ OneShiftedBy y).testBit s = v.testBit s := by
    intro v
    simp [testBit_OneShiftedBy, Ne.symm hsy]
  have e2 : ∀ j, (removeBits other k y j).testBit s = (other j).testBit s := by
    intro j
    unfold removeBits
    simp only [setAt]
    split_ifs <;> simp only [e1] <;> simp_all
  refine ⟨h1, h2, fun j hj1 hj6 => ?_, ?_, h5⟩
  · rw [e2]; exact h3 j hj1 hj6
  · rw [e2]; exact h4

theorem promoteBits_kind (a : Nat → Nat) (p y : Nat) (hp : p ≠ 1) :
    promoteBits a p y p = a p ||| OneShiftedBy y := by
  simp [promoteBits, setAt, hp]

theorem promoteBits_pawn (a : Nat → Nat) (p y : Nat) (hp : p ≠ 1) :
    promoteBits a p y 1 = a 1 ^^^ OneShiftedBy y := by
  simp [promoteBits, setAt, Ne.symm hp]

theorem promoteBits_other (a : Nat → Nat) (p y j : Nat) (hj : j ≠ p) (hj1 : j ≠ 1) :
    promoteBits a p y j = a j := by
  simp [promoteBits, setAt, hj, hj1]

/-- The pawn on `y` becomes a piece of kind `p`. -/
theorem promote_at (own other pieces : Nat → Nat) (p y c m : Nat)
    (hp2 : 2 ≤ p) (hp5 : p ≤ 5)
    (h : HasShape own other pieces y PAWN c m) :
    HasShape (promoteBits own p y) other (setAt pieces y p) y p c p := by
  obtain ⟨h1, h2, h3, h4, _⟩ := h
  have hp1 : p ≠ 1 := by omega
  refine ⟨fun j hj1 hj6 => ?_, ?_, h3, h4, ?_⟩
  · by_cases hjp : j = p
    · subst hjp
      rw [promoteBits_kind _ _ _ hp1]
      simp [testBit_OneShiftedBy]
    · simp only [hjp, iff_false]
      by_cases hj : j = 1
      · subst hj
        have hb : (own 1).testBit y = true := (h1 1 hj1 hj6).2 rfl
        rw [promoteBits_pawn _ _ _ hp1]
        simp [testBit_OneShiftedBy, hb]
      · rw [promoteBits_other _ _ _ _ hjp hj]
        exact fun hb => hj ((h1 j hj1 hj6).1 hb)
  · have hb : (own 7).testBit y = true := h2.2 (by simp)
    have e : promoteBits own p y 7 = own 7 := promoteBits_other _ _ _ _ (by omega) (by omega)
    have : p ≠ 0 := by omega
    simp only [ALL, e, hb, ne_eq, this, not_false_eq_true]
  · simp [setAt]

theorem promote_else (own other pieces : Nat → Nat) (p y s a c m : Nat) (hsy : s ≠ y)
    (h : HasShape own other pieces s a c m) :
    HasShape (promoteBits own p y) other (setAt pieces y p) s a c m := by
  obtain ⟨h1, h2, h3, h4, h5⟩ := h
  have e2 : ∀ j, (promoteBits own p y j).testBit s = (own j).testBit s := by
    intro j
    unfold promoteBits
    simp only [setAt]
    split_ifs <;> simp [testBit_OneShiftedBy, Ne.symm hsy] <;> simp_all
  refine ⟨fun j hj1 hj6 => ?_, ?_, h3, h4, ?_⟩
  · rw [e2]; exact h1 j hj1 hj6
  · rw [e2]; exact h2
  · simp [setAt, hsy, h5]


/-! ### The structural effect of the steps of `doMove` -/

theorem otherColor_eq (b : ChessBoard) :
    (if b.sideToMove = Color.WHITE then Color.BLACK else Color.WHITE) = b.sideToMove.flip := by
  cases b.sideToMove <;> rfl

theorem colorToMove_eq (b : ChessBoard) :
    (if b.sideToMove = Color.WHITE then Color.WHITE else Color.BLACK) = b.sideToMove := by
  cases b.sideToMove <;> rfl

theorem piecesOf_setPiecesOf_same (b : ChessBoard) (c : Color) (k v : Nat) :
    (b.setPiecesOf c k v).piecesOf c = setAt (b.piecesOf c) k v := by
  cases c <;> rfl

theorem piecesOf_setPiecesOf_flip (b : ChessBoard) (c : Color) (k v : Nat) :
    (b.setPiecesOf c k v).piecesOf c.flip = b.piecesOf c.flip := by
  cases c <;> rfl

theorem piecesOf_setPiecesOf_flip' (b : ChessBoard) (c : Color) (k v : Nat) :
    (b.setPiecesOf c.flip k v).piecesOf c = b.piecesOf c := by
  cases c <;> rfl

/-- Step 4 of `doMove` on the bitboards and the mailbox. -/
theorem doMoveMovePiece_arrays (pre : Bool) (T : Tables) (b : ChessBoard) (mv : ChessMove)
    (k : Nat) :
    (doMoveMovePiece pre T b mv k).piecesOf b.sideToMove
        = relocateBits (b.piecesOf b.sideToMove) k mv.src mv.dst
    ∧ (doMoveMovePiece pre T b mv k).piecesOf b.sideToMove.flip = b.piecesOf b.sideToMove.flip
    ∧ (doMoveMovePiece pre T b mv k).pieces = setAt (setAt b.pieces mv.dst k) mv.src NO_PIECE
    ∧ (doMoveMovePiece pre T b mv k).sideToMove = b.sideToMove
    ∧ (doMoveMovePiece pre T b mv k).castleRights = b.castleRights
    ∧ (doMoveMovePiece pre T b mv k).enPassant = NO_SQUARE
    ∧ (doMoveMovePiece pre T b mv k).whiteKingPosition = b.whiteKingPosition
    ∧ (doMoveMovePiece pre T b mv k).blackKingPosition = b.blackKingPosition := by
  cases hs : b.sideToMove <;> cases pre <;>
    simp [doMoveMovePiece, hs, ChessBoard.setPiecesOf, ChessBoard.piecesOf, relocateBits,
      Color.flip]


/-- Step 1 of `doMove` (en-passant capture) on the bitboards and the mailbox. -/
theorem doMoveEnPassant_arrays (pre : Bool) (T : Tables) (b : ChessBoard) (mv : ChessMove)
    (h : mv.dst = b.enPassant ∧ b.pieces mv.src = PAWN) :
    (doMoveEnPassant pre T b mv).piecesOf b.sideToMove = b.piecesOf b.sideToMove
    ∧ (doMoveEnPassant pre T b mv).piecesOf b.sideToMove.flip
        = relocateBits (b.piecesOf b.sideToMove.flip) PAWN (enPassantVictim b) mv.dst
    ∧ (doMoveEnPassant pre T b mv).pieces
        = setAt (setAt b.pieces mv.dst PAWN) (enPassantVictim b) NO_PIECE
    ∧ (doMoveEnPassant pre T b mv).sideToMove = b.sideToMove
    ∧ (doMoveEnPassant pre T b mv).castleRights = b.castleRights
    ∧ (doMoveEnPassant pre T b mv).enPassant = b.enPassant
    ∧ (doMoveEnPassant pre T b mv).whiteKingPosition = b.whiteKingPosition
    ∧ (doMoveEnPassant pre T b mv).blackKingPosition = b.blackKingPosition := by
  obtain ⟨h1, h2⟩ := h
  have h2' : b.pieces mv.src = 1 := h2
  cases hs : b.sideToMove <;> cases pre <;>
    simp [doMoveEnPassant, hs, h1.symm, h2', ChessBoard.setPiecesOf, ChessBoard.piecesOf,
      relocateBits, Color.flip, enPassantVictim, setAt]

theorem doMoveEnPassant_skip (pre : Bool) (T : Tables) (b : ChessBoard) (mv : ChessMove)
    (h : ¬ (mv.dst = b.enPassant ∧ b.pieces mv.src = PAWN)) :
    doMoveEnPassant pre T b mv = b := by
  unfold doMoveEnPassant
  simp only [h, if_false]

/-- Step 6 of `doMove` (removal of the captured piece) on the bitboards. -/
theorem doMoveCapture_arrays (pre : Bool) (T : Tables) (b : ChessBoard) (mv : ChessMove)
    (c : Nat) (hc : c ≠ NO_PIECE) :
    (doMoveCapture pre T b mv c).piecesOf b.sideToMove = b.piecesOf b.sideToMove
    ∧ (doMoveCapture pre T b mv c).piecesOf b.sideToMove.flip
        = removeBits (b.piecesOf b.sideToMove.flip) c mv.dst
    ∧ (doMoveCapture pre T b mv c).pieces = b.pieces
    ∧ (doMoveCapture pre T b mv c).sideToMove = b.sideToMove
    ∧ (doMoveCapture pre T b mv c).enPassant = b.enPassant
    ∧ (doMoveCapture pre T b mv c).whiteKingPosition = b.whiteKingPosition
    ∧ (doMoveCapture pre T b mv c).blackKingPosition = b.blackKingPosition := by
  have hc' : ¬ (c = 0) := hc
  cases hs : b.sideToMove <;> cases pre <;>
    simp only [doMoveCapture, hs, hc, ne_eq, not_false_eq_true, if_true, if_false,
      Bool.false_eq_true, reduceCtorEq] <;>
    split_ifs <;>
    simp [hs, ChessBoard.setPiecesOf, ChessBoard.piecesOf, removeBits, Color.flip]

theorem doMoveCapture_skip (pre : Bool) (T : Tables) (b : ChessBoard) (mv : ChessMove) :
    doMoveCapture pre T b mv NO_PIECE = b := by
  simp [doMoveCapture]

/-- Step 7 of `doMove` (promotion) on the bitboards and the mailbox. -/
theorem doMovePromotion_arrays (pre : Bool) (T : Tables) (b : ChessBoard) (mv : ChessMove)
    (k : Nat) (h : k = PAWN ∧ mv.promotionPiece ≠ NO_PIECE) :
    (doMovePromotion pre T b mv k).piecesOf b.sideToMove
        = promoteBits (b.piecesOf b.sideToMove) mv.promotionPiece mv.dst
    ∧ (doMovePromotion pre T b mv k).piecesOf b.sideToMove.flip = b.piecesOf b.sideToMove.flip
    ∧ (doMovePromotion pre T b mv k).pieces = setAt b.pieces mv.dst mv.promotionPiece
    ∧ (doMovePromotion pre T b mv k).sideToMove = b.sideToMove
    ∧ (doMovePromotion pre T b mv k).enPassant = b.enPassant
    ∧ (doMovePromotion pre T b mv k).whiteKingPosition = b.whiteKingPosition
    ∧ (doMovePromotion pre T b mv k).blackKingPosition = b.blackKingPosition := by
  obtain ⟨h1, h2⟩ := h
  subst h1
  have h2' : ¬ (mv.promotionPiece = 0) := h2
  cases hs : b.sideToMove <;> cases pre <;>
    simp [doMovePromotion, hs, h2', ChessBoard.setPiecesOf, ChessBoard.piecesOf, promoteBits,
      Color.flip]

theorem doMovePromotion_skip (pre : Bool) (T : Tables) (b : ChessBoard) (mv : ChessMove)
    (k : Nat) (h : ¬ (k = PAWN ∧ mv.promotionPiece ≠ NO_PIECE)) :
    doMovePromotion pre T b mv k = b := by
  unfold doMovePromotion
  simp only [h, if_false]


theorem doMoveCastleRook_arrays (pre : Bool) (T : Tables) (b : ChessBoard) (color : Color)
    (rs rd ps pd : Nat) :
    (doMoveCastleRook pre T b color rs rd ps pd).piecesOf color
        = relocateBits (b.piecesOf color) ROOK rs rd
    ∧ (doMoveCastleRook pre T b color rs rd ps pd).piecesOf color.flip = b.piecesOf color.flip
    ∧ (doMoveCastleRook pre T b color rs rd ps pd).pieces
        = setAt (setAt b.pieces rd ROOK) rs NO_PIECE
    ∧ (doMoveCastleRook pre T b color rs rd ps pd).sideToMove = b.sideToMove
    ∧ (doMoveCastleRook pre T b color rs rd ps pd).enPassant = b.enPassant
    ∧ (doMoveCastleRook pre T b color rs rd ps pd).whiteKingPosition = b.whiteKingPosition
    ∧ (doMoveCastleRook pre T b color rs rd ps pd).blackKingPosition = b.blackKingPosition := by
  cases color <;> cases pre <;>
    simp [doMoveCastleRook, ChessBoard.setPiecesOf, ChessBoard.piecesOf, relocateBits,
      Color.flip, setAt]

/-- Step 5 of `doMove` for a piece that is not a king: bitboards, mailbox and
king squares stay. -/
theorem doMoveSpecial_arrays_other (pre : Bool) (T : Tables) (b : ChessBoard) (mv : ChessMove)
    (k : Nat) (hk : k ≠ KING) :
    (doMoveSpecial pre T b mv k).whitePieces = b.whitePieces
    ∧ (doMoveSpecial pre T b mv k).blackPieces = b.blackPieces
    ∧ (doMoveSpecial pre T b mv k).pieces = b.pieces
    ∧ (doMoveSpecial pre T b mv k).sideToMove = b.sideToMove
    ∧ (doMoveSpecial pre T b mv k).whiteKingPosition = b.whiteKingPosition
    ∧ (doMoveSpecial pre T b mv k).blackKingPosition = b.blackKingPosition := by
  have hk' : ¬ (k = 6) := hk
  unfold doMoveSpecial
  by_cases h1 : k = 1
  · subst h1
    cases pre <;> simp <;> split_ifs <;> simp
  · by_cases h4 : k = 4
    · subst h4
      simp
      split_ifs <;> simp
    · simp [h1, h4, hk']

/-- The king branch of step 5 is the recording of the king square and of the
castle rights, followed for a castling step by the rook move. -/
theorem doMoveSpecial_king_eq (pre : Bool) (T : Tables) (b : ChessBoard) (mv : ChessMove) :
    doMoveSpecial pre T b mv KING =
      match b.sideToMove, castleRook b.sideToMove mv.src mv.dst with
      | .WHITE, some r =>
        doMoveCastleRook pre T
          { b with whiteKingPosition := mv.dst, castleRights := b.castleRights &&& BLACK_ALL }
          Color.WHITE r.1 r.2 r.1 r.2
      | .WHITE, none =>
        { b with whiteKingPosition := mv.dst, castleRights := b.castleRights &&& BLACK_ALL }
      | .BLACK, some r =>
        doMoveCastleRook pre T
          { b with blackKingPosition := mv.dst, castleRights := b.castleRights &&& WHITE_ALL }
          Color.BLACK r.1 r.2 (FlipSqY r.1) (FlipSqY r.2)
      | .BLACK, none =>
        { b with blackKingPosition := mv.dst, castleRights := b.castleRights &&& WHITE_ALL } := by
  cases hs : b.sideToMove
  · by_cases hk : mv.src = E1 ∧ mv.dst = G1
    · simp [doMoveSpecial, castleRook, hs, hk]
    · by_cases hq : mv.src = E1 ∧ mv.dst = C1
      · simp [doMoveSpecial, castleRook, hs, hq]
      · simp only [doMoveSpecial, castleRook, hs, hk, hq]
        simp
  · by_cases hk : mv.src = E8 ∧ mv.dst = G8
    · simp [doMoveSpecial, castleRook, hs, hk]
    · by_cases hq : mv.src = E8 ∧ mv.dst = C8
      · simp [doMoveSpecial, castleRook, hs, hq]
      · simp only [doMoveSpecial, castleRook, hs, hk, hq]
        simp

theorem doMoveSpecial_king_frame (pre : Bool) (T : Tables) (b : ChessBoard) (mv : ChessMove) :
    (doMoveSpecial pre T b mv KING).piecesOf b.sideToMove.flip = b.piecesOf b.sideToMove.flip
    ∧ (doMoveSpecial pre T b mv KING).sideToMove = b.sideToMove
    ∧ (doMoveSpecial pre T b mv KING).enPassant = b.enPassant
    ∧ (doMoveSpecial pre T b mv KING).kingPosition b.sideToMove = mv.dst
    ∧ (doMoveSpecial pre T b mv KING).kingPosition b.sideToMove.flip
        = b.kingPosition b.sideToMove.flip := by
  rw [doMoveSpecial_king_eq]
  cases hs : b.sideToMove <;> cases hc : castleRook _ mv.src mv.dst
  · exact ⟨rfl, rfl, rfl, rfl, rfl⟩
  · exact ⟨(doMoveCastleRook_arrays _ _ _ _ _ _ _ _).2.1,
      (doMoveCastleRook_arrays _ _ _ _ _ _ _ _).2.2.2.1,
      (doMoveCastleRook_arrays _ _ _ _ _ _ _ _).2.2.2.2.1,
      (doMoveCastleRook_arrays _ _ _ _ _ _ _ _).2.2.2.2.2.1,
      (doMoveCastleRook_arrays _ _ _ _ _ _ _ _).2.2.2.2.2.2⟩
  · exact ⟨rfl, rfl, rfl, rfl, rfl⟩
  · exact ⟨(doMoveCastleRook_arrays _ _ _ _ _ _ _ _).2.1,
      (doMoveCastleRook_arrays _ _ _ _ _ _ _ _).2.2.2.1,
      (doMoveCastleRook_arrays _ _ _ _ _ _ _ _).2.2.2.2.1,
      (doMoveCastleRook_arrays _ _ _ _ _ _ _ _).2.2.2.2.2.2,
      (doMoveCastleRook_arrays _ _ _ _ _ _ _ _).2.2.2.2.2.1⟩

theorem doMoveSpecial_king_castle (pre : Bool) (T : Tables) (b : ChessBoard) (mv : ChessMove)
    (r : Nat × Nat) (h : castleRook b.sideToMove mv.src mv.dst = some r) :
    (doMoveSpecial pre T b mv KING).piecesOf b.sideToMove
        = relocateBits (b.piecesOf b.sideToMove) ROOK r.1 r.2
    ∧ (doMoveSpecial pre T b mv KING).pieces = setAt (setAt b.pieces r.2 ROOK) r.1 NO_PIECE := by
  rw [doMoveSpecial_king_eq]
  cases hs : b.sideToMove <;> rw [hs] at h <;> simp only [h] <;>
    exact ⟨(doMoveCastleRook_arrays _ _ _ _ _ _ _ _).1,
      (doMoveCastleRook_arrays _ _ _ _ _ _ _ _).2.2.1⟩

theorem doMoveSpecial_king_plain (pre : Bool) (T : Tables) (b : ChessBoard) (mv : ChessMove)
    (h : castleRook b.sideToMove mv.src mv.dst = none) :
    (doMoveSpecial pre T b mv KING).piecesOf b.sideToMove = b.piecesOf b.sideToMove
    ∧ (doMoveSpecial pre T b mv KING).pieces = b.pieces := by
  rw [doMoveSpecial_king_eq]
  cases hs : b.sideToMove <;> rw [hs] at h <;> simp only [h] <;> exact ⟨rfl, trivial⟩


/-! ### The content of a square through the steps of `doMove` -/

theorem hasShapeB_congr (b b' : ChessBoard) (us : Color) (s a c m : Nat)
    (h1 : b'.piecesOf us = b.piecesOf us) (h2 : b'.piecesOf us.flip = b.piecesOf us.flip)
    (h3 : b'.pieces = b.pieces) (h : HasShapeB b us s a c m) : HasShapeB b' us s a c m := by
  unfold HasShapeB at *
  rw [h1, h2, h3]; exact h

theorem enPassant_shape (pre : Bool) (T : Tables) (b : ChessBoard) (mv : ChessMove)
    (us : Color) (hus : b.sideToMove = us) (s a c m : Nat)
    (hvd : mv.dst = b.enPassant ∧ b.pieces mv.src = PAWN → enPassantVictim b ≠ mv.dst)
    (hv : mv.dst = b.enPassant ∧ b.pieces mv.src = PAWN → s = enPassantVictim b → c = PAWN)
    (hd : mv.dst = b.enPassant ∧ b.pieces mv.src = PAWN → s = mv.dst → c = 0)
    (h : HasShapeB b us s a c m) :
    HasShapeB (doMoveEnPassant pre T b mv) us s a
      (if mv.dst = b.enPassant ∧ b.pieces mv.src = PAWN then
        (if s = enPassantVictim b then 0 else if s = mv.dst then PAWN else c) else c)
      (if mv.dst = b.enPassant ∧ b.pieces mv.src = PAWN then
        (if s = enPassantVictim b then 0 else if s = mv.dst then PAWN else m) else m) := by
  subst hus
  by_cases hep : mv.dst = b.enPassant ∧ b.pieces mv.src = PAWN
  · rw [if_pos hep, if_pos hep]
    obtain ⟨e1, e2, e3, _⟩ := doMoveEnPassant_arrays pre T b mv hep
    unfold HasShapeB at *
    rw [e1, e2, e3, hasShape_swap]
    rw [hasShape_swap] at h
    have hvd := hvd hep
    have hv := hv hep
    have hd := hd hep
    by_cases hsv : s = enPassantVictim b
    · subst hsv
      rw [hv rfl] at h
      simp only [if_true]
      exact relocate_src _ _ _ PAWN _ _ _ _ (by simp) (by simp) hvd h
    · by_cases hsd : s = mv.dst
      · subst hsd
        rw [hd rfl] at h
        simp only [hsv, if_false, if_true]
        exact relocate_dst _ _ _ PAWN _ _ _ _ (by simp) (by simp) hvd h
      · simp only [hsv, hsd, if_false]
        exact relocate_else _ _ _ _ _ _ _ _ _ _ hsv hsd h
  · rw [if_neg hep, if_neg hep]
    rw [doMoveEnPassant_skip pre T b mv hep]
    exact h

theorem movePiece_shape (pre : Bool) (T : Tables) (b : ChessBoard) (mv : ChessMove) (k : Nat)
    (hk1 : 1 ≤ k) (hk6 : k ≤ 6) (hxy : mv.src ≠ mv.dst) (us : Color) (hus : b.sideToMove = us) (s a c m : Nat)
    (hsrc : s = mv.src → a = k) (hdst : s = mv.dst → a = 0)
    (h : HasShapeB b us s a c m) :
    HasShapeB (doMoveMovePiece pre T b mv k) us s
      (if s = mv.src then 0 else if s = mv.dst then k else a) c
      (if s = mv.src then 0 else if s = mv.dst then k else m) := by
  subst hus
  obtain ⟨e1, e2, e3, _⟩ := doMoveMovePiece_arrays pre T b mv k
  unfold HasShapeB at *
  rw [e1, e2, e3]
  by_cases hs : s = mv.src
  · subst hs
    rw [hsrc rfl] at h
    simp only [if_true]
    exact relocate_src _ _ _ k _ _ _ _ hk1 hk6 hxy h
  · by_cases hd : s = mv.dst
    · subst hd
      rw [hdst rfl] at h
      simp only [hs, if_false, if_true]
      exact relocate_dst _ _ _ k _ _ _ _ hk1 hk6 hxy h
    · simp only [hs, hd, if_false]
      exact relocate_else _ _ _ _ _ _ _ _ _ _ hs hd h

theorem capture_shape (pre : Bool) (T : Tables) (b : ChessBoard) (mv : ChessMove) (c0 : Nat)
    (hc6 : c0 ≤ 6) (us : Color) (hus : b.sideToMove = us) (s a c m : Nat) (hd : s = mv.dst → c = c0)
    (h : HasShapeB b us s a c m) :
    HasShapeB (doMoveCapture pre T b mv c0) us s a
      (if s = mv.dst then 0 else c) m := by
  subst hus
  by_cases hc : c0 = 0
  · subst hc
    have e : doMoveCapture pre T b mv 0 = b := doMoveCapture_skip pre T b mv
    rw [e]
    by_cases hs : s = mv.dst
    · simp only [hs, if_true]; rw [hd hs] at h; rw [← hs]; exact h
    · simp only [hs, if_false]; exact h
  · obtain ⟨e1, e2, e3, _⟩ := doMoveCapture_arrays pre T b mv c0 hc
    unfold HasShapeB at *
    rw [e1, e2, e3]
    by_cases hs : s = mv.dst
    · subst hs
      rw [hd rfl] at h
      simp only [if_true]
      exact remove_at _ _ _ _ _ c0 _ (by omega) hc6 h
    · simp only [hs, if_false]
      exact remove_else _ _ _ _ _ _ _ _ _ hs h

theorem promotion_shape (pre : Bool) (T : Tables) (b : ChessBoard) (mv : ChessMove) (k : Nat)
    (hp : k = PAWN → mv.promotionPiece = NO_PIECE
      ∨ (KNIGHT ≤ mv.promotionPiece ∧ mv.promotionPiece ≤ QUEEN))
    (us : Color) (hus : b.sideToMove = us) (s a c m : Nat) (hd : s = mv.dst → a = k)
    (h : HasShapeB b us s a c m) :
    HasShapeB (doMovePromotion pre T b mv k) us s
      (if k = PAWN ∧ mv.promotionPiece ≠ NO_PIECE ∧ s = mv.dst then mv.promotionPiece else a) c
      (if k = PAWN ∧ mv.promotionPiece ≠ NO_PIECE ∧ s = mv.dst then mv.promotionPiece else m) := by
  subst hus
  by_cases hc : k = PAWN ∧ mv.promotionPiece ≠ NO_PIECE
  · obtain ⟨e1, e2, e3, _⟩ := doMovePromotion_arrays pre T b mv k hc
    have hp' := hp hc.1
    have hp2 : 2 ≤ mv.promotionPiece ∧ mv.promotionPiece ≤ 5 := by
      rcases hp' with h0 | h25
      · exact absurd h0 hc.2
      · simpa using h25
    unfold HasShapeB at *
    rw [e1, e2, e3]
    by_cases hs : s = mv.dst
    · subst hs
      rw [hd rfl, hc.1] at h
      simp only [hc, and_self, ne_eq, not_false_eq_true, if_true]
      exact promote_at _ _ _ _ _ _ _ hp2.1 hp2.2 h
    · have : ¬ (k = PAWN ∧ mv.promotionPiece ≠ NO_PIECE ∧ s = mv.dst) := fun h => hs h.2.2
      simp only [this, if_false]
      exact promote_else _ _ _ _ _ _ _ _ _ hs h
  · have : ¬ (k = PAWN ∧ mv.promotionPiece ≠ NO_PIECE ∧ s = mv.dst) :=
      fun h => hc ⟨h.1, h.2.1⟩
    simp only [this, if_false]
    rw [doMovePromotion_skip pre T b mv k hc]
    exact h

theorem special_shape (pre : Bool) (T : Tables) (b : ChessBoard) (mv : ChessMove) (k : Nat)
    (us : Color) (hus : b.sideToMove = us) (s a c m : Nat)
    (hr : k = KING → ∀ r ∈ castleRook us mv.src mv.dst,
      r.1 ≠ r.2 ∧ (s = r.1 → a = ROOK) ∧ (s = r.2 → a = 0))
    (h : HasShapeB b us s a c m) :
    HasShapeB (doMoveSpecial pre T b mv k) us s
      (match (if k = KING then castleRook us mv.src mv.dst else none) with
       | some r => if s = r.1 then 0 else if s = r.2 then ROOK else a
       | none => a) c
      (match (if k = KING then castleRook us mv.src mv.dst else none) with
       | some r => if s = r.1 then 0 else if s = r.2 then ROOK else m
       | none => m) := by
  subst hus
  by_cases hk : k = KING
  · subst hk
    simp only [if_true]
    obtain ⟨f1, _⟩ := doMoveSpecial_king_frame pre T b mv
    cases hc : castleRook b.sideToMove mv.src mv.dst with
    | none =>
      obtain ⟨e1, e2⟩ := doMoveSpecial_king_plain pre T b mv hc
      exact hasShapeB_congr _ _ _ _ _ _ _ e1 f1 e2 h
    | some r =>
      obtain ⟨e1, e2⟩ := doMoveSpecial_king_castle pre T b mv r hc
      obtain ⟨hr12, hr1, hr2⟩ := hr rfl r (by simp [hc])
      unfold HasShapeB at *
      rw [e1, f1, e2]
      simp only
      by_cases hs1 : s = r.1
      · subst hs1
        rw [hr1 rfl] at h
        simp only [if_true]
        exact relocate_src _ _ _ ROOK _ _ _ _ (by simp) (by simp) hr12 h
      · by_cases hs2 : s = r.2
        · subst hs2
          rw [hr2 rfl] at h
          simp only [hs1, if_false, if_true]
          exact relocate_dst _ _ _ ROOK _ _ _ _ (by simp) (by simp) hr12 h
        · simp only [hs1, hs2, if_false]
          exact relocate_else _ _ _ _ _ _ _ _ _ _ hs1 hs2 h
  · simp only [hk, if_false]
    obtain ⟨e1, e2, e3, _⟩ := doMoveSpecial_arrays_other pre T b mv k hk
    refine hasShapeB_congr _ _ _ _ _ _ _ ?_ ?_ e3 h
    · cases b.sideToMove <;> simp [ChessBoard.piecesOf, e1, e2]
    · cases b.sideToMove <;> simp [ChessBoard.piecesOf, Color.flip, e1, e2]


/-! ### Scalars through the steps of `doMove` -/

theorem doMoveEnPassant_scalars (pre : Bool) (T : Tables) (b : ChessBoard) (mv : ChessMove) :
    (doMoveEnPassant pre T b mv).sideToMove = b.sideToMove
    ∧ (doMoveEnPassant pre T b mv).whiteKingPosition = b.whiteKingPosition
    ∧ (doMoveEnPassant pre T b mv).blackKingPosition = b.blackKingPosition := by
  by_cases hep : mv.dst = b.enPassant ∧ b.pieces mv.src = PAWN
  · obtain ⟨_, _, _, e4, _, _, e7, e8⟩ := doMoveEnPassant_arrays pre T b mv hep
    exact ⟨e4, e7, e8⟩
  · rw [doMoveEnPassant_skip pre T b mv hep]
    exact ⟨rfl, rfl, rfl⟩

theorem doMoveMovePiece_scalars (pre : Bool) (T : Tables) (b : ChessBoard) (mv : ChessMove)
    (k : Nat) :
    (doMoveMovePiece pre T b mv k).sideToMove = b.sideToMove
    ∧ (doMoveMovePiece pre T b mv k).whiteKingPosition = b.whiteKingPosition
    ∧ (doMoveMovePiece pre T b mv k).blackKingPosition = b.blackKingPosition := by
  obtain ⟨_, _, _, e4, _, _, e7, e8⟩ := doMoveMovePiece_arrays pre T b mv k
  exact ⟨e4, e7, e8⟩

theorem doMoveSpecial_side (pre : Bool) (T : Tables) (b : ChessBoard) (mv : ChessMove)
    (k : Nat) : (doMoveSpecial pre T b mv k).sideToMove = b.sideToMove := by
  by_cases hk : k = KING
  · subst hk; exact (doMoveSpecial_king_frame pre T b mv).2.1
  · exact (doMoveSpecial_arrays_other pre T b mv k hk).2.2.2.1

theorem doMoveCapture_scalars (pre : Bool) (T : Tables) (b : ChessBoard) (mv : ChessMove)
    (c : Nat) :
    (doMoveCapture pre T b mv c).sideToMove = b.sideToMove
    ∧ (doMoveCapture pre T b mv c).whiteKingPosition = b.whiteKingPosition
    ∧ (doMoveCapture pre T b mv c).blackKingPosition = b.blackKingPosition := by
  by_cases hc : c = NO_PIECE
  · subst hc; rw [doMoveCapture_skip]; exact ⟨rfl, rfl, rfl⟩
  · obtain ⟨_, _, _, e4, _, e7, e8⟩ := doMoveCapture_arrays pre T b mv c hc
    exact ⟨e4, e7, e8⟩

theorem doMovePromotion_scalars (pre : Bool) (T : Tables) (b : ChessBoard) (mv : ChessMove)
    (k : Nat) :
    (doMovePromotion pre T b mv k).sideToMove = b.sideToMove
    ∧ (doMovePromotion pre T b mv k).whiteKingPosition = b.whiteKingPosition
    ∧ (doMovePromotion pre T b mv k).blackKingPosition = b.blackKingPosition := by
  by_cases hc : k = PAWN ∧ mv.promotionPiece ≠ NO_PIECE
  · obtain ⟨_, _, _, e4, _, e7, e8⟩ := doMovePromotion_arrays pre T b mv k hc
    exact ⟨e4, e7, e8⟩
  · rw [doMovePromotion_skip pre T b mv k hc]; exact ⟨rfl, rfl, rfl⟩

theorem castleRook_some (c : Color) (src dst : Nat) (r : Nat × Nat)
    (h : castleRook c src dst = some r) :
    r.1 ≠ r.2 ∧ r.1 ≠ src ∧ r.1 ≠ dst ∧ r.2 ≠ src ∧ r.2 ≠ dst ∧ r.1 < 64 ∧ r.2 < 64 := by
  unfold castleRook at h
  cases c <;> simp only at h <;> split_ifs at h with h1 h2 <;>
    simp only [Option.some.injEq] at h <;> subst h <;> simp_all


/-- The content of a square after each of the steps 1, 4, 5, 6 and 7 of
`doMove`, from its content before the move. -/
theorem doMoveSteps_shape (pre : Bool) (T : Tables) (b : ChessBoard) (mv : ChessMove)
    (s a c m : Nat)
    (hk1 : 1 ≤ b.pieces mv.src) (hk6 : b.pieces mv.src ≤ 6) (hxy : mv.src ≠ mv.dst)
    (hc6 : (doMoveEnPassant pre T b mv).pieces mv.dst ≤ 6)
    (hp : b.pieces mv.src = PAWN → mv.promotionPiece = NO_PIECE
      ∨ (KNIGHT ≤ mv.promotionPiece ∧ mv.promotionPiece ≤ QUEEN))
    (hvd : mv.dst = b.enPassant ∧ b.pieces mv.src = PAWN → enPassantVictim b ≠ mv.dst)
    (hv : mv.dst = b.enPassant ∧ b.pieces mv.src = PAWN → s = enPassantVictim b → c = PAWN)
    (hd : mv.dst = b.enPassant ∧ b.pieces mv.src = PAWN → s = mv.dst → c = 0)
    (hsrc : s = mv.src → a = b.pieces mv.src) (hdst : s = mv.dst → a = 0 ∧ m = c)
    (hr : b.pieces mv.src = KING → ∀ r ∈ castleRook b.sideToMove mv.src mv.dst,
      (s = r.1 → a = ROOK) ∧ (s = r.2 → a = 0))
    (h : HasShapeB b b.sideToMove s a c m) :
    let b1 := doMoveEnPassant pre T b mv
    let b2 := doMoveMovePiece pre T b1 mv (b.pieces mv.src)
    let b3 := doMoveSpecial pre T b2 mv (b.pieces mv.src)
    let b4 := doMoveCapture pre T b3 mv (b1.pieces mv.dst)
    let b5 := doMovePromotion pre T b4 mv (b.pieces mv.src)
    HasShapeB b1 b.sideToMove s a (shapeAfterEnPassant b mv s c) (shapeAfterEnPassant b mv s m)
    ∧ HasShapeB b2 b.sideToMove s (shapeAfterMove b mv s a) (shapeAfterEnPassant b mv s c)
        (shapeAfterMove b mv s (shapeAfterEnPassant b mv s m))
    ∧ HasShapeB b3 b.sideToMove s (shapeAfterCastle b mv s (shapeAfterMove b mv s a))
        (shapeAfterEnPassant b mv s c)
        (shapeAfterCastle b mv s (shapeAfterMove b mv s (shapeAfterEnPassant b mv s m)))
    ∧ HasShapeB b4 b.sideToMove s (shapeAfterCastle b mv s (shapeAfterMove b mv s a))
        (shapeAfterCapture mv s (shapeAfterEnPassant b mv s c))
        (shapeAfterCastle b mv s (shapeAfterMove b mv s (shapeAfterEnPassant b mv s m)))
    ∧ HasShapeB b5 b.sideToMove s
        (shapeAfterPromotion b mv s (shapeAfterCastle b mv s (shapeAfterMove b mv s a)))
        (shapeAfterCapture mv s (shapeAfterEnPassant b mv s c))
        (shapeAfterPromotion b mv s
          (shapeAfterCastle b mv s (shapeAfterMove b mv s (shapeAfterEnPassant b mv s m))))
    ∧ (s = mv.dst → shapeAfterEnPassant b mv s c = b1.pieces mv.dst)
    ∧ (s = mv.dst → shapeAfterCastle b mv s (shapeAfterMove b mv s a) = b.pieces mv.src) := by
  intro b1 b2 b3 b4 b5
  have s1 : b1.sideToMove = b.sideToMove := (doMoveEnPassant_scalars pre T b mv).1
  have s2 : b2.sideToMove = b.sideToMove := (doMoveMovePiece_scalars pre T b1 mv _).1.trans s1
  have s3 : b3.sideToMove = b.sideToMove := (doMoveSpecial_side pre T b2 mv _).trans s2
  have s4 : b4.sideToMove = b.sideToMove := (doMoveCapture_scalars pre T b3 mv _).1.trans s3
  have h1 : HasShapeB b1 b.sideToMove s a (shapeAfterEnPassant b mv s c)
      (shapeAfterEnPassant b mv s m) :=
    enPassant_shape pre T b mv b.sideToMove rfl s a c m hvd hv hd h
  have h2 : HasShapeB b2 b.sideToMove s (shapeAfterMove b mv s a) (shapeAfterEnPassant b mv s c)
      (shapeAfterMove b mv s (shapeAfterEnPassant b mv s m)) :=
    movePiece_shape pre T b1 mv _ hk1 hk6 hxy b.sideToMove s1 s a _ _ hsrc
      (fun e => (hdst e).1) h1
  have hr' : b.pieces mv.src = KING → ∀ r ∈ castleRook b.sideToMove mv.src mv.dst,
      r.1 ≠ r.2 ∧ (s = r.1 → shapeAfterMove b mv s a = ROOK)
        ∧ (s = r.2 → shapeAfterMove b mv s a = 0) := by
    intro hk r hmem
    obtain ⟨n12, n1s, n1d, n2s, n2d, _, _⟩ := castleRook_some _ _ _ r (by simpa using hmem)
    obtain ⟨g1, g2⟩ := hr hk r hmem
    refine ⟨n12, ?_, ?_⟩
    · intro e
      have e1 : s ≠ mv.src := e ▸ n1s
      have e2 : s ≠ mv.dst := e ▸ n1d
      simp only [shapeAfterMove, e1, e2, if_false]
      exact g1 e
    · intro e
      have e1 : s ≠ mv.src := e ▸ n2s
      have e2 : s ≠ mv.dst := e ▸ n2d
      simp only [shapeAfterMove, e1, e2, if_false]
      exact g2 e
  have h3 : HasShapeB b3 b.sideToMove s (shapeAfterCastle b mv s (shapeAfterMove b mv s a))
      (shapeAfterEnPassant b mv s c)
      (shapeAfterCastle b mv s (shapeAfterMove b mv s (shapeAfterEnPassant b mv s m))) :=
    special_shape pre T b2 mv _ b.sideToMove s2 s _ _ _ hr' h2
  have hd4 : s = mv.dst → shapeAfterEnPassant b mv s c = b1.pieces mv.dst := by
    intro e
    have hm : b1.pieces s = shapeAfterEnPassant b mv s m := h1.2.2.2.2
    rw [← e, hm]
    unfold shapeAfterEnPassant
    by_cases hep : mv.dst = b.enPassant ∧ b.pieces mv.src = PAWN
    · rw [if_pos hep, if_pos hep]
      have : s ≠ enPassantVictim b := fun e' => hvd hep (e' ▸ e)
      simp only [this, if_false, e, if_true]
    · rw [if_neg hep, if_neg hep]
      exact ((hdst e).2).symm
  have h4 : HasShapeB b4 b.sideToMove s (shapeAfterCastle b mv s (shapeAfterMove b mv s a))
      (shapeAfterCapture mv s (shapeAfterEnPassant b mv s c))
      (shapeAfterCastle b mv s (shapeAfterMove b mv s (shapeAfterEnPassant b mv s m))) :=
    capture_shape pre T b3 mv _ hc6 b.sideToMove s3 s _ _ _ hd4 h3
  have hd5 : s = mv.dst →
      shapeAfterCastle b mv s (shapeAfterMove b mv s a) = b.pieces mv.src := by
    intro e
    have e0 : ¬ (mv.dst = mv.src) := fun e' => hxy e'.symm
    unfold shapeAfterCastle
    split
    · rename_i r hcr
      have hk : b.pieces mv.src = KING := by
        by_contra hk; rw [if_neg hk] at hcr; exact absurd hcr (by simp)
      rw [if_pos hk] at hcr
      obtain ⟨_, _, n1d, _, n2d, _, _⟩ := castleRook_some _ _ _ r hcr
      have e1 : ¬ (mv.dst = r.1) := fun x => n1d x.symm
      have e2 : ¬ (mv.dst = r.2) := fun x => n2d x.symm
      simp only [e, e1, e2, if_false, shapeAfterMove, e0, if_true]
    · simp only [shapeAfterMove, e, e0, if_false, if_true]
  have h5 := promotion_shape pre T b4 mv _ hp b.sideToMove s4 s _ _ _ hd5 h4
  exact ⟨h1, h2, h3, h4, h5, hd4, hd5⟩


/-! ### The invariants in terms of the content of the squares -/

theorem color_flip_flip (c : Color) : c.flip.flip = c := by cases c <;> rfl

theorem squareState_flip (b : ChessBoard) (us : Color) (s a c : Nat)
    (h : SquareState b us s a c) : SquareState b us.flip s c a := by
  obtain ⟨h1, h2, h3, h4, h5, h6, h7, h8⟩ := h
  refine ⟨h2, h1, h3.symm, fun e => (h4 e).symm, fun e => by rw [h5 e, Nat.add_comm], h7, ?_, ?_⟩
  · rw [color_flip_flip]; exact h6
  · unfold HasShapeB at *
    rw [color_flip_flip]
    exact (hasShape_swap _ _ _ _ _ _ _).1 h8

theorem wellShaped_flip (b : ChessBoard) (us : Color) (h : WellShaped b us) :
    WellShaped b us.flip := by
  intro s
  obtain ⟨a, c, hs⟩ := h s
  exact ⟨c, a, squareState_flip b us s a c hs⟩

theorem wellShaped_white (b : ChessBoard) (h1 : Invariant1 b) (h2 : Invariant2 b)
    (h3 : Invariant3 b) (h4 : Invariant4 b) (hm : MailboxAgrees b) (h64 : Board64 b) :
    WellShaped b Color.WHITE := by
  intro s
  obtain ⟨k1, k2, k3, k4⟩ := h4
  by_cases hs : s < 64
  · obtain ⟨a, c, ha, hc, hac, hsh⟩ := squareOK_white_black b h1 h2 h3 hm s hs
    have hp : b.pieces s = a + c := hsh.2.2.2.2
    refine ⟨a, c, ha, hc, hac, fun e => absurd hs (by omega), fun _ => hp, ?_, ?_, ?_⟩
    · have := hsh.1 KING (by simp) (by simp)
      rw [k2, testBit_OneShiftedBy] at this
      simp only [decide_eq_true_eq] at this
      exact ⟨fun e => (this.2 e.symm).symm, fun e => (this.1 e.symm).symm⟩
    · have := hsh.2.2.1 KING (by simp) (by simp)
      rw [k4, testBit_OneShiftedBy] at this
      simp only [decide_eq_true_eq] at this
      exact ⟨fun e => (this.2 e.symm).symm, fun e => (this.1 e.symm).symm⟩
    · unfold HasShapeB
      rw [hp]; exact hsh
  · have hs' : 64 ≤ s := by omega
    have hw : ∀ k, 1 ≤ k → k ≤ 7 → (b.whitePieces k).testBit s = false := fun k hk1 hk7 =>
      testBit_of_lt_two_pow64 _ _ (h64 k hk7 hk1).1 hs'
    have hb : ∀ k, 1 ≤ k → k ≤ 7 → (b.blackPieces k).testBit s = false := fun k hk1 hk7 =>
      testBit_of_lt_two_pow64 _ _ (h64 k hk7 hk1).2 hs'
    refine ⟨0, 0, by omega, by omega, Or.inl rfl, fun _ => ⟨rfl, rfl⟩,
      fun e => absurd e (by omega), ?_, ?_, ?_⟩
    · constructor
      · intro e; simp at e
      · intro e; exfalso; change s = b.whiteKingPosition at e; omega
    · constructor
      · intro e; simp at e
      · intro e; exfalso; change s = b.blackKingPosition at e; omega
    · refine ⟨fun j hj1 hj6 => ?_, ?_, fun j hj1 hj6 => ?_, ?_, rfl⟩
      · change (b.whitePieces j).testBit s = true ↔ j = 0
        rw [hw j hj1 (by omega)]
        constructor <;> intro e <;> [exact Bool.noConfusion e; omega]
      · change (b.whitePieces ALL).testBit s = true ↔ (0 : Nat) ≠ 0
        rw [hw ALL (by simp) (by simp)]
        simp
      · change (b.blackPieces j).testBit s = true ↔ j = 0
        rw [hb j hj1 (by omega)]
        constructor <;> intro e <;> [exact Bool.noConfusion e; omega]
      · change (b.blackPieces ALL).testBit s = true ↔ (0 : Nat) ≠ 0
        rw [hb ALL (by simp) (by simp)]
        simp

/-- A board that satisfies invariants 1-4, whose mailbox names the kind each
bitboard holds and whose bitboards are 64-bit values, is well shaped. -/
theorem wellShaped_of_invariants (b : ChessBoard) (h1 : Invariant1 b) (h2 : Invariant2 b)
    (h3 : Invariant3 b) (h4 : Invariant4 b) (hm : MailboxAgrees b) (h64 : Board64 b)
    (us : Color) : WellShaped b us := by
  cases us
  · exact wellShaped_white b h1 h2 h3 h4 hm h64
  · exact wellShaped_flip b Color.WHITE (wellShaped_white b h1 h2 h3 h4 hm h64)


theorem invariants_of_wellShaped_white (b : ChessBoard) (h : WellShaped b Color.WHITE)
    (hall : b.allPieces = b.whitePieces ALL ||| b.blackPieces ALL) :
    Invariant1 b ∧ Invariant2 b ∧ Invariant3 b ∧ Invariant4 b ∧ MailboxAgrees b
      ∧ Board64 b := by
  have hW : ∀ s, ∃ a c, a ≤ 6 ∧ c ≤ 6 ∧ (a = 0 ∨ c = 0) ∧ (64 ≤ s → a = 0 ∧ c = 0)
      ∧ (s < 64 → b.pieces s = a + c)
      ∧ (a = 6 ↔ s = b.whiteKingPosition) ∧ (c = 6 ↔ s = b.blackKingPosition)
      ∧ (∀ j, 1 ≤ j → j ≤ 6 → ((b.whitePieces j).testBit s = true ↔ j = a))
      ∧ ((b.whitePieces 7).testBit s = true ↔ a ≠ 0)
      ∧ (∀ j, 1 ≤ j → j ≤ 6 → ((b.blackPieces j).testBit s = true ↔ j = c))
      ∧ ((b.blackPieces 7).testBit s = true ↔ c ≠ 0) := by
    intro s
    obtain ⟨a, c, g1, g2, g3, g4, g5, g6, g7, g8, g9, g10, g11, _⟩ := h s
    exact ⟨a, c, g1, g2, g3, g4, g5, g6, g7, g8, g9, g10, g11⟩
  have hunion : ∀ (arr : Nat → Nat) (s a : Nat), a ≤ 6 →
      (∀ j, 1 ≤ j → j ≤ 6 → ((arr j).testBit s = true ↔ j = a)) →
      ((arr 7).testBit s = true ↔ a ≠ 0) → (arr 7).testBit s = (kindsUnion arr).testBit s := by
    intro arr s a ha hj h7
    rw [Bool.eq_iff_iff, h7, testBit_kindsUnion]
    constructor
    · intro hne; exact ⟨a, by omega, ha, (hj a (by omega) ha).2 rfl⟩
    · rintro ⟨j, hj1, hj6, hb⟩; have := (hj j hj1 hj6).1 hb; omega
  refine ⟨⟨hall, ?_⟩, ⟨?_, ?_⟩, ?_, ⟨?_, ?_, ?_, ?_⟩, ?_, ?_⟩
  · change b.whitePieces 7 &&& b.blackPieces 7 = 0
    rw [and_eq_zero_iff]
    intro i hi
    obtain ⟨a, c, _, _, g3, _, _, _, _, _, g9, _, g11⟩ := hW i
    have ha : a ≠ 0 := g9.1 hi
    have hc : c = 0 := by omega
    by_contra hne
    exact (g11.1 (by simpa using hne)) hc
  · apply Nat.eq_of_testBit_eq
    intro i
    obtain ⟨a, c, g1, _, _, _, _, _, _, g8, g9, _, _⟩ := hW i
    exact hunion b.whitePieces i a g1 g8 g9
  · apply Nat.eq_of_testBit_eq
    intro i
    obtain ⟨a, c, _, g2, _, _, _, _, _, _, _, g10, g11⟩ := hW i
    exact hunion b.blackPieces i c g2 g10 g11
  · intro s hs
    obtain ⟨a, c, _, _, g3, _, g5, _, _, _, g9, _, g11⟩ := hW s
    rw [hall, Nat.testBit_or, Bool.or_eq_true]
    change b.pieces s ≠ 0 ↔ (b.whitePieces 7).testBit s = true ∨ (b.blackPieces 7).testBit s = true
    rw [g9, g11, g5 hs]
    omega
  · obtain ⟨a, c, _, _, _, g4, _, g6, _⟩ := hW b.whiteKingPosition
    by_contra hk
    have := g4 (by omega)
    have := g6.2 rfl
    omega
  · apply Nat.eq_of_testBit_eq
    intro i
    obtain ⟨a, c, _, _, _, _, _, g6, _, g8, _⟩ := hW i
    rw [Bool.eq_iff_iff, testBit_OneShiftedBy, decide_eq_true_eq]
    change (b.whitePieces 6).testBit i = true ↔ _
    rw [g8 6 (by omega) (by omega)]
    constructor
    · intro e; exact (g6.1 e.symm).symm
    · intro e; exact (g6.2 e.symm).symm
  · obtain ⟨a, c, _, _, _, g4, _, _, g7, _⟩ := hW b.blackKingPosition
    by_contra hk
    have := g4 (by omega)
    have := g7.2 rfl
    omega
  · apply Nat.eq_of_testBit_eq
    intro i
    obtain ⟨a, c, _, _, _, _, _, _, g7, _, _, g10, _⟩ := hW i
    rw [Bool.eq_iff_iff, testBit_OneShiftedBy, decide_eq_true_eq]
    change (b.blackPieces 6).testBit i = true ↔ _
    rw [g10 6 (by omega) (by omega)]
    constructor
    · intro e; exact (g7.1 e.symm).symm
    · intro e; exact (g7.2 e.symm).symm
  · intro s hs k hk6 hk1
    obtain ⟨a, c, _, _, g3, _, g5, _, _, g8, _, g10, _⟩ := hW s
    constructor
    · intro hb
      have := (g8 k hk1 hk6).1 hb
      rw [g5 hs]; omega
    · intro hb
      have := (g10 k hk1 hk6).1 hb
      rw [g5 hs]; omega
  · intro k hk7 hk1
    constructor
    · apply Nat.lt_pow_two_of_testBit
      intro i hi
      obtain ⟨a, c, _, _, _, g4, _, _, _, g8, g9, _, _⟩ := hW i
      obtain ⟨ha, _⟩ := g4 hi
      by_contra hne
      have hb : (b.whitePieces k).testBit i = true := by simpa using hne
      by_cases hk : k = 7
      · subst hk; exact (g9.1 hb) ha
      · have := (g8 k hk1 (by omega)).1 hb; omega
    · apply Nat.lt_pow_two_of_testBit
      intro i hi
      obtain ⟨a, c, _, _, _, g4, _, _, _, _, _, g10, g11⟩ := hW i
      obtain ⟨_, hc⟩ := g4 hi
      by_contra hne
      have hb : (b.blackPieces k).testBit i = true := by simpa using hne
      by_cases hk : k = 7
      · subst hk; exact (g11.1 hb) hc
      · have := (g10 k hk1 (by omega)).1 hb; omega

/-- A well-shaped board whose `allPieces` is the union of the two `ALL`
bitboards satisfies invariants 1-4, has a mailbox that names the kind each
bitboard holds, and 64-bit bitboards. -/
theorem invariants_of_wellShaped (b : ChessBoard) (us : Color) (h : WellShaped b us)
    (hall : b.allPieces = b.whitePieces ALL ||| b.blackPieces ALL) :
    Invariant1 b ∧ Invariant2 b ∧ Invariant3 b ∧ Invariant4 b ∧ MailboxAgrees b
      ∧ Board64 b := by
  cases us
  · exact invariants_of_wellShaped_white b h hall
  · exact invariants_of_wellShaped_white b (wellShaped_flip b Color.BLACK h) hall


/-! ### Arithmetic of the kinds on one square -/

theorem shapeAfterEnPassant_spec (b : ChessBoard) (mv : ChessMove) (s x : Nat) :
    (mv.dst = b.enPassant ∧ b.pieces mv.src = 1 → s = enPassantVictim b →
        shapeAfterEnPassant b mv s x = 0)
    ∧ (mv.dst = b.enPassant ∧ b.pieces mv.src = 1 → s ≠ enPassantVictim b → s = mv.dst →
        shapeAfterEnPassant b mv s x = 1)
    ∧ (mv.dst = b.enPassant ∧ b.pieces mv.src = 1 → s ≠ enPassantVictim b → s ≠ mv.dst →
        shapeAfterEnPassant b mv s x = x)
    ∧ (¬ (mv.dst = b.enPassant ∧ b.pieces mv.src = 1) → shapeAfterEnPassant b mv s x = x) := by
  unfold shapeAfterEnPassant
  simp only [PAWN]
  refine ⟨?_, ?_, ?_, ?_⟩
  · intro h1 h2; rw [if_pos h1, if_pos h2]
  · intro h1 h2 h3; rw [if_pos h1, if_neg h2, if_pos h3]
  · intro h1 h2 h3; rw [if_pos h1, if_neg h2, if_neg h3]
  · intro h1; rw [if_neg h1]

theorem shapeAfterMove_spec (b : ChessBoard) (mv : ChessMove) (s x : Nat) :
    (s = mv.src → shapeAfterMove b mv s x = 0)
    ∧ (s ≠ mv.src → s = mv.dst → shapeAfterMove b mv s x = b.pieces mv.src)
    ∧ (s ≠ mv.src → s ≠ mv.dst → shapeAfterMove b mv s x = x) := by
  unfold shapeAfterMove
  refine ⟨?_, ?_, ?_⟩
  · intro h1; rw [if_pos h1]
  · intro h1 h2; rw [if_neg h1, if_pos h2]
  · intro h1 h2; rw [if_neg h1, if_neg h2]

theorem shapeAfterCastle_none (b : ChessBoard) (mv : ChessMove) (s x : Nat)
    (h : b.pieces mv.src ≠ 6 ∨ castleRook b.sideToMove mv.src mv.dst = none) :
    shapeAfterCastle b mv s x = x := by
  unfold shapeAfterCastle
  simp only [KING]
  rcases h with h | h
  · simp [h]
  · simp [h]

theorem shapeAfterCastle_some (b : ChessBoard) (mv : ChessMove) (s x : Nat) (r : Nat × Nat)
    (hk : b.pieces mv.src = 6) (h : castleRook b.sideToMove mv.src mv.dst = some r) :
    (s = r.1 → shapeAfterCastle b mv s x = 0)
    ∧ (s ≠ r.1 → s = r.2 → shapeAfterCastle b mv s x = 4)
    ∧ (s ≠ r.1 → s ≠ r.2 → shapeAfterCastle b mv s x = x) := by
  unfold shapeAfterCastle
  simp only [KING, hk, if_true, h, ROOK]
  refine ⟨?_, ?_, ?_⟩
  · intro h1; rw [if_pos h1]
  · intro h1 h2; rw [if_neg h1, if_pos h2]
  · intro h1 h2; rw [if_neg h1, if_neg h2]

theorem shapeAfterCapture_spec (mv : ChessMove) (s x : Nat) :
    (s = mv.dst → shapeAfterCapture mv s x = 0)
    ∧ (s ≠ mv.dst → shapeAfterCapture mv s x = x) := by
  unfold shapeAfterCapture
  refine ⟨?_, ?_⟩
  · intro h1; rw [if_pos h1]
  · intro h1; rw [if_neg h1]

theorem shapeAfterPromotion_spec (b : ChessBoard) (mv : ChessMove) (s x : Nat) :
    (b.pieces mv.src = 1 → mv.promotionPiece ≠ 0 → s = mv.dst →
        shapeAfterPromotion b mv s x = mv.promotionPiece)
    ∧ (b.pieces mv.src ≠ 1 ∨ mv.promotionPiece = 0 ∨ s ≠ mv.dst →
        shapeAfterPromotion b mv s x = x) := by
  unfold shapeAfterPromotion
  simp only [PAWN, NO_PIECE]
  refine ⟨?_, ?_⟩
  · intro h1 h2 h3; rw [if_pos ⟨h1, h2, h3⟩]
  · intro h
    have : ¬ (b.pieces mv.src = 1 ∧ mv.promotionPiece ≠ 0 ∧ s = mv.dst) := by
      rintro ⟨h1, h2, h3⟩
      rcases h with h | h | h
      · exact h h1
      · exact h2 h
      · exact h h3
    rw [if_neg this]


/-- Arithmetic of the kinds on one square through the steps of `doMove`, for a
move that is not a castling step. -/
theorem shape_final_plain (b : ChessBoard) (mv : ChessMove) (s a c m kpU kpO : Nat)
    (hcr : b.pieces mv.src ≠ 6 ∨ castleRook b.sideToMove mv.src mv.dst = none)
    (hk1 : 1 ≤ b.pieces mv.src) (hk6 : b.pieces mv.src ≤ 6)
    (hsrc64 : mv.src < 64) (hdst64 : mv.dst < 64)
    (ha : a ≤ 6) (hc : c ≤ 6) (hac : a = 0 ∨ c = 0) (h64 : 64 ≤ s → a = 0 ∧ c = 0)
    (hm : s < 64 → m = a + c)
    (hka : a = 6 ↔ s = kpU) (hkc : c = 6 ↔ s = kpO)
    (hks : b.pieces mv.src = 6 → kpU = mv.src)
    (hsrc : s = mv.src → a = b.pieces mv.src)
    (hdst : s = mv.dst → a = 0 ∧ c ≠ 6)
    (hep : mv.dst = b.enPassant ∧ b.pieces mv.src = 1 →
      enPassantVictim b ≠ mv.dst ∧ enPassantVictim b < 64
        ∧ (s = enPassantVictim b → c = 1) ∧ (s = mv.dst → c = 0))
    (hp : b.pieces mv.src = 1 → mv.promotionPiece = 0
      ∨ (2 ≤ mv.promotionPiece ∧ mv.promotionPiece ≤ 5)) :
    shapeAfterPromotion b mv s (shapeAfterCastle b mv s (shapeAfterMove b mv s a)) ≤ 6
    ∧ shapeAfterCapture mv s (shapeAfterEnPassant b mv s c) ≤ 6
    ∧ (shapeAfterPromotion b mv s (shapeAfterCastle b mv s (shapeAfterMove b mv s a)) = 0
        ∨ shapeAfterCapture mv s (shapeAfterEnPassant b mv s c) = 0)
    ∧ (64 ≤ s →
        shapeAfterPromotion b mv s (shapeAfterCastle b mv s (shapeAfterMove b mv s a)) = 0
          ∧ shapeAfterCapture mv s (shapeAfterEnPassant b mv s c) = 0)
    ∧ (s < 64 →
        shapeAfterPromotion b mv s
            (shapeAfterCastle b mv s (shapeAfterMove b mv s (shapeAfterEnPassant b mv s m)))
          = shapeAfterPromotion b mv s (shapeAfterCastle b mv s (shapeAfterMove b mv s a))
            + shapeAfterCapture mv s (shapeAfterEnPassant b mv s c))
    ∧ (shapeAfterPromotion b mv s (shapeAfterCastle b mv s (shapeAfterMove b mv s a)) = 6
        ↔ s = if b.pieces mv.src = 6 then mv.dst else kpU)
    ∧ (shapeAfterCapture mv s (shapeAfterEnPassant b mv s c) = 6 ↔ s = kpO) := by
  have hC : ∀ x, shapeAfterCastle b mv s x = x := fun x => shapeAfterCastle_none b mv s x hcr
  simp only [hC]
  have hkp : s = (if b.pieces mv.src = 6 then mv.dst else kpU)
      ↔ ((b.pieces mv.src = 6 ∧ s = mv.dst) ∨ (b.pieces mv.src ≠ 6 ∧ s = kpU)) := by
    by_cases h : b.pieces mv.src = 6
    · rw [if_pos h]; clear * - h; omega
    · rw [if_neg h]; clear * - h; omega
  rw [hkp]
  by_cases e1 : s = mv.src
  · have hak : a = b.pieces mv.src := hsrc e1
    have e2 : s ≠ mv.dst := fun e => by have := (hdst e).1; omega
    have hc0 : c = 0 := by clear * - hak hk1 hac; omega
    have hM : ∀ x, shapeAfterMove b mv s x = 0 := fun x => (shapeAfterMove_spec b mv s x).1 e1
    have hP : ∀ x, shapeAfterPromotion b mv s x = x := fun x =>
      (shapeAfterPromotion_spec b mv s x).2 (Or.inr (Or.inr e2))
    have hE : ∀ x, shapeAfterEnPassant b mv s x = x := by
      intro x
      by_cases h : mv.dst = b.enPassant ∧ b.pieces mv.src = 1
      · have hv : s ≠ enPassantVictim b := fun e => by
          have := (hep h).2.2.1 e; omega
        exact (shapeAfterEnPassant_spec b mv s x).2.2.1 h hv e2
      · exact (shapeAfterEnPassant_spec b mv s x).2.2.2 h
    have hCap : ∀ x, shapeAfterCapture mv s x = x := fun x =>
      (shapeAfterCapture_spec mv s x).2 e2
    simp only [hM, hP, hE, hCap]
    refine ⟨by omega, hc, (by simp), fun h => by omega, fun _ => by omega, ?_, hkc⟩
    clear * - hak hka hks e1 e2; omega
  · by_cases e2 : s = mv.dst
    · obtain ⟨ha0, hc6⟩ := hdst e2
      have hM : ∀ x, shapeAfterMove b mv s x = b.pieces mv.src := fun x =>
        (shapeAfterMove_spec b mv s x).2.1 e1 e2
      have hCap : ∀ x, shapeAfterCapture mv s x = 0 := fun x =>
        (shapeAfterCapture_spec mv s x).1 e2
      simp only [hM, hCap]
      have hsk : s ≠ kpU := fun e => by have := hka.2 e; omega
      have hso : s ≠ kpO := fun e => by have := hkc.2 e; omega
      by_cases hpr : b.pieces mv.src = 1 ∧ mv.promotionPiece ≠ 0
      · have hP : ∀ x, shapeAfterPromotion b mv s x = mv.promotionPiece := fun x =>
          (shapeAfterPromotion_spec b mv s x).1 hpr.1 hpr.2 e2
        have hp' := hp hpr.1
        simp only [hP]
        refine ⟨by omega, by omega, (by simp), fun h => by omega, fun _ => by omega, ?_, ?_⟩
        · clear * - hp' hpr hsk; omega
        · clear * - hso; omega
      · have hP : ∀ x, shapeAfterPromotion b mv s x = x := fun x =>
          (shapeAfterPromotion_spec b mv s x).2 (by
            by_cases h1 : b.pieces mv.src = 1
            · right; left; by_contra h2; exact hpr ⟨h1, h2⟩
            · left; exact h1)
        simp only [hP]
        refine ⟨hk6, by omega, (by simp), fun h => by omega, fun _ => by omega, ?_, ?_⟩
        · clear * - hsk e2; omega
        · clear * - hso; omega
    · have hM : ∀ x, shapeAfterMove b mv s x = x := fun x =>
        (shapeAfterMove_spec b mv s x).2.2 e1 e2
      have hP : ∀ x, shapeAfterPromotion b mv s x = x := fun x =>
        (shapeAfterPromotion_spec b mv s x).2 (Or.inr (Or.inr e2))
      have hCap : ∀ x, shapeAfterCapture mv s x = x := fun x =>
        (shapeAfterCapture_spec mv s x).2 e2
      simp only [hM, hP, hCap]
      have hking : a = 6 ↔ b.pieces mv.src = 6 ∧ s = mv.dst ∨ b.pieces mv.src ≠ 6 ∧ s = kpU := by
        clear * - hka hks e1 e2; omega
      by_cases e3 : (mv.dst = b.enPassant ∧ b.pieces mv.src = 1) ∧ s = enPassantVictim b
      · obtain ⟨h, hv⟩ := e3
        have hE : ∀ x, shapeAfterEnPassant b mv s x = 0 := fun x =>
          (shapeAfterEnPassant_spec b mv s x).1 h hv
        have hc1 : c = 1 := (hep h).2.2.1 hv
        have ha0 : a = 0 := by clear * - hc1 hac; omega
        have hv64 := (hep h).2.1
        simp only [hE]
        refine ⟨ha, by omega, (by simp), fun h => by omega, fun _ => by omega, hking, ?_⟩
        clear * - hc1 hkc; omega
      · have hE : ∀ x, shapeAfterEnPassant b mv s x = x := by
          intro x
          by_cases h : mv.dst = b.enPassant ∧ b.pieces mv.src = 1
          · exact (shapeAfterEnPassant_spec b mv s x).2.2.1 h (fun e => e3 ⟨h, e⟩) e2
          · exact (shapeAfterEnPassant_spec b mv s x).2.2.2 h
        simp only [hE]
        exact ⟨ha, hc, hac, h64, hm, hking, hkc⟩


/-- Arithmetic of the kinds on one square through the steps of `doMove`, for a
castling step. -/
theorem shape_final_castle (b : ChessBoard) (mv : ChessMove) (s a c m kpU kpO : Nat)
    (r : Nat × Nat) (hk : b.pieces mv.src = 6)
    (hcr : castleRook b.sideToMove mv.src mv.dst = some r)
    (hsrc64 : mv.src < 64) (hdst64 : mv.dst < 64)
    (ha : a ≤ 6) (hc : c ≤ 6) (hac : a = 0 ∨ c = 0) (h64 : 64 ≤ s → a = 0 ∧ c = 0)
    (hm : s < 64 → m = a + c)
    (hka : a = 6 ↔ s = kpU) (hkc : c = 6 ↔ s = kpO)
    (hks : kpU = mv.src)
    (hsrc : s = mv.src → a = 6)
    (hdst : s = mv.dst → a = 0 ∧ c ≠ 6)
    (hr1 : s = r.1 → a = 4) (hr2 : s = r.2 → a = 0 ∧ c = 0) :
    shapeAfterPromotion b mv s (shapeAfterCastle b mv s (shapeAfterMove b mv s a)) ≤ 6
    ∧ shapeAfterCapture mv s (shapeAfterEnPassant b mv s c) ≤ 6
    ∧ (shapeAfterPromotion b mv s (shapeAfterCastle b mv s (shapeAfterMove b mv s a)) = 0
        ∨ shapeAfterCapture mv s (shapeAfterEnPassant b mv s c) = 0)
    ∧ (64 ≤ s →
        shapeAfterPromotion b mv s (shapeAfterCastle b mv s (shapeAfterMove b mv s a)) = 0
          ∧ shapeAfterCapture mv s (shapeAfterEnPassant b mv s c) = 0)
    ∧ (s < 64 →
        shapeAfterPromotion b mv s
            (shapeAfterCastle b mv s (shapeAfterMove b mv s (shapeAfterEnPassant b mv s m)))
          = shapeAfterPromotion b mv s (shapeAfterCastle b mv s (shapeAfterMove b mv s a))
            + shapeAfterCapture mv s (shapeAfterEnPassant b mv s c))
    ∧ (shapeAfterPromotion b mv s (shapeAfterCastle b mv s (shapeAfterMove b mv s a)) = 6
        ↔ s = if b.pieces mv.src = 6 then mv.dst else kpU)
    ∧ (shapeAfterCapture mv s (shapeAfterEnPassant b mv s c) = 6 ↔ s = kpO) := by
  obtain ⟨n12, n1s, n1d, n2s, n2d, n1, n2⟩ := castleRook_some _ _ _ r hcr
  have hk1 : b.pieces mv.src ≠ 1 := by omega
  have hP : ∀ x, shapeAfterPromotion b mv s x = x := fun x =>
    (shapeAfterPromotion_spec b mv s x).2 (Or.inl hk1)
  have hE : ∀ x, shapeAfterEnPassant b mv s x = x := fun x =>
    (shapeAfterEnPassant_spec b mv s x).2.2.2 (fun h => hk1 h.2)
  rw [if_pos hk]
  simp only [hP, hE]
  by_cases e1 : s = mv.src
  · have e2 : s ≠ mv.dst := fun e => by have := (hdst e).1; have := hsrc e1; omega
    have e3 : s ≠ r.1 := fun e => n1s (e ▸ e1)
    have e4 : s ≠ r.2 := fun e => n2s (e ▸ e1)
    have hak := hsrc e1
    have hc0 : c = 0 := by clear * - hak hac; omega
    have hM : ∀ x, shapeAfterMove b mv s x = 0 := fun x => (shapeAfterMove_spec b mv s x).1 e1
    have hC : ∀ x, shapeAfterCastle b mv s x = x := fun x =>
      (shapeAfterCastle_some b mv s x r hk hcr).2.2 e3 e4
    have hCap : ∀ x, shapeAfterCapture mv s x = x := fun x =>
      (shapeAfterCapture_spec mv s x).2 e2
    simp only [hM, hC, hCap]
    refine ⟨by omega, hc, (by simp), fun h => by omega, fun _ => by omega, ?_, hkc⟩
    clear * - e2; omega
  · by_cases e2 : s = mv.dst
    · obtain ⟨ha0, hc6⟩ := hdst e2
      have e3 : s ≠ r.1 := fun e => n1d (e ▸ e2)
      have e4 : s ≠ r.2 := fun e => n2d (e ▸ e2)
      have hM : ∀ x, shapeAfterMove b mv s x = b.pieces mv.src := fun x =>
        (shapeAfterMove_spec b mv s x).2.1 e1 e2
      have hC : ∀ x, shapeAfterCastle b mv s x = x := fun x =>
        (shapeAfterCastle_some b mv s x r hk hcr).2.2 e3 e4
      have hCap : ∀ x, shapeAfterCapture mv s x = 0 := fun x =>
        (shapeAfterCapture_spec mv s x).1 e2
      have hso : s ≠ kpO := fun e => by have := hkc.2 e; omega
      simp only [hM, hC, hCap, hk]
      refine ⟨by omega, by omega, (by simp), fun h => by omega, fun _ => by simp, ?_, ?_⟩
      · simp [e2]
      · clear * - hso; omega
    · have hM : ∀ x, shapeAfterMove b mv s x = x := fun x =>
        (shapeAfterMove_spec b mv s x).2.2 e1 e2
      have hCap : ∀ x, shapeAfterCapture mv s x = x := fun x =>
        (shapeAfterCapture_spec mv s x).2 e2
      have ha6 : a ≠ 6 := fun e => by have := hka.1 e; omega
      simp only [hM, hCap]
      by_cases e3 : s = r.1
      · have hC : ∀ x, shapeAfterCastle b mv s x = 0 := fun x =>
          (shapeAfterCastle_some b mv s x r hk hcr).1 e3
        have ha4 := hr1 e3
        have hc0 : c = 0 := by clear * - ha4 hac; omega
        simp only [hC]
        refine ⟨by omega, hc, (by simp), fun h => by omega, fun _ => by omega, ?_, hkc⟩
        clear * - e2; omega
      · by_cases e4 : s = r.2
        · have hC : ∀ x, shapeAfterCastle b mv s x = 4 := fun x =>
            (shapeAfterCastle_some b mv s x r hk hcr).2.1 e3 e4
          obtain ⟨ha0, hc0⟩ := hr2 e4
          simp only [hC]
          refine ⟨by omega, hc, Or.inr hc0, fun h => by omega, fun _ => by omega, ?_, hkc⟩
          clear * - e2; omega
        · have hC : ∀ x, shapeAfterCastle b mv s x = x := fun x =>
            (shapeAfterCastle_some b mv s x r hk hcr).2.2 e3 e4
          simp only [hC]
          refine ⟨ha, hc, hac, h64, hm, ?_, hkc⟩
          clear * - e2 ha6; omega


/-- Arithmetic of the kinds on one square through the steps of `doMove`. -/
theorem shape_final (b : ChessBoard) (mv : ChessMove) (s a c m kpU kpO : Nat)
    (hk1 : 1 ≤ b.pieces mv.src) (hk6 : b.pieces mv.src ≤ 6)
    (hsrc64 : mv.src < 64) (hdst64 : mv.dst < 64)
    (ha : a ≤ 6) (hc : c ≤ 6) (hac : a = 0 ∨ c = 0) (h64 : 64 ≤ s → a = 0 ∧ c = 0)
    (hm : s < 64 → m = a + c)
    (hka : a = 6 ↔ s = kpU) (hkc : c = 6 ↔ s = kpO)
    (hks : b.pieces mv.src = 6 → kpU = mv.src)
    (hsrc : s = mv.src → a = b.pieces mv.src)
    (hdst : s = mv.dst → a = 0 ∧ c ≠ 6)
    (hep : mv.dst = b.enPassant ∧ b.pieces mv.src = 1 →
      enPassantVictim b ≠ mv.dst ∧ enPassantVictim b < 64
        ∧ (s = enPassantVictim b → c = 1) ∧ (s = mv.dst → c = 0))
    (hp : b.pieces mv.src = 1 → mv.promotionPiece = 0
      ∨ (2 ≤ mv.promotionPiece ∧ mv.promotionPiece ≤ 5))
    (hr : b.pieces mv.src = 6 → ∀ r, castleRook b.sideToMove mv.src mv.dst = some r →
      (s = r.1 → a = 4) ∧ (s = r.2 → a = 0 ∧ c = 0)) :
    shapeAfterPromotion b mv s (shapeAfterCastle b mv s (shapeAfterMove b mv s a)) ≤ 6
    ∧ shapeAfterCapture mv s (shapeAfterEnPassant b mv s c) ≤ 6
    ∧ (shapeAfterPromotion b mv s (shapeAfterCastle b mv s (shapeAfterMove b mv s a)) = 0
        ∨ shapeAfterCapture mv s (shapeAfterEnPassant b mv s c) = 0)
    ∧ (64 ≤ s →
        shapeAfterPromotion b mv s (shapeAfterCastle b mv s (shapeAfterMove b mv s a)) = 0
          ∧ shapeAfterCapture mv s (shapeAfterEnPassant b mv s c) = 0)
    ∧ (s < 64 →
        shapeAfterPromotion b mv s
            (shapeAfterCastle b mv s (shapeAfterMove b mv s (shapeAfterEnPassant b mv s m)))
          = shapeAfterPromotion b mv s (shapeAfterCastle b mv s (shapeAfterMove b mv s a))
            + shapeAfterCapture mv s (shapeAfterEnPassant b mv s c))
    ∧ (shapeAfterPromotion b mv s (shapeAfterCastle b mv s (shapeAfterMove b mv s a)) = 6
        ↔ s = if b.pieces mv.src = 6 then mv.dst else kpU)
    ∧ (shapeAfterCapture mv s (shapeAfterEnPassant b mv s c) = 6 ↔ s = kpO) := by
  by_cases hcr : b.pieces mv.src ≠ 6 ∨ castleRook b.sideToMove mv.src mv.dst = none
  · exact shape_final_plain b mv s a c m kpU kpO hcr hk1 hk6 hsrc64 hdst64 ha hc hac h64 hm
      hka hkc hks hsrc hdst hep hp
  · have hk : b.pieces mv.src = 6 := by
      by_contra hk; exact hcr (Or.inl hk)
    obtain ⟨r, hr1⟩ : ∃ r, castleRook b.sideToMove mv.src mv.dst = some r := by
      cases h : castleRook b.sideToMove mv.src mv.dst with
      | none => exact absurd (Or.inr h) hcr
      | some r => exact ⟨r, rfl⟩
    have hrr := hr hk r hr1
    exact shape_final_castle b mv s a c m kpU kpO r hk hr1 hsrc64 hdst64 ha hc hac h64 hm
      hka hkc (hks hk) (fun e => (hsrc e).trans hk) hdst hrr.1 hrr.2


theorem kingPosition_congr (b b' : ChessBoard) (h1 : b'.whiteKingPosition = b.whiteKingPosition)
    (h2 : b'.blackKingPosition = b.blackKingPosition) (c : Color) :
    b'.kingPosition c = b.kingPosition c := by
  cases c
  · exact h1
  · exact h2

/-- The recorded king squares after the steps 1-7 of `doMove`. -/
theorem doMoveSteps_kings (pre : Bool) (T : Tables) (b : ChessBoard) (mv : ChessMove) :
    let b1 := doMoveEnPassant pre T b mv
    let b2 := doMoveMovePiece pre T b1 mv (b.pieces mv.src)
    let b3 := doMoveSpecial pre T b2 mv (b.pieces mv.src)
    let b4 := doMoveCapture pre T b3 mv (b1.pieces mv.dst)
    let b5 := doMovePromotion pre T b4 mv (b.pieces mv.src)
    b5.kingPosition b.sideToMove
        = (if b.pieces mv.src = KING then mv.dst else b.kingPosition b.sideToMove)
      ∧ b5.kingPosition b.sideToMove.flip = b.kingPosition b.sideToMove.flip := by
  intro b1 b2 b3 b4 b5
  obtain ⟨s1, w1, k1⟩ := doMoveEnPassant_scalars pre T b mv
  obtain ⟨s2, w2, k2⟩ := doMoveMovePiece_scalars pre T b1 mv (b.pieces mv.src)
  obtain ⟨s4, w4, k4⟩ := doMoveCapture_scalars pre T b3 mv (b1.pieces mv.dst)
  obtain ⟨s5, w5, k5⟩ := doMovePromotion_scalars pre T b4 mv (b.pieces mv.src)
  have e54 : ∀ c, b5.kingPosition c = b3.kingPosition c := fun c =>
    (kingPosition_congr b4 b5 w5 k5 c).trans (kingPosition_congr b3 b4 w4 k4 c)
  have e20 : ∀ c, b2.kingPosition c = b.kingPosition c := fun c =>
    (kingPosition_congr b1 b2 w2 k2 c).trans (kingPosition_congr b b1 w1 k1 c)
  have hs2 : b2.sideToMove = b.sideToMove := s2.trans s1
  rw [e54, e54]
  by_cases hk : b.pieces mv.src = KING
  · rw [if_pos hk]
    have h3 := doMoveSpecial_king_frame pre T b2 mv
    rw [hs2] at h3
    have hb3 : b3 = doMoveSpecial pre T b2 mv KING := by
      show doMoveSpecial pre T b2 mv (b.pieces mv.src) = _
      rw [hk]
    rw [hb3]
    exact ⟨h3.2.2.2.1, h3.2.2.2.2.trans (e20 _)⟩
  · rw [if_neg hk]
    obtain ⟨_, _, _, _, w3, k3⟩ := doMoveSpecial_arrays_other pre T b2 mv (b.pieces mv.src) hk
    exact ⟨(kingPosition_congr b2 b3 w3 k3 _).trans (e20 _),
      (kingPosition_congr b2 b3 w3 k3 _).trans (e20 _)⟩

/-- The steps 1-7 of `doMove` keep a board well shaped when the move is
playable and the en-passant square, if any, is a proper one. -/
theorem doMoveSteps_wellShaped (pre : Bool) (T : Tables) (b : ChessBoard) (mv : ChessMove)
    (hw : WellShaped b b.sideToMove) (hp : Playable b mv) (h7 : Invariant7 b) :
    WellShaped (doMovePromotion pre T
      (doMoveCapture pre T
        (doMoveSpecial pre T
          (doMoveMovePiece pre T (doMoveEnPassant pre T b mv) mv (b.pieces mv.src)) mv
          (b.pieces mv.src)) mv ((doMoveEnPassant pre T b mv).pieces mv.dst)) mv
      (b.pieces mv.src)) b.sideToMove := by
  obtain ⟨p1, p2, p3, p4, p5, p6, p7⟩ := hp
  -- the source square
  obtain ⟨as, cs, hs1, hs2, hs3, hs4, hs5, hs6, hs7, hs8⟩ := hw mv.src
  have has : as ≠ 0 := hs8.2.1.1 p3
  have hcs : cs = 0 := by omega
  have hks : b.pieces mv.src = as := by rw [hs5 p1]; omega
  have hk1 : 1 ≤ b.pieces mv.src := by omega
  have hk6 : b.pieces mv.src ≤ 6 := by omega
  have hxy : mv.src ≠ mv.dst := fun e => by rw [e, p4] at p3; exact Bool.noConfusion p3
  have hkU : b.pieces mv.src = KING → b.kingPosition b.sideToMove = mv.src := fun e =>
    (hs6.1 (by rw [← hks]; exact e)).symm
  -- the en-passant capture
  have hep : mv.dst = b.enPassant ∧ b.pieces mv.src = PAWN →
      enPassantVictim b ≠ mv.dst ∧ enPassantVictim b < 64
        ∧ (b.piecesOf b.sideToMove.flip PAWN).testBit (enPassantVictim b) = true
        ∧ b.pieces mv.dst = NO_PIECE := by
    rintro ⟨e, _⟩
    have hne : b.enPassant ≠ NO_SQUARE := by
      rw [← e]; simp only [NO_SQUARE]; omega
    obtain ⟨q1, q2, q3, q4, q5, _⟩ := h7 hne
    refine ⟨?_, q3, q5, by rw [e]; exact q4⟩
    rw [e]
    unfold enPassantVictim
    split_ifs <;> omega
  -- the destination square after step 1
  obtain ⟨ad, cd, hd1, hd2, hd3, hd4, hd5, hd6, hd7, hd8⟩ := hw mv.dst
  have had : ad = 0 := by
    by_contra h; have := hd8.2.1.2 h; rw [p4] at this; exact Bool.noConfusion this
  have hpd : b.pieces mv.dst = cd := by rw [hd5 p2]; omega
  have hc6 : (doMoveEnPassant pre T b mv).pieces mv.dst ≤ 6 := by
    have h1 := enPassant_shape pre T b mv b.sideToMove rfl mv.dst ad cd (b.pieces mv.dst)
      (fun h => (hep h).1)
      (fun h e => absurd e.symm (hep h).1)
      (fun h _ => by rw [← hpd]; exact (hep h).2.2.2) hd8
    have h2 : (doMoveEnPassant pre T b mv).pieces mv.dst = _ := h1.2.2.2.2
    rw [h2]
    split_ifs <;> omega
  intro s
  obtain ⟨a, c, g1, g2, g3, g4, g5, g6, g7, g8⟩ := hw s
  have hsrc : s = mv.src → a = b.pieces mv.src := by
    intro e
    have : a ≠ 0 := g8.2.1.1 (e ▸ p3)
    rw [← e, g5 (e ▸ p1)]; omega
  have hdst : s = mv.dst → a = 0 ∧ b.pieces s = c := by
    intro e
    have : a = 0 := by
      by_contra h; have := g8.2.1.2 h; rw [e, p4] at this; exact Bool.noConfusion this
    rw [g5 (e ▸ p2)]; omega
  have hdk : s = mv.dst → c ≠ KING := by
    intro e hc
    apply p5
    rw [← e, (hdst e).2]; exact hc
  have hv : mv.dst = b.enPassant ∧ b.pieces mv.src = PAWN → s = enPassantVictim b → c = PAWN :=
    fun h e => ((g8.2.2.1 PAWN (by simp) (by simp)).1 (e ▸ (hep h).2.2.1)).symm
  have hd : mv.dst = b.enPassant ∧ b.pieces mv.src = PAWN → s = mv.dst → c = 0 := by
    intro h e
    have h0 : b.pieces s = 0 := by rw [e]; exact (hep h).2.2.2
    rw [← (hdst e).2]; exact h0
  have hr : b.pieces mv.src = KING → ∀ r ∈ castleRook b.sideToMove mv.src mv.dst,
      (s = r.1 → a = ROOK) ∧ (s = r.2 → a = 0 ∧ c = 0) := by
    intro hk r hmem
    obtain ⟨t1, t2⟩ := p7 hk r hmem
    obtain ⟨_, _, _, _, _, _, n2⟩ := castleRook_some _ _ _ r (by simpa using hmem)
    constructor
    · intro e
      exact ((g8.1 ROOK (by simp) (by simp)).1 (e ▸ t1)).symm
    · intro e
      have : b.pieces s = 0 := by rw [e]; exact t2
      rw [g5 (e ▸ n2)] at this
      omega
  obtain ⟨_, _, _, _, h5, _, _⟩ := doMoveSteps_shape pre T b mv s a c (b.pieces s) hk1 hk6 hxy hc6
    (fun h => (p6 h).2) (fun h => (hep h).1) hv hd hsrc hdst
    (fun hk r hmem => ⟨(hr hk r hmem).1, fun e => ((hr hk r hmem).2 e).1⟩) g8
  have hm5 := h5.2.2.2.2
  obtain ⟨kU, kO⟩ := doMoveSteps_kings pre T b mv
  have fin := shape_final b mv s a c (b.pieces s) (b.kingPosition b.sideToMove)
    (b.kingPosition b.sideToMove.flip) hk1 hk6 p1 p2 g1 g2 g3 g4 g5 g6 g7 hkU hsrc
    (fun e => ⟨(hdst e).1, hdk e⟩)
    (fun h => ⟨(hep h).1, (hep h).2.1, hv h, hd h⟩) (fun h => (p6 h).2)
    (fun hk r hr1 => hr hk r (by simp [hr1]))
  obtain ⟨f1, f2, f3, f4, f5, f6, f7⟩ := fin
  refine ⟨_, _, f1, f2, f3, f4, fun e => hm5.trans (f5 e), ?_, ?_, ?_⟩
  · rw [kU]; exact f6
  · rw [kO]; exact f7
  · rw [hm5]; exact h5


theorem buildAttackBoards_struct (b : ChessBoard) :
    (buildAttackBoards b).whitePieces = b.whitePieces
    ∧ (buildAttackBoards b).blackPieces = b.blackPieces
    ∧ (buildAttackBoards b).pieces = b.pieces
    ∧ (buildAttackBoards b).allPieces = b.allPieces
    ∧ (buildAttackBoards b).whiteKingPosition = b.whiteKingPosition
    ∧ (buildAttackBoards b).blackKingPosition = b.blackKingPosition
    ∧ (buildAttackBoards b).sideToMove = b.sideToMove
    ∧ (buildAttackBoards b).enPassant = b.enPassant
    ∧ (buildAttackBoards b).castleRights = b.castleRights :=
  ⟨rfl, rfl, rfl, rfl, rfl, rfl, rfl, rfl, rfl⟩

theorem buildAttackBoards_scalars (b : ChessBoard) :
    (buildAttackBoards b).hashValue = b.hashValue
    ∧ (buildAttackBoards b).materialHashValue = b.materialHashValue
    ∧ (buildAttackBoards b).pawnHashValue = b.pawnHashValue
    ∧ (buildAttackBoards b).materialEvaluation = b.materialEvaluation
    ∧ (buildAttackBoards b).pstEvaluation = b.pstEvaluation :=
  ⟨rfl, rfl, rfl, rfl, rfl⟩

theorem doMoveFinish_struct (pre : Bool) (T : Tables) (b : ChessBoard) (e cr k c : Nat) :
    (doMoveFinish pre T b e cr k c).whitePieces = b.whitePieces
    ∧ (doMoveFinish pre T b e cr k c).blackPieces = b.blackPieces
    ∧ (doMoveFinish pre T b e cr k c).pieces = b.pieces
    ∧ (doMoveFinish pre T b e cr k c).allPieces = b.whitePieces ALL ||| b.blackPieces ALL
    ∧ (doMoveFinish pre T b e cr k c).whiteKingPosition = b.whiteKingPosition
    ∧ (doMoveFinish pre T b e cr k c).blackKingPosition = b.blackKingPosition
    ∧ (doMoveFinish pre T b e cr k c).sideToMove = b.sideToMove.flip
    ∧ (doMoveFinish pre T b e cr k c).enPassant = b.enPassant
    ∧ (doMoveFinish pre T b e cr k c).castleRights = b.castleRights := by
  unfold doMoveFinish
  cases pre <;> simp only [Bool.false_eq_true, if_false, if_true] <;>
    split_ifs <;> exact ⟨rfl, rfl, rfl, rfl, rfl, rfl, rfl, rfl, rfl⟩

theorem wellShaped_congr (b b' : ChessBoard) (us : Color)
    (h1 : b'.whitePieces = b.whitePieces) (h2 : b'.blackPieces = b.blackPieces)
    (h3 : b'.pieces = b.pieces) (h4 : b'.whiteKingPosition = b.whiteKingPosition)
    (h5 : b'.blackKingPosition = b.blackKingPosition) (h : WellShaped b us) :
    WellShaped b' us := by
  have hp : ∀ c, b'.piecesOf c = b.piecesOf c := by
    intro c; cases c
    · exact h1
    · exact h2
  intro s
  obtain ⟨a, c, hs⟩ := h s
  refine ⟨a, c, ?_⟩
  unfold SquareState HasShapeB at *
  rw [hp, hp, h3, kingPosition_congr b b' h4 h5, kingPosition_congr b b' h4 h5]
  exact hs

/-- The board `doMove` returns is well shaped, and its `allPieces` is the union
of the two `ALL` bitboards, when the move is playable on a well-shaped board
with a proper en-passant square. -/
theorem doMoveImplementation_wellShaped (pre : Bool) (T : Tables) (b : ChessBoard)
    (mv : ChessMove) (hw : WellShaped b b.sideToMove) (hp : Playable b mv)
    (h7 : Invariant7 b) :
    WellShaped (doMoveImplementation pre T b mv) b.sideToMove
      ∧ (doMoveImplementation pre T b mv).allPieces
          = (doMoveImplementation pre T b mv).whitePieces ALL
            ||| (doMoveImplementation pre T b mv).blackPieces ALL := by
  have h5 := doMoveSteps_wellShaped pre T b mv hw hp h7
  obtain ⟨a1, a2, a3, a4, a5, a6, _⟩ := buildAttackBoards_struct (doMoveCore pre T b mv)
  obtain ⟨f1, f2, f3, f4, f5, f6, _⟩ := doMoveFinish_struct pre T
    (doMovePromotion pre T
      (doMoveCapture pre T
        (doMoveSpecial pre T
          (doMoveMovePiece pre T (doMoveEnPassant pre T b mv) mv (b.pieces mv.src)) mv
          (b.pieces mv.src)) mv ((doMoveEnPassant pre T b mv).pieces mv.dst)) mv
      (b.pieces mv.src)) b.enPassant
    (doMoveMovePiece pre T (doMoveEnPassant pre T b mv) mv (b.pieces mv.src)).castleRights
    (b.pieces mv.src) ((doMoveEnPassant pre T b mv).pieces mv.dst)
  constructor
  · exact wellShaped_congr _ _ _ (a1.trans f1) (a2.trans f2) (a3.trans f3) (a5.trans f5)
      (a6.trans f6) h5
  · unfold doMoveImplementation
    rw [a4, a1, a2]
    show (doMoveFinish _ _ _ _ _ _ _).allPieces = (doMoveFinish _ _ _ _ _ _ _).whitePieces ALL
      ||| (doMoveFinish _ _ _ _ _ _ _).blackPieces ALL
    rw [f4, f1, f2]

/-- Structural soundness of `doMove`: on a board that satisfies invariants 1-4
and 7, whose mailbox names the kind each bitboard holds and whose bitboards
are 64-bit values, a playable move leads to a board with the same properties
(invariant 7 apart). -/
theorem doMove_structure (T : Tables) (b : ChessBoard) (mv : ChessMove)
    (h1 : Invariant1 b) (h2 : Invariant2 b) (h3 : Invariant3 b) (h4 : Invariant4 b)
    (hm : MailboxAgrees b) (h64 : Board64 b) (h7 : Invariant7 b) (hp : Playable b mv) :
    Invariant1 (doMove T b mv) ∧ Invariant2 (doMove T b mv) ∧ Invariant3 (doMove T b mv)
      ∧ Invariant4 (doMove T b mv) ∧ MailboxAgrees (doMove T b mv)
      ∧ Board64 (doMove T b mv) := by
  obtain ⟨hw, hall⟩ := doMoveImplementation_wellShaped true T b mv
    (wellShaped_of_invariants b h1 h2 h3 h4 hm h64 b.sideToMove) hp h7
  exact invariants_of_wellShaped _ _ hw hall


/-! ### The en-passant square after `doMove` -/

/-- The claim's double-push test of step 5: `src - dst == 16` for White,
`dst - src == 16` for Black. -/
theorem doMoveSpecial_enPassant (pre : Bool) (T : Tables) (b : ChessBoard) (mv : ChessMove)
    (k : Nat) :
    (doMoveSpecial pre T b mv k).enPassant =
      if k = PAWN ∧ (if b.sideToMove = Color.WHITE then mv.src = mv.dst + 16
            else mv.src + 16 = mv.dst)
          ∧ EnPassant mv.src &&& b.piecesOf b.sideToMove.flip PAWN ≠ EmptyBitboard then
        (if b.sideToMove = Color.WHITE then mv.src - 8 else mv.src + 8)
      else b.enPassant := by
  by_cases hk : k = KING
  · subst hk
    rw [(doMoveSpecial_king_frame pre T b mv).2.2.1]
    simp
  · by_cases h1 : k = PAWN
    · subst h1
      unfold doMoveSpecial
      cases hs : b.sideToMove <;> cases pre <;>
        simp [ChessBoard.piecesOf, Color.flip] <;> split_ifs <;> simp_all
    · have h1' : ¬ (k = 1) := h1
      have hk' : ¬ (k = 6) := hk
      unfold doMoveSpecial
      by_cases h4 : k = 4
      · subst h4
        simp
        split_ifs <;> rfl
      · simp [h1', h4, hk']


theorem doMoveCapture_enPassant (pre : Bool) (T : Tables) (b : ChessBoard) (mv : ChessMove)
    (c : Nat) : (doMoveCapture pre T b mv c).enPassant = b.enPassant := by
  by_cases hc : c = NO_PIECE
  · subst hc; rw [doMoveCapture_skip]
  · exact (doMoveCapture_arrays pre T b mv c hc).2.2.2.2.1

theorem doMovePromotion_enPassant (pre : Bool) (T : Tables) (b : ChessBoard) (mv : ChessMove)
    (k : Nat) : (doMovePromotion pre T b mv k).enPassant = b.enPassant := by
  by_cases hc : k = PAWN ∧ mv.promotionPiece ≠ NO_PIECE
  · exact (doMovePromotion_arrays pre T b mv k hc).2.2.2.2.1
  · rw [doMovePromotion_skip pre T b mv k hc]

/-- The en-passant square `doMove` leaves behind: set by step 5 for a pawn
whose source and destination are 16 apart when `EnPassant[src]` meets an enemy
pawn, and `NO_SQUARE` otherwise. -/
theorem doMoveImplementation_enPassant (pre : Bool) (T : Tables) (b : ChessBoard)
    (mv : ChessMove) :
    (doMoveImplementation pre T b mv).enPassant =
      if b.pieces mv.src = PAWN ∧ (if b.sideToMove = Color.WHITE then mv.src = mv.dst + 16
            else mv.src + 16 = mv.dst)
          ∧ EnPassant mv.src &&& (doMoveEnPassant pre T b mv).piecesOf b.sideToMove.flip PAWN
              ≠ EmptyBitboard then
        (if b.sideToMove = Color.WHITE then mv.src - 8 else mv.src + 8)
      else NO_SQUARE := by
  have h0 : (doMoveImplementation pre T b mv).enPassant
      = (doMovePromotion pre T
          (doMoveCapture pre T
            (doMoveSpecial pre T
              (doMoveMovePiece pre T (doMoveEnPassant pre T b mv) mv (b.pieces mv.src)) mv
              (b.pieces mv.src)) mv ((doMoveEnPassant pre T b mv).pieces mv.dst)) mv
          (b.pieces mv.src)).enPassant :=
    (doMoveFinish_struct pre T _ _ _ _ _).2.2.2.2.2.2.2.1
  rw [h0, doMovePromotion_enPassant, doMoveCapture_enPassant, doMoveSpecial_enPassant]
  obtain ⟨_, e2, _, e4, _, e6, _, _⟩ := doMoveMovePiece_arrays pre T
    (doMoveEnPassant pre T b mv) mv (b.pieces mv.src)
  have s1 := (doMoveEnPassant_scalars pre T b mv).1
  rw [s1] at e2 e4
  rw [e4, e2, e6]


theorem piecesOf_congr (b b' : ChessBoard) (h1 : b'.whitePieces = b.whitePieces)
    (h2 : b'.blackPieces = b.blackPieces) (c : Color) : b'.piecesOf c = b.piecesOf c := by
  cases c
  · exact h1
  · exact h2

theorem relocateBits_testBit (a : Nat → Nat) (k x y j i : Nat) (hx : i ≠ x) (hy : i ≠ y) :
    (relocateBits a k x y j).testBit i = (a j).testBit i := by
  have hx' : ¬ (x = i) := fun e => hx e.symm
  have hy' : ¬ (y = i) := fun e => hy e.symm
  simp only [relocateBits, setAt]
  split_ifs <;> subst_vars <;> simp [testBit_OneShiftedBy, hx', hy']

theorem removeBits_testBit (a : Nat → Nat) (k y j i : Nat) (hy : i ≠ y) :
    (removeBits a k y j).testBit i = (a j).testBit i := by
  have hy' : ¬ (y = i) := fun e => hy e.symm
  simp only [removeBits, setAt]
  split_ifs <;> subst_vars <;> simp [testBit_OneShiftedBy, hy']

theorem doMoveEnPassant_other_bit (pre : Bool) (T : Tables) (b : ChessBoard) (mv : ChessMove)
    (j i : Nat) (hd : i ≠ mv.dst)
    (hv : mv.dst = b.enPassant ∧ b.pieces mv.src = PAWN → i ≠ enPassantVictim b) :
    ((doMoveEnPassant pre T b mv).piecesOf b.sideToMove.flip j).testBit i
      = (b.piecesOf b.sideToMove.flip j).testBit i := by
  by_cases hep : mv.dst = b.enPassant ∧ b.pieces mv.src = PAWN
  · rw [(doMoveEnPassant_arrays pre T b mv hep).2.1]
    exact relocateBits_testBit _ _ _ _ _ _ (hv hep) hd
  · rw [doMoveEnPassant_skip pre T b mv hep]

/-- Away from the destination square `doMove` leaves the bitboards of the side
that does not move as they are after step 1. -/
theorem doMoveImplementation_other_bit (pre : Bool) (T : Tables) (b : ChessBoard)
    (mv : ChessMove) (j i : Nat) (hd : i ≠ mv.dst) :
    ((doMoveImplementation pre T b mv).piecesOf b.sideToMove.flip j).testBit i
      = ((doMoveEnPassant pre T b mv).piecesOf b.sideToMove.flip j).testBit i := by
  have key : ∀ (b1 b2 b3 b4 b5 b6 : ChessBoard), b1 = doMoveEnPassant pre T b mv →
      b2 = doMoveMovePiece pre T b1 mv (b.pieces mv.src) →
      b3 = doMoveSpecial pre T b2 mv (b.pieces mv.src) →
      b4 = doMoveCapture pre T b3 mv (b1.pieces mv.dst) →
      b5 = doMovePromotion pre T b4 mv (b.pieces mv.src) →
      b6 = doMoveFinish pre T b5 b.enPassant b2.castleRights (b.pieces mv.src)
        (b1.pieces mv.dst) →
      ((buildAttackBoards b6).piecesOf b.sideToMove.flip j).testBit i
        = (b1.piecesOf b.sideToMove.flip j).testBit i := by
    intro b1 b2 b3 b4 b5 b6 h1 h2 h3 h4 h5 h6
    have s1 : b1.sideToMove = b.sideToMove := by
      rw [h1]; exact (doMoveEnPassant_scalars pre T b mv).1
    have s2 : b2.sideToMove = b.sideToMove := by
      rw [h2]; exact (doMoveMovePiece_scalars pre T b1 mv _).1.trans s1
    have s3 : b3.sideToMove = b.sideToMove := by
      rw [h3]; exact (doMoveSpecial_side pre T b2 mv _).trans s2
    have s4 : b4.sideToMove = b.sideToMove := by
      rw [h4]; exact (doMoveCapture_scalars pre T b3 mv _).1.trans s3
    have e2 : b2.piecesOf b.sideToMove.flip = b1.piecesOf b.sideToMove.flip := by
      have := (doMoveMovePiece_arrays pre T b1 mv (b.pieces mv.src)).2.1
      rw [s1, ← h2] at this
      exact this
    have e3 : b3.piecesOf b.sideToMove.flip = b2.piecesOf b.sideToMove.flip := by
      by_cases hk : b.pieces mv.src = KING
      · have := (doMoveSpecial_king_frame pre T b2 mv).1
        rw [s2, ← hk, ← h3] at this
        exact this
      · obtain ⟨w, k, _⟩ := doMoveSpecial_arrays_other pre T b2 mv (b.pieces mv.src) hk
        rw [← h3] at w k
        exact piecesOf_congr b2 b3 w k _
    have e4 : (b4.piecesOf b.sideToMove.flip j).testBit i
        = (b3.piecesOf b.sideToMove.flip j).testBit i := by
      by_cases hc : b1.pieces mv.dst = NO_PIECE
      · rw [h4, hc, doMoveCapture_skip]
      · have := (doMoveCapture_arrays pre T b3 mv _ hc).2.1
        rw [s3, ← h4] at this
        rw [this]
        exact removeBits_testBit _ _ _ _ _ hd
    have e5 : b5.piecesOf b.sideToMove.flip = b4.piecesOf b.sideToMove.flip := by
      by_cases hc : b.pieces mv.src = PAWN ∧ mv.promotionPiece ≠ NO_PIECE
      · have := (doMovePromotion_arrays pre T b4 mv _ hc).2.1
        rw [s4, ← h5] at this
        exact this
      · rw [h5, doMovePromotion_skip pre T b4 mv _ hc]
    obtain ⟨f1, f2, _⟩ := doMoveFinish_struct pre T b5 b.enPassant b2.castleRights
      (b.pieces mv.src) (b1.pieces mv.dst)
    rw [← h6] at f1 f2
    have e6 : (buildAttackBoards b6).piecesOf b.sideToMove.flip
        = b5.piecesOf b.sideToMove.flip := piecesOf_congr b5 (buildAttackBoards b6) f1 f2 _
    rw [e6, e5, e4, e3, e2]
  exact key _ _ _ _ _ _ rfl rfl rfl rfl rfl rfl


theorem enPassant_table_white : ∀ src < 64, getRank src = 6 →
    EnPassant src = WhitePawnCaptures (src - 8)
      ∧ ∀ i < 64, ((EnPassant src).testBit i = true
          ↔ getRank i = getRank (src - 16) ∧ (i + 1 = src - 16 ∨ src - 16 + 1 = i)) := by
  decide!

theorem enPassant_table_black : ∀ src < 64, getRank src = 1 →
    EnPassant src = BlackPawnCaptures (src + 8)
      ∧ ∀ i < 64, ((EnPassant src).testBit i = true
          ↔ getRank i = getRank (src + 16) ∧ (i + 1 = src + 16 ∨ src + 16 + 1 = i)) := by
  decide!

theorem pawnReach_twoStep : ∀ src < 64,
    ((pawnReach Color.WHITE src).testBit (src - 16) = true → 16 ≤ src → getRank src = 6)
      ∧ ((pawnReach Color.BLACK src).testBit (src + 16) = true → getRank src = 1) := by
  decide!

theorem enPassant_lt : ∀ s < 64, EnPassant s < 2 ^ 64 := by decide!


/-- For a double push, `EnPassant[src]` meets the enemy pawns (as they are
after step 1) exactly when an enemy pawn stands beside the destination. -/
theorem enPassantPieces_iff (pre : Bool) (T : Tables) (b : ChessBoard) (m : ChessMove)
    (hd : isDoublePush b m) :
    (EnPassant m.src &&& (doMoveEnPassant pre T b m).piecesOf b.sideToMove.flip PAWN
        ≠ EmptyBitboard ↔ adjacentEnemyPawn b m)
      ∧ ∀ i, (EnPassant m.src).testBit i = true → i ≠ m.dst := by
  obtain ⟨hk, hr⟩ := hd
  have hfacts : m.src < 64 ∧ ∀ i, (EnPassant m.src).testBit i = true ↔
      (i < 64 ∧ getRank i = getRank m.dst ∧ (i + 1 = m.dst ∨ m.dst + 1 = i)) := by
    cases hs : b.sideToMove
    · rw [hs] at hr
      simp only [if_true, Rank_2] at hr
      have h64 : m.src < 64 := by unfold getRank at hr; omega
      have hdst : m.dst = m.src - 16 := by omega
      refine ⟨h64, fun i => ?_⟩
      by_cases hi : i < 64
      · rw [((enPassant_table_white m.src h64 hr.1).2 i hi), hdst]
        simp [hi]
      · rw [testBit_of_lt_two_pow64 _ _ (enPassant_lt m.src h64) (by omega)]
        simp [hi]
    · rw [hs] at hr
      simp only [reduceCtorEq, if_false, Rank_7] at hr
      have h64 : m.src < 64 := by unfold getRank at hr; omega
      have hdst : m.dst = m.src + 16 := by omega
      refine ⟨h64, fun i => ?_⟩
      by_cases hi : i < 64
      · rw [((enPassant_table_black m.src h64 hr.1).2 i hi), hdst]
        simp [hi]
      · rw [testBit_of_lt_two_pow64 _ _ (enPassant_lt m.src h64) (by omega)]
        simp [hi]
  obtain ⟨h64, hE⟩ := hfacts
  have hne : ∀ i, (EnPassant m.src).testBit i = true → i ≠ m.dst := by
    intro i hi e
    have := (hE i).1 hi
    omega
  have hnv : ∀ i, (EnPassant m.src).testBit i = true →
      m.dst = b.enPassant ∧ b.pieces m.src = PAWN → i ≠ enPassantVictim b := by
    intro i hi hep e
    obtain ⟨_, h2, _⟩ := (hE i).1 hi
    rw [e, hep.1] at h2
    unfold enPassantVictim getRank at h2
    cases hs : b.sideToMove
    · rw [hs] at h2
      simp only [if_true] at h2
      omega
    · rw [hs] at h2 hr
      simp only [reduceCtorEq, if_false] at h2 hr
      have : 16 ≤ b.enPassant := by rw [← hep.1]; omega
      omega
  refine ⟨?_, hne⟩
  change EnPassant m.src &&& (doMoveEnPassant pre T b m).piecesOf b.sideToMove.flip PAWN ≠ 0 ↔ _
  rw [and_ne_zero_iff]
  unfold adjacentEnemyPawn
  constructor
  · rintro ⟨i, h1, h2⟩
    rw [doMoveEnPassant_other_bit pre T b m PAWN i (hne i h1) (hnv i h1)] at h2
    obtain ⟨g1, g2, g3⟩ := (hE i).1 h1
    exact ⟨i, g1, g2, g3, h2⟩
  · rintro ⟨i, g1, g2, g3, h2⟩
    have h1 := (hE i).2 ⟨g1, g2, g3⟩
    refine ⟨i, h1, ?_⟩
    rw [doMoveEnPassant_other_bit pre T b m PAWN i (hne i h1) (hnv i h1)]
    exact h2


theorem doMoveImplementation_sideToMove (pre : Bool) (T : Tables) (b : ChessBoard)
    (mv : ChessMove) : (doMoveImplementation pre T b mv).sideToMove = b.sideToMove.flip := by
  have h : (doMoveImplementation pre T b mv).sideToMove
      = (doMovePromotion pre T
          (doMoveCapture pre T
            (doMoveSpecial pre T
              (doMoveMovePiece pre T (doMoveEnPassant pre T b mv) mv (b.pieces mv.src)) mv
              (b.pieces mv.src)) mv ((doMoveEnPassant pre T b mv).pieces mv.dst)) mv
          (b.pieces mv.src)).sideToMove.flip :=
    (doMoveFinish_struct pre T _ _ _ _ _).2.2.2.2.2.2.1
  rw [h, (doMovePromotion_scalars pre T _ mv _).1, (doMoveCapture_scalars pre T _ mv _).1,
    doMoveSpecial_side, (doMoveMovePiece_scalars pre T _ mv _).1,
    (doMoveEnPassant_scalars pre T b mv).1]


/-- C7: the en-passant square after `doMove`.  For a move from a square of the
board whose pawn, if it moves one, moves like a pawn: after a pawn double push
the en-passant square is the pass-through square exactly when an enemy pawn
stands on a square horizontally adjacent to the destination (and `NO_SQUARE`
when none does); after every other move it is `NO_SQUARE`; and whenever it is
not `NO_SQUARE`, a pawn of the new side to move pseudo-attacks it. -/
theorem doMove_enPassant_rule (T : Tables) (b : ChessBoard) (m : ChessMove)
    (hsrc : m.src < 64)
    (hp : b.pieces m.src = PAWN → (pawnReach b.sideToMove m.src).testBit m.dst = true) :
    (isDoublePush b m →
        ((doMove T b m).enPassant = passThroughSquare b m ↔ adjacentEnemyPawn b m)
          ∧ (¬ adjacentEnemyPawn b m → (doMove T b m).enPassant = NO_SQUARE))
      ∧ (¬ isDoublePush b m → (doMove T b m).enPassant = NO_SQUARE)
      ∧ ((doMove T b m).enPassant ≠ NO_SQUARE →
          enPassantCapturers (doMove T b m) ≠ EmptyBitboard) := by
  have hep := doMoveImplementation_enPassant true T b m
  have hdp : (b.pieces m.src = PAWN ∧ (if b.sideToMove = Color.WHITE then m.src = m.dst + 16
      else m.src + 16 = m.dst)) ↔ isDoublePush b m := by
    unfold isDoublePush
    constructor
    · rintro ⟨hk, h2⟩
      refine ⟨hk, ?_⟩
      have hreach := hp hk
      cases hs : b.sideToMove
      · rw [hs] at h2 hreach
        simp only [if_true] at h2 ⊢
        have hd : m.dst = m.src - 16 := by omega
        rw [hd] at hreach
        exact ⟨(pawnReach_twoStep m.src hsrc).1 hreach (by omega), h2⟩
      · rw [hs] at h2 hreach
        simp only [reduceCtorEq, if_false] at h2 ⊢
        rw [← h2] at hreach
        exact ⟨(pawnReach_twoStep m.src hsrc).2 hreach, h2⟩
    · rintro ⟨hk, h2⟩
      refine ⟨hk, ?_⟩
      cases hs : b.sideToMove
      · rw [hs] at h2; simp only [if_true] at h2 ⊢; exact h2.2
      · rw [hs] at h2; simp only [reduceCtorEq, if_false] at h2 ⊢; exact h2.2
  have hpass : isDoublePush b m → passThroughSquare b m ≠ NO_SQUARE := by
    rintro ⟨_, h2⟩
    unfold passThroughSquare
    unfold getRank at h2
    simp only [NO_SQUARE, Rank_2, Rank_7] at h2 ⊢
    split_ifs at h2 ⊢ <;> omega
  have hpass' : (if b.sideToMove = Color.WHITE then m.src - 8 else m.src + 8)
      = passThroughSquare b m := rfl
  rw [hpass'] at hep
  have hno : ¬ isDoublePush b m → (doMove T b m).enPassant = NO_SQUARE := by
    intro hnd
    change (doMoveImplementation true T b m).enPassant = NO_SQUARE
    rw [hep, if_neg]
    rintro ⟨h1, h2, _⟩
    exact hnd (hdp.1 ⟨h1, h2⟩)
  have hyes : ∀ hd : isDoublePush b m,
      ((doMove T b m).enPassant = if adjacentEnemyPawn b m then passThroughSquare b m
        else NO_SQUARE) := by
    intro hd
    obtain ⟨h1, h2⟩ := hdp.2 hd
    have hiff := (enPassantPieces_iff true T b m hd).1
    change (doMoveImplementation true T b m).enPassant = _
    rw [hep]
    by_cases ha : adjacentEnemyPawn b m
    · rw [if_pos ⟨h1, h2, hiff.2 ha⟩, if_pos ha]
    · rw [if_neg (fun h => ha (hiff.1 h.2.2)), if_neg ha]
  refine ⟨fun hd => ⟨⟨fun e => ?_, fun ha => ?_⟩, fun ha => ?_⟩, hno, fun hne => ?_⟩
  · by_contra ha
    rw [hyes hd, if_neg ha] at e
    exact hpass hd e.symm
  · rw [hyes hd, if_pos ha]
  · rw [hyes hd, if_neg ha]
  · have hd : isDoublePush b m := by
      by_contra hnd; exact hne (hno hnd)
    have ha : adjacentEnemyPawn b m := by
      by_contra ha
      apply hne
      rw [hyes hd, if_neg ha]
    have hval : (doMove T b m).enPassant = passThroughSquare b m := by
      rw [hyes hd, if_pos ha]
    obtain ⟨hiff, hnd⟩ := enPassantPieces_iff true T b m hd
    have hnz := hiff.2 ha
    change EnPassant m.src &&& _ ≠ 0 at hnz
    rw [and_ne_zero_iff] at hnz
    obtain ⟨i, hi1, hi2⟩ := hnz
    have hside : (doMove T b m).sideToMove = b.sideToMove.flip :=
      doMoveImplementation_sideToMove true T b m
    have hbit : ((doMove T b m).piecesOf b.sideToMove.flip PAWN).testBit i = true := by
      change ((doMoveImplementation true T b m).piecesOf b.sideToMove.flip PAWN).testBit i = true
      rw [doMoveImplementation_other_bit true T b m PAWN i (hnd i hi1)]
      exact hi2
    unfold enPassantCapturers
    rw [hside, hval]
    change _ &&& _ ≠ 0
    rw [and_ne_zero_iff]
    refine ⟨i, ?_, hbit⟩
    obtain ⟨hk, hr⟩ := hd
    unfold passThroughSquare
    cases hs : b.sideToMove
    · rw [hs] at hr
      simp only [if_true, Rank_2] at hr
      simp only [Color.flip, reduceCtorEq, if_false, if_true]
      rw [← (enPassant_table_white m.src hsrc hr.1).1]
      exact hi1
    · rw [hs] at hr
      simp only [reduceCtorEq, if_false, Rank_7] at hr
      simp only [Color.flip, reduceCtorEq, if_false, if_true]
      rw [← (enPassant_table_black m.src hsrc hr.1).1]
      exact hi1


theorem doMove_enPassant_rule_witness :
    ({ ordinal := 0, src := 51, dst := 35, promotionPiece := NO_PIECE } : ChessMove).src < 64
    ∧ ((initFromFen zeroTables "rnbqkbnr/pppp1ppp/8/8/4p3/8/PPPPPPPP/RNBQKBNR w KQkq - 0 1").pieces
          51 = PAWN →
        (pawnReach
          (initFromFen zeroTables
            "rnbqkbnr/pppp1ppp/8/8/4p3/8/PPPPPPPP/RNBQKBNR w KQkq - 0 1").sideToMove
          51).testBit 35 = true)
    ∧ isDoublePush
        (initFromFen zeroTables "rnbqkbnr/pppp1ppp/8/8/4p3/8/PPPPPPPP/RNBQKBNR w KQkq - 0 1")
        { ordinal := 0, src := 51, dst := 35, promotionPiece := NO_PIECE }
    ∧ adjacentEnemyPawn
        (initFromFen zeroTables "rnbqkbnr/pppp1ppp/8/8/4p3/8/PPPPPPPP/RNBQKBNR w KQkq - 0 1")
        { ordinal := 0, src := 51, dst := 35, promotionPiece := NO_PIECE }
    ∧ (doMove zeroTables
        (initFromFen zeroTables "rnbqkbnr/pppp1ppp/8/8/4p3/8/PPPPPPPP/RNBQKBNR w KQkq - 0 1")
        { ordinal := 0, src := 51, dst := 35, promotionPiece := NO_PIECE }).enPassant
        = passThroughSquare
            (initFromFen zeroTables
              "rnbqkbnr/pppp1ppp/8/8/4p3/8/PPPPPPPP/RNBQKBNR w KQkq - 0 1")
            { ordinal := 0, src := 51, dst := 35, promotionPiece := NO_PIECE }
    ∧ enPassantCapturers (doMove zeroTables
        (initFromFen zeroTables "rnbqkbnr/pppp1ppp/8/8/4p3/8/PPPPPPPP/RNBQKBNR w KQkq - 0 1")
        { ordinal := 0, src := 51, dst := 35, promotionPiece := NO_PIECE }) ≠ EmptyBitboard :=
  ⟨by decide, by decide!, by decide!, by decide!,
   ((doMove_enPassant_rule zeroTables
      (initFromFen zeroTables "rnbqkbnr/pppp1ppp/8/8/4p3/8/PPPPPPPP/RNBQKBNR w KQkq - 0 1")
      { ordinal := 0, src := 51, dst := 35, promotionPiece := NO_PIECE }
      (by decide) (by decide!)).1 (by decide!)).1.2 (by decide!),
   by decide!⟩


/-! ### Folds of a commutative operation over the squares of a bitboard -/

theorem foldl_op_comm {α : Type} (op : α → α → α)
    (hassoc : ∀ x y z, op (op x y) z = op x (op y z)) (hcomm : ∀ x y, op x y = op y x)
    (f : Nat → α) (l : List Nat) (h a : α) :
    l.foldl (fun acc s => op acc (f s)) (op h a) = op (l.foldl (fun acc s => op acc (f s)) h) a := by
  induction l generalizing h with
  | nil => rfl
  | cons x t ih =>
    simp only [List.foldl_cons]
    have : op (op h a) (f x) = op (op h (f x)) a := by
      rw [hassoc, hcomm a, ← hassoc]
    rw [this, ih]

theorem foldl_filter_congr {α : Type} (g : α → Nat → α) (l : List Nat) (p p' : Nat → Bool)
    (hp : ∀ x ∈ l, p' x = p x) (h : α) :
    (l.filter p').foldl g h = (l.filter p).foldl g h := by
  rw [List.filter_congr hp]

/-- Adding the square `s` to the set a fold runs over adds `f s` to the result. -/
theorem foldl_filter_insert {α : Type} (op : α → α → α)
    (hassoc : ∀ x y z, op (op x y) z = op x (op y z)) (hcomm : ∀ x y, op x y = op y x)
    (f : Nat → α) (l : List Nat) (hnd : l.Nodup) (p p' : Nat → Bool) (s : Nat) (hs : s ∈ l)
    (hps : p s = false) (hp' : ∀ x ∈ l, p' x = (p x || decide (x = s))) (h : α) :
    (l.filter p').foldl (fun acc s => op acc (f s)) h
      = op ((l.filter p).foldl (fun acc s => op acc (f s)) h) (f s) := by
  induction l generalizing h with
  | nil => exact absurd hs (List.not_mem_nil s)
  | cons x t ih =>
    have hndt : t.Nodup := (List.nodup_cons.1 hnd).2
    have hxt : x ∉ t := (List.nodup_cons.1 hnd).1
    by_cases hx : x = s
    · subst hx
      have h1 : p' x = true := by rw [hp' x (List.mem_cons_self _ _)]; simp
      have h2 : ∀ y ∈ t, p' y = p y := by
        intro y hy
        rw [hp' y (List.mem_cons_of_mem _ hy)]
        have : y ≠ x := fun e => hxt (e ▸ hy)
        simp [this]
      rw [List.filter_cons_of_pos h1, List.filter_cons_of_neg (by simp [hps]),
        List.foldl_cons, foldl_op_comm op hassoc hcomm, List.filter_congr h2]
    · have hst : s ∈ t := by
        rcases List.mem_cons.1 hs with e | e
        · exact absurd e.symm hx
        · exact e
      have h1 : p' x = p x := by
        rw [hp' x (List.mem_cons_self _ _)]; simp [hx]
      have ih' := ih hndt hst (fun y hy => hp' y (List.mem_cons_of_mem _ hy))
      by_cases hpx : p x = true
      · rw [List.filter_cons_of_pos (h1.trans hpx), List.filter_cons_of_pos hpx,
          List.foldl_cons, List.foldl_cons, ih']
      · rw [List.filter_cons_of_neg (by rw [h1]; exact hpx), List.filter_cons_of_neg hpx, ih']

/-- The fold over the squares of a bitboard that gains the square `s`. -/
theorem squares_fold_insert {α : Type} (op : α → α → α)
    (hassoc : ∀ x y z, op (op x y) z = op x (op y z)) (hcomm : ∀ x y, op x y = op y x)
    (f : Nat → α) (bb bb' s : Nat) (hs : s < 64) (hbit : bb.testBit s = false)
    (hbb : ∀ i < 64, bb'.testBit i = (bb.testBit i || decide (i = s))) (h : α) :
    (squaresOf bb').foldl (fun acc s => op acc (f s)) h
      = op ((squaresOf bb).foldl (fun acc s => op acc (f s)) h) (f s) := by
  unfold squaresOf
  exact foldl_filter_insert op hassoc hcomm f (List.range 64) (List.nodup_range 64)
    (fun s => bb.testBit s) (fun s => bb'.testBit s) s (List.mem_range.2 hs) hbit
    (fun x hx => hbb x (List.mem_range.1 hx)) h

theorem popCount_eq_fold (bb : Nat) :
    popCount bb = (squaresOf bb).foldl (fun acc _ => acc + 1) 0 := by
  unfold popCount
  generalize squaresOf bb = l
  have : ∀ (l : List Nat) (n : Nat), l.foldl (fun acc _ => acc + 1) n = n + l.length := by
    intro l
    induction l with
    | nil => intro n; rfl
    | cons x t ih => intro n; rw [List.foldl_cons, ih, List.length_cons]; omega
  rw [this]; omega

theorem popCount_insert (bb bb' s : Nat) (hs : s < 64) (hbit : bb.testBit s = false)
    (hbb : ∀ i < 64, bb'.testBit i = (bb.testBit i || decide (i = s))) :
    popCount bb' = popCount bb + 1 := by
  rw [popCount_eq_fold, popCount_eq_fold]
  exact squares_fold_insert (fun x y => x + y) Nat.add_assoc Nat.add_comm (fun _ => 1) bb bb' s
    hs hbit hbb 0

theorem popCount_congr (bb bb' : Nat) (hbb : ∀ i < 64, bb'.testBit i = bb.testBit i) :
    popCount bb' = popCount bb := by
  unfold popCount squaresOf
  rw [List.filter_congr (fun x hx => hbb x (List.mem_range.1 hx))]


/-! ### Folds over the piece kinds and the squares of their bitboards -/

theorem kinds_fold_acc {α : Type} (op : α → α → α)
    (hassoc : ∀ x y z, op (op x y) z = op x (op y z)) (hcomm : ∀ x y, op x y = op y x)
    (f : Nat → Nat → α) (l : List Nat) (arr : Nat → Nat) (h a : α) :
    l.foldl (fun acc j => (squaresOf (arr j)).foldl (fun acc s => op acc (f j s)) acc) (op h a)
      = op (l.foldl (fun acc j => (squaresOf (arr j)).foldl (fun acc s => op acc (f j s)) acc)
          h) a := by
  induction l generalizing h with
  | nil => rfl
  | cons x t ih =>
    simp only [List.foldl_cons]
    rw [foldl_op_comm op hassoc hcomm (f x), ih]

theorem kinds_terms_congr {α : Type} (op : α → α → α) (g g' : Nat → α) (l : List Nat)
    (ho : ∀ j ∈ l, g' j = g j) (h : α) :
    l.foldl (fun acc j => op acc (g' j)) h = l.foldl (fun acc j => op acc (g j)) h := by
  apply List.foldl_ext
  intro acc j hj
  rw [ho j hj]


/-! ### The recomputing functions colour by colour -/

theorem xor_balance (a b u v : Nat) (h : a ^^^ u = b ^^^ v) : a = b ^^^ v ^^^ u := by
  rw [← h, Nat.xor_assoc, Nat.xor_self, Nat.xor_zero]

theorem xor_left_comm' (a b c : Nat) : a ^^^ (b ^^^ c) = b ^^^ (a ^^^ c) := by
  rw [← Nat.xor_assoc, Nat.xor_comm a b, Nat.xor_assoc]

theorem calculateHash_eq (T : Tables) (b : ChessBoard) :
    calculateHash T b
      = ((pieceHashSide T Color.WHITE b.whitePieces ^^^ pieceHashSide T Color.BLACK b.blackPieces)
          ^^^ T.CastleRightsHashValues b.castleRights
          ^^^ (if b.sideToMove = Color.WHITE then T.WhiteToMoveHash else EmptyHash))
        ^^^ (if b.enPassant ≠ NO_SQUARE then T.EnPassantHashValues b.enPassant else 0) := by
  have h : pieceKinds.foldl (fun acc piece =>
        xorSquares T Color.BLACK piece (b.piecesOf Color.BLACK piece) acc)
        (pieceKinds.foldl (fun acc piece =>
          xorSquares T Color.WHITE piece (b.piecesOf Color.WHITE piece) acc) EmptyHash)
      = pieceHashSide T Color.WHITE b.whitePieces ^^^ pieceHashSide T Color.BLACK b.blackPieces := by
    have := kinds_fold_acc (fun x y => x ^^^ y) Nat.xor_assoc Nat.xor_comm
      (fun j s => T.PieceHashValues Color.BLACK j s) pieceKinds b.blackPieces 0
      (pieceHashSide T Color.WHITE b.whitePieces)
    rw [Nat.zero_xor] at this
    rw [Nat.xor_comm]
    exact this
  unfold calculateHash
  simp only [List.foldl_cons, List.foldl_nil]
  rw [h]
  split_ifs <;> simp

theorem xor_defect_own (s s' H H' O u v : Nat) (hs : s' = s ^^^ u ^^^ v)
    (hH : H' ^^^ u = H ^^^ v) : s' ^^^ (H' ^^^ O) = s ^^^ (H ^^^ O) := by
  rw [hs, xor_balance _ _ _ _ hH]
  simp only [Nat.xor_assoc, Nat.xor_comm, xor_left_comm', Nat.xor_self, Nat.xor_zero,
    Nat.zero_xor, Nat.xor_cancel_left]

theorem xor_defect_other (s s' H H' O u v : Nat) (hs : s' = s ^^^ u ^^^ v)
    (hH : H' ^^^ u = H ^^^ v) : s' ^^^ (O ^^^ H') = s ^^^ (O ^^^ H) := by
  rw [Nat.xor_comm O, Nat.xor_comm O]
  exact xor_defect_own s s' H H' O u v hs hH

theorem doMoveEnPassant_castleRights (pre : Bool) (T : Tables) (b : ChessBoard)
    (mv : ChessMove) : (doMoveEnPassant pre T b mv).castleRights = b.castleRights := by
  by_cases hep : mv.dst = b.enPassant ∧ b.pieces mv.src = PAWN
  · exact (doMoveEnPassant_arrays pre T b mv hep).2.2.2.2.1
  · rw [doMoveEnPassant_skip pre T b mv hep]

theorem PieceMoves_lt : ∀ k ≤ 7, ∀ s < 64, PieceMoves k s < 2 ^ 64 := by decide!

theorem pawnTables_lt : ∀ s < 64, WhitePawnCaptures s < 2 ^ 64 ∧ BlackPawnCaptures s < 2 ^ 64
    ∧ WhitePawnMoves s < 2 ^ 64 ∧ BlackPawnMoves s < 2 ^ 64 ∧ EnPassant s < 2 ^ 64 := by decide!

theorem InBetween_lt : ∀ a < 64, ∀ c < 64, InBetween a c < 2 ^ 64 := by decide!

theorem InBetween_comm (a c : Nat) : InBetween a c = InBetween c a := by
  unfold InBetween
  rw [Nat.min_comm, Nat.max_comm]

theorem pawnCaptures_symm : ∀ s < 64, ∀ d < 64,
    (WhitePawnCaptures s).testBit d = (BlackPawnCaptures d).testBit s := by decide!

theorem PieceMoves_symm : ∀ k ≤ 7, ∀ s < 64, ∀ d < 64,
    (PieceMoves k s).testBit d = (PieceMoves k d).testBit s := by decide!

theorem queenMoves_split (s : Nat) :
    PieceMoves QUEEN s = PieceMoves BISHOP s ||| PieceMoves ROOK s := by
  simp [PieceMoves]

theorem kingMoves_not_castle :
    (PieceMoves KING E1).testBit G1 = false ∧ (PieceMoves KING E1).testBit C1 = false
    ∧ (PieceMoves KING E8).testBit G8 = false ∧ (PieceMoves KING E8).testBit C8 = false := by
  decide!


/-! ### What the invariants say about single squares -/

theorem own_all_square (b : ChessBoard) (us : Color) (h : WellShaped b us) (s : Nat)
    (hs : (b.piecesOf us ALL).testBit s = true) :
    s < 64 ∧ 1 ≤ b.pieces s ∧ b.pieces s ≤ 6 ∧ (b.piecesOf us (b.pieces s)).testBit s = true
      ∧ (b.piecesOf us.flip ALL).testBit s = false := by
  obtain ⟨a, c, ha, hc, hac, h64, hp, hka, hkc, hown, hall, hoth, hoall, -⟩ := h s
  have ha0 : a ≠ 0 := hall.1 hs
  have hc0 : c = 0 := by omega
  have hlt : s < 64 := by
    by_contra hge
    exact ha0 (h64 (by omega)).1
  have hps : b.pieces s = a := by rw [hp hlt, hc0]; rfl
  refine ⟨hlt, by omega, by omega, ?_, ?_⟩
  · rw [hps]; exact (hown a (by omega) ha).2 rfl
  · by_contra hne
    exact (hoall.1 (by simpa using hne)) hc0

theorem own_kind_square (b : ChessBoard) (us : Color) (h : WellShaped b us) (s k : Nat)
    (hk1 : 1 ≤ k) (hk6 : k ≤ 6) (hs : (b.piecesOf us k).testBit s = true) :
    s < 64 ∧ b.pieces s = k ∧ (b.piecesOf us ALL).testBit s = true := by
  obtain ⟨a, c, ha, hc, hac, h64, hp, hka, hkc, hown, hall, hoth, hoall, -⟩ := h s
  have hka : k = a := (hown k hk1 hk6).1 hs
  have ha0 : a ≠ 0 := by omega
  have hc0 : c = 0 := by omega
  have hlt : s < 64 := by
    by_contra hge
    exact ha0 (h64 (by omega)).1
  exact ⟨hlt, by rw [hp hlt, hc0, hka]; rfl, hall.2 ha0⟩

theorem other_kind_square (b : ChessBoard) (us : Color) (h : WellShaped b us) (s k : Nat)
    (hk1 : 1 ≤ k) (hk6 : k ≤ 6) (hs : (b.piecesOf us.flip k).testBit s = true) :
    s < 64 ∧ b.pieces s = k ∧ (b.piecesOf us ALL).testBit s = false := by
  have h' := own_kind_square b us.flip (wellShaped_flip b us h) s k hk1 hk6 hs
  have h2 := own_all_square b us.flip (wellShaped_flip b us h) s h'.2.2
  rw [color_flip_flip] at h2
  exact ⟨h'.1, h'.2.1, h2.2.2.2.2⟩

theorem not_own_king_square (b : ChessBoard) (us : Color) (h : WellShaped b us) (s : Nat)
    (hlt : s < 64) (hs : (b.piecesOf us ALL).testBit s = false) (hk : b.pieces s = KING) :
    s = b.kingPosition us.flip ∧ (b.piecesOf us.flip KING).testBit s = true := by
  obtain ⟨a, c, ha, hc, hac, h64, hp, hka, hkc, hown, hall, hoth, hoall, -⟩ := h s
  have ha0 : a = 0 := by
    by_contra hne
    rw [hall.2 hne] at hs
    exact absurd hs (by simp)
  have hc6 : c = KING := by
    have := hp hlt
    rw [hk, ha0] at this
    simp only [KING] at this ⊢
    omega
  exact ⟨hkc.1 hc6, (hoth 6 (by omega) (by omega)).2 (by simpa using hc6.symm)⟩

theorem empty_square (b : ChessBoard) (us : Color) (h : WellShaped b us)
    (h3 : Invariant3 b) (s : Nat) (hlt : s < 64) (hs : b.allPieces.testBit s = false) :
    b.pieces s = NO_PIECE ∧ (b.piecesOf us ALL).testBit s = false := by
  have hp : b.pieces s = NO_PIECE := by
    by_contra hne
    rw [(h3 s hlt).1 hne] at hs
    exact absurd hs (by simp)
  refine ⟨hp, ?_⟩
  by_contra hne
  have := own_all_square b us h s (by simpa using hne)
  rw [hp] at this
  simp at this

/-! ### The side to move in the generator's terms -/

theorem ite_own (b : ChessBoard) :
    (if b.sideToMove = Color.WHITE then b.whitePieces else b.blackPieces)
      = b.piecesOf b.sideToMove := by
  cases h : b.sideToMove <;> simp [ChessBoard.piecesOf]

theorem ite_other (b : ChessBoard) :
    (if b.sideToMove = Color.WHITE then b.blackPieces else b.whitePieces)
      = b.piecesOf b.sideToMove.flip := by
  cases h : b.sideToMove <;> simp [ChessBoard.piecesOf, Color.flip]

theorem ite_own_at (b : ChessBoard) (k : Nat) :
    (if b.sideToMove = Color.WHITE then b.whitePieces k else b.blackPieces k)
      = b.piecesOf b.sideToMove k := by
  cases h : b.sideToMove <;> simp [ChessBoard.piecesOf]

theorem ite_king (b : ChessBoard) :
    (if b.sideToMove = Color.WHITE then b.whiteKingPosition else b.blackKingPosition)
      = b.kingPosition b.sideToMove := by
  cases h : b.sideToMove <;> simp [ChessBoard.kingPosition]

theorem ite_pawnCaptures (b : ChessBoard) (s : Nat) :
    (if b.sideToMove = Color.WHITE then WhitePawnCaptures s else BlackPawnCaptures s)
      = pawnCapturesOf b.sideToMove s := by
  cases h : b.sideToMove <;> simp [pawnCapturesOf]

theorem ite_pawnAttackers (b : ChessBoard) (s : Nat) :
    (if b.sideToMove = Color.WHITE then BlackPawnCaptures s else WhitePawnCaptures s)
      = pawnAttackersOf b.sideToMove s := by
  cases h : b.sideToMove <;> simp [pawnAttackersOf]

theorem pawnCapturesOf_symm (c : Color) (s d : Nat) (hs : s < 64) (hd : d < 64) :
    (pawnCapturesOf c s).testBit d = (pawnAttackersOf c d).testBit s := by
  cases c
  · exact pawnCaptures_symm s hs d hd
  · exact (pawnCaptures_symm d hd s hs).symm

theorem pawnReach_of_captures (c : Color) (s d : Nat)
    (h : (pawnCapturesOf c s).testBit d = true) : (pawnReach c s).testBit d = true := by
  cases c <;> simp [pawnReach, pawnCapturesOf, Nat.testBit_or] at h ⊢ <;> exact Or.inr h

theorem kingPosition_lt (b : ChessBoard) (h4 : Invariant4 b) (c : Color) :
    b.kingPosition c < 64 := by
  cases c
  · exact h4.1
  · exact h4.2.2.1

theorem allPieces_lt (b : ChessBoard) (h1 : Invariant1 b) (h64 : Board64 b) :
    b.allPieces < 2 ^ 64 := by
  rw [h1.1]
  exact Nat.or_lt_two_pow (h64 7 (by norm_num) (by norm_num)).1
    (h64 7 (by norm_num) (by norm_num)).2

/-! ### Slider loops -/

theorem sliders_fold_zero (f : Nat → Nat) (l : List Nat) (acc : Nat)
    (h : l.foldl (fun a src => if f src = EmptyBitboard then a ||| OneShiftedBy src else a) acc
      = 0) :
    acc = 0 ∧ ∀ src ∈ l, f src ≠ EmptyBitboard := by
  induction l generalizing acc with
  | nil => exact ⟨h, by simp⟩
  | cons x xs ih =>
    simp only [List.foldl_cons] at h
    obtain ⟨h1, h2⟩ := ih _ h
    by_cases hx : f x = EmptyBitboard
    · rw [if_pos hx] at h1
      exfalso
      have : (acc ||| OneShiftedBy x).testBit x = true := by
        simp [Nat.testBit_or, testBit_OneShiftedBy]
      rw [h1] at this
      simp at this
    · rw [if_neg hx] at h1
      refine ⟨h1, ?_⟩
      intro src hsrc
      rcases List.mem_cons.1 hsrc with rfl | h'
      · exact hx
      · exact h2 src h'

theorem sliders_fold_testBit (f : Nat → Nat) (l : List Nat) (acc : Nat) (s : Nat)
    (h : (l.foldl (fun a src => if f src = EmptyBitboard then a ||| OneShiftedBy src else a)
      acc).testBit s = true) :
    acc.testBit s = true ∨ (s ∈ l ∧ f s = EmptyBitboard) := by
  induction l generalizing acc with
  | nil => exact Or.inl h
  | cons x xs ih =>
    simp only [List.foldl_cons] at h
    rcases ih _ h with h1 | ⟨h1, h2⟩
    · by_cases hx : f x = EmptyBitboard
      · rw [if_pos hx] at h1
        simp only [Nat.testBit_or, testBit_OneShiftedBy, Bool.or_eq_true,
          decide_eq_true_eq] at h1
        rcases h1 with h1 | rfl
        · exact Or.inl h1
        · exact Or.inr ⟨List.mem_cons_self _ _, hx⟩
      · rw [if_neg hx] at h1
        exact Or.inl h1
    · exact Or.inr ⟨List.mem_cons_of_mem _ h1, h2⟩

/-! ### The enemy king is not attacked -/

theorem or_eq_zero_iff' (x y : Nat) : x ||| y = 0 ↔ x = 0 ∧ y = 0 := by
  constructor
  · intro h
    constructor
    · apply Nat.eq_of_testBit_eq
      intro i
      have := congrArg (fun z => z.testBit i) h
      simp only [Nat.testBit_or, Nat.zero_testBit, Bool.or_eq_false_iff] at this
      simp [this.1]
    · apply Nat.eq_of_testBit_eq
      intro i
      have := congrArg (fun z => z.testBit i) h
      simp only [Nat.testBit_or, Nat.zero_testBit, Bool.or_eq_false_iff] at this
      simp [this.2]
  · rintro ⟨rfl, rfl⟩
    rfl

theorem opponentSafe_parts (b : ChessBoard) (hsafe : OpponentSafe b) :
    pawnAttackersOf b.sideToMove (b.kingPosition b.sideToMove.flip)
        &&& b.piecesOf b.sideToMove PAWN = 0
      ∧ PieceMoves KNIGHT (b.kingPosition b.sideToMove.flip)
        &&& b.piecesOf b.sideToMove KNIGHT = 0
      ∧ PieceMoves KING (b.kingPosition b.sideToMove.flip) &&& b.piecesOf b.sideToMove KING = 0
      ∧ (∀ src ∈ squaresOf (PieceMoves BISHOP (b.kingPosition b.sideToMove.flip)
            &&& (b.piecesOf b.sideToMove BISHOP ||| b.piecesOf b.sideToMove QUEEN)),
          InBetween (b.kingPosition b.sideToMove.flip) src &&& (b.allPieces &&& bbNot 0) ≠ 0)
      ∧ (∀ src ∈ squaresOf (PieceMoves ROOK (b.kingPosition b.sideToMove.flip)
            &&& (b.piecesOf b.sideToMove ROOK ||| b.piecesOf b.sideToMove QUEEN)),
          InBetween (b.kingPosition b.sideToMove.flip) src &&& (b.allPieces &&& bbNot 0) ≠ 0) := by
  unfold OpponentSafe getAttackingPieces unblockedSliders at hsafe
  simp only [Bool.false_eq_true, false_and, if_false, EmptyBitboard] at hsafe
  obtain ⟨hr1, hr2⟩ := sliders_fold_zero _ _ _ hsafe
  obtain ⟨hb1, hb2⟩ := sliders_fold_zero _ _ _ hr1
  rw [Nat.zero_or, or_eq_zero_iff', or_eq_zero_iff'] at hb1
  obtain ⟨⟨hp, hn⟩, hk⟩ := hb1
  cases hs : b.sideToMove <;>
    simp only [hs, ChessBoard.flipSide, Color.flip, ChessBoard.kingPosition,
      ChessBoard.piecesOf, pawnAttackersOf, if_true, if_false, reduceCtorEq, EmptyBitboard]
      at hp hn hk hb2 hr2 ⊢ <;>
    exact ⟨hp, hn, hk, hb2, hr2⟩

theorem opponentSafe_not_attacked (b : ChessBoard) (hw : WellShaped b b.sideToMove)
    (h1 : Invariant1 b) (h4 : Invariant4 b) (h64 : Board64 b) (hsafe : OpponentSafe b)
    (src : Nat) (hsrc : (b.piecesOf b.sideToMove ALL).testBit src = true) :
    ¬ PseudoAttacks b src (b.kingPosition b.sideToMove.flip) := by
  intro h
  obtain ⟨hp, hn, hk, hb, hr⟩ := opponentSafe_parts b hsafe
  obtain ⟨hlt, hk1, hk6, hown, -⟩ := own_all_square b _ hw src hsrc
  have hK := kingPosition_lt b h4 b.sideToMove.flip
  have hall : b.allPieces &&& bbNot 0 = b.allPieces := and_bbNot_zero _ (allPieces_lt b h1 h64)
  rw [hall] at hb hr
  generalize b.kingPosition b.sideToMove.flip = K at *
  unfold PseudoAttacks at h
  split_ifs at h with hpw
  · rw [pawnCapturesOf_symm _ _ _ hlt hK] at h
    rw [hpw] at hown
    have := (and_eq_zero_iff _ _).1 hp src h
    rw [hown] at this
    exact absurd this (by simp)
  · obtain ⟨hm, hbt⟩ := h
    rw [PieceMoves_symm _ (by omega) src hlt K hK] at hm
    rw [InBetween_comm] at hbt
    generalize b.pieces src = k at *
    have hstep : ∀ x : Nat, (PieceMoves k K &&& x) = 0 → x.testBit src = true → False := by
      intro x hx hxs
      have := (and_eq_zero_iff _ _).1 hx src hm
      rw [hxs] at this
      exact absurd this (by simp)
    have hslide : ∀ j x : Nat, (PieceMoves j K).testBit src = true → x.testBit src = true →
        (∀ s ∈ squaresOf (PieceMoves j K &&& x), InBetween K s &&& b.allPieces ≠ 0) →
        InBetween K src &&& b.allPieces = EmptyBitboard → False := by
      intro j x hj hx hall h0
      exact hall src ((mem_squaresOf _ _).2 ⟨hlt, by simp [Nat.testBit_and, hj, hx]⟩) h0
    interval_cases k
    · exact hpw rfl
    · exact hstep _ hn hown
    · exact hslide BISHOP _ hm (by simp [Nat.testBit_or]; exact Or.inl hown) hb
        (hbt (by simp))
    · exact hslide ROOK _ hm (by simp [Nat.testBit_or]; exact Or.inl hown) hr
        (hbt (by simp))
    · rw [show (5 : Nat) = QUEEN from rfl, queenMoves_split, Nat.testBit_or,
        Bool.or_eq_true] at hm
      rcases hm with hm | hm
      · exact hslide BISHOP _ hm (by simp [Nat.testBit_or]; exact Or.inr hown) hb
          (hbt (by simp))
      · exact hslide ROOK _ hm (by simp [Nat.testBit_or]; exact Or.inr hown) hr
          (hbt (by simp))
    · exact hstep _ hk hown

/-! ### Moves `doMove` can be applied to -/

theorem playable_of_pseudo (b : ChessBoard) (hw : WellShaped b b.sideToMove)
    (h1 : Invariant1 b) (h4 : Invariant4 b) (h64 : Board64 b) (hsafe : OpponentSafe b)
    (m : ChessMove) (hdst : m.dst < 64)
    (hsrc : (b.piecesOf b.sideToMove ALL).testBit m.src = true)
    (hnot : (b.piecesOf b.sideToMove ALL).testBit m.dst = false)
    (hatt : b.pieces m.dst ≠ NO_PIECE → PseudoAttacks b m.src m.dst)
    (hpawn : b.pieces m.src = PAWN → (pawnReach b.sideToMove m.src).testBit m.dst = true
      ∧ (m.promotionPiece = NO_PIECE
          ∨ (KNIGHT ≤ m.promotionPiece ∧ m.promotionPiece ≤ QUEEN)))
    (hcastle : b.pieces m.src = KING → ∀ r ∈ castleRook b.sideToMove m.src m.dst,
      (b.piecesOf b.sideToMove ROOK).testBit r.1 = true ∧ b.pieces r.2 = NO_PIECE) :
    Playable b m := by
  refine ⟨(own_all_square b _ hw _ hsrc).1, hdst, hsrc, hnot, ?_, hpawn, hcastle⟩
  intro hk
  have hd := (not_own_king_square b _ hw _ hdst hnot hk).1
  have ha := hatt (by rw [hk]; simp)
  rw [hd] at ha
  exact opponentSafe_not_attacked b hw h1 h4 h64 hsafe _ hsrc ha

theorem mem_pushMove (l : MoveList) (src dst promotion : Nat) (m : ChessMove)
    (h : m ∈ pushMove l src dst promotion) :
    m ∈ l ∨ (m.src = src ∧ m.dst = dst ∧ m.promotionPiece = promotion) := by
  unfold pushMove at h
  rcases List.mem_append.1 h with h | h
  · exact Or.inl h
  · rw [List.mem_singleton] at h
    subst h
    exact Or.inr ⟨rfl, rfl, rfl⟩

theorem mem_pushPromotions (l : MoveList) (src dst : Nat) (m : ChessMove)
    (h : m ∈ pushPromotions l src dst) :
    m ∈ l ∨ (m.src = src ∧ m.dst = dst
      ∧ (KNIGHT ≤ m.promotionPiece ∧ m.promotionPiece ≤ QUEEN)) := by
  unfold pushPromotions at h
  rcases mem_pushMove _ _ _ _ _ h with h | ⟨e1, e2, e3⟩
  · rcases mem_pushMove _ _ _ _ _ h with h | ⟨e1, e2, e3⟩
    · rcases mem_pushMove _ _ _ _ _ h with h | ⟨e1, e2, e3⟩
      · rcases mem_pushMove _ _ _ _ _ h with h | ⟨e1, e2, e3⟩
        · exact Or.inl h
        · exact Or.inr ⟨e1, e2, by rw [e3]; simp⟩
      · exact Or.inr ⟨e1, e2, by rw [e3]; simp⟩
    · exact Or.inr ⟨e1, e2, by rw [e3]; simp⟩
  · exact Or.inr ⟨e1, e2, by rw [e3]; simp⟩

theorem foldl_preserves {α β : Type} (P : β → Prop) (f : β → α → β) (l : List α) (init : β)
    (h0 : P init) (hstep : ∀ acc x, x ∈ l → P acc → P (f acc x)) : P (l.foldl f init) := by
  induction l generalizing init with
  | nil => exact h0
  | cons x xs ih =>
    simp only [List.foldl_cons]
    exact ih _ (hstep _ _ (List.mem_cons_self _ _) h0)
      (fun acc y hy hacc => hstep acc y (List.mem_cons_of_mem _ hy) hacc)

theorem emitMove_mem (b : ChessBoard) (src dst : Nat) (acc : Nat × MoveList) (m : ChessMove)
    (h : m ∈ (emitMove b false src acc dst).2) :
    m ∈ acc.2 ∨ (m.src = src ∧ m.dst = dst
      ∧ (m.promotionPiece = NO_PIECE
          ∨ (KNIGHT ≤ m.promotionPiece ∧ m.promotionPiece ≤ QUEEN))
      ∧ (BISHOP ≤ b.pieces src ∧ b.pieces src ≤ QUEEN →
          InBetween src dst &&& b.allPieces = EmptyBitboard)) := by
  have push : (BISHOP ≤ b.pieces src ∧ b.pieces src ≤ QUEEN →
        InBetween src dst &&& b.allPieces = EmptyBitboard) →
      m ∈ pushMove acc.2 src dst NO_PIECE → m ∈ acc.2 ∨ (m.src = src ∧ m.dst = dst
      ∧ (m.promotionPiece = NO_PIECE
          ∨ (KNIGHT ≤ m.promotionPiece ∧ m.promotionPiece ≤ QUEEN))
      ∧ (BISHOP ≤ b.pieces src ∧ b.pieces src ≤ QUEEN →
          InBetween src dst &&& b.allPieces = EmptyBitboard)) := by
    intro hc h
    rcases mem_pushMove _ _ _ _ _ h with h | ⟨e1, e2, e3⟩
    · exact Or.inl h
    · exact Or.inr ⟨e1, e2, Or.inl e3, hc⟩
  unfold emitMove at h
  simp only [Bool.false_eq_true, if_false] at h
  by_cases hp : b.pieces src = PAWN
  · rw [if_pos hp] at h
    by_cases hr : getRank dst = (if b.sideToMove = Color.WHITE then Rank_8 else Rank_1)
    · rw [if_pos hr] at h
      rcases mem_pushPromotions _ _ _ _ h with h | ⟨e1, e2, e3⟩
      · exact Or.inl h
      · exact Or.inr ⟨e1, e2, Or.inr e3, by rw [hp]; simp⟩
    · rw [if_neg hr] at h
      exact push (by rw [hp]; simp) h
  · rw [if_neg hp] at h
    by_cases hn : b.pieces src = KNIGHT
    · rw [if_pos hn] at h
      exact push (by rw [hn]; simp) h
    · rw [if_neg hn] at h
      by_cases hk : b.pieces src = KING
      · rw [if_pos hk] at h
        by_cases ha : ¬ isSquareAttacked b dst
        · rw [if_pos ha] at h
          exact push (by rw [hk]; simp) h
        · rw [if_neg ha] at h
          exact Or.inl h
      · rw [if_neg hk] at h
        by_cases hs : InBetween src dst &&& b.allPieces = EmptyBitboard
        · rw [if_pos hs] at h
          exact push (fun _ => hs) h
        · rw [if_neg hs] at h
          exact Or.inl h

/-! ### The destinations of `generateAllMovesImplementation` -/

theorem dstMovesOf_testBit (b : ChessBoard) (src dst : Nat) (hd : dst < 64)
    (h : (dstMovesOf b src).testBit dst = true) :
    (if b.pieces src = PAWN then pawnDstMoves b src
      else if b.pieces src = KING then castleMoves b src (PieceMoves (b.pieces src) src)
      else PieceMoves (b.pieces src) src).testBit dst = true
      ∧ (b.piecesOf b.sideToMove ALL).testBit dst = false := by
  unfold dstMovesOf at h
  simp only [ite_own_at] at h
  have key : ∀ d0 : Nat, (d0 &&& bbNot (b.piecesOf b.sideToMove ALL)).testBit dst = true →
      d0.testBit dst = true ∧ (b.piecesOf b.sideToMove ALL).testBit dst = false := by
    intro d0 h0
    rw [Nat.testBit_and, Bool.and_eq_true, testBit_bbNot] at h0
    refine ⟨h0.1, ?_⟩
    have := h0.2
    simp only [hd, decide_True, Bool.true_xor, Bool.not_eq_true'] at this
    exact this
  generalize (if b.pieces src = PAWN then pawnDstMoves b src
      else if b.pieces src = KING then castleMoves b src (PieceMoves (b.pieces src) src)
      else PieceMoves (b.pieces src) src) = d0 at h ⊢
  by_cases h1 : b.pinnedPieces ≠ EmptyBitboard
  · rw [if_pos h1] at h
    by_cases h2 : OneShiftedBy src &&& b.pinnedPieces ≠ EmptyBitboard
    · rw [if_pos h2, Nat.testBit_and, Bool.and_eq_true] at h
      exact key _ h.1
    · rw [if_neg h2] at h
      exact key _ h
  · rw [if_neg h1] at h
    exact key _ h

theorem pawnDstMoves_testBit (b : ChessBoard) (h3 : Invariant3 b) (src dst : Nat) (hd : dst < 64)
    (h : (pawnDstMoves b src).testBit dst = true) :
    (pawnReach b.sideToMove src).testBit dst = true
      ∧ (b.pieces dst ≠ NO_PIECE → (pawnCapturesOf b.sideToMove src).testBit dst = true) := by
  have hcap : (pawnCapturesOf b.sideToMove src).testBit dst = true →
      (pawnReach b.sideToMove src).testBit dst = true
      ∧ (b.pieces dst ≠ NO_PIECE → (pawnCapturesOf b.sideToMove src).testBit dst = true) :=
    fun hc => ⟨pawnReach_of_captures _ _ _ hc, fun _ => hc⟩
  have hd1 : ((if b.sideToMove = Color.WHITE then WhitePawnMoves src else BlackPawnMoves src)
        &&& bbNot b.allPieces
      ||| pawnCapturesOf b.sideToMove src &&& b.piecesOf b.sideToMove.flip ALL).testBit dst = true →
      (pawnReach b.sideToMove src).testBit dst = true
      ∧ (b.pieces dst ≠ NO_PIECE → (pawnCapturesOf b.sideToMove src).testBit dst = true) := by
    intro h
    rw [Nat.testBit_or, Bool.or_eq_true, Nat.testBit_and, Nat.testBit_and, Bool.and_eq_true,
      Bool.and_eq_true, testBit_bbNot] at h
    rcases h with ⟨hm, hn⟩ | ⟨hc, -⟩
    · simp only [hd, decide_True, Bool.true_xor, Bool.not_eq_true'] at hn
      constructor
      · cases hs : b.sideToMove <;> simp only [hs, if_true, if_false, reduceCtorEq] at hm <;>
          simp [pawnReach, Nat.testBit_or, hm]
      · intro hne
        rw [(h3 dst hd).1 hne] at hn
        exact absurd hn (by simp)
    · exact hcap hc
  unfold pawnDstMoves at h
  simp only [ite_other, ite_pawnCaptures] at h
  have hd2 : ∀ (c : Prop) [Decidable c] (x : Nat),
      (if c then ((if b.sideToMove = Color.WHITE then WhitePawnMoves src else BlackPawnMoves src)
        &&& bbNot b.allPieces
      ||| pawnCapturesOf b.sideToMove src &&& b.piecesOf b.sideToMove.flip ALL) &&& x
      else ((if b.sideToMove = Color.WHITE then WhitePawnMoves src else BlackPawnMoves src)
        &&& bbNot b.allPieces
      ||| pawnCapturesOf b.sideToMove src &&& b.piecesOf b.sideToMove.flip ALL)).testBit dst
        = true →
      (pawnReach b.sideToMove src).testBit dst = true
      ∧ (b.pieces dst ≠ NO_PIECE → (pawnCapturesOf b.sideToMove src).testBit dst = true) := by
    intro c _ x h
    by_cases hc : c
    · rw [if_pos hc, Nat.testBit_and, Bool.and_eq_true] at h
      exact hd1 h.1
    · rw [if_neg hc] at h
      exact hd1 h
  by_cases hep : b.enPassant ≠ NO_SQUARE
  · rw [if_pos hep] at h
    by_cases hc : pawnCapturesOf b.sideToMove src &&& OneShiftedBy b.enPassant ≠ EmptyBitboard
    · rw [if_pos hc, Nat.testBit_or, Bool.or_eq_true] at h
      rcases h with h | h
      · exact hd2 _ _ h
      · rw [testBit_OneShiftedBy] at h
        simp only [decide_eq_true_eq] at h
        rw [h] at hc
        exact hcap ((and_OneShiftedBy_ne_zero _ _).1 hc)
    · rw [if_neg hc] at h
      exact hd2 _ _ h
  · rw [if_neg hep] at h
    exact hd2 _ _ h

/-! ### Castling destinations -/

theorem castle_step (c1 c2 : Prop) [Decidable c1] [Decidable c2] (d sq dst : Nat)
    (h : (if c1 then (if c2 then d ||| OneShiftedBy sq else d) else d).testBit dst = true) :
    d.testBit dst = true ∨ (c1 ∧ c2 ∧ dst = sq) := by
  by_cases h1 : c1
  · rw [if_pos h1] at h
    by_cases h2 : c2
    · rw [if_pos h2, Nat.testBit_or, Bool.or_eq_true, testBit_OneShiftedBy] at h
      rcases h with h | h
      · exact Or.inl h
      · exact Or.inr ⟨h1, h2, (by simpa using h : sq = dst).symm⟩
    · rw [if_neg h2] at h
      exact Or.inl h
  · rw [if_neg h1] at h
    exact Or.inl h

theorem mask_empty_square (b : ChessBoard) (h3 : Invariant3 b) (mask i : Nat) (hi : i < 64)
    (hm : b.allPieces &&& mask = EmptyBitboard) (hb : mask.testBit i = true) :
    b.pieces i = NO_PIECE := by
  by_contra hne
  have h1 := (h3 i hi).1 hne
  have := (and_eq_zero_iff _ _).1 hm i h1
  rw [hb] at this
  exact absurd this (by simp)

theorem castleMoves_testBit (b : ChessBoard) (h3 : Invariant3 b) (hc : CastleBacked b)
    (src dm dst : Nat) (h : (castleMoves b src dm).testBit dst = true) :
    dm.testBit dst = true
      ∨ (∃ r, castleRook b.sideToMove src dst = some r ∧ b.pieces dst = NO_PIECE
          ∧ (b.piecesOf b.sideToMove ROOK).testBit r.1 = true ∧ b.pieces r.2 = NO_PIECE) := by
  unfold castleMoves at h
  obtain ⟨c1, c2, c3, c4⟩ := hc
  cases hs : b.sideToMove
  · simp only [hs, if_true] at h
    by_cases he : src = E1
    · rw [if_pos he] at h
      rcases castle_step _ _ _ _ _ h with h | ⟨k1, k2, k3⟩
      · rcases castle_step _ _ _ _ _ h with h | ⟨k1, k2, k3⟩
        · exact Or.inl h
        · refine Or.inr ⟨(A1, D1), ?_, ?_, c2 k1, ?_⟩
          · rw [he, k3]; rfl
          · rw [k3]; exact mask_empty_square b h3 _ _ (by decide) k2.1 (by decide)
          · exact mask_empty_square b h3 _ _ (by decide) k2.1 (by decide)
      · refine Or.inr ⟨(H1, F1), ?_, ?_, c1 k1, ?_⟩
        · rw [he, k3]; rfl
        · rw [k3]; exact mask_empty_square b h3 _ _ (by decide) k2.1 (by decide)
        · exact mask_empty_square b h3 _ _ (by decide) k2.1 (by decide)
    · rw [if_neg he] at h
      exact Or.inl h
  · simp only [hs, if_false, reduceCtorEq] at h
    by_cases he : src = E8
    · rw [if_pos he] at h
      rcases castle_step _ _ _ _ _ h with h | ⟨k1, k2, k3⟩
      · rcases castle_step _ _ _ _ _ h with h | ⟨k1, k2, k3⟩
        · exact Or.inl h
        · refine Or.inr ⟨(A8, D8), ?_, ?_, c4 k1, ?_⟩
          · rw [he, k3]; rfl
          · rw [k3]; exact mask_empty_square b h3 _ _ (by decide) k2.1 (by decide)
          · exact mask_empty_square b h3 _ _ (by decide) k2.1 (by decide)
      · refine Or.inr ⟨(H8, F8), ?_, ?_, c3 k1, ?_⟩
        · rw [he, k3]; rfl
        · rw [k3]; exact mask_empty_square b h3 _ _ (by decide) k2.1 (by decide)
        · exact mask_empty_square b h3 _ _ (by decide) k2.1 (by decide)
    · rw [if_neg he] at h
      exact Or.inl h

theorem castleRook_not_kingMove (c : Color) (src dst : Nat)
    (h : (PieceMoves KING src).testBit dst = true) : castleRook c src dst = none := by
  obtain ⟨k1, k2, k3, k4⟩ := kingMoves_not_castle
  unfold castleRook
  cases c <;> simp only <;> split_ifs with h1 h2 <;> try rfl
  · rw [h1.1, h1.2, k1] at h; exact absurd h (by simp)
  · rw [h2.1, h2.2, k2] at h; exact absurd h (by simp)
  · rw [h1.1, h1.2, k3] at h; exact absurd h (by simp)
  · rw [h2.1, h2.2, k4] at h; exact absurd h (by simp)

/-! ### The moves of a side that is not in check -/

theorem emit_playable (b : ChessBoard) (hw : WellShaped b b.sideToMove)
    (h1 : Invariant1 b) (h3 : Invariant3 b) (h4 : Invariant4 b) (h64 : Board64 b)
    (hc : CastleBacked b) (hsafe : OpponentSafe b) (src dst : Nat)
    (hsrc : (b.piecesOf b.sideToMove ALL).testBit src = true) (hd : dst < 64)
    (hdst : (dstMovesOf b src).testBit dst = true) (m : ChessMove)
    (e1 : m.src = src) (e2 : m.dst = dst)
    (e3 : m.promotionPiece = NO_PIECE
      ∨ (KNIGHT ≤ m.promotionPiece ∧ m.promotionPiece ≤ QUEEN))
    (e4 : BISHOP ≤ b.pieces src ∧ b.pieces src ≤ QUEEN →
      InBetween src dst &&& b.allPieces = EmptyBitboard) :
    Playable b m := by
  obtain ⟨hd0, hnot⟩ := dstMovesOf_testBit b src dst hd hdst
  subst e1 e2
  apply playable_of_pseudo b hw h1 h4 h64 hsafe m hd hsrc hnot
  · intro hocc
    unfold PseudoAttacks
    by_cases hp : b.pieces m.src = PAWN
    · rw [if_pos hp] at hd0 ⊢
      exact (pawnDstMoves_testBit b h3 _ _ hd hd0).2 hocc
    · rw [if_neg hp] at hd0 ⊢
      refine ⟨?_, e4⟩
      by_cases hk : b.pieces m.src = KING
      · rw [if_pos hk] at hd0
        rcases castleMoves_testBit b h3 hc _ _ _ hd0 with h | ⟨r, -, h0, -⟩
        · exact h
        · exact absurd h0 hocc
      · rw [if_neg hk] at hd0
        exact hd0
  · intro hp
    rw [if_pos hp] at hd0
    exact ⟨(pawnDstMoves_testBit b h3 _ _ hd hd0).1, e3⟩
  · intro hk r hr
    have hp : ¬ b.pieces m.src = PAWN := by rw [hk]; simp
    rw [if_neg hp, if_pos hk] at hd0
    rcases castleMoves_testBit b h3 hc _ _ _ hd0 with h | ⟨r', hr', -, h2, h3'⟩
    · rw [hk] at h
      rw [castleRook_not_kingMove _ _ _ h] at hr
      exact absurd hr (by simp)
    · rw [hr'] at hr
      have : r' = r := by simpa using hr
      subst this
      exact ⟨h2, h3'⟩

theorem generated_quiet_playable (b : ChessBoard) (hw : WellShaped b b.sideToMove)
    (h1 : Invariant1 b) (h3 : Invariant3 b) (h4 : Invariant4 b) (h64 : Board64 b)
    (hc : CastleBacked b) (hsafe : OpponentSafe b) (m : ChessMove)
    (h : m ∈ ((squaresOf (b.piecesOf b.sideToMove ALL)).foldl (fun acc src =>
        (squaresOf (dstMovesOf b src)).foldl (emitMove b false src) acc)
        ((0, []) : Nat × MoveList)).2) :
    Playable b m := by
  revert m
  apply foldl_preserves (fun acc : Nat × MoveList => ∀ m ∈ acc.2, Playable b m)
  · intro m hm
    simp at hm
  · intro acc src hsrc hacc
    apply foldl_preserves (fun acc : Nat × MoveList => ∀ m ∈ acc.2, Playable b m)
    · exact hacc
    · intro acc' dst hdst hacc' m hm
      rcases emitMove_mem b src dst acc' m hm with hm | ⟨e1, e2, e3, e4⟩
      · exact hacc' m hm
      · exact emit_playable b hw h1 h3 h4 h64 hc hsafe src dst
          ((mem_squaresOf _ _).1 hsrc).2 ((mem_squaresOf _ _).1 hdst).1
          ((mem_squaresOf _ _).1 hdst).2 m e1 e2 e3 e4

theorem doubleCheck_playable (T : Tables) (b : ChessBoard) (l : MoveList)
    (h : ∀ m ∈ l, Playable b m) : ∀ m ∈ doubleCheckGeneratedMoves T b l, Playable b m := by
  intro m hm
  unfold doubleCheckGeneratedMoves at hm
  rw [List.mem_filterMap] at hm
  obtain ⟨a, ha, hf⟩ := hm
  have hrec : Playable b (doMoveRecord T b a) := h a ha
  simp only at hf
  by_cases h1 : b.pinnedPieces &&& OneShiftedBy a.src ≠ EmptyBitboard
      ∨ (b.pieces a.src = PAWN ∧ b.enPassant = a.dst)
  · rw [if_pos h1] at hf
    by_cases h2 : isInCheck (doMove T b a) true = true
    · rw [if_pos h2] at hf
      exact absurd hf (by simp)
    · rw [if_neg h2, Option.some.injEq] at hf
      rw [← hf]
      exact hrec
  · rw [if_neg h1, Option.some.injEq] at hf
    rw [← hf]
    exact h a ha

/-! ### The checking pieces -/

theorem king_bitboard (b : ChessBoard) (h4 : Invariant4 b) (c : Color) :
    b.piecesOf c KING = OneShiftedBy (b.kingPosition c) := by
  cases c
  · exact h4.2.1
  · exact h4.2.2.2

theorem own_king_square (b : ChessBoard) (us : Color) (hw : WellShaped b us)
    (h4 : Invariant4 b) :
    b.pieces (b.kingPosition us) = KING
      ∧ (b.piecesOf us ALL).testBit (b.kingPosition us) = true := by
  have hk : (b.piecesOf us KING).testBit (b.kingPosition us) = true := by
    rw [king_bitboard b h4, testBit_OneShiftedBy]
    simp
  exact (own_kind_square b us hw _ KING (by simp) (by simp) hk).2

theorem checking_square (b : ChessBoard) (hw : WellShaped b b.sideToMove) (h6 : Invariant6 b)
    (s : Nat) (h : b.checkingPieces.testBit s = true) :
    s < 64 ∧ (b.piecesOf b.sideToMove ALL).testBit s = false ∧ 1 ≤ b.pieces s ∧ b.pieces s ≤ 5
      ∧ (3 ≤ b.pieces s →
          InBetween (b.kingPosition b.sideToMove) s &&& b.allPieces = EmptyBitboard) := by
  have kind : ∀ k, 1 ≤ k → k ≤ 5 → (b.piecesOf b.sideToMove.flip k).testBit s = true →
      (3 ≤ k → InBetween (b.kingPosition b.sideToMove) s &&& b.allPieces = EmptyBitboard) →
      s < 64 ∧ (b.piecesOf b.sideToMove ALL).testBit s = false ∧ 1 ≤ b.pieces s
        ∧ b.pieces s ≤ 5 ∧ (3 ≤ b.pieces s →
          InBetween (b.kingPosition b.sideToMove) s &&& b.allPieces = EmptyBitboard) := by
    intro k k1 k5 hk hin
    obtain ⟨e1, e2, e3⟩ := other_kind_square b _ hw s k k1 (by omega) hk
    rw [e2]
    exact ⟨e1, e3, k1, k5, hin⟩
  have slider : ∀ j x y, (j = BISHOP ∨ j = ROOK) →
      (s ∈ squaresOf (PieceMoves j (b.kingPosition b.sideToMove)
          &&& (b.piecesOf b.sideToMove.flip j ||| b.piecesOf b.sideToMove.flip QUEEN))) →
      x = InBetween (b.kingPosition b.sideToMove) s &&& b.allPieces → x = EmptyBitboard →
      y = b.pieces s →
      s < 64 ∧ (b.piecesOf b.sideToMove ALL).testBit s = false ∧ 1 ≤ y ∧ y ≤ 5
        ∧ (3 ≤ y → InBetween (b.kingPosition b.sideToMove) s &&& b.allPieces
            = EmptyBitboard) := by
    intro j x y hj hs hx h0 hy
    subst hx hy
    have := ((mem_squaresOf _ _).1 hs).2
    rw [Nat.testBit_and, Bool.and_eq_true, Nat.testBit_or, Bool.or_eq_true] at this
    rcases this.2 with hb | hq
    · rcases hj with rfl | rfl
      · exact kind BISHOP (by simp) (by simp) hb (fun _ => h0)
      · exact kind ROOK (by simp) (by simp) hb (fun _ => h0)
    · exact kind QUEEN (by simp) (by simp) hq (fun _ => h0)
  rw [h6.1] at h
  unfold attackBoardsOf at h
  simp only [attackBoards_fold_checking, ite_king, ite_other, ite_pawnCaptures] at h
  rcases sliders_fold_testBit _ _ _ _ h with h | ⟨hm, h0⟩
  · rcases sliders_fold_testBit _ _ _ _ h with h | ⟨hm, h0⟩
    · rw [Nat.testBit_or, Bool.or_eq_true, Nat.testBit_and, Nat.testBit_and, Bool.and_eq_true,
        Bool.and_eq_true] at h
      rcases h with h | h
      · exact kind PAWN (by simp) (by simp) h.2 (by simp)
      · exact kind KNIGHT (by simp) (by simp) h.2 (by simp)
    · exact slider BISHOP _ _ (Or.inl rfl) hm rfl h0 rfl
  · exact slider ROOK _ _ (Or.inr rfl) hm rfl h0 rfl

theorem move_to_playable (b : ChessBoard) (hw : WellShaped b b.sideToMove) (src dst piece : Nat)
    (hp1 : 1 ≤ piece) (hp5 : piece ≤ 5)
    (hsrc : (b.piecesOf b.sideToMove piece).testBit src = true) (hd : dst < 64)
    (hnot : (b.piecesOf b.sideToMove ALL).testBit dst = false) (hk : b.pieces dst ≠ KING)
    (hreach : piece = PAWN → (pawnReach b.sideToMove src).testBit dst = true)
    (m : ChessMove) (e1 : m.src = src) (e2 : m.dst = dst)
    (e3 : m.promotionPiece = NO_PIECE
      ∨ (KNIGHT ≤ m.promotionPiece ∧ m.promotionPiece ≤ QUEEN)) :
    Playable b m := by
  subst e1 e2
  obtain ⟨hlt, hpc, hall⟩ := own_kind_square b _ hw _ piece hp1 (by omega) hsrc
  refine ⟨hlt, hd, hall, hnot, hk, ?_, ?_⟩
  · intro hp
    exact ⟨hreach (by rw [← hpc, hp]), e3⟩
  · intro hk6
    rw [hpc] at hk6
    simp only [KING] at hk6
    omega

/-! ### Check evasions -/

theorem kingEvasions_playable (b : ChessBoard) (hw : WellShaped b b.sideToMove)
    (h1 : Invariant1 b) (h4 : Invariant4 b) (h64 : Board64 b) (hsafe : OpponentSafe b) :
    ∀ m ∈ kingEvasions b, Playable b m := by
  unfold kingEvasions
  simp only [ite_king, ite_own]
  apply foldl_preserves (fun acc : MoveList => ∀ m ∈ acc, Playable b m)
  · intro m hm
    simp at hm
  · intro acc dst hdst hacc m hm
    obtain ⟨hk, hown⟩ := own_king_square b _ hw h4
    obtain ⟨hd, hbit⟩ := (mem_squaresOf _ _).1 hdst
    rw [Nat.testBit_and, Bool.and_eq_true, testBit_bbNot] at hbit
    have hnot : (b.piecesOf b.sideToMove ALL).testBit dst = false := by
      have := hbit.2
      simp only [hd, decide_True, Bool.true_xor, Bool.not_eq_true'] at this
      exact this
    have hm' : m ∈ acc ∨ m ∈ pushMove acc (b.kingPosition b.sideToMove) dst NO_PIECE := by
      beta_reduce at hm
      split_ifs at hm
      all_goals first | exact Or.inl hm | exact Or.inr hm
    rcases hm' with hm | hm
    · exact hacc m hm
    · rcases mem_pushMove _ _ _ _ _ hm with hm | ⟨e1, e2, e3⟩
      · exact hacc m hm
      · subst e2
        rw [← e1] at hk hown hbit
        apply playable_of_pseudo b hw h1 h4 h64 hsafe m hd hown hnot
        · intro _
          unfold PseudoAttacks
          rw [if_neg (by rw [hk]; simp), hk]
          exact ⟨hbit.1, fun h => absurd h.2 (by simp)⟩
        · intro hp
          rw [hk] at hp
          exact absurd hp (by simp)
        · intro _ r hr
          rw [castleRook_not_kingMove _ _ _ hbit.1] at hr
          exact absurd hr (by simp)

theorem enPassantEvasions_playable (b : ChessBoard) (hw : WellShaped b b.sideToMove)
    (h7 : Invariant7 b) (l : MoveList) (hl : ∀ m ∈ l, Playable b m) :
    ∀ m ∈ enPassantEvasions b l, Playable b m := by
  unfold enPassantEvasions
  simp only [ite_own, ite_pawnAttackers]
  by_cases hep : b.enPassant ≠ NO_SQUARE
  · rw [if_pos hep]
    obtain ⟨e64, -, -, hempty, -, -⟩ := h7 hep
    generalize (if b.sideToMove = Color.WHITE then b.enPassant + 8 else b.enPassant - 8)
      = victim
    split_ifs
    · apply foldl_preserves (fun acc : MoveList => ∀ m ∈ acc, Playable b m)
      · exact hl
      · intro acc src hsrc hacc m hm
        rcases mem_pushMove _ _ _ _ _ hm with hm | ⟨e1, e2, e3⟩
        · exact hacc m hm
        · obtain ⟨hs, hbit⟩ := (mem_squaresOf _ _).1 hsrc
          rw [Nat.testBit_and, Bool.and_eq_true, Nat.testBit_and, Bool.and_eq_true] at hbit
          have hnot : (b.piecesOf b.sideToMove ALL).testBit b.enPassant = false := by
            by_contra hne
            have := (own_all_square b _ hw _ (by simpa using hne)).2.1
            rw [hempty] at this
            simp at this
          apply move_to_playable b hw src b.enPassant PAWN (by simp) (by simp) hbit.1.2 e64
            hnot (by rw [hempty]; simp) _ m e1 e2 (Or.inl e3)
          intro _
          apply pawnReach_of_captures
          rw [pawnCapturesOf_symm _ _ _ hs e64]
          exact hbit.1.1
    · exact hl
  · rw [if_neg hep]
    exact hl

theorem not_excluded (x y src : Nat) (hs : src < 64)
    (h : (bbNot (x ||| y)).testBit src = true) : x.testBit src = false := by
  rw [testBit_bbNot] at h
  simp only [hs, decide_True, Bool.true_xor, Bool.not_eq_true', Nat.testBit_or,
    Bool.or_eq_false_iff] at h
  exact h.1

theorem PieceMoves_all (s : Nat) : PieceMoves ALL s = 0 := by
  simp [PieceMoves]

theorem generateAttacksOnSquares_playable (b : ChessBoard) (hw : WellShaped b b.sideToMove)
    (h6 : Invariant6 b) (pinned : Nat) (l : MoveList)
    (hl : ∀ m ∈ l, Playable b m) :
    ∀ m ∈ generateAttacksOnSquares b l b.checkingPieces
      ((if b.sideToMove = Color.WHITE then b.whitePieces KING else b.blackPieces KING)
        ||| pinned), Playable b m := by
  unfold generateAttacksOnSquares
  simp only [ite_own, ite_own_at, ite_pawnAttackers]
  apply foldl_preserves (fun acc : MoveList => ∀ m ∈ acc, Playable b m) _ _ _ hl
  intro acc dst hdst hacc
  obtain ⟨hd, hnot, hc1, hc5, -⟩ := checking_square b hw h6 dst ((mem_squaresOf _ _).1 hdst).2
  have hdk : b.pieces dst ≠ KING := by simp only [KING]; omega
  apply foldl_preserves (fun acc : MoveList => ∀ m ∈ acc, Playable b m) _ _ _ hacc
  intro acc1 piece hpiece hacc1
  apply foldl_preserves (fun acc : MoveList => ∀ m ∈ acc, Playable b m) _ _ _ hacc1
  intro acc2 src hsrc hacc2 m hm
  obtain ⟨hs, hbit⟩ := (mem_squaresOf _ _).1 hsrc
  rw [Nat.testBit_and, Bool.and_eq_true] at hbit
  have hnk := not_excluded _ _ _ hs hbit.2
  have hfin : ∀ (hown : (b.piecesOf b.sideToMove piece).testBit src = true)
      (hr : piece = PAWN → (pawnAttackersOf b.sideToMove dst).testBit src = true)
      (h6 : piece ≠ 7),
      m ∈ acc2 ∨ (m.src = src ∧ m.dst = dst ∧ (m.promotionPiece = NO_PIECE
        ∨ (KNIGHT ≤ m.promotionPiece ∧ m.promotionPiece ≤ QUEEN))) → Playable b m := by
    intro hown hr h7 hmm
    rcases hmm with hmm | ⟨e1, e2, e3⟩
    · exact hacc2 m hmm
    · have hp : 1 ≤ piece ∧ piece ≤ 6 := by
        simp only [PAWN, KNIGHT, BISHOP, ROOK, QUEEN, KING, ALL, List.mem_cons,
          List.mem_singleton, List.not_mem_nil, or_false] at hpiece
        omega
      have hp6 : piece ≠ 6 := by
        intro h6'
        rw [h6', show (6 : Nat) = KING from rfl, hnk] at hown
        exact absurd hown (by simp)
      apply move_to_playable b hw src dst piece hp.1 (by omega) hown hd hnot hdk _ m e1 e2 e3
      intro hpw
      apply pawnReach_of_captures
      rw [pawnCapturesOf_symm _ _ _ hs hd]
      exact hr hpw
  have hsrcs : (b.piecesOf b.sideToMove piece).testBit src = true
      ∧ (piece = PAWN → (pawnAttackersOf b.sideToMove dst).testBit src = true)
      ∧ piece ≠ 7 := by
    have := hbit.1
    by_cases hpw : piece = PAWN
    · rw [if_pos hpw, Nat.testBit_and, Bool.and_eq_true] at this
      exact ⟨by rw [hpw]; exact this.2, fun _ => this.1, by rw [hpw]; simp⟩
    · rw [if_neg hpw, Nat.testBit_and, Bool.and_eq_true] at this
      refine ⟨this.2, fun h => absurd h hpw, ?_⟩
      rintro rfl
      have h0 := this.1
      rw [show (7 : Nat) = ALL from rfl, PieceMoves_all] at h0
      simp at h0
  apply hfin hsrcs.1 hsrcs.2.1 hsrcs.2.2
  unfold emitAttack at hm
  simp only [ite_own] at hm
  by_cases c1 : piece = PAWN
      ∧ getRank dst = (if b.sideToMove = Color.WHITE then Rank_8 else Rank_1)
  · rw [if_pos c1] at hm
    rcases mem_pushPromotions _ _ _ _ hm with hm | ⟨e1, e2, e3⟩
    · exact Or.inl hm
    · exact Or.inr ⟨e1, e2, Or.inr e3⟩
  · rw [if_neg c1] at hm
    split_ifs at hm
    · rcases mem_pushMove _ _ _ _ _ hm with hm | ⟨e1, e2, e3⟩
      · exact Or.inl hm
      · exact Or.inr ⟨e1, e2, Or.inl e3⟩
    · exact Or.inl hm

theorem pawnPush_tables :
    (∀ dst < 64, dst + 8 < 64 → (WhitePawnMoves (dst + 8)).testBit dst = true)
    ∧ (∀ dst < 64, getRank dst = Rank_4 → (WhitePawnMoves (dst + 16)).testBit dst = true)
    ∧ (∀ dst < 64, 8 ≤ dst → (BlackPawnMoves (dst - 8)).testBit dst = true)
    ∧ (∀ dst < 64, getRank dst = Rank_5 → (BlackPawnMoves (dst - 16)).testBit dst = true) := by
  decide!

theorem pawnSourcesTo_reach (b : ChessBoard) (src dst : Nat) (hs : src < 64) (hd : dst < 64)
    (h : (pawnSourcesTo b dst).testBit src = true) :
    (pawnReach b.sideToMove src).testBit dst = true := by
  obtain ⟨t1, t2, t3, t4⟩ := pawnPush_tables
  unfold pawnSourcesTo at h
  simp only [ite_own, ite_other, ite_pawnAttackers] at h
  have hcap : ((b.piecesOf b.sideToMove.flip ALL &&& OneShiftedBy dst)
      &&& (pawnAttackersOf b.sideToMove dst &&& b.piecesOf b.sideToMove PAWN)).testBit src = true →
      (pawnReach b.sideToMove src).testBit dst = true := by
    intro h
    rw [Nat.testBit_and, Bool.and_eq_true] at h
    have h2 := h.2
    rw [Nat.testBit_and, Bool.and_eq_true] at h2
    apply pawnReach_of_captures
    rw [pawnCapturesOf_symm _ _ _ hs hd]
    exact h2.1
  have hbit : ∀ x, (OneShiftedBy x).testBit src = true → x = src := by
    intro x hx
    rw [testBit_OneShiftedBy] at hx
    simpa using hx
  cases hc : b.sideToMove
  · rw [hc] at hcap
    simp only [hc, if_true] at h
    have hw : ∀ x, (WhitePawnMoves src).testBit dst = true →
        (pawnReach Color.WHITE src).testBit x = (pawnReach Color.WHITE src).testBit x →
        (pawnReach Color.WHITE src).testBit dst = true := by
      intro x hx _
      simp [pawnReach, Nat.testBit_or, hx]
    by_cases r4 : getRank dst = Rank_4
    · rw [if_pos r4, Nat.testBit_or, Bool.or_eq_true, Nat.testBit_or, Bool.or_eq_true] at h
      rcases h with h | h | h
      · exact hcap h
      · have e := hbit _ h
        subst e
        exact hw 0 (t1 dst hd hs) rfl
      · have e := hbit _ h
        subst e
        exact hw 0 (t2 dst hd r4) rfl
    · rw [if_neg r4] at h
      by_cases r1 : getRank dst = Rank_1
      · rw [if_pos r1] at h
        exact hcap h
      · rw [if_neg r1, Nat.testBit_or, Bool.or_eq_true] at h
        rcases h with h | h
        · exact hcap h
        · have e := hbit _ h
          subst e
          exact hw 0 (t1 dst hd hs) rfl
  · rw [hc] at hcap
    simp only [hc, if_false, reduceCtorEq] at h
    have hw : ∀ x : Nat, (BlackPawnMoves src).testBit dst = true →
        (pawnReach Color.BLACK src).testBit dst = true := by
      intro x hx
      simp [pawnReach, Nat.testBit_or, hx]
    by_cases r5 : getRank dst = Rank_5
    · rw [if_pos r5, Nat.testBit_or, Bool.or_eq_true, Nat.testBit_or, Bool.or_eq_true] at h
      have h8 : 8 ≤ dst := by
        unfold getRank at r5
        simp only [Rank_5] at r5
        omega
      rcases h with h | h | h
      · exact hcap h
      · have e := hbit _ h
        subst e
        exact hw 0 (t3 dst hd h8)
      · have e := hbit _ h
        subst e
        exact hw 0 (t4 dst hd r5)
    · rw [if_neg r5] at h
      by_cases r8 : getRank dst = Rank_8
      · rw [if_pos r8] at h
        exact hcap h
      · rw [if_neg r8, Nat.testBit_or, Bool.or_eq_true] at h
        have h8 : 8 ≤ dst := by
          unfold getRank at r8
          simp only [Rank_8] at r8
          omega
        rcases h with h | h
        · exact hcap h
        · have e := hbit _ h
          subst e
          exact hw 0 (t3 dst hd h8)

theorem generateMovesToSquares_playable (b : ChessBoard) (hw : WellShaped b b.sideToMove)
    (h3 : Invariant3 b) (dstSquares : Nat)
    (hempty : ∀ dst ∈ squaresOf dstSquares, b.allPieces.testBit dst = false)
    (pinned : Nat) (l : MoveList) (hl : ∀ m ∈ l, Playable b m) :
    ∀ m ∈ generateMovesToSquares b l dstSquares
      ((if b.sideToMove = Color.WHITE then b.whitePieces KING else b.blackPieces KING)
        ||| pinned), Playable b m := by
  unfold generateMovesToSquares
  simp only [ite_own, ite_own_at]
  apply foldl_preserves (fun acc : MoveList => ∀ m ∈ acc, Playable b m) _ _ _ hl
  intro acc dst hdst hacc
  have hd := ((mem_squaresOf _ _).1 hdst).1
  obtain ⟨hdp, hnot⟩ := empty_square b _ hw h3 dst hd (hempty dst hdst)
  have hdk : b.pieces dst ≠ KING := by rw [hdp]; simp
  apply foldl_preserves (fun acc : MoveList => ∀ m ∈ acc, Playable b m) _ _ _ hacc
  intro acc1 piece hpiece hacc1
  apply foldl_preserves (fun acc : MoveList => ∀ m ∈ acc, Playable b m) _ _ _ hacc1
  intro acc2 src hsrc hacc2 m hm
  obtain ⟨hs, hbit⟩ := (mem_squaresOf _ _).1 hsrc
  rw [Nat.testBit_and, Bool.and_eq_true] at hbit
  have hnk := not_excluded _ _ _ hs hbit.2
  unfold emitMoveTo at hm
  simp only [ite_own] at hm
  by_cases c1 : OneShiftedBy src &&& b.piecesOf b.sideToMove ALL ≠ EmptyBitboard
      ∧ b.pieces src = piece ∧ InBetween src dst &&& b.allPieces = EmptyBitboard
  · rw [if_pos c1] at hm
    have hall := (OneShiftedBy_and_ne_zero _ _).1 c1.1
    obtain ⟨-, k1, k6, hown, -⟩ := own_all_square b _ hw src hall
    rw [c1.2.1] at hown k1 k6
    have hp6 : piece ≠ 6 := by
      intro h6'
      rw [h6', show (6 : Nat) = KING from rfl, hnk] at hown
      exact absurd hown (by simp)
    have hfin : m ∈ acc2 ∨ (m.src = src ∧ m.dst = dst ∧ (m.promotionPiece = NO_PIECE
        ∨ (KNIGHT ≤ m.promotionPiece ∧ m.promotionPiece ≤ QUEEN))) := by
      by_cases c2 : piece = PAWN
          ∧ getRank dst = (if b.sideToMove = Color.WHITE then Rank_8 else Rank_1)
      · rw [if_pos c2] at hm
        rcases mem_pushPromotions _ _ _ _ hm with hm | ⟨e1, e2, e3⟩
        · exact Or.inl hm
        · exact Or.inr ⟨e1, e2, Or.inr e3⟩
      · rw [if_neg c2] at hm
        rcases mem_pushMove _ _ _ _ _ hm with hm | ⟨e1, e2, e3⟩
        · exact Or.inl hm
        · exact Or.inr ⟨e1, e2, Or.inl e3⟩
    rcases hfin with hm | ⟨e1, e2, e3⟩
    · exact hacc2 m hm
    · apply move_to_playable b hw src dst piece k1 (by omega) hown hd hnot hdk _ m e1 e2 e3
      intro hpw
      have := hbit.1
      rw [if_pos hpw] at this
      exact pawnSourcesTo_reach b src dst hs hd this
  · rw [if_neg c1] at hm
    exact hacc2 m hm

theorem first_checker (b : ChessBoard) (hw : WellShaped b b.sideToMove) (h6 : Invariant6 b)
    (hchk : b.checkingPieces ≠ 0) :
    b.checkingPieces.testBit ((BitScanForward64 b.checkingPieces).getD 0) = true := by
  obtain ⟨i, hi⟩ := Nat.ne_zero_implies_bit_true hchk
  have hmem : i ∈ squaresOf b.checkingPieces :=
    (mem_squaresOf _ _).2 ⟨(checking_square b hw h6 i hi).1, hi⟩
  unfold BitScanForward64
  cases hl : squaresOf b.checkingPieces with
  | nil =>
    rw [hl] at hmem
    simp at hmem
  | cons x xs =>
    simp only [List.head?_cons, Option.getD_some]
    have : x ∈ squaresOf b.checkingPieces := by rw [hl]; exact List.mem_cons_self _ _
    exact ((mem_squaresOf _ _).1 this).2

theorem generateCheckEvasions_playable (b : ChessBoard) (hw : WellShaped b b.sideToMove)
    (h1 : Invariant1 b) (h3 : Invariant3 b) (h4 : Invariant4 b) (h64 : Board64 b)
    (h6 : Invariant6 b) (h7 : Invariant7 b) (hsafe : OpponentSafe b)
    (hchk : b.checkingPieces ≠ 0) :
    ∀ m ∈ generateCheckEvasions b, Playable b m := by
  have hk := kingEvasions_playable b hw h1 h4 h64 hsafe
  have he := enPassantEvasions_playable b hw h7 _ hk
  have ha := generateAttacksOnSquares_playable b hw h6 b.pinnedPieces _ he
  unfold generateCheckEvasions
  simp only
  by_cases c2 : popCount b.checkingPieces = 2
  · rw [if_pos c2]
    exact hk
  · rw [if_neg c2]
    by_cases c3 : b.pieces ((BitScanForward64 b.checkingPieces).getD 0) ≤ KNIGHT
        ∨ PieceMoves KING (if b.sideToMove = Color.WHITE then b.whiteKingPosition
            else b.blackKingPosition) &&& b.checkingPieces ≠ EmptyBitboard
    · rw [if_pos c3]
      exact ha
    · rw [if_neg c3]
      by_cases c4 : b.inBetweenSquares = EmptyBitboard
      · rw [if_pos c4]
        exact he
      · rw [if_neg c4]
        apply generateMovesToSquares_playable b hw h3 _ _ b.pinnedPieces _ ha
        intro dst hdst
        have hcp := first_checker b hw h6 hchk
        have h5 := (checking_square b hw h6 _ hcp).2.2.2.2
        have h3' : 3 ≤ b.pieces ((BitScanForward64 b.checkingPieces).getD 0) := by
          have : ¬ b.pieces ((BitScanForward64 b.checkingPieces).getD 0) ≤ 2 :=
            fun h => c3 (Or.inl h)
          clear * - this
          omega
        rw [ite_king] at hdst
        exact (and_eq_zero_iff _ _).1 (h5 h3') dst ((mem_squaresOf _ _).1 hdst).2

/-- Every move `generateAllMoves` returns for a well-formed board is one
`doMove` can be applied to. -/
theorem generated_playable (T : Tables) (b : ChessBoard)
    (h1 : Invariant1 b) (h2 : Invariant2 b) (h3 : Invariant3 b) (h4 : Invariant4 b)
    (hm : MailboxAgrees b) (h64 : Board64 b) (hc : CastleBacked b) (h6 : Invariant6 b)
    (h7 : Invariant7 b) (hsafe : OpponentSafe b) :
    ∀ m ∈ generateAllMoves T b, Playable b m := by
  have hw := wellShaped_of_invariants b h1 h2 h3 h4 hm h64 b.sideToMove
  unfold generateAllMoves generateAllMovesImplementation
  by_cases hchk : isInCheck b = true
  · rw [if_pos hchk]
    have : b.checkingPieces ≠ 0 := by
      unfold isInCheck at hchk
      simpa using hchk
    exact generateCheckEvasions_playable b hw h1 h3 h4 h64 h6 h7 hsafe this
  · rw [if_neg hchk]
    simp only [Bool.false_eq_true, if_false, not_false_eq_true, true_and, if_true, ite_own_at]
    have hq := generated_quiet_playable b hw h1 h3 h4 h64 hc hsafe
    split_ifs
    · exact doubleCheck_playable T b _ hq
    · exact hq

/-- C2, counterexample: the position `4k3/8/8/8/8/8/8/4K3 w K - 0 1` (castle
right `K` without a rook on h1) satisfies invariants 1-4, `generateAllMoves`
returns the castling move e1g1 for it, and the board after `doMove` of that
move has bit h1 set in `allPieces` while `pieces[h1]` is `NO_PIECE`:
invariant 3 fails. -/
theorem doMove_breaks_invariant3_unbacked_castle :
    (Invariant1 (initFromFen zeroTables "4k3/8/8/8/8/8/8/4K3 w K - 0 1")
      ∧ Invariant2 (initFromFen zeroTables "4k3/8/8/8/8/8/8/4K3 w K - 0 1")
      ∧ Invariant3 (initFromFen zeroTables "4k3/8/8/8/8/8/8/4K3 w K - 0 1")
      ∧ Invariant4 (initFromFen zeroTables "4k3/8/8/8/8/8/8/4K3 w K - 0 1"))
    ∧ ({ ordinal := 0, src := 60, dst := 62, promotionPiece := NO_PIECE } : ChessMove)
        ∈ generateAllMoves zeroTables (initFromFen zeroTables "4k3/8/8/8/8/8/8/4K3 w K - 0 1")
    ∧ (doMove zeroTables (initFromFen zeroTables "4k3/8/8/8/8/8/8/4K3 w K - 0 1")
        { ordinal := 0, src := 60, dst := 62, promotionPiece := NO_PIECE }).pieces H1 = NO_PIECE
    ∧ (doMove zeroTables (initFromFen zeroTables "4k3/8/8/8/8/8/8/4K3 w K - 0 1")
        { ordinal := 0, src := 60, dst := 62, promotionPiece := NO_PIECE }).allPieces.testBit H1
        = true
    ∧ ¬ Invariant3 (doMove zeroTables (initFromFen zeroTables "4k3/8/8/8/8/8/8/4K3 w K - 0 1")
        { ordinal := 0, src := 60, dst := 62, promotionPiece := NO_PIECE }) := by
  decide!

/-- C2 (amended): on a board that satisfies invariants 1-4, 6 and 7, whose
mailbox names the kind each bitboard holds, whose bitboards are 64-bit values,
whose castle rights each have their rook on the corner, and on which the king
of the side not to move is not attacked, the board after `doMove` of any move
returned by `generateAllMoves` satisfies invariants 1-4 again. -/
theorem doMove_preserves_structure (T : Tables) (b : ChessBoard) (m : ChessMove)
    (h1 : Invariant1 b) (h2 : Invariant2 b) (h3 : Invariant3 b) (h4 : Invariant4 b)
    (hm : MailboxAgrees b) (h64 : Board64 b) (hc : CastleBacked b) (h6 : Invariant6 b)
    (h7 : Invariant7 b) (hsafe : OpponentSafe b) (hgen : m ∈ generateAllMoves T b) :
    Invariant1 (doMove T b m) ∧ Invariant2 (doMove T b m) ∧ Invariant3 (doMove T b m)
      ∧ Invariant4 (doMove T b m) := by
  have hp := generated_playable T b h1 h2 h3 h4 hm h64 hc h6 h7 hsafe m hgen
  obtain ⟨k1, k2, k3, k4, -, -⟩ := doMove_structure T b m h1 h2 h3 h4 hm h64 h7 hp
  exact ⟨k1, k2, k3, k4⟩

theorem doMove_preserves_structure_witness :
    (Invariant1 (initFromFen zeroTables "r3k2r/8/8/8/8/8/8/R3K2R w KQkq - 0 1")
      ∧ Invariant2 (initFromFen zeroTables "r3k2r/8/8/8/8/8/8/R3K2R w KQkq - 0 1")
      ∧ Invariant3 (initFromFen zeroTables "r3k2r/8/8/8/8/8/8/R3K2R w KQkq - 0 1")
      ∧ Invariant4 (initFromFen zeroTables "r3k2r/8/8/8/8/8/8/R3K2R w KQkq - 0 1")
      ∧ MailboxAgrees (initFromFen zeroTables "r3k2r/8/8/8/8/8/8/R3K2R w KQkq - 0 1")
      ∧ Board64 (initFromFen zeroTables "r3k2r/8/8/8/8/8/8/R3K2R w KQkq - 0 1")
      ∧ CastleBacked (initFromFen zeroTables "r3k2r/8/8/8/8/8/8/R3K2R w KQkq - 0 1")
      ∧ Invariant6 (initFromFen zeroTables "r3k2r/8/8/8/8/8/8/R3K2R w KQkq - 0 1")
      ∧ Invariant7 (initFromFen zeroTables "r3k2r/8/8/8/8/8/8/R3K2R w KQkq - 0 1")
      ∧ OpponentSafe (initFromFen zeroTables "r3k2r/8/8/8/8/8/8/R3K2R w KQkq - 0 1")
      ∧ ({ ordinal := 0, src := 60, dst := 62, promotionPiece := NO_PIECE } : ChessMove)
          ∈ generateAllMoves zeroTables
              (initFromFen zeroTables "r3k2r/8/8/8/8/8/8/R3K2R w KQkq - 0 1"))
    ∧ Invariant1 (doMove zeroTables
        (initFromFen zeroTables "r3k2r/8/8/8/8/8/8/R3K2R w KQkq - 0 1")
        { ordinal := 0, src := 60, dst := 62, promotionPiece := NO_PIECE })
    ∧ Invariant2 (doMove zeroTables
        (initFromFen zeroTables "r3k2r/8/8/8/8/8/8/R3K2R w KQkq - 0 1")
        { ordinal := 0, src := 60, dst := 62, promotionPiece := NO_PIECE })
    ∧ Invariant3 (doMove zeroTables
        (initFromFen zeroTables "r3k2r/8/8/8/8/8/8/R3K2R w KQkq - 0 1")
        { ordinal := 0, src := 60, dst := 62, promotionPiece := NO_PIECE })
    ∧ Invariant4 (doMove zeroTables
        (initFromFen zeroTables "r3k2r/8/8/8/8/8/8/R3K2R w KQkq - 0 1")
        { ordinal := 0, src := 60, dst := 62, promotionPiece := NO_PIECE }) :=
  ⟨by decide!,
   doMove_preserves_structure zeroTables
    (initFromFen zeroTables "r3k2r/8/8/8/8/8/8/R3K2R w KQkq - 0 1")
    { ordinal := 0, src := 60, dst := 62, promotionPiece := NO_PIECE }
    (by decide!) (by decide!) (by decide!) (by decide!) (by decide!) (by decide!) (by decide!)
    (by decide!) (by decide!) (by decide!) (by decide!)⟩



/-! ### Material counts -/

theorem popCount_eq_countP (x : Nat) :
    popCount x = (List.range 64).countP (fun s => x.testBit s) := by
  unfold popCount squaresOf
  rw [List.countP_eq_length_filter]

theorem popCount_OneShiftedBy : ∀ k < 64, popCount (OneShiftedBy k) = 1 := by decide!

theorem popCount_pos_iff (x : Nat) (hx : x < 2 ^ 64) : 1 ≤ popCount x ↔ x ≠ 0 := by
  unfold popCount
  constructor
  · intro h hz
    rw [hz] at h
    simp [squaresOf] at h
  · intro h
    obtain ⟨i, hi⟩ := Nat.ne_zero_implies_bit_true h
    have hlt : i < 64 := by
      by_contra hge
      rw [testBit_of_lt_two_pow64 x i hx (by omega)] at hi
      exact absurd hi (by simp)
    have hmem : i ∈ squaresOf x := (mem_squaresOf _ _).2 ⟨hlt, hi⟩
    exact List.length_pos_of_mem hmem

/-- On every square the occupancy bit of `allPieces` is the sum of the bits of
the twelve kind bitboards. -/
theorem square_indicator (b : ChessBoard) (h1 : Invariant1 b) (hw : WellShaped b Color.WHITE)
    (s : Nat) :
    (if b.allPieces.testBit s = true then 1 else 0)
      = ((if (b.whitePieces PAWN).testBit s = true then 1 else 0)
          + (if (b.whitePieces KNIGHT).testBit s = true then 1 else 0)
          + (if (b.whitePieces BISHOP).testBit s = true then 1 else 0)
          + (if (b.whitePieces ROOK).testBit s = true then 1 else 0)
          + (if (b.whitePieces QUEEN).testBit s = true then 1 else 0)
          + (if (b.whitePieces KING).testBit s = true then 1 else 0))
        + ((if (b.blackPieces PAWN).testBit s = true then 1 else 0)
          + (if (b.blackPieces KNIGHT).testBit s = true then 1 else 0)
          + (if (b.blackPieces BISHOP).testBit s = true then 1 else 0)
          + (if (b.blackPieces ROOK).testBit s = true then 1 else 0)
          + (if (b.blackPieces QUEEN).testBit s = true then 1 else 0)
          + (if (b.blackPieces KING).testBit s = true then 1 else 0)) := by
  obtain ⟨a, c, ha, hc, hac, -, -, -, -, hown, hall, hoth, hoall, -⟩ := hw s
  have hA : b.allPieces.testBit s = true ↔ (a ≠ 0 ∨ c ≠ 0) := by
    rw [h1.1, Nat.testBit_or, Bool.or_eq_true]
    exact or_congr hall hoall
  have o1 := hown 1 (by omega) (by omega)
  have o2 := hown 2 (by omega) (by omega)
  have o3 := hown 3 (by omega) (by omega)
  have o4 := hown 4 (by omega) (by omega)
  have o5 := hown 5 (by omega) (by omega)
  have o6 := hown 6 (by omega) (by omega)
  have t1 := hoth 1 (by omega) (by omega)
  have t2 := hoth 2 (by omega) (by omega)
  have t3 := hoth 3 (by omega) (by omega)
  have t4 := hoth 4 (by omega) (by omega)
  have t5 := hoth 5 (by omega) (by omega)
  have t6 := hoth 6 (by omega) (by omega)
  simp only [ChessBoard.piecesOf, Color.flip] at o1 o2 o3 o4 o5 o6 t1 t2 t3 t4 t5 t6
  simp only [PAWN, KNIGHT, BISHOP, ROOK, QUEEN, KING, hA, o1, o2, o3, o4, o5, o6, t1, t2, t3,
    t4, t5, t6]
  clear hA o1 o2 o3 o4 o5 o6 t1 t2 t3 t4 t5 t6 hown hall hoth hoall
  rcases hac with rfl | rfl
  · interval_cases c <;> simp
  · interval_cases a <;> simp

theorem countP_split (b : ChessBoard) (h1 : Invariant1 b) (hw : WellShaped b Color.WHITE)
    (l : List Nat) :
    l.countP (fun s => b.allPieces.testBit s)
      = (l.countP (fun s => (b.whitePieces PAWN).testBit s)
          + l.countP (fun s => (b.whitePieces KNIGHT).testBit s)
          + l.countP (fun s => (b.whitePieces BISHOP).testBit s)
          + l.countP (fun s => (b.whitePieces ROOK).testBit s)
          + l.countP (fun s => (b.whitePieces QUEEN).testBit s)
          + l.countP (fun s => (b.whitePieces KING).testBit s))
        + (l.countP (fun s => (b.blackPieces PAWN).testBit s)
          + l.countP (fun s => (b.blackPieces KNIGHT).testBit s)
          + l.countP (fun s => (b.blackPieces BISHOP).testBit s)
          + l.countP (fun s => (b.blackPieces ROOK).testBit s)
          + l.countP (fun s => (b.blackPieces QUEEN).testBit s)
          + l.countP (fun s => (b.blackPieces KING).testBit s)) := by
  induction l with
  | nil => simp
  | cons x xs ih =>
    simp only [List.countP_cons]
    rw [ih, square_indicator b h1 hw x]
    omega

/-- The number of pieces on the board is two kings plus the rest. -/
theorem popCount_allPieces (b : ChessBoard) (h1 : Invariant1 b) (h2 : Invariant2 b)
    (h3 : Invariant3 b) (h4 : Invariant4 b) (hm : MailboxAgrees b) (h64 : Board64 b) :
    popCount b.allPieces = 2 + (materialOf b).sum := by
  have hw := wellShaped_of_invariants b h1 h2 h3 h4 hm h64 Color.WHITE
  have hk1 : popCount (b.whitePieces KING) = 1 := by
    rw [h4.2.1]; exact popCount_OneShiftedBy _ h4.1
  have hk2 : popCount (b.blackPieces KING) = 1 := by
    rw [h4.2.2.2]; exact popCount_OneShiftedBy _ h4.2.2.1
  have := countP_split b h1 hw (List.range 64)
  simp only [← popCount_eq_countP] at this
  rw [this, hk1, hk2]
  simp only [materialOf, pieceCountOf, ChessBoard.piecesOf, List.sum_cons, List.sum_nil]
  omega


/-- C13: on a board that satisfies invariants 1-4 (one king per side), whose
mailbox names the kind each bitboard holds and whose bitboards are 64-bit
values, and that is not king and bishop against king and bishop,
`checkBoardForInsufficientMaterial` returns true exactly when the material is
king against king, king and one knight or bishop against king, or king and two
knights against king; it returns false whenever a pawn, rook or queen is on the
board. -/
theorem insufficientMaterial_iff (b : ChessBoard) (h1 : Invariant1 b) (h2 : Invariant2 b)
    (h3 : Invariant3 b) (h4 : Invariant4 b) (hm : MailboxAgrees b) (h64 : Board64 b)
    (hnot : ¬ IsKBvKB b) :
    (checkBoardForInsufficientMaterial b = true ↔ IsKvK b ∨ IsKMinorvK b ∨ IsKNNvK b)
    ∧ (HasPawnRookQueen b → checkBoardForInsufficientMaterial b = false) := by
  have htot := popCount_allPieces b h1 h2 h3 h4 hm h64
  have b2 := h64 2 (by omega) (by omega)
  have b3 := h64 3 (by omega) (by omega)
  have hminor : (b.whitePieces KNIGHT ||| b.whitePieces BISHOP ||| b.blackPieces KNIGHT
      ||| b.blackPieces BISHOP) ≠ EmptyBitboard
      ↔ 1 ≤ popCount (b.whitePieces KNIGHT) + popCount (b.whitePieces BISHOP)
          + popCount (b.blackPieces KNIGHT) + popCount (b.blackPieces BISHOP) := by
    have e1 := popCount_pos_iff _ b2.1
    have e2 := popCount_pos_iff _ b3.1
    have e3 := popCount_pos_iff _ b2.2
    have e4 := popCount_pos_iff _ b3.2
    simp only [KNIGHT, BISHOP, EmptyBitboard, ne_eq, or_eq_zero_iff'] at e1 e2 e3 e4 ⊢
    constructor
    · intro h
      by_contra hc
      have z1 : ¬ 1 ≤ popCount (b.whitePieces 2) := by omega
      have z2 : ¬ 1 ≤ popCount (b.whitePieces 3) := by omega
      have z3 : ¬ 1 ≤ popCount (b.blackPieces 2) := by omega
      have z4 : ¬ 1 ≤ popCount (b.blackPieces 3) := by omega
      rw [e1] at z1
      rw [e2] at z2
      rw [e3] at z3
      rw [e4] at z4
      exact h ⟨⟨⟨not_not.1 z1, not_not.1 z2⟩, not_not.1 z3⟩, not_not.1 z4⟩
    · intro h hz
      obtain ⟨⟨⟨z1, z2⟩, z3⟩, z4⟩ := hz
      have y1 : ¬ 1 ≤ popCount (b.whitePieces 2) := fun hh => e1.1 hh z1
      have y2 : ¬ 1 ≤ popCount (b.whitePieces 3) := fun hh => e2.1 hh z2
      have y3 : ¬ 1 ≤ popCount (b.blackPieces 2) := fun hh => e3.1 hh z3
      have y4 : ¬ 1 ≤ popCount (b.blackPieces 3) := fun hh => e4.1 hh z4
      omega
  unfold checkBoardForInsufficientMaterial
  simp only [IsKvK, IsKMinorvK, IsKNNvK, IsKBvKB, HasPawnRookQueen, materialOf, pieceCountOf,
    ChessBoard.piecesOf, List.cons.injEq, and_true, popCountIsOne, beq_iff_eq,
    decide_eq_true_eq, List.sum_cons, List.sum_nil] at hnot htot ⊢
  rw [htot]
  simp only [hminor]
  generalize popCount (b.whitePieces PAWN) = wp at *
  generalize popCount (b.whitePieces KNIGHT) = wn at *
  generalize popCount (b.whitePieces BISHOP) = wb at *
  generalize popCount (b.whitePieces ROOK) = wr at *
  generalize popCount (b.whitePieces QUEEN) = wq at *
  generalize popCount (b.blackPieces PAWN) = bp at *
  generalize popCount (b.blackPieces KNIGHT) = bn at *
  generalize popCount (b.blackPieces BISHOP) = bb at *
  generalize popCount (b.blackPieces ROOK) = br at *
  generalize popCount (b.blackPieces QUEEN) = bq at *
  clear htot hminor b2 b3 h1 h2 h3 h4 hm h64
  have hcases : 2 + (wp + (wn + (wb + (wr + (wq + (bp + (bn + (bb + (br + (bq + 0)))))))))) = 2
      ∨ 2 + (wp + (wn + (wb + (wr + (wq + (bp + (bn + (bb + (br + (bq + 0)))))))))) = 3
      ∨ 2 + (wp + (wn + (wb + (wr + (wq + (bp + (bn + (bb + (br + (bq + 0)))))))))) = 4
      ∨ 4 < 2 + (wp + (wn + (wb + (wr + (wq + (bp + (bn + (bb + (br + (bq + 0)))))))))) := by
    omega
  generalize hn : 2 + (wp + (wn + (wb + (wr + (wq + (bp + (bn + (bb + (br + (bq + 0)))))))))) = n
    at hcases ⊢
  have hsum : n = 2 + (wp + wn + wb + wr + wq + bp + bn + bb + br + bq) := by
    omega
  constructor
  · constructor
    · intro h
      rcases hcases with t | t | t | t
      · refine Or.inl ⟨?_, ?_, ?_, ?_, ?_, ?_, ?_, ?_, ?_, ?_⟩ <;> omega
      · rw [if_neg (by omega), if_pos t] at h
        have h' : 1 ≤ wn + wb + bn + bb := by simpa using h
        have : wn = 1 ∨ wb = 1 ∨ bn = 1 ∨ bb = 1 := by omega
        rcases this with e | e | e | e
        · refine Or.inr (Or.inl (Or.inl ⟨?_, ?_, ?_, ?_, ?_, ?_, ?_, ?_, ?_, ?_⟩)) <;> omega
        · refine Or.inr (Or.inl (Or.inr (Or.inl ⟨?_, ?_, ?_, ?_, ?_, ?_, ?_, ?_, ?_, ?_⟩))) <;>
            omega
        · refine Or.inr (Or.inl (Or.inr (Or.inr (Or.inl
            ⟨?_, ?_, ?_, ?_, ?_, ?_, ?_, ?_, ?_, ?_⟩)))) <;> omega
        · refine Or.inr (Or.inl (Or.inr (Or.inr (Or.inr
            ⟨?_, ?_, ?_, ?_, ?_, ?_, ?_, ?_, ?_, ?_⟩)))) <;> omega
      · rw [if_neg (by omega), if_neg (by omega), if_pos t] at h
        by_cases k1 : wn = 2
        · refine Or.inr (Or.inr (Or.inl ⟨?_, ?_, ?_, ?_, ?_, ?_, ?_, ?_, ?_, ?_⟩)) <;> omega
        · by_cases k2 : bn = 2
          · refine Or.inr (Or.inr (Or.inr ⟨?_, ?_, ?_, ?_, ?_, ?_, ?_, ?_, ?_, ?_⟩)) <;> omega
          · rw [if_neg k1, if_neg k2] at h
            by_cases k3 : wb = 1 ∧ bb = 1
            · exfalso
              apply hnot
              refine ⟨?_, ?_, ?_, ?_, ?_, ?_, ?_, ?_, ?_, ?_⟩ <;> omega
            · rw [if_neg k3] at h
              exact absurd h (by simp)
      · rw [if_neg (by omega), if_neg (by omega), if_neg (by omega)] at h
        exact absurd h (by simp)
    · intro h
      have hbound : wp + wn + wb + wr + wq + bp + bn + bb + br + bq ≤ 2 := by
        rcases h with h | (h | h | h | h) | h | h <;> omega
      rcases hcases with t | t | t | t
      · rw [if_pos t]
      · rw [if_neg (by omega), if_pos t]
        have : 1 ≤ wn + wb + bn + bb := by
          rcases h with h | (h | h | h | h) | h | h <;> omega
        simpa using this
      · rw [if_neg (by omega), if_neg (by omega), if_pos t]
        have : wn = 2 ∨ bn = 2 := by
          rcases h with h | (h | h | h | h) | h | h <;> omega
        rcases this with e | e
        · rw [if_pos e]
        · by_cases k1 : wn = 2
          · rw [if_pos k1]
          · rw [if_neg k1, if_pos e]
      · omega
  · intro hp
    rcases hcases with t | t | t | t
    · omega
    · rw [if_neg (by omega), if_pos t]
      have : ¬ 1 ≤ wn + wb + bn + bb := by omega
      simpa using this
    · rw [if_neg (by omega), if_neg (by omega), if_pos t, if_neg (by omega), if_neg (by omega),
        if_neg (by omega)]
    · rw [if_neg (by omega), if_neg (by omega), if_neg (by omega)]

theorem insufficientMaterial_iff_witness :
    (Invariant1 (initFromFen zeroTables "8/8/4k3/8/8/3K1N2/8/8 w - - 0 1")
      ∧ Invariant2 (initFromFen zeroTables "8/8/4k3/8/8/3K1N2/8/8 w - - 0 1")
      ∧ Invariant3 (initFromFen zeroTables "8/8/4k3/8/8/3K1N2/8/8 w - - 0 1")
      ∧ Invariant4 (initFromFen zeroTables "8/8/4k3/8/8/3K1N2/8/8 w - - 0 1")
      ∧ MailboxAgrees (initFromFen zeroTables "8/8/4k3/8/8/3K1N2/8/8 w - - 0 1")
      ∧ Board64 (initFromFen zeroTables "8/8/4k3/8/8/3K1N2/8/8 w - - 0 1")
      ∧ ¬ IsKBvKB (initFromFen zeroTables "8/8/4k3/8/8/3K1N2/8/8 w - - 0 1")
      ∧ IsKMinorvK (initFromFen zeroTables "8/8/4k3/8/8/3K1N2/8/8 w - - 0 1"))
    ∧ checkBoardForInsufficientMaterial
        (initFromFen zeroTables "8/8/4k3/8/8/3K1N2/8/8 w - - 0 1") = true
    ∧ checkBoardGameResult zeroTables
        (initFromFen zeroTables "8/8/4k3/8/8/3K1N2/8/8 w - - 0 1") [] true
        = TwoPlayerGameResult.DRAW :=
  ⟨by decide!,
   (insufficientMaterial_iff (initFromFen zeroTables "8/8/4k3/8/8/3K1N2/8/8 w - - 0 1")
      (by decide!) (by decide!) (by decide!) (by decide!) (by decide!) (by decide!)
      (by decide!)).1.2 (Or.inr (Or.inl (by decide!))),
   by decide!⟩


/-! ### Draw detection -/

/-- C12, refuted at two positions with king and bishop against king and bishop.
With the white bishop on c1 and the black bishop on a3 (both on dark squares:
same parity of file plus rank) `checkBoardForInsufficientMaterial` returns
false; with the black bishop on b1 instead (squares of different colour) it
returns true.  `DarkSquares` is the mask of the files b, d, f, h and the macro
`IsDarkSquare` tests for an empty intersection; the function `IsDarkSquare` of
square.cpp tests for a non-empty one. -/
theorem insufficientMaterial_bishops_by_file :
    IsKBvKB (initFromFen zeroTables "8/8/4k3/8/8/b7/8/2B1K3 w - - 0 1")
    ∧ (initFromFen zeroTables "8/8/4k3/8/8/b7/8/2B1K3 w - - 0 1").whitePieces BISHOP
        = OneShiftedBy C1
    ∧ (initFromFen zeroTables "8/8/4k3/8/8/b7/8/2B1K3 w - - 0 1").blackPieces BISHOP
        = OneShiftedBy 40
    ∧ squareColor C1 = squareColor 40
    ∧ checkBoardForInsufficientMaterial
        (initFromFen zeroTables "8/8/4k3/8/8/b7/8/2B1K3 w - - 0 1") = false
    ∧ IsKBvKB (initFromFen zeroTables "8/8/4k3/8/8/8/8/1bB1K3 w - - 0 1")
    ∧ (initFromFen zeroTables "8/8/4k3/8/8/8/8/1bB1K3 w - - 0 1").whitePieces BISHOP
        = OneShiftedBy C1
    ∧ (initFromFen zeroTables "8/8/4k3/8/8/8/8/1bB1K3 w - - 0 1").blackPieces BISHOP
        = OneShiftedBy B1
    ∧ squareColor C1 ≠ squareColor B1
    ∧ checkBoardForInsufficientMaterial
        (initFromFen zeroTables "8/8/4k3/8/8/8/8/1bB1K3 w - - 0 1") = true := by
  decide!

/-- When the generator counts no move for the side to move,
`checkBoardGameResult(board, history, checkMoveCount = true)` returns LOSS if
`isInCheck(board)` and DRAW otherwise, whatever the fifty-move counter, the
history and the material are. -/
theorem checkBoardGameResult_count_zero (T : Tables) (board : ChessBoard)
    (moveHistory : ChessMoveHistory) (h : generateAllMovesCount T board [] true = 0) :
    checkBoardGameResult T board moveHistory true
      = if isInCheck board then TwoPlayerGameResult.LOSS else TwoPlayerGameResult.DRAW := by
  unfold checkBoardGameResult
  rw [if_pos ⟨rfl, h⟩]

/-- C19, refuted at `4k3/8/8/3p4/8/8/8/3QK3 w - - 0 1` for the capture d1xd5:
no black piece pseudo-attacks d5 (the attack query for d5 with White as the
attacked side finds nothing), yet `staticExchangeEvaluation` returns
`128 - 1344` and not the value 128 of the pawn.  Step 3 toggles the bit of
`dst` in `validAttackers`, which sets it; the captured pawn is then taken for a
piece that recaptures.  The same happens to the rook capture d1xd5 in
`7k/8/8/3r4/8/8/8/3RK3 w - - 0 1`, which gives 0 instead of 736. -/
theorem staticExchangeEvaluation_undefended_pawn :
    (initFromFen zeroTables "4k3/8/8/3p4/8/8/8/3QK3 w - - 0 1").pieces D1 = QUEEN
    ∧ (initFromFen zeroTables "4k3/8/8/3p4/8/8/8/3QK3 w - - 0 1").pieces 27 = PAWN
    ∧ getAttackingPieces (initFromFen zeroTables "4k3/8/8/3p4/8/8/8/3QK3 w - - 0 1") 27 false
        EmptyBitboard = EmptyBitboard
    ∧ SeeMaterialValue (materialTables 32000) PAWN = 128
    ∧ staticExchangeEvaluation (materialTables 32000)
        (initFromFen zeroTables "4k3/8/8/3p4/8/8/8/3QK3 w - - 0 1") D1 27 = -1216
    ∧ getAttackingPieces (initFromFen zeroTables "7k/8/8/3r4/8/8/8/3RK3 w - - 0 1") 27 false
        EmptyBitboard = EmptyBitboard
    ∧ staticExchangeEvaluation (materialTables 32000)
        (initFromFen zeroTables "7k/8/8/3r4/8/8/8/3RK3 w - - 0 1") D1 27 = 0 := by
  decide!


/-! ### Counters and the null-move flag through `doMove` -/

theorem doMoveEnPassant_counters (pre : Bool) (T : Tables) (b : ChessBoard) (mv : ChessMove) :
    (doMoveEnPassant pre T b mv).fiftyMoveCount = b.fiftyMoveCount
    ∧ (doMoveEnPassant pre T b mv).fullMoveCount = b.fullMoveCount
    ∧ (doMoveEnPassant pre T b mv).nullMove = b.nullMove := by
  by_cases h : mv.dst = b.enPassant ∧ b.pieces mv.src = PAWN
  · obtain ⟨h1, h2⟩ := h
    have h2' : b.pieces mv.src = 1 := h2
    cases hs : b.sideToMove <;> cases pre <;>
      simp [doMoveEnPassant, hs, h1.symm, h2', ChessBoard.setPiecesOf]
  · rw [doMoveEnPassant_skip pre T b mv h]
    exact ⟨rfl, rfl, rfl⟩

theorem doMoveMovePiece_counters (pre : Bool) (T : Tables) (b : ChessBoard) (mv : ChessMove)
    (k : Nat) :
    (doMoveMovePiece pre T b mv k).fiftyMoveCount = b.fiftyMoveCount
    ∧ (doMoveMovePiece pre T b mv k).fullMoveCount = b.fullMoveCount
    ∧ (doMoveMovePiece pre T b mv k).nullMove = b.nullMove := by
  cases hs : b.sideToMove <;> cases pre <;>
    simp [doMoveMovePiece, hs, ChessBoard.setPiecesOf]

theorem doMoveCastleRook_counters (pre : Bool) (T : Tables) (b : ChessBoard) (color : Color)
    (rs rd ps pd : Nat) :
    (doMoveCastleRook pre T b color rs rd ps pd).fiftyMoveCount = b.fiftyMoveCount
    ∧ (doMoveCastleRook pre T b color rs rd ps pd).fullMoveCount = b.fullMoveCount
    ∧ (doMoveCastleRook pre T b color rs rd ps pd).nullMove = b.nullMove := by
  cases color <;> cases pre <;> simp [doMoveCastleRook, ChessBoard.setPiecesOf]

theorem doMoveSpecial_counters (pre : Bool) (T : Tables) (b : ChessBoard) (mv : ChessMove)
    (k : Nat) :
    (doMoveSpecial pre T b mv k).fiftyMoveCount = b.fiftyMoveCount
    ∧ (doMoveSpecial pre T b mv k).fullMoveCount = b.fullMoveCount
    ∧ (doMoveSpecial pre T b mv k).nullMove = b.nullMove := by
  by_cases hk : k = KING
  · subst hk
    rw [doMoveSpecial_king_eq]
    cases hs : b.sideToMove <;> cases hc : castleRook _ mv.src mv.dst
    · exact ⟨rfl, rfl, rfl⟩
    · exact doMoveCastleRook_counters _ _ _ _ _ _ _ _
    · exact ⟨rfl, rfl, rfl⟩
    · exact doMoveCastleRook_counters _ _ _ _ _ _ _ _
  · have hk' : ¬ (k = 6) := hk
    unfold doMoveSpecial
    by_cases h1 : k = 1
    · subst h1
      cases pre <;> simp <;> split_ifs <;> simp
    · by_cases h4 : k = 4
      · subst h4
        simp
        split_ifs <;> simp
      · simp [h1, h4, hk']

theorem doMoveCapture_counters (pre : Bool) (T : Tables) (b : ChessBoard) (mv : ChessMove)
    (c : Nat) :
    (doMoveCapture pre T b mv c).fiftyMoveCount = b.fiftyMoveCount
    ∧ (doMoveCapture pre T b mv c).fullMoveCount = b.fullMoveCount
    ∧ (doMoveCapture pre T b mv c).nullMove = b.nullMove := by
  by_cases hc : c = NO_PIECE
  · subst hc; rw [doMoveCapture_skip]; exact ⟨rfl, rfl, rfl⟩
  · have hc' : ¬ (c = 0) := hc
    cases hs : b.sideToMove <;> cases pre <;>
      simp [doMoveCapture, hs, hc', ChessBoard.setPiecesOf] <;>
      split_ifs <;> simp

theorem doMovePromotion_counters (pre : Bool) (T : Tables) (b : ChessBoard) (mv : ChessMove)
    (k : Nat) :
    (doMovePromotion pre T b mv k).fiftyMoveCount = b.fiftyMoveCount
    ∧ (doMovePromotion pre T b mv k).fullMoveCount = b.fullMoveCount
    ∧ (doMovePromotion pre T b mv k).nullMove = b.nullMove := by
  by_cases hc : k = PAWN ∧ mv.promotionPiece ≠ NO_PIECE
  · obtain ⟨h1, h2⟩ := hc
    have h2' : ¬ (mv.promotionPiece = 0) := h2
    subst h1
    cases hs : b.sideToMove <;> cases pre <;>
      simp [doMovePromotion, hs, h2', ChessBoard.setPiecesOf]
  · rw [doMovePromotion_skip pre T b mv k hc]; exact ⟨rfl, rfl, rfl⟩

theorem doMoveFinish_counters (pre : Bool) (T : Tables) (b : ChessBoard) (e cr k c : Nat) :
    (doMoveFinish pre T b e cr k c).fiftyMoveCount
        = (if c = NO_PIECE ∧ k ≠ PAWN then (b.fiftyMoveCount + 1) % 2 ^ 64 else 0)
    ∧ (doMoveFinish pre T b e cr k c).fullMoveCount = b.fullMoveCount
    ∧ (doMoveFinish pre T b e cr k c).nullMove = b.nullMove := by
  unfold doMoveFinish
  cases pre <;> simp only [Bool.false_eq_true, if_false, if_true] <;>
    split_ifs <;> exact ⟨rfl, rfl, rfl⟩

/-- The counters and the null-move flag after `doMove`. -/
theorem doMoveImplementation_counters (pre : Bool) (T : Tables) (b : ChessBoard)
    (mv : ChessMove) :
    (doMoveImplementation pre T b mv).fiftyMoveCount
        = (if (doMoveEnPassant pre T b mv).pieces mv.dst = NO_PIECE ∧ b.pieces mv.src ≠ PAWN
            then (b.fiftyMoveCount + 1) % 2 ^ 64 else 0)
    ∧ (doMoveImplementation pre T b mv).fullMoveCount = b.fullMoveCount
    ∧ (doMoveImplementation pre T b mv).nullMove = b.nullMove := by
  have key : ∀ b1 b2 b3 b4 b5 : ChessBoard, b1 = doMoveEnPassant pre T b mv →
      b2 = doMoveMovePiece pre T b1 mv (b.pieces mv.src) →
      b3 = doMoveSpecial pre T b2 mv (b.pieces mv.src) →
      b4 = doMoveCapture pre T b3 mv (b1.pieces mv.dst) →
      b5 = doMovePromotion pre T b4 mv (b.pieces mv.src) →
      (buildAttackBoards (doMoveFinish pre T b5 b.enPassant b2.castleRights (b.pieces mv.src)
        (b1.pieces mv.dst))).fiftyMoveCount
        = (if b1.pieces mv.dst = NO_PIECE ∧ b.pieces mv.src ≠ PAWN
            then (b.fiftyMoveCount + 1) % 2 ^ 64 else 0)
      ∧ (buildAttackBoards (doMoveFinish pre T b5 b.enPassant b2.castleRights (b.pieces mv.src)
        (b1.pieces mv.dst))).fullMoveCount = b.fullMoveCount
      ∧ (buildAttackBoards (doMoveFinish pre T b5 b.enPassant b2.castleRights (b.pieces mv.src)
        (b1.pieces mv.dst))).nullMove = b.nullMove := by
    intro b1 b2 b3 b4 b5 e1 e2 e3 e4 e5
    obtain ⟨a1, a2, a3⟩ := doMoveEnPassant_counters pre T b mv
    obtain ⟨c1, c2, c3⟩ := doMoveMovePiece_counters pre T b1 mv (b.pieces mv.src)
    obtain ⟨d1, d2, d3⟩ := doMoveSpecial_counters pre T b2 mv (b.pieces mv.src)
    obtain ⟨f1, f2, f3⟩ := doMoveCapture_counters pre T b3 mv (b1.pieces mv.dst)
    obtain ⟨g1, g2, g3⟩ := doMovePromotion_counters pre T b4 mv (b.pieces mv.src)
    obtain ⟨k1, k2, k3⟩ := doMoveFinish_counters pre T b5 b.enPassant b2.castleRights
      (b.pieces mv.src) (b1.pieces mv.dst)
    rw [← e1] at a1 a2 a3
    rw [← e2] at c1 c2 c3
    rw [← e3] at d1 d2 d3
    rw [← e4] at f1 f2 f3
    rw [← e5] at g1 g2 g3
    have hf : b5.fiftyMoveCount = b.fiftyMoveCount := by rw [g1, f1, d1, c1, a1]
    have hm : b5.fullMoveCount = b.fullMoveCount := by rw [g2, f2, d2, c2, a2]
    have hn : b5.nullMove = b.nullMove := by rw [g3, f3, d3, c3, a3]
    refine ⟨?_, ?_, ?_⟩
    · show (doMoveFinish pre T b5 _ _ _ _).fiftyMoveCount = _
      rw [k1, hf]
    · show (doMoveFinish pre T b5 _ _ _ _).fullMoveCount = _
      rw [k2, hm]
    · show (doMoveFinish pre T b5 _ _ _ _).nullMove = _
      rw [k3, hn]
  exact key _ _ _ _ _ rfl rfl rfl rfl rfl


/-- C15 (counterexample): on the board
`4k3/8/8/3p4/8/8/8/3QK3 w - - 18446744073709551615 30` the fifty-move counter
is `2^64 - 1`; the queen move d1-c1 moves no pawn and captures nothing, and
after `doMove` the counter is 0, not the previous value plus one. -/
theorem doMove_fiftyMoveCount_wraps :
    fullCounterBoard.fiftyMoveCount = 2 ^ 64 - 1
    ∧ fullCounterBoard.pieces D1 = QUEEN
    ∧ fullCounterBoard.pieces C1 = NO_PIECE
    ∧ (doMove zeroTables fullCounterBoard (plainMove D1 C1)).fiftyMoveCount = 0
    ∧ (doMove zeroTables fullCounterBoard (plainMove D1 C1)).fiftyMoveCount
        ≠ fullCounterBoard.fiftyMoveCount + 1 := by
  decide!

/-- C15 (amended): after `doMove` the fifty-move counter is the previous value
plus one modulo `2^64` when the piece on the source square is not a pawn and
the destination square is empty (the previous value plus one when that is
below `2^64`, and 0 after `2^64 - 1`), and 0 when a pawn moves (en passant
included) or the destination square holds a piece; and `checkBoardGameResult`
with `checkMoveCount = false` returns DRAW for every board whose counter is at
least 100. -/
theorem doMove_fiftyMoveCount (T : Tables) (b : ChessBoard) (m : ChessMove)
    (moveHistory : ChessMoveHistory) :
    (b.pieces m.src ≠ PAWN → b.pieces m.dst = NO_PIECE →
        (doMove T b m).fiftyMoveCount = (b.fiftyMoveCount + 1) % 2 ^ 64
          ∧ (b.fiftyMoveCount + 1 < 2 ^ 64 →
              (doMove T b m).fiftyMoveCount = b.fiftyMoveCount + 1)
          ∧ (b.fiftyMoveCount = 2 ^ 64 - 1 → (doMove T b m).fiftyMoveCount = 0))
    ∧ (b.pieces m.src = PAWN ∨ b.pieces m.dst ≠ NO_PIECE → (doMove T b m).fiftyMoveCount = 0)
    ∧ (100 ≤ b.fiftyMoveCount →
        checkBoardGameResult T b moveHistory false = TwoPlayerGameResult.DRAW) := by
  have h := (doMoveImplementation_counters true T b m).1
  refine ⟨?_, ?_, ?_⟩
  · intro hp hd
    have hskip : doMoveEnPassant true T b m = b :=
      doMoveEnPassant_skip true T b m (fun hh => hp hh.2)
    rw [hskip, if_pos ⟨hd, hp⟩] at h
    have h' : (doMove T b m).fiftyMoveCount = (b.fiftyMoveCount + 1) % 2 ^ 64 := h
    refine ⟨h', ?_, ?_⟩
    · intro hlt
      rw [h', Nat.mod_eq_of_lt hlt]
    · intro hmax
      rw [h', hmax]
      decide
  · intro hor
    by_cases hp : b.pieces m.src = PAWN
    · rw [if_neg (fun hh => hh.2 hp)] at h
      exact h
    · have hskip : doMoveEnPassant true T b m = b :=
        doMoveEnPassant_skip true T b m (fun hh => hp hh.2)
      have hd : b.pieces m.dst ≠ NO_PIECE := hor.resolve_left hp
      rw [hskip, if_neg (fun hh => hd hh.1)] at h
      exact h
  · intro h100
    unfold checkBoardGameResult
    rw [if_neg (by simp), if_pos h100]

theorem doMove_fiftyMoveCount_witness :
    ((doMove zeroTables (initFromFen zeroTables "4k3/8/8/3p4/8/8/8/3QK3 w - - 7 30")
        (plainMove D1 C1)).fiftyMoveCount
      = ((initFromFen zeroTables "4k3/8/8/3p4/8/8/8/3QK3 w - - 7 30").fiftyMoveCount + 1)
          % 2 ^ 64
      ∧ ((initFromFen zeroTables "4k3/8/8/3p4/8/8/8/3QK3 w - - 7 30").fiftyMoveCount + 1
            < 2 ^ 64 →
          (doMove zeroTables (initFromFen zeroTables "4k3/8/8/3p4/8/8/8/3QK3 w - - 7 30")
            (plainMove D1 C1)).fiftyMoveCount
          = (initFromFen zeroTables "4k3/8/8/3p4/8/8/8/3QK3 w - - 7 30").fiftyMoveCount + 1)
      ∧ ((initFromFen zeroTables "4k3/8/8/3p4/8/8/8/3QK3 w - - 7 30").fiftyMoveCount
            = 2 ^ 64 - 1 →
          (doMove zeroTables (initFromFen zeroTables "4k3/8/8/3p4/8/8/8/3QK3 w - - 7 30")
            (plainMove D1 C1)).fiftyMoveCount = 0))
    ∧ (initFromFen zeroTables "4k3/8/8/3p4/8/8/8/3QK3 w - - 7 30").fiftyMoveCount = 7
    ∧ (doMove zeroTables (initFromFen zeroTables "4k3/8/8/3p4/8/8/8/3QK3 w - - 7 30")
        (plainMove D1 C1)).fiftyMoveCount = 8
    ∧ (doMove zeroTables (initFromFen zeroTables "4k3/8/8/3p4/8/8/8/3QK3 w - - 7 30")
        (plainMove D1 27)).fiftyMoveCount = 0
    ∧ checkBoardGameResult zeroTables
        (initFromFen zeroTables "4k3/8/8/3p4/8/8/8/3QK3 w - - 100 60") [] false
        = TwoPlayerGameResult.DRAW :=
  ⟨(doMove_fiftyMoveCount zeroTables
      (initFromFen zeroTables "4k3/8/8/3p4/8/8/8/3QK3 w - - 7 30") (plainMove D1 C1) []).1
      (by decide!) (by decide!),
   by decide!,
   by decide!,
   (doMove_fiftyMoveCount zeroTables
      (initFromFen zeroTables "4k3/8/8/3p4/8/8/8/3QK3 w - - 7 30") (plainMove D1 27) []).2.1
      (Or.inr (by decide!)),
   (doMove_fiftyMoveCount zeroTables
      (initFromFen zeroTables "4k3/8/8/3p4/8/8/8/3QK3 w - - 100 60") (plainMove D1 27) []).2.2
      (by decide!)⟩


/-! ### Null moves -/

theorem doNullMove_hashValue (T : Tables) (b : ChessBoard) :
    (doNullMove T b).hashValue
      = (b.hashValue ^^^ T.WhiteToMoveHash)
          ^^^ (if b.enPassant ≠ NO_SQUARE then T.EnPassantHashValues b.enPassant else 0) := by
  unfold doNullMove
  simp only []
  by_cases h : b.enPassant ≠ NO_SQUARE
  · rw [if_pos (show _ from h), if_pos h]
    rfl
  · rw [if_neg (show ¬ _ from h), if_neg h]
    exact (Nat.xor_zero _).symm

theorem doNullMove_enPassant (T : Tables) (b : ChessBoard) :
    (doNullMove T b).enPassant = NO_SQUARE := by
  unfold doNullMove
  simp only []
  by_cases h : b.enPassant ≠ NO_SQUARE
  · rw [if_pos (show _ from h)]
    rfl
  · rw [if_neg (show ¬ _ from h)]
    exact not_not.1 h

theorem doNullMove_rest (T : Tables) (b : ChessBoard) :
    (doNullMove T b).sideToMove = b.sideToMove.flip
    ∧ (doNullMove T b).nullMove = true
    ∧ (doNullMove T b).pieces = b.pieces
    ∧ (doNullMove T b).whitePieces = b.whitePieces
    ∧ (doNullMove T b).blackPieces = b.blackPieces
    ∧ (doNullMove T b).allPieces = b.allPieces
    ∧ (doNullMove T b).castleRights = b.castleRights
    ∧ (doNullMove T b).whiteKingPosition = b.whiteKingPosition
    ∧ (doNullMove T b).blackKingPosition = b.blackKingPosition
    ∧ (doNullMove T b).fiftyMoveCount = b.fiftyMoveCount
    ∧ (doNullMove T b).fullMoveCount = b.fullMoveCount
    ∧ (doNullMove T b).materialHashValue = b.materialHashValue
    ∧ (doNullMove T b).pawnHashValue = b.pawnHashValue
    ∧ (doNullMove T b).materialEvaluation = b.materialEvaluation
    ∧ (doNullMove T b).pstEvaluation = b.pstEvaluation := by
  have hs : (if b.sideToMove = Color.WHITE then Color.BLACK else Color.WHITE)
      = b.sideToMove.flip := otherColor_eq b
  unfold doNullMove
  simp only []
  by_cases h : b.enPassant ≠ NO_SQUARE
  · rw [if_pos (show _ from h)]
    exact ⟨hs, rfl, rfl, rfl, rfl, rfl, rfl, rfl, rfl, rfl, rfl, rfl, rfl, rfl, rfl⟩
  · rw [if_neg (show ¬ _ from h)]
    exact ⟨hs, rfl, rfl, rfl, rfl, rfl, rfl, rfl, rfl, rfl, rfl, rfl, rfl, rfl, rfl⟩

theorem buildAttackBoards_invariant6 (b : ChessBoard) : Invariant6 (buildAttackBoards b) :=
  ⟨rfl, rfl, rfl, rfl⟩

/-- C17: `doNullMove` flips `sideToMove`, sets `enPassant` to `NO_SQUARE`,
XORs `WhiteToMoveHash` and the key of a set en-passant square into `hashValue`,
sets `nullMove` and rebuilds the attack cache; the mailbox, the piece
bitboards, `allPieces`, the castle rights, the king squares, both counters, the
material and pawn hashes and both evaluations stay; and `hashValue` equals
`calculateHash()` afterwards if it did before. -/
theorem doNullMove_frame (T : Tables) (b : ChessBoard) :
    ((doNullMove T b).sideToMove = b.sideToMove.flip
      ∧ (doNullMove T b).enPassant = NO_SQUARE
      ∧ (doNullMove T b).hashValue
          = (b.hashValue ^^^ T.WhiteToMoveHash)
            ^^^ (if b.enPassant ≠ NO_SQUARE then T.EnPassantHashValues b.enPassant else 0)
      ∧ (doNullMove T b).nullMove = true
      ∧ Invariant6 (doNullMove T b))
    ∧ ((doNullMove T b).pieces = b.pieces
      ∧ (doNullMove T b).whitePieces = b.whitePieces
      ∧ (doNullMove T b).blackPieces = b.blackPieces
      ∧ (doNullMove T b).allPieces = b.allPieces
      ∧ (doNullMove T b).castleRights = b.castleRights
      ∧ (doNullMove T b).whiteKingPosition = b.whiteKingPosition
      ∧ (doNullMove T b).blackKingPosition = b.blackKingPosition
      ∧ (doNullMove T b).fiftyMoveCount = b.fiftyMoveCount
      ∧ (doNullMove T b).fullMoveCount = b.fullMoveCount
      ∧ (doNullMove T b).materialHashValue = b.materialHashValue
      ∧ (doNullMove T b).pawnHashValue = b.pawnHashValue
      ∧ (doNullMove T b).materialEvaluation = b.materialEvaluation
      ∧ (doNullMove T b).pstEvaluation = b.pstEvaluation)
    ∧ (b.hashValue = calculateHash T b →
        (doNullMove T b).hashValue = calculateHash T (doNullMove T b)) := by
  obtain ⟨r1, r2, r3, r4, r5, r6, r7, r8, r9, r10, r11, r12, r13, r14, r15⟩ :=
    doNullMove_rest T b
  have he := doNullMove_enPassant T b
  have hh := doNullMove_hashValue T b
  refine ⟨⟨r1, he, hh, r2, ?_⟩,
    ⟨r3, r4, r5, r6, r7, r8, r9, r10, r11, r12, r13, r14, r15⟩, ?_⟩
  · unfold doNullMove
    exact buildAttackBoards_invariant6 _
  · intro hcalc
    rw [hh, hcalc, calculateHash_eq, calculateHash_eq, r4, r5, r7, r1, he]
    simp only [ne_eq, not_true_eq_false, if_false, Nat.xor_zero]
    by_cases hep : b.enPassant = NO_SQUARE
    · simp only [hep, not_true_eq_false, if_false, Nat.xor_zero]
      cases hs : b.sideToMove <;>
        simp [Color.flip, Nat.xor_assoc]
    · simp only [hep, not_false_eq_true, if_true]
      cases hs : b.sideToMove <;>
        simp [Color.flip, Nat.xor_assoc, Nat.xor_comm (T.EnPassantHashValues b.enPassant)]

theorem doNullMove_frame_witness :
    (initFromFen sampleTables
        "rnbqkbnr/ppp1pppp/8/8/3pP3/8/PPPP1PPP/RNBQKBNR b KQkq e3 0 3").hashValue
      = calculateHash sampleTables (initFromFen sampleTables
        "rnbqkbnr/ppp1pppp/8/8/3pP3/8/PPPP1PPP/RNBQKBNR b KQkq e3 0 3")
    ∧ (initFromFen sampleTables
        "rnbqkbnr/ppp1pppp/8/8/3pP3/8/PPPP1PPP/RNBQKBNR b KQkq e3 0 3").enPassant ≠ NO_SQUARE
    ∧ (doNullMove sampleTables (initFromFen sampleTables
          "rnbqkbnr/ppp1pppp/8/8/3pP3/8/PPPP1PPP/RNBQKBNR b KQkq e3 0 3")).hashValue
        = calculateHash sampleTables (doNullMove sampleTables (initFromFen sampleTables
          "rnbqkbnr/ppp1pppp/8/8/3pP3/8/PPPP1PPP/RNBQKBNR b KQkq e3 0 3")) :=
  ⟨by decide!, by decide!,
   (doNullMove_frame sampleTables (initFromFen sampleTables
      "rnbqkbnr/ppp1pppp/8/8/3pP3/8/PPPP1PPP/RNBQKBNR b KQkq e3 0 3")).2.2 (by decide!)⟩


theorem initFromFen_nullMove (T : Tables) (fen : String) :
    (initFromFen T fen).nullMove = false := by
  rw [(initFromFen_frame T fen).2.2.2.1]
  exact (fenFields_board fen).2.2.1

theorem applyCall_nullMove (T : Tables) (b : ChessBoard) (call : BoardCall) :
    (applyCall T b call).nullMove = (b.nullMove || decide (call = BoardCall.null)) := by
  cases call with
  | move m =>
    have : (doMove T b m).nullMove = b.nullMove := (doMoveImplementation_counters true T b m).2.2
    simp [applyCall, this]
  | null =>
    simp [applyCall, (doNullMove_rest T b).2.1]

theorem applyCalls_nullMove (T : Tables) (calls : List BoardCall) (b : ChessBoard) :
    (applyCalls T b calls).nullMove = (b.nullMove || decide (BoardCall.null ∈ calls)) := by
  induction calls generalizing b with
  | nil => simp [applyCalls]
  | cons c cs ih =>
    have h : applyCalls T b (c :: cs) = applyCalls T (applyCall T b c) cs := rfl
    rw [h, ih, applyCall_nullMove]
    cases b.nullMove <;> cases hc : decide (c = BoardCall.null) <;>
      simp at hc <;> simp [hc, eq_comm]

/-- C18, refuted on the initial position: after `doNullMove()` followed by
`doMove(e7e5)` the flag `hasMadeNullMove()` is still true although the last
call was `doMove`.  `doMoveImplementation` never writes `nullMove`. -/
theorem hasMadeNullMove_after_null_then_move :
    hasMadeNullMove (applyCalls zeroTables (initFromFen zeroTables startingFen)
        [BoardCall.null, BoardCall.move (plainMove 12 28)]) = true
    ∧ [BoardCall.null, BoardCall.move (plainMove 12 28)].getLast?
        ≠ some BoardCall.null := by
  decide!

/-- C18 (amended): for every board reached from a FEN position by a sequence
of `doMove` and `doNullMove` calls, `hasMadeNullMove()` is true if and only if
one of the calls was `doNullMove`. -/
theorem hasMadeNullMove_iff_some_null (T : Tables) (fen : String) (calls : List BoardCall) :
    hasMadeNullMove (applyCalls T (initFromFen T fen) calls) = true
      ↔ BoardCall.null ∈ calls := by
  unfold hasMadeNullMove
  rw [applyCalls_nullMove, initFromFen_nullMove]
  simp


/-! ### Move text -/

theorem square_text_roundtrip : ∀ s < 64,
    FilePrint.getD (getFile s) (Char.ofNat 0) ≠ 'x'
    ∧ squareOfFileRank (findIndexInt FilePrint (FilePrint.getD (getFile s) (Char.ofNat 0)))
        (findIndexInt RankPrint (RankPrint.getD (getRank s) (Char.ofNat 0))) = s := by
  decide!

theorem promotion_text_roundtrip : ∀ p < 6, KNIGHT ≤ p →
    PiecePrint.getD p (Char.ofNat 0) ≠ Char.ofNat 0
    ∧ ((findIndexInt PiecePrint (tolower (PiecePrint.getD p (Char.ofNat 0)))) % 2 ^ 32).toNat
        = p := by
  decide!

theorem stringToMove_marked (f1 r1 : Char) (text : List Char) (move : ChessMove) :
    stringToMoveImplementation (f1 :: r1 :: 'x' :: text) move
      = { move with
          src := squareOfFileRank (findIndexInt FilePrint f1) (findIndexInt RankPrint r1),
          dst := squareOfFileRank (findIndexInt FilePrint (text.getD 0 (Char.ofNat 0)))
            (findIndexInt RankPrint (text.getD 1 (Char.ofNat 0))),
          promotionPiece :=
            (if text.getD 2 (Char.ofNat 0) ≠ Char.ofNat 0 then
              ((findIndexInt PiecePrint (tolower (text.getD 2 (Char.ofNat 0)))) % 2 ^ 32).toNat
             else NO_PIECE),
          ordinal := NO_CHESS_MOVE_ORDINAL } := by
  simp [stringToMoveImplementation]

theorem stringToMove_unmarked (f1 r1 : Char) (text : List Char) (move : ChessMove)
    (h : text.getD 0 (Char.ofNat 0) ≠ 'x') :
    stringToMoveImplementation (f1 :: r1 :: text) move
      = { move with
          src := squareOfFileRank (findIndexInt FilePrint f1) (findIndexInt RankPrint r1),
          dst := squareOfFileRank (findIndexInt FilePrint (text.getD 0 (Char.ofNat 0)))
            (findIndexInt RankPrint (text.getD 1 (Char.ofNat 0))),
          promotionPiece :=
            (if text.getD 2 (Char.ofNat 0) ≠ Char.ofNat 0 then
              ((findIndexInt PiecePrint (tolower (text.getD 2 (Char.ofNat 0)))) % 2 ^ 32).toNat
             else NO_PIECE),
          ordinal := NO_CHESS_MOVE_ORDINAL } := by
  simp only [List.getD_eq_getElem?_getD] at h
  simp [stringToMoveImplementation, h]

theorem printMove_text (m : ChessMove) :
    printMoveToConsoleImplementation m
      = FilePrint.getD (getFile m.src) (Char.ofNat 0)
        :: RankPrint.getD (getRank m.src) (Char.ofNat 0)
        :: FilePrint.getD (getFile m.dst) (Char.ofNat 0)
        :: RankPrint.getD (getRank m.dst) (Char.ofNat 0)
        :: (if m.promotionPiece ≠ NO_PIECE then
              [PiecePrint.getD m.promotionPiece (Char.ofNat 0)] else []) := by
  unfold printMoveToConsoleImplementation
  split_ifs <;> rfl

/-- C16: for a move with source and destination on the board and promotion
NONE, KNIGHT, BISHOP, ROOK or QUEEN, `stringToMove` applied to the text
`printMoveToConsole` writes gives back source, destination and promotion; and
the text with an `x` put between the two squares parses to the same move. -/
theorem moveText_roundtrip (m move : ChessMove) (hs : m.src < 64) (hd : m.dst < 64)
    (hp : m.promotionPiece = NO_PIECE
      ∨ (KNIGHT ≤ m.promotionPiece ∧ m.promotionPiece ≤ QUEEN)) :
    ((stringToMoveImplementation (printMoveToConsoleImplementation m) move).src = m.src
      ∧ (stringToMoveImplementation (printMoveToConsoleImplementation m) move).dst = m.dst
      ∧ (stringToMoveImplementation (printMoveToConsoleImplementation m) move).promotionPiece
          = m.promotionPiece)
    ∧ stringToMoveImplementation (insertCaptureMark (printMoveToConsoleImplementation m)) move
        = stringToMoveImplementation (printMoveToConsoleImplementation m) move := by
  obtain ⟨-, s2⟩ := square_text_roundtrip m.src hs
  obtain ⟨d1, d2⟩ := square_text_roundtrip m.dst hd
  have hmark : ∀ (f1 r1 : Char) (text : List Char),
      insertCaptureMark (f1 :: r1 :: text) = f1 :: r1 :: 'x' :: text := fun _ _ _ => rfl
  rw [printMove_text, hmark, stringToMove_marked, stringToMove_unmarked _ _ _ _ d1]
  refine ⟨⟨s2, d2, ?_⟩, rfl⟩
  show (if _ then _ else _) = _
  rcases hp with h0 | ⟨h2, h5⟩
  · rw [h0]
    rfl
  · have hne : m.promotionPiece ≠ NO_PIECE := by
      simp only [KNIGHT, NO_PIECE] at h2 ⊢
      omega
    obtain ⟨p1, p2⟩ := promotion_text_roundtrip m.promotionPiece
      (by simp only [QUEEN] at h5; omega) h2
    rw [if_pos hne]
    show (if PiecePrint.getD m.promotionPiece (Char.ofNat 0) ≠ Char.ofNat 0 then _ else _) = _
    rw [if_pos p1]
    exact p2

theorem moveText_roundtrip_witness :
    printMoveToConsoleImplementation
        { ordinal := 0, src := 12, dst := 4, promotionPiece := QUEEN } = "e7e8q".toList
    ∧ ((stringToMoveImplementation (printMoveToConsoleImplementation
          { ordinal := 0, src := 12, dst := 4, promotionPiece := QUEEN }) (plainMove 0 0)).src = 12
      ∧ (stringToMoveImplementation (printMoveToConsoleImplementation
          { ordinal := 0, src := 12, dst := 4, promotionPiece := QUEEN }) (plainMove 0 0)).dst = 4
      ∧ (stringToMoveImplementation (printMoveToConsoleImplementation
          { ordinal := 0, src := 12, dst := 4, promotionPiece := QUEEN })
          (plainMove 0 0)).promotionPiece = QUEEN)
    ∧ stringToMoveImplementation (insertCaptureMark (printMoveToConsoleImplementation
          { ordinal := 0, src := 12, dst := 4, promotionPiece := QUEEN })) (plainMove 0 0)
        = stringToMoveImplementation (printMoveToConsoleImplementation
          { ordinal := 0, src := 12, dst := 4, promotionPiece := QUEEN }) (plainMove 0 0) :=
  ⟨by decide!,
   moveText_roundtrip { ordinal := 0, src := 12, dst := 4, promotionPiece := QUEEN }
    (plainMove 0 0) (by decide) (by decide) (Or.inr ⟨by decide, by decide⟩)⟩


/-! ### Static exchange evaluation -/

theorem seeRound_go (T : Tables) (board : ChessBoard) (dst : Nat) (s : SeeState) :
    (seeRound T board dst s).2 = true →
    (seeRound T board dst s).1.validAttackers = ResetLowestSetBit s.validAttackers
    ∧ ResetLowestSetBit s.validAttackers ≠ 0 := by
  have hz : ∀ x y : Nat, x &&& y ≠ 0 → x ≠ 0 := by
    intro x y hxy hx
    rw [hx, Nat.zero_and] at hxy
    exact hxy rfl
  unfold seeRound
  simp only []
  cases hl : seeLeastAttacker (if s.whiteToMove = true then board.whitePieces
      else board.blackPieces) s.sideToMoveAttackers (s.bestKnown s.whiteToMove) with
  | none =>
    intro h
    exact absurd h (by simp)
  | some currentPiece =>
    simp only []
    by_cases c1 : InBetween ((BitScanForward64 (s.sideToMoveAttackers &&&
        (if s.whiteToMove = true then board.whitePieces else board.blackPieces)
          currentPiece)).getD 0) dst &&& board.allPieces = EmptyBitboard
    · rw [if_pos c1]
      by_cases c2 : s.capturedPiece = KING
      · rw [if_pos c2]
        intro h
        exact absurd h (by simp)
      · rw [if_neg c2]
        by_cases c3 : -(s.gain (s.depth - 1)) < 0
            ∧ SeeMaterialValue T s.capturedPiece - s.gain (s.depth - 1) < 0
        · rw [if_pos c3]
          intro h
          exact absurd h (by simp)
        · rw [if_neg c3]
          intro h
          exact ⟨rfl, hz _ _ (by simpa using h)⟩
    · rw [if_neg c1]
      intro h
      exact ⟨rfl, hz _ _ (by simpa using h)⟩

/-- What one round of the loop does to `gain`, `depth` and `capturedPiece`:
nothing (no attacker, or an obstructed one), a store to `gain[depth]` followed
by `break`, or the store and the step to the next depth. -/
theorem seeRound_gain (T : Tables) (board : ChessBoard) (dst : Nat) (s : SeeState) :
    ((seeRound T board dst s).1.gain = s.gain ∧ (seeRound T board dst s).1.depth = s.depth
      ∧ (seeRound T board dst s).1.capturedPiece = s.capturedPiece)
    ∨ ((seeRound T board dst s).1.gain
          = setAt s.gain s.depth (SeeMaterialValue T s.capturedPiece - s.gain (s.depth - 1))
      ∧ (seeRound T board dst s).1.depth = s.depth
      ∧ (seeRound T board dst s).1.capturedPiece = s.capturedPiece)
    ∨ ((seeRound T board dst s).1.gain
          = setAt s.gain s.depth (SeeMaterialValue T s.capturedPiece - s.gain (s.depth - 1))
      ∧ (seeRound T board dst s).1.depth = s.depth + 1) := by
  unfold seeRound
  simp only []
  cases hl : seeLeastAttacker (if s.whiteToMove = true then board.whitePieces
      else board.blackPieces) s.sideToMoveAttackers (s.bestKnown s.whiteToMove) with
  | none => exact Or.inl ⟨rfl, rfl, rfl⟩
  | some currentPiece =>
    simp only []
    by_cases c1 : InBetween ((BitScanForward64 (s.sideToMoveAttackers &&&
        (if s.whiteToMove = true then board.whitePieces else board.blackPieces)
          currentPiece)).getD 0) dst &&& board.allPieces = EmptyBitboard
    · rw [if_pos c1]
      by_cases c2 : s.capturedPiece = KING
      · rw [if_pos c2]
        exact Or.inr (Or.inl ⟨rfl, rfl, rfl⟩)
      · rw [if_neg c2]
        by_cases c3 : -(s.gain (s.depth - 1)) < 0
            ∧ SeeMaterialValue T s.capturedPiece - s.gain (s.depth - 1) < 0
        · rw [if_pos c3]
          exact Or.inr (Or.inl ⟨rfl, rfl, rfl⟩)
        · rw [if_neg c3]
          exact Or.inr (Or.inr ⟨rfl, rfl⟩)
    · rw [if_neg c1]
      exact Or.inl ⟨rfl, rfl, rfl⟩

theorem resetLowestSetBit_lt (x : Nat) (h : ResetLowestSetBit x ≠ 0) :
    ResetLowestSetBit x < x := by
  have hx : x ≠ 0 := by
    rintro rfl
    exact h rfl
  have : ResetLowestSetBit x ≤ x - 1 := Nat.and_le_right
  omega

/-- The loop of `staticExchangeEvaluation` ends by itself: any two bounds
above `validAttackers` give the same final state. -/
theorem seeLoop_fuel (T : Tables) (board : ChessBoard) (dst : Nat) (n : Nat) :
    ∀ (s : SeeState) (m : Nat), s.validAttackers < n → s.validAttackers < m →
      seeLoop T board dst n s = seeLoop T board dst m s := by
  induction n with
  | zero => intro s m h; exact absurd h (by simp)
  | succ n ih =>
    intro s m hn hm
    cases m with
    | zero => exact absurd hm (by simp)
    | succ m =>
      unfold seeLoop
      by_cases hgo : (seeRound T board dst s).2 = true
      · rw [if_pos hgo, if_pos hgo]
        obtain ⟨e1, e2⟩ := seeRound_go T board dst s hgo
        have hlt := resetLowestSetBit_lt _ e2
        exact ih _ m (by rw [e1]; omega) (by rw [e1]; omega)
      · rw [if_neg hgo, if_neg hgo]


/-- During the loop `gain[0]` stays the value of the captured piece, and once
a second entry exists `gain[1]` is the value of the moving piece minus
`gain[0]`. -/
theorem seeLoop_gain (T : Tables) (board : ChessBoard) (dst : Nat) (c vm : Int)
    (movingPiece : Nat) (hvm : SeeMaterialValue T movingPiece = vm) (n : Nat) :
    ∀ s : SeeState,
      (s.gain 0 = c ∧ 1 ≤ s.depth ∧ (s.depth = 1 → s.capturedPiece = movingPiece)
        ∧ (2 ≤ s.depth → s.gain 1 = vm - c)) →
      (seeLoop T board dst n s).gain 0 = c ∧ 1 ≤ (seeLoop T board dst n s).depth
        ∧ (2 ≤ (seeLoop T board dst n s).depth → (seeLoop T board dst n s).gain 1 = vm - c) := by
  have step : ∀ s : SeeState,
      (s.gain 0 = c ∧ 1 ≤ s.depth ∧ (s.depth = 1 → s.capturedPiece = movingPiece)
        ∧ (2 ≤ s.depth → s.gain 1 = vm - c)) →
      ((seeRound T board dst s).1.gain 0 = c ∧ 1 ≤ (seeRound T board dst s).1.depth
        ∧ ((seeRound T board dst s).1.depth = 1 →
            (seeRound T board dst s).1.capturedPiece = movingPiece)
        ∧ (2 ≤ (seeRound T board dst s).1.depth →
            (seeRound T board dst s).1.gain 1 = vm - c)) := by
    intro s ⟨h0, h1, h2, h3⟩
    rcases seeRound_gain T board dst s with ⟨e1, e2, e3⟩ | ⟨e1, e2, e3⟩ | ⟨e1, e2⟩
    · rw [e1, e2, e3]
      exact ⟨h0, h1, h2, h3⟩
    · rw [e1, e2, e3]
      refine ⟨?_, h1, h2, ?_⟩
      · unfold setAt
        rw [if_neg (by omega)]
        exact h0
      · intro hd
        unfold setAt
        rw [if_neg (by omega)]
        exact h3 hd
    · rw [e1, e2]
      refine ⟨?_, by omega, fun h => absurd h (by omega), ?_⟩
      · unfold setAt
        rw [if_neg (by omega)]
        exact h0
      · intro _
        unfold setAt
        by_cases hd : s.depth = 1
        · rw [if_pos hd.symm, h2 hd, hd, hvm]
          show vm - s.gain 0 = vm - c
          rw [h0]
        · rw [if_neg (by omega)]
          exact h3 (by omega)
  induction n with
  | zero =>
    intro s ⟨h0, h1, _, h3⟩
    exact ⟨h0, h1, h3⟩
  | succ n ih =>
    intro s hs
    have hr := step s hs
    unfold seeLoop
    by_cases hgo : (seeRound T board dst s).2 = true
    · rw [if_pos hgo]
      exact ih _ hr
    · rw [if_neg hgo]
      exact ⟨hr.1, hr.2.1, hr.2.2.2⟩

theorem ite_prop {α : Type} (P : α → Prop) (c : Prop) [Decidable c] (a b : α)
    (ha : c → P a) (hb : ¬ c → P b) : P (if c then a else b) := by
  by_cases h : c
  · rw [if_pos h]; exact ha h
  · rw [if_neg h]; exact hb h

theorem seeUnwind_nonneg (depth : Nat) :
    ∀ gain : Nat → Int, 0 ≤ gain 0 → (2 ≤ depth → gain 1 ≤ 0) →
      0 ≤ seeUnwind depth gain 0 := by
  induction depth with
  | zero => intro gain h0 _; exact h0
  | succ d ih =>
    intro gain h0 h1
    unfold seeUnwind
    by_cases hd : d = 0
    · rw [if_pos hd]
      exact h0
    · rw [if_neg hd]
      apply ih
      · unfold setAt
        by_cases h : (0 : Nat) = d - 1
        · rw [if_pos h]
          have hd1 : d = 1 := by omega
          subst hd1
          have := h1 (by omega)
          exact le_min (by omega) h0
        · rw [if_neg h]
          exact h0
      · intro h2
        unfold setAt
        by_cases h : (1 : Nat) = d - 1
        · rw [if_pos h]
          have hd2 : d = 2 := by omega
          subst hd2
          exact le_trans (min_le_right _ _) (h1 (by omega))
        · rw [if_neg h]
          exact h1 (by omega)

/-- C20, refuted at `7k/8/8/3n4/2P5/8/8/3RK3 w - - 0 1` for the capture d1xd5:
`reorderMoves` gives the rook capture of the knight the ordinal
`BAD_CAPTURE_MOVE` (416 is less than 736), and `staticExchangeEvaluation`
returns 96 for it. -/
theorem badCapture_with_positive_see :
    (initFromFen zeroTables "7k/8/8/3n4/2P5/8/8/3RK3 w - - 0 1").pieces D1 = ROOK
    ∧ (initFromFen zeroTables "7k/8/8/3n4/2P5/8/8/3RK3 w - - 0 1").pieces 27 = KNIGHT
    ∧ reorderOrdinal (materialTables 32000)
        (initFromFen zeroTables "7k/8/8/3n4/2P5/8/8/3RK3 w - - 0 1") false
        { principalVariation := [], killer1 := plainMove 0 0, killer2 := plainMove 0 0 }
        EmptyBitboard (fun _ _ => 0) (plainMove D1 27) = BAD_CAPTURE_MOVE
    ∧ staticExchangeEvaluation (materialTables 32000)
        (initFromFen zeroTables "7k/8/8/3n4/2P5/8/8/3RK3 w - - 0 1") D1 27 = 96 := by
  decide!

/-- C20 (amended): for a capture (the destination square holds a piece) to
which `reorderMoves` gives the ordinal `GOOD_CAPTURE_MOVE`,
`staticExchangeEvaluation(src, dst)` is the value of the captured piece minus
the value of the moving piece, which is positive; for a capture with the
ordinal `EQUAL_CAPTURE_MOVE` it is at least 0, provided the value of the
captured piece is not negative. -/
theorem captureClass_see (T : Tables) (board : ChessBoard) (pvNode : Bool)
    (searchStack : SearchStack) (unsafeSquares : Nat) (butterflyTable : Nat → Nat → Nat)
    (move : ChessMove) (hcap : board.pieces move.dst ≠ NO_PIECE)
    (hv : 0 ≤ SeeMaterialValue T (board.pieces move.dst)) :
    (reorderOrdinal T board pvNode searchStack unsafeSquares butterflyTable move
        = GOOD_CAPTURE_MOVE →
      staticExchangeEvaluation T board move.src move.dst
          = SeeMaterialValue T (board.pieces move.dst) - SeeMaterialValue T (board.pieces move.src)
        ∧ 0 < staticExchangeEvaluation T board move.src move.dst)
    ∧ (reorderOrdinal T board pvNode searchStack unsafeSquares butterflyTable move
        = EQUAL_CAPTURE_MOVE →
      0 ≤ staticExchangeEvaluation T board move.src move.dst) := by
  have hclass : reorderOrdinal T board pvNode searchStack unsafeSquares butterflyTable move
      = (if pvNode ∧ searchStack.principalVariation.length > 0
          ∧ (searchStack.principalVariation.head?.map (fun m => m.same move)) = some true then
          PV_MOVE
        else if SeeMaterialValue T (board.pieces move.dst)
            > SeeMaterialValue T (board.pieces move.src) then GOOD_CAPTURE_MOVE
        else if SeeMaterialValue T (board.pieces move.dst)
            = SeeMaterialValue T (board.pieces move.src) then EQUAL_CAPTURE_MOVE
        else BAD_CAPTURE_MOVE) := by
    unfold reorderOrdinal
    simp only []
    rw [if_pos hcap]
    rfl
  rw [hclass]
  constructor
  · intro h
    have hg : SeeMaterialValue T (board.pieces move.dst)
        > SeeMaterialValue T (board.pieces move.src) := by
      by_contra hn
      split_ifs at h <;> simp at h
    unfold staticExchangeEvaluation
    simp only []
    rw [if_pos hg]
    exact ⟨rfl, by omega⟩
  · intro h
    have hg : ¬ SeeMaterialValue T (board.pieces move.dst)
        > SeeMaterialValue T (board.pieces move.src) := by
      intro hn
      split_ifs at h <;> simp at h
    have he : SeeMaterialValue T (board.pieces move.dst)
        = SeeMaterialValue T (board.pieces move.src) := by
      by_contra hn
      split_ifs at h <;> simp at h
    unfold staticExchangeEvaluation
    simp only []
    rw [if_neg hg]
    refine ite_prop (fun x : Int => 0 ≤ x) _ _ _ (fun _ => le_refl _) (fun _ => ?_)
    refine ite_prop (fun x : Int => 0 ≤ x) _ _ _ (fun _ => hv) (fun _ => ?_)
    have inv := seeLoop_gain T board move.dst
      (SeeMaterialValue T (board.pieces move.dst)) (SeeMaterialValue T (board.pieces move.src))
      (board.pieces move.src) rfl ((seeStart T board move.src move.dst).validAttackers + 1)
      (seeStart T board move.src move.dst)
      ⟨(by simp [seeStart, setAt]), (le_refl 1 : 1 ≤ 1), fun _ => rfl,
        fun h2 => absurd h2 (by simp [seeStart])⟩
    obtain ⟨g0, g1, g2⟩ := inv
    apply seeUnwind_nonneg
    · rw [g0]; exact hv
    · intro h2
      rw [g2 h2, he]
      omega


theorem captureClass_see_witness :
    ((initFromFen zeroTables "7k/8/8/3q4/2P5/8/8/4K3 w - - 0 1").pieces 27 ≠ NO_PIECE
      ∧ reorderOrdinal (materialTables 32000)
          (initFromFen zeroTables "7k/8/8/3q4/2P5/8/8/4K3 w - - 0 1") false
          { principalVariation := [], killer1 := plainMove 0 0, killer2 := plainMove 0 0 }
          EmptyBitboard (fun _ _ => 0) (plainMove 34 27) = GOOD_CAPTURE_MOVE
      ∧ reorderOrdinal (materialTables 32000)
          (initFromFen zeroTables "7k/8/8/3r4/8/8/8/3RK3 w - - 0 1") false
          { principalVariation := [], killer1 := plainMove 0 0, killer2 := plainMove 0 0 }
          EmptyBitboard (fun _ _ => 0) (plainMove D1 27) = EQUAL_CAPTURE_MOVE)
    ∧ (staticExchangeEvaluation (materialTables 32000)
          (initFromFen zeroTables "7k/8/8/3q4/2P5/8/8/4K3 w - - 0 1") 34 27 = 1344 - 128
      ∧ 0 < staticExchangeEvaluation (materialTables 32000)
          (initFromFen zeroTables "7k/8/8/3q4/2P5/8/8/4K3 w - - 0 1") 34 27)
    ∧ 0 ≤ staticExchangeEvaluation (materialTables 32000)
        (initFromFen zeroTables "7k/8/8/3r4/8/8/8/3RK3 w - - 0 1") D1 27 :=
  ⟨by decide!,
   (captureClass_see (materialTables 32000)
      (initFromFen zeroTables "7k/8/8/3q4/2P5/8/8/4K3 w - - 0 1") false
      { principalVariation := [], killer1 := plainMove 0 0, killer2 := plainMove 0 0 }
      EmptyBitboard (fun _ _ => 0) (plainMove 34 27) (by decide!) (by decide!)).1 (by decide!),
   (captureClass_see (materialTables 32000)
      (initFromFen zeroTables "7k/8/8/3r4/8/8/8/3RK3 w - - 0 1") false
      { principalVariation := [], killer1 := plainMove 0 0, killer2 := plainMove 0 0 }
      EmptyBitboard (fun _ _ => 0) (plainMove D1 27) (by decide!) (by decide!)).2 (by decide!)⟩


/-! ### Repetition -/

theorem after_iff_not_reversible (hashValue : Nat) (e : ChessMoveHistoryStruct) :
    afterDuplicateHashCheckImplementation hashValue e = true ↔ ¬ e.reversible := by
  unfold afterDuplicateHashCheckImplementation ChessMoveHistoryStruct.reversible
  by_cases h1 : e.movedPiece = PAWN
  · rw [if_pos h1]
    exact ⟨fun _ h => h.1 h1, fun _ => rfl⟩
  · rw [if_neg h1]
    by_cases h2 : e.capturedPiece = NO_PIECE
    · rw [if_neg (not_not.2 h2)]
      exact ⟨fun h => absurd h (by simp), fun h => absurd ⟨h1, h2⟩ h⟩
    · rw [if_pos h2]
      exact ⟨fun _ h => h2 h.2, fun _ => rfl⟩

theorem seenOnce_cons (hashValue : Nat) (e : ChessMoveHistoryStruct)
    (rest : List ChessMoveHistoryStruct) :
    (∃ n x o, e :: rest = n ++ x :: o ∧ x.hashValue = hashValue ∧ ∀ y ∈ n, y.reversible)
      ↔ (e.hashValue = hashValue
        ∨ (e.reversible ∧ ∃ n x o, rest = n ++ x :: o ∧ x.hashValue = hashValue
            ∧ ∀ y ∈ n, y.reversible)) := by
  constructor
  · rintro ⟨n, x, o, hl, hx, hn⟩
    cases n with
    | nil =>
      simp only [List.nil_append, List.cons.injEq] at hl
      exact Or.inl (hl.1 ▸ hx)
    | cons y n' =>
      simp only [List.cons_append, List.cons.injEq] at hl
      refine Or.inr ⟨hl.1 ▸ hn y (List.mem_cons_self _ _), n', x, o, hl.2, hx, ?_⟩
      exact fun z hz => hn z (List.mem_cons_of_mem _ hz)
  · rintro (h | ⟨hr, n, x, o, hl, hx, hn⟩)
    · exact ⟨[], e, rest, rfl, h, by simp⟩
    · refine ⟨e :: n, x, o, by rw [hl]; rfl, hx, ?_⟩
      intro z hz
      rcases List.mem_cons.1 hz with rfl | hz
      · exact hr
      · exact hn z hz

theorem seenTwice_cons (hashValue : Nat) (e : ChessMoveHistoryStruct)
    (rest : List ChessMoveHistoryStruct) :
    (∃ n e2 m e1 o, e :: rest = n ++ e2 :: (m ++ e1 :: o) ∧ e2.hashValue = hashValue
        ∧ e1.hashValue = hashValue ∧ (∀ y ∈ n, y.reversible) ∧ e2.reversible
        ∧ (∀ y ∈ m, y.reversible))
      ↔ (e.reversible
        ∧ ((e.hashValue = hashValue ∧ ∃ n x o, rest = n ++ x :: o ∧ x.hashValue = hashValue
              ∧ ∀ y ∈ n, y.reversible)
          ∨ ∃ n e2 m e1 o, rest = n ++ e2 :: (m ++ e1 :: o) ∧ e2.hashValue = hashValue
              ∧ e1.hashValue = hashValue ∧ (∀ y ∈ n, y.reversible) ∧ e2.reversible
              ∧ (∀ y ∈ m, y.reversible))) := by
  constructor
  · rintro ⟨n, e2, m, e1, o, hl, h2, h1, hn, hr, hm⟩
    cases n with
    | nil =>
      simp only [List.nil_append, List.cons.injEq] at hl
      exact ⟨hl.1 ▸ hr, Or.inl ⟨hl.1 ▸ h2, m, e1, o, hl.2, h1, hm⟩⟩
    | cons y n' =>
      simp only [List.cons_append, List.cons.injEq] at hl
      exact ⟨hl.1 ▸ hn y (List.mem_cons_self _ _),
        Or.inr ⟨n', e2, m, e1, o, hl.2, h2, h1,
          fun z hz => hn z (List.mem_cons_of_mem _ hz), hr, hm⟩⟩
  · rintro ⟨hr, ⟨he, n, x, o, hl, hx, hn⟩ | ⟨n, e2, m, e1, o, hl, h2, h1, hn, hr2, hm⟩⟩
    · exact ⟨[], e, n, x, o, by rw [hl]; rfl, he, hx, by simp, hr, hn⟩
    · refine ⟨e :: n, e2, m, e1, o, by rw [hl]; rfl, h2, h1, ?_, hr2, hm⟩
      intro z hz
      rcases List.mem_cons.1 hz with rfl | hz
      · exact hr
      · exact hn z hz

theorem duplicateHashScan_cons (hashValue : Nat) (e : ChessMoveHistoryStruct)
    (rest : List ChessMoveHistoryStruct) (count : Nat) :
    duplicateHashScan hashValue (e :: rest) count
      = if e.reversible then
          duplicateHashScan hashValue rest (if e.hashValue = hashValue then count + 1 else count)
        else (if e.hashValue = hashValue then count + 1 else count) := by
  have ha := after_iff_not_reversible hashValue e
  rw [duplicateHashScan]
  simp only [beforeDuplicateHashCheckImplementation, Bool.false_eq_true, if_false]
  by_cases hr : e.reversible
  · have : ¬ afterDuplicateHashCheckImplementation hashValue e = true := fun h => ha.1 h hr
    rw [if_neg this, if_pos hr]
  · rw [if_pos (ha.2 hr), if_neg hr]

theorem duplicateHashScan_mono (hashValue : Nat) (l : List ChessMoveHistoryStruct) :
    ∀ count, count ≤ duplicateHashScan hashValue l count := by
  induction l with
  | nil => intro count; exact le_refl _
  | cons e rest ih =>
    intro count
    rw [duplicateHashScan_cons]
    split_ifs
    · exact le_trans (Nat.le_succ _) (ih _)
    · exact ih _
    · exact Nat.le_succ _
    · exact le_refl _

theorem duplicateHashScan_once (hashValue : Nat) (l : List ChessMoveHistoryStruct) :
    ∀ count, count + 1 ≤ duplicateHashScan hashValue l count
      ↔ ∃ n x o, l = n ++ x :: o ∧ x.hashValue = hashValue ∧ ∀ y ∈ n, y.reversible := by
  induction l with
  | nil =>
    intro count
    simp [duplicateHashScan]
  | cons e rest ih =>
    intro count
    rw [duplicateHashScan_cons, seenOnce_cons]
    by_cases hr : e.reversible
    · rw [if_pos hr]
      by_cases hh : e.hashValue = hashValue
      · rw [if_pos hh]
        exact ⟨fun _ => Or.inl hh, fun _ => duplicateHashScan_mono _ _ _⟩
      · rw [if_neg hh, ih]
        exact ⟨fun h => Or.inr ⟨hr, h⟩, fun h => (h.resolve_left hh).2⟩
    · rw [if_neg hr]
      by_cases hh : e.hashValue = hashValue
      · rw [if_pos hh]
        exact ⟨fun _ => Or.inl hh, fun _ => le_refl _⟩
      · rw [if_neg hh]
        constructor
        · intro h; omega
        · rintro (h | h)
          · exact absurd h hh
          · exact absurd h.1 hr

theorem duplicateHashScan_twice (hashValue : Nat) (l : List ChessMoveHistoryStruct) :
    ∀ count, count + 2 ≤ duplicateHashScan hashValue l count
      ↔ ∃ n e2 m e1 o, l = n ++ e2 :: (m ++ e1 :: o) ∧ e2.hashValue = hashValue
          ∧ e1.hashValue = hashValue ∧ (∀ y ∈ n, y.reversible) ∧ e2.reversible
          ∧ (∀ y ∈ m, y.reversible) := by
  induction l with
  | nil =>
    intro count
    simp [duplicateHashScan]
  | cons e rest ih =>
    intro count
    rw [duplicateHashScan_cons, seenTwice_cons]
    by_cases hr : e.reversible
    · rw [if_pos hr]
      by_cases hh : e.hashValue = hashValue
      · rw [if_pos hh]
        have h1 := duplicateHashScan_once hashValue rest (count + 1)
        constructor
        · intro h
          exact ⟨hr, Or.inl ⟨hh, h1.1 h⟩⟩
        · rintro ⟨-, ⟨-, h⟩ | h⟩
          · exact h1.2 h
          · have := (ih (count + 1)).2 h
            omega
      · rw [if_neg hh, ih]
        constructor
        · intro h
          exact ⟨hr, Or.inr h⟩
        · rintro ⟨-, ⟨h, -⟩ | h⟩
          · exact absurd h hh
          · exact h
    · rw [if_neg hr]
      constructor
      · intro h
        split_ifs at h <;> omega
      · rintro ⟨h, -⟩
        exact absurd h hr

/-- The scan of the history counts the hash at least twice exactly when the
hash is repeated in the history in the sense of `RepeatedInHistory`. -/
theorem checkForDuplicateHash_gt_one (moveHistory : ChessMoveHistory) (hashValue : Nat) :
    checkForDuplicateHash moveHistory hashValue > 1 ↔ RepeatedInHistory moveHistory hashValue := by
  unfold checkForDuplicateHash RepeatedInHistory
  have := duplicateHashScan_twice hashValue moveHistory.reverse 0
  rw [show (duplicateHashScan hashValue moveHistory.reverse 0 > 1)
      = (0 + 2 ≤ duplicateHashScan hashValue moveHistory.reverse 0) from rfl, this]
  constructor
  · rintro ⟨n, e2, m, e1, o, hl, h2, h1, hn, hr, hm⟩
    refine ⟨o.reverse, e1, m.reverse, e2, n.reverse, ?_, h1, h2, ?_, hr, ?_⟩
    · have := congrArg List.reverse hl
      rw [List.reverse_reverse] at this
      rw [this]
      simp
    · intro y hy
      exact hm y (List.mem_reverse.1 hy)
    · intro y hy
      exact hn y (List.mem_reverse.1 hy)
  · rintro ⟨older, e1, between, e2, newer, hl, h1, h2, hb, hr, hn⟩
    refine ⟨newer.reverse, e2, between.reverse, e1, older.reverse, ?_, h2, h1, ?_, hr, ?_⟩
    · rw [hl]
      simp
    · intro y hy
      exact hn y (List.mem_reverse.1 hy)
    · intro y hy
      exact hb y (List.mem_reverse.1 hy)


/-- C11, refuted at `4k3/8/8/8/8/8/8/R3K3 w - - 100 60` with an empty history:
`checkBoardGameResult` returns DRAW (the fifty-move counter is 100) although
the history holds no record at all, so the hash is not repeated in it. -/
theorem checkBoardGameResult_draw_without_repetition :
    checkBoardGameResult zeroTables
        (initFromFen zeroTables "4k3/8/8/8/8/8/8/R3K3 w - - 100 60") [] false
      = TwoPlayerGameResult.DRAW
    ∧ ¬ RepeatedInHistory []
        (initFromFen zeroTables "4k3/8/8/8/8/8/8/R3K3 w - - 100 60").hashValue := by
  refine ⟨by decide!, ?_⟩
  rintro ⟨older, e1, between, e2, newer, hl, -⟩
  simp at hl

/-- C11 (amended): when the side to move has a move (or the move count is not
checked), the fifty-move counter is below 100 and the material test does not
apply, `checkBoardGameResult` returns DRAW if and only if the hash of the board
stands in two records of the history and every record behind the older of the
two was made by a move that is neither a pawn move nor a capture; otherwise it
returns NO_GAMERESULT. -/
theorem checkBoardGameResult_draw_iff (T : Tables) (board : ChessBoard)
    (moveHistory : ChessMoveHistory) (checkMoveCount : Bool)
    (hmoves : checkMoveCount = true → generateAllMovesCount T board [] true ≠ 0)
    (hfifty : board.fiftyMoveCount < 100)
    (hmaterial : checkBoardForInsufficientMaterial board = false) :
    (checkBoardGameResult T board moveHistory checkMoveCount = TwoPlayerGameResult.DRAW
      ↔ RepeatedInHistory moveHistory board.hashValue)
    ∧ (¬ RepeatedInHistory moveHistory board.hashValue →
        checkBoardGameResult T board moveHistory checkMoveCount
          = TwoPlayerGameResult.NO_GAMERESULT) := by
  have hrep := checkForDuplicateHash_gt_one moveHistory board.hashValue
  unfold checkBoardGameResult
  rw [if_neg (fun h => hmoves h.1 h.2), if_neg (by omega), hmaterial]
  by_cases h : checkForDuplicateHash moveHistory board.hashValue > 1
  · rw [if_pos h]
    exact ⟨⟨fun _ => hrep.1 h, fun _ => rfl⟩, fun hn => absurd (hrep.1 h) hn⟩
  · rw [if_neg h]
    refine ⟨⟨fun hh => ?_, fun hh => absurd (hrep.2 hh) h⟩, fun _ => ?_⟩
    · simp at hh
    · simp

theorem checkBoardGameResult_draw_iff_witness :
    (generateAllMovesCount sampleTables (playLine sampleTables startingFen repetitionLine).1 []
        true ≠ 0
      ∧ (playLine sampleTables startingFen repetitionLine).1.fiftyMoveCount < 100
      ∧ checkBoardForInsufficientMaterial (playLine sampleTables startingFen repetitionLine).1
          = false
      ∧ checkBoardGameResult sampleTables (playLine sampleTables startingFen repetitionLine).1
          (playLine sampleTables startingFen repetitionLine).2 true = TwoPlayerGameResult.DRAW)
    ∧ RepeatedInHistory (playLine sampleTables startingFen repetitionLine).2
        (playLine sampleTables startingFen repetitionLine).1.hashValue :=
  ⟨by decide!,
   (checkBoardGameResult_draw_iff sampleTables
      (playLine sampleTables startingFen repetitionLine).1
      (playLine sampleTables startingFen repetitionLine).2 true
      (fun _ => by decide!) (by decide!) (by decide!)).1.1 (by decide!)⟩


/-! ### The attack cache, square by square -/

theorem popCount_zero : popCount 0 = 0 := by decide

theorem popCount_one_iff (x : Nat) :
    popCount x = 1 ↔ ∃ s < 64, ∀ t < 64, (x.testBit t = true ↔ t = s) := by
  constructor
  · intro h
    unfold popCount at h
    obtain ⟨s, hs⟩ := List.length_eq_one.1 h
    have hmem : ∀ t, t ∈ squaresOf x ↔ t = s := by
      intro t; rw [hs]; simp
    have hs' := (mem_squaresOf x s).1 ((hmem s).2 rfl)
    refine ⟨s, hs'.1, ?_⟩
    intro t ht
    constructor
    · intro hb
      exact (hmem t).1 ((mem_squaresOf x t).2 ⟨ht, hb⟩)
    · rintro rfl
      exact hs'.2
  · rintro ⟨s, hs, h⟩
    rw [← popCount_OneShiftedBy s hs]
    apply popCount_congr
    intro i hi
    rw [testBit_OneShiftedBy]
    by_cases hx : x.testBit i = true
    · rw [hx, (h i hi).1 hx]; simp
    · have : ¬ i = s := fun e => hx ((h i hi).2 e)
      simp only [Bool.not_eq_true] at hx
      rw [hx]
      simp [Ne.symm this]

theorem attackBoardsStep_bits (all king : Nat) (acc : AttackBoards) (x s : Nat) :
    ((attackBoardsStep all king acc x).checkingPieces.testBit s = true ↔
        acc.checkingPieces.testBit s = true ∨ (s = x ∧ InBetween king x &&& all = 0))
    ∧ ((attackBoardsStep all king acc x).blockedPieces.testBit s = true ↔
        acc.blockedPieces.testBit s = true ∨ (s = x ∧ InBetween king x &&& all ≠ 0))
    ∧ ((attackBoardsStep all king acc x).pinnedPieces.testBit s = true ↔
        acc.pinnedPieces.testBit s = true
          ∨ (popCountIsOne (InBetween king x &&& all) = true
              ∧ (InBetween king x &&& all).testBit s = true)) := by
  unfold attackBoardsStep
  by_cases h : InBetween king x &&& all = 0
  · simp only [EmptyBitboard, h, if_true]
    refine ⟨?_, ?_, ?_⟩
    · simp only [Nat.testBit_or, testBit_OneShiftedBy, Bool.or_eq_true, decide_eq_true_eq,
        and_true]
      exact or_congr Iff.rfl eq_comm
    · simp
    · simp
  · simp only [EmptyBitboard, h, if_false]
    refine ⟨?_, ?_, ?_⟩
    · simp
    · simp only [Nat.testBit_or, testBit_OneShiftedBy, Bool.or_eq_true, decide_eq_true_eq,
        ne_eq, h, not_false_eq_true, and_true]
      exact or_congr Iff.rfl eq_comm
    · by_cases hp : popCountIsOne (InBetween king x &&& all) = true
      · simp only [hp, if_true, Nat.testBit_or, Bool.or_eq_true, true_and]
      · simp only [Bool.not_eq_true] at hp
        simp [hp]

theorem attackBoards_fold_bits (all king : Nat) (l : List Nat) (acc : AttackBoards) (s : Nat) :
    ((l.foldl (attackBoardsStep all king) acc).checkingPieces.testBit s = true ↔
        acc.checkingPieces.testBit s = true ∨ (s ∈ l ∧ InBetween king s &&& all = 0))
    ∧ ((l.foldl (attackBoardsStep all king) acc).blockedPieces.testBit s = true ↔
        acc.blockedPieces.testBit s = true ∨ (s ∈ l ∧ InBetween king s &&& all ≠ 0))
    ∧ ((l.foldl (attackBoardsStep all king) acc).pinnedPieces.testBit s = true ↔
        acc.pinnedPieces.testBit s = true
          ∨ ∃ src ∈ l, popCountIsOne (InBetween king src &&& all) = true
              ∧ (InBetween king src &&& all).testBit s = true) := by
  induction l generalizing acc with
  | nil => simp
  | cons x xs ih =>
    obtain ⟨i1, i2, i3⟩ := ih (attackBoardsStep all king acc x)
    obtain ⟨s1, s2, s3⟩ := attackBoardsStep_bits all king acc x s
    simp only [List.foldl_cons, List.mem_cons]
    refine ⟨?_, ?_, ?_⟩
    · rw [i1, s1]
      constructor
      · rintro ((h | ⟨rfl, h⟩) | ⟨h1, h2⟩)
        · exact Or.inl h
        · exact Or.inr ⟨Or.inl rfl, h⟩
        · exact Or.inr ⟨Or.inr h1, h2⟩
      · rintro (h | ⟨rfl | h1, h2⟩)
        · exact Or.inl (Or.inl h)
        · exact Or.inl (Or.inr ⟨rfl, h2⟩)
        · exact Or.inr ⟨h1, h2⟩
    · rw [i2, s2]
      constructor
      · rintro ((h | ⟨rfl, h⟩) | ⟨h1, h2⟩)
        · exact Or.inl h
        · exact Or.inr ⟨Or.inl rfl, h⟩
        · exact Or.inr ⟨Or.inr h1, h2⟩
      · rintro (h | ⟨rfl | h1, h2⟩)
        · exact Or.inl (Or.inl h)
        · exact Or.inl (Or.inr ⟨rfl, h2⟩)
        · exact Or.inr ⟨h1, h2⟩
    · rw [i3, s3]
      constructor
      · rintro ((h | h) | ⟨src, h1, h2⟩)
        · exact Or.inl h
        · exact Or.inr ⟨x, Or.inl rfl, h⟩
        · exact Or.inr ⟨src, Or.inr h1, h2⟩
      · rintro (h | ⟨src, rfl | h1, h2⟩)
        · exact Or.inl (Or.inl h)
        · exact Or.inl (Or.inr h2)
        · exact Or.inr ⟨src, h1, h2⟩


theorem attackBoardsOf_eq (b : ChessBoard) :
    attackBoardsOf b
      = (squaresOf (PieceMoves ROOK (b.kingPosition b.sideToMove)
            &&& (b.piecesOf b.sideToMove.flip ROOK ||| b.piecesOf b.sideToMove.flip QUEEN))).foldl
          (attackBoardsStep b.allPieces (b.kingPosition b.sideToMove))
          ((squaresOf (PieceMoves BISHOP (b.kingPosition b.sideToMove)
              &&& (b.piecesOf b.sideToMove.flip BISHOP
                ||| b.piecesOf b.sideToMove.flip QUEEN))).foldl
            (attackBoardsStep b.allPieces (b.kingPosition b.sideToMove))
            { checkingPieces :=
                pawnAttackersOf b.sideToMove.flip (b.kingPosition b.sideToMove)
                    &&& b.piecesOf b.sideToMove.flip PAWN
                  ||| PieceMoves KNIGHT (b.kingPosition b.sideToMove)
                    &&& b.piecesOf b.sideToMove.flip KNIGHT,
              blockedPieces := EmptyBitboard, pinnedPieces := EmptyBitboard,
              inBetweenSquares := EmptyBitboard }) := by
  unfold attackBoardsOf
  cases hs : b.sideToMove <;>
    simp only [ChessBoard.kingPosition, ChessBoard.piecesOf, Color.flip, pawnAttackersOf,
      if_true, if_false, reduceCtorEq]

theorem slider_candidate_iff (b : ChessBoard) (hk : b.kingPosition b.sideToMove < 64)
    (src : Nat) :
    (src ∈ squaresOf (PieceMoves BISHOP (b.kingPosition b.sideToMove)
          &&& (b.piecesOf b.sideToMove.flip BISHOP ||| b.piecesOf b.sideToMove.flip QUEEN))
      ∨ src ∈ squaresOf (PieceMoves ROOK (b.kingPosition b.sideToMove)
          &&& (b.piecesOf b.sideToMove.flip ROOK ||| b.piecesOf b.sideToMove.flip QUEEN)))
    ↔ AlignedSlider b src := by
  unfold AlignedSlider
  simp only [mem_squaresOf, Nat.testBit_and, Nat.testBit_or, Bool.and_eq_true, Bool.or_eq_true]
  constructor
  · rintro (⟨h1, h2, h3⟩ | ⟨h1, h2, h3⟩)
    · refine ⟨h1, Or.inl ⟨h3, ?_⟩⟩
      rw [PieceMoves_symm BISHOP (by decide) src h1 _ hk]; exact h2
    · refine ⟨h1, Or.inr ⟨h3, ?_⟩⟩
      rw [PieceMoves_symm ROOK (by decide) src h1 _ hk]; exact h2
  · rintro ⟨h1, ⟨h3, h2⟩ | ⟨h3, h2⟩⟩
    · refine Or.inl ⟨h1, ?_, h3⟩
      rw [PieceMoves_symm BISHOP (by decide) _ hk src h1]; exact h2
    · refine Or.inr ⟨h1, ?_, h3⟩
      rw [PieceMoves_symm ROOK (by decide) _ hk src h1]; exact h2

theorem attackBoardsOf_bits (b : ChessBoard) (hk : b.kingPosition b.sideToMove < 64)
    (s : Nat) :
    ((attackBoardsOf b).checkingPieces.testBit s = true ↔
        ((pawnAttackersOf b.sideToMove.flip (b.kingPosition b.sideToMove)
              &&& b.piecesOf b.sideToMove.flip PAWN
            ||| PieceMoves KNIGHT (b.kingPosition b.sideToMove)
              &&& b.piecesOf b.sideToMove.flip KNIGHT).testBit s = true
          ∨ (AlignedSlider b s
              ∧ InBetween (b.kingPosition b.sideToMove) s &&& b.allPieces = 0)))
    ∧ ((attackBoardsOf b).blockedPieces.testBit s = true ↔
        AlignedSlider b s ∧ InBetween (b.kingPosition b.sideToMove) s &&& b.allPieces ≠ 0)
    ∧ ((attackBoardsOf b).pinnedPieces.testBit s = true ↔
        ∃ src, AlignedSlider b src
          ∧ popCountIsOne (InBetween (b.kingPosition b.sideToMove) src &&& b.allPieces) = true
          ∧ (InBetween (b.kingPosition b.sideToMove) src &&& b.allPieces).testBit s = true) := by
  rw [attackBoardsOf_eq]
  obtain ⟨r1, r2, r3⟩ := attackBoards_fold_bits b.allPieces (b.kingPosition b.sideToMove)
    (squaresOf (PieceMoves ROOK (b.kingPosition b.sideToMove)
      &&& (b.piecesOf b.sideToMove.flip ROOK ||| b.piecesOf b.sideToMove.flip QUEEN)))
    ((squaresOf (PieceMoves BISHOP (b.kingPosition b.sideToMove)
        &&& (b.piecesOf b.sideToMove.flip BISHOP
          ||| b.piecesOf b.sideToMove.flip QUEEN))).foldl
      (attackBoardsStep b.allPieces (b.kingPosition b.sideToMove))
      { checkingPieces :=
          pawnAttackersOf b.sideToMove.flip (b.kingPosition b.sideToMove)
              &&& b.piecesOf b.sideToMove.flip PAWN
            ||| PieceMoves KNIGHT (b.kingPosition b.sideToMove)
              &&& b.piecesOf b.sideToMove.flip KNIGHT,
        blockedPieces := EmptyBitboard, pinnedPieces := EmptyBitboard,
        inBetweenSquares := EmptyBitboard }) s
  obtain ⟨b1, b2, b3⟩ := attackBoards_fold_bits b.allPieces (b.kingPosition b.sideToMove)
    (squaresOf (PieceMoves BISHOP (b.kingPosition b.sideToMove)
        &&& (b.piecesOf b.sideToMove.flip BISHOP
          ||| b.piecesOf b.sideToMove.flip QUEEN)))
    { checkingPieces :=
        pawnAttackersOf b.sideToMove.flip (b.kingPosition b.sideToMove)
            &&& b.piecesOf b.sideToMove.flip PAWN
          ||| PieceMoves KNIGHT (b.kingPosition b.sideToMove)
            &&& b.piecesOf b.sideToMove.flip KNIGHT,
      blockedPieces := EmptyBitboard, pinnedPieces := EmptyBitboard,
      inBetweenSquares := EmptyBitboard } s
  have hal := slider_candidate_iff b hk
  refine ⟨?_, ?_, ?_⟩
  · rw [r1, b1]
    constructor
    · rintro ((h | ⟨h1, h2⟩) | ⟨h1, h2⟩)
      · exact Or.inl h
      · exact Or.inr ⟨(hal s).1 (Or.inl h1), h2⟩
      · exact Or.inr ⟨(hal s).1 (Or.inr h1), h2⟩
    · rintro (h | ⟨h1, h2⟩)
      · exact Or.inl (Or.inl h)
      · rcases (hal s).2 h1 with h | h
        · exact Or.inl (Or.inr ⟨h, h2⟩)
        · exact Or.inr ⟨h, h2⟩
  · rw [r2, b2]
    simp only [EmptyBitboard, Nat.zero_testBit, Bool.false_eq_true, false_or]
    constructor
    · rintro (⟨h1, h2⟩ | ⟨h1, h2⟩)
      · exact ⟨(hal s).1 (Or.inl h1), h2⟩
      · exact ⟨(hal s).1 (Or.inr h1), h2⟩
    · rintro ⟨h1, h2⟩
      rcases (hal s).2 h1 with h | h
      · exact Or.inl ⟨h, h2⟩
      · exact Or.inr ⟨h, h2⟩
  · rw [r3, b3]
    simp only [EmptyBitboard, Nat.zero_testBit, Bool.false_eq_true, false_or]
    constructor
    · rintro (⟨src, h1, h2⟩ | ⟨src, h1, h2⟩)
      · exact ⟨src, (hal src).1 (Or.inl h1), h2⟩
      · exact ⟨src, (hal src).1 (Or.inr h1), h2⟩
    · rintro ⟨src, h1, h2⟩
      rcases (hal src).2 h1 with h | h
      · exact Or.inl ⟨src, h, h2⟩
      · exact Or.inr ⟨src, h, h2⟩


theorem free_iff (a c all through : Nat) (ha : a < 64) (hc : c < 64) :
    InBetween a c &&& (all &&& bbNot through) = 0 ↔
      ∀ t, (InBetween c a).testBit t = true → all.testBit t = true →
        through.testBit t = true := by
  rw [and_eq_zero_iff, InBetween_comm a c]
  constructor
  · intro h t h1 h2
    have h3 := h t h1
    have ht : t < 64 := by
      by_contra hge
      rw [testBit_of_lt_two_pow64 _ t (InBetween_lt c hc a ha) (by omega)] at h1
      exact Bool.false_ne_true h1
    rw [Nat.testBit_and, testBit_bbNot, h2] at h3
    simp only [ht, decide_True, Bool.true_and, Bool.true_xor, Bool.not_eq_eq_eq_not,
      Bool.not_false] at h3
    exact h3
  · intro h t h1
    rw [Nat.testBit_and, testBit_bbNot]
    have ht : t < 64 := by
      by_contra hge
      rw [testBit_of_lt_two_pow64 _ t (InBetween_lt c hc a ha) (by omega)] at h1
      exact Bool.false_ne_true h1
    by_cases h2 : all.testBit t = true
    · rw [h (t) h1 h2, h2]
      simp [ht]
    · simp only [Bool.not_eq_true] at h2
      rw [h2]
      simp

theorem free_iff_zero (a c all : Nat) :
    InBetween a c &&& all = 0 ↔
      ∀ t, (InBetween c a).testBit t = true → all.testBit t = true →
        (0 : Nat).testBit t = true := by
  rw [and_eq_zero_iff, InBetween_comm a c]
  constructor
  · intro h t h1 h2
    rw [h t h1] at h2
    exact absurd h2 Bool.false_ne_true
  · intro h t h1
    by_contra h2
    simp only [Bool.not_eq_false] at h2
    have := h t h1 h2
    simp at this

theorem testBit_lt_of_lt (x t : Nat) (hx : x < 2 ^ 64) (h : x.testBit t = true) : t < 64 := by
  by_contra hge
  rw [testBit_of_lt_two_pow64 x t hx (by omega)] at h
  exact Bool.false_ne_true h

theorem pawn_attackers_bit (b : ChessBoard) (dst s : Nat) (hd : dst < 64) :
    (pawnAttackersOf b.sideToMove.flip dst &&& b.piecesOf b.sideToMove.flip PAWN).testBit s = true
      ↔ s < 64 ∧ (b.piecesOf b.sideToMove.flip PAWN).testBit s = true
          ∧ (pawnCapturesOf b.sideToMove.flip s).testBit dst = true := by
  rw [Nat.testBit_and, Bool.and_eq_true]
  constructor
  · rintro ⟨h1, h2⟩
    have hs : s < 64 := by
      apply testBit_lt_of_lt _ s _ h1
      cases b.sideToMove.flip
      · exact (pawnTables_lt dst hd).2.1
      · exact (pawnTables_lt dst hd).1
    exact ⟨hs, h2, by rw [pawnCapturesOf_symm _ s dst hs hd]; exact h1⟩
  · rintro ⟨hs, h2, h3⟩
    exact ⟨by rw [← pawnCapturesOf_symm _ s dst hs hd]; exact h3, h2⟩

theorem piece_attackers_bit (k : Nat) (hk : k ≤ 7) (bb dst s : Nat) (hd : dst < 64) :
    (PieceMoves k dst &&& bb).testBit s = true
      ↔ s < 64 ∧ bb.testBit s = true ∧ (PieceMoves k s).testBit dst = true := by
  rw [Nat.testBit_and, Bool.and_eq_true]
  constructor
  · rintro ⟨h1, h2⟩
    have hs : s < 64 := testBit_lt_of_lt _ s (PieceMoves_lt k hk dst hd) h1
    exact ⟨hs, h2, by rw [PieceMoves_symm k hk s hs dst hd]; exact h1⟩
  · rintro ⟨hs, h2, h3⟩
    exact ⟨by rw [PieceMoves_symm k hk dst hd s hs]; exact h3, h2⟩

theorem attackBoardsOf_checking_iff (b : ChessBoard)
    (hk : b.kingPosition b.sideToMove < 64) (s : Nat) :
    (attackBoardsOf b).checkingPieces.testBit s = true ↔
      EnemyPieceAttacks b 0 s (b.kingPosition b.sideToMove) := by
  obtain ⟨c1, -, -⟩ := attackBoardsOf_bits b hk s
  rw [c1, Nat.testBit_or, Bool.or_eq_true, pawn_attackers_bit b _ s hk,
    piece_attackers_bit KNIGHT (by decide) _ _ s hk]
  unfold EnemyPieceAttacks AlignedSlider
  constructor
  · rintro ((⟨h1, h2, h3⟩ | ⟨h1, h2, h3⟩) | ⟨⟨h1, h2 | h2⟩, h3⟩)
    · exact ⟨h1, Or.inl ⟨h2, h3⟩⟩
    · exact ⟨h1, Or.inr (Or.inl ⟨h2, h3⟩)⟩
    · exact ⟨h1, Or.inr (Or.inr (Or.inl ⟨h2.1, h2.2, (free_iff_zero _ _ _).1 h3⟩))⟩
    · exact ⟨h1, Or.inr (Or.inr (Or.inr ⟨h2.1, h2.2, (free_iff_zero _ _ _).1 h3⟩))⟩
  · rintro ⟨h1, ⟨h2, h3⟩ | ⟨h2, h3⟩ | ⟨h2, h3, h4⟩ | ⟨h2, h3, h4⟩⟩
    · exact Or.inl (Or.inl ⟨h1, h2, h3⟩)
    · exact Or.inl (Or.inr ⟨h1, h2, h3⟩)
    · exact Or.inr ⟨⟨h1, Or.inl ⟨h2, h3⟩⟩, (free_iff_zero _ _ _).2 h4⟩
    · exact Or.inr ⟨⟨h1, Or.inr ⟨h2, h3⟩⟩, (free_iff_zero _ _ _).2 h4⟩

/-- C25: after `buildAttackBoards` (the king square of the side to move being
on the board), a square is in `checkingPieces` exactly when it holds an enemy
pawn or knight that attacks the king, or an enemy bishop, rook or queen on a
line of its kind through the king with no piece strictly between; and a square
`s` is in `pinnedPieces` exactly when for some enemy bishop, rook or queen on
such a line, `s` holds a piece strictly between it and the king and is the only
square that does. -/
theorem buildAttackBoards_checking_pinned (b : ChessBoard)
    (hk : b.kingPosition b.sideToMove < 64) (s : Nat) :
    ((buildAttackBoards b).checkingPieces.testBit s = true ↔
        EnemyPieceAttacks b 0 s (b.kingPosition b.sideToMove))
    ∧ ((buildAttackBoards b).pinnedPieces.testBit s = true ↔
        ∃ src, AlignedSlider b src ∧ BlockerBetween b src s
          ∧ ∀ t, BlockerBetween b src t → t = s) := by
  obtain ⟨-, -, c3⟩ := attackBoardsOf_bits b hk s
  refine ⟨attackBoardsOf_checking_iff b hk s, ?_⟩
  · show (attackBoardsOf b).pinnedPieces.testBit s = true ↔ _
    rw [c3]
    constructor
    · rintro ⟨src, ha, hp, hb⟩
      have hlt : InBetween (b.kingPosition b.sideToMove) src &&& b.allPieces < 2 ^ 64 :=
        lt_of_le_of_lt Nat.and_le_left (InBetween_lt _ hk src ha.1)
      have hs : s < 64 := testBit_lt_of_lt _ s hlt hb
      have hp1 : popCount (InBetween (b.kingPosition b.sideToMove) src &&& b.allPieces) = 1 := by
        simpa [popCountIsOne] using hp
      obtain ⟨s0, hs0, hall⟩ := (popCount_one_iff _).1 hp1
      have hss : s = s0 := (hall s hs).1 hb
      refine ⟨src, ha, ?_, ?_⟩
      · rw [Nat.testBit_and, Bool.and_eq_true] at hb
        exact hb
      · rintro t ⟨ht1, ht2⟩
        have htb : (InBetween (b.kingPosition b.sideToMove) src &&& b.allPieces).testBit t
            = true := by
          rw [Nat.testBit_and, ht1, ht2]; rfl
        rw [hss]
        exact (hall t (testBit_lt_of_lt _ t hlt htb)).1 htb
    · rintro ⟨src, ha, hb, hu⟩
      have hbit : (InBetween (b.kingPosition b.sideToMove) src &&& b.allPieces).testBit s
          = true := by
        rw [Nat.testBit_and, hb.1, hb.2]; rfl
      have hlt : InBetween (b.kingPosition b.sideToMove) src &&& b.allPieces < 2 ^ 64 :=
        lt_of_le_of_lt Nat.and_le_left (InBetween_lt _ hk src ha.1)
      refine ⟨src, ha, ?_, hbit⟩
      have : popCount (InBetween (b.kingPosition b.sideToMove) src &&& b.allPieces) = 1 := by
        rw [popCount_one_iff]
        refine ⟨s, testBit_lt_of_lt _ s hlt hbit, ?_⟩
        intro t _
        constructor
        · intro h
          rw [Nat.testBit_and, Bool.and_eq_true] at h
          exact hu t h
        · rintro rfl
          exact hbit
      simp [popCountIsOne, this]

theorem buildAttackBoards_checking_pinned_witness :
    (initFromFen zeroTables "4r2k/8/8/8/8/8/4P3/4K3 w - - 0 1").kingPosition
        (initFromFen zeroTables "4r2k/8/8/8/8/8/4P3/4K3 w - - 0 1").sideToMove < 64
    ∧ (buildAttackBoards
        (initFromFen zeroTables "4r2k/8/8/8/8/8/4P3/4K3 w - - 0 1")).pinnedPieces.testBit 52
        = true
    ∧ ((buildAttackBoards
          (initFromFen zeroTables "4r2k/8/8/8/8/8/4P3/4K3 w - - 0 1")).pinnedPieces.testBit 52
          = true ↔
        ∃ src, AlignedSlider (initFromFen zeroTables "4r2k/8/8/8/8/8/4P3/4K3 w - - 0 1") src
          ∧ BlockerBetween (initFromFen zeroTables "4r2k/8/8/8/8/8/4P3/4K3 w - - 0 1") src 52
          ∧ ∀ t, BlockerBetween (initFromFen zeroTables "4r2k/8/8/8/8/8/4P3/4K3 w - - 0 1")
              src t → t = 52) :=
  ⟨by decide!, by decide!,
   (buildAttackBoards_checking_pinned
      (initFromFen zeroTables "4r2k/8/8/8/8/8/4P3/4K3 w - - 0 1") (by decide!) 52).2⟩

/-- C26, refuted at `4r2k/8/8/8/8/8/4P3/4K3 w - - 0 1`: the rook on e8 (square
4) pseudo-attacks the white king on e1 with the pawn on e2 (square 52) strictly
between; `blockedPieces` is the square of the rook alone.  It does not hold the
blocker square e2, and e8 is not strictly between the king and any slider. -/
theorem blockedPieces_holds_slider_square :
    AlignedSlider (initFromFen zeroTables "4r2k/8/8/8/8/8/4P3/4K3 w - - 0 1") 4
    ∧ BlockerBetween (initFromFen zeroTables "4r2k/8/8/8/8/8/4P3/4K3 w - - 0 1") 4 52
    ∧ (buildAttackBoards
        (initFromFen zeroTables "4r2k/8/8/8/8/8/4P3/4K3 w - - 0 1")).blockedPieces
        = OneShiftedBy 4
    ∧ (buildAttackBoards
        (initFromFen zeroTables "4r2k/8/8/8/8/8/4P3/4K3 w - - 0 1")).blockedPieces.testBit 52
        = false
    ∧ ¬ ∃ src < 64, AlignedSlider (initFromFen zeroTables "4r2k/8/8/8/8/8/4P3/4K3 w - - 0 1") src
        ∧ BlockerBetween (initFromFen zeroTables "4r2k/8/8/8/8/8/4P3/4K3 w - - 0 1") src 4 := by
  decide!

/-- C26 (amended): after `buildAttackBoards` (the king square of the side to
move being on the board), `blockedPieces` is the set of the enemy bishops,
rooks and queens that stand on a line of their kind through the king with at
least one piece strictly between: it holds the squares of these sliders, not
the squares of the blockers. -/
theorem buildAttackBoards_blocked (b : ChessBoard)
    (hk : b.kingPosition b.sideToMove < 64) (s : Nat) :
    (buildAttackBoards b).blockedPieces.testBit s = true ↔
      AlignedSlider b s ∧ ∃ t, BlockerBetween b s t := by
  obtain ⟨-, c2, -⟩ := attackBoardsOf_bits b hk s
  show (attackBoardsOf b).blockedPieces.testBit s = true ↔ _
  rw [c2, and_ne_zero_iff]
  rfl

theorem buildAttackBoards_blocked_witness :
    (initFromFen zeroTables "4r2k/8/8/8/8/8/4P3/4K3 w - - 0 1").kingPosition
        (initFromFen zeroTables "4r2k/8/8/8/8/8/4P3/4K3 w - - 0 1").sideToMove < 64
    ∧ (buildAttackBoards
        (initFromFen zeroTables "4r2k/8/8/8/8/8/4P3/4K3 w - - 0 1")).blockedPieces.testBit 4
        = true
    ∧ ((buildAttackBoards
          (initFromFen zeroTables "4r2k/8/8/8/8/8/4P3/4K3 w - - 0 1")).blockedPieces.testBit 4
          = true ↔
        AlignedSlider (initFromFen zeroTables "4r2k/8/8/8/8/8/4P3/4K3 w - - 0 1") 4
          ∧ ∃ t, BlockerBetween (initFromFen zeroTables "4r2k/8/8/8/8/8/4P3/4K3 w - - 0 1") 4 t) :=
  ⟨by decide!, by decide!,
   buildAttackBoards_blocked
      (initFromFen zeroTables "4r2k/8/8/8/8/8/4P3/4K3 w - - 0 1") (by decide!) 4⟩


/-! ### Attack queries, square by square -/

theorem sliders_fold_bits (f : Nat → Nat) (l : List Nat) (acc : Nat) (s : Nat) :
    (l.foldl (fun a src => if f src = EmptyBitboard then a ||| OneShiftedBy src else a)
      acc).testBit s = true ↔ acc.testBit s = true ∨ (s ∈ l ∧ f s = EmptyBitboard) := by
  constructor
  · exact sliders_fold_testBit f l acc s
  · induction l generalizing acc with
    | nil =>
      rintro (h | ⟨h, -⟩)
      · exact h
      · simp at h
    | cons x xs ih =>
      intro h
      simp only [List.foldl_cons]
      apply ih
      rcases h with h | ⟨h1, h2⟩
      · left
        by_cases hx : f x = EmptyBitboard
        · rw [if_pos hx, Nat.testBit_or, h]; rfl
        · rw [if_neg hx]; exact h
      · rcases List.mem_cons.1 h1 with rfl | h1
        · left
          rw [if_pos h2, Nat.testBit_or, testBit_OneShiftedBy]
          simp
        · exact Or.inr ⟨h1, h2⟩

theorem ne_zero_iff_bit (x : Nat) : x ≠ 0 ↔ ∃ i, x.testBit i = true := by
  constructor
  · exact Nat.ne_zero_implies_bit_true
  · rintro ⟨i, hi⟩ h
    rw [h] at hi
    simp at hi

theorem getAttackingPieces_eq (b : ChessBoard) (dst : Nat) (through : Nat) :
    getAttackingPieces b dst false through
      = unblockedSliders b dst through
          (PieceMoves ROOK dst
            &&& (b.piecesOf b.sideToMove.flip ROOK ||| b.piecesOf b.sideToMove.flip QUEEN))
          (unblockedSliders b dst through
            (PieceMoves BISHOP dst
              &&& (b.piecesOf b.sideToMove.flip BISHOP ||| b.piecesOf b.sideToMove.flip QUEEN))
            (EmptyBitboard
              ||| (pawnAttackersOf b.sideToMove.flip dst &&& b.piecesOf b.sideToMove.flip PAWN
                ||| PieceMoves KNIGHT dst &&& b.piecesOf b.sideToMove.flip KNIGHT
                ||| PieceMoves KING dst &&& b.piecesOf b.sideToMove.flip KING))) := by
  unfold getAttackingPieces
  cases hs : b.sideToMove <;>
    simp only [ChessBoard.piecesOf, Color.flip, pawnAttackersOf, if_true, if_false,
      reduceCtorEq, Bool.false_eq_true, false_and]

theorem unblockedSliders_bits (b : ChessBoard) (dst through bb acc : Nat) (k : Nat)
    (hk : k ≤ 7) (hd : dst < 64) (s : Nat) :
    (unblockedSliders b dst through (PieceMoves k dst &&& bb) acc).testBit s = true ↔
      acc.testBit s = true
        ∨ (s < 64 ∧ bb.testBit s = true ∧ (PieceMoves k s).testBit dst = true
            ∧ ∀ t, (InBetween s dst).testBit t = true → b.allPieces.testBit t = true →
                through.testBit t = true) := by
  unfold unblockedSliders
  rw [sliders_fold_bits (fun src => InBetween dst src &&& (b.allPieces &&& bbNot through))]
  apply or_congr Iff.rfl
  rw [mem_squaresOf]
  constructor
  · rintro ⟨⟨h1, h2⟩, h3⟩
    obtain ⟨-, h4, h5⟩ := (piece_attackers_bit k hk bb dst s hd).1 h2
    exact ⟨h1, h4, h5, (free_iff dst s _ _ hd h1).1 h3⟩
  · rintro ⟨h1, h2, h3, h4⟩
    exact ⟨⟨h1, (piece_attackers_bit k hk bb dst s hd).2 ⟨h1, h2, h3⟩⟩,
      (free_iff dst s _ _ hd h1).2 h4⟩

theorem getAttackingPieces_bits (b : ChessBoard) (dst : Nat) (through : Nat) (hd : dst < 64)
    (s : Nat) :
    (getAttackingPieces b dst false through).testBit s = true ↔ EnemyAttacks b through s dst := by
  rw [getAttackingPieces_eq, unblockedSliders_bits b dst through _ _ ROOK (by decide) hd,
    unblockedSliders_bits b dst through _ _ BISHOP (by decide) hd]
  simp only [EmptyBitboard, Nat.zero_or, Nat.testBit_or, Bool.or_eq_true]
  rw [pawn_attackers_bit b dst s hd, piece_attackers_bit KNIGHT (by decide) _ dst s hd,
    piece_attackers_bit KING (by decide) _ dst s hd]
  unfold EnemyAttacks EnemyPieceAttacks
  constructor
  · rintro ((((⟨h1, h2, h3⟩ | ⟨h1, h2, h3⟩) | ⟨h1, h2, h3⟩) | ⟨h1, h2, h3, h4⟩) | ⟨h1, h2, h3, h4⟩)
    · exact Or.inl ⟨h1, Or.inl ⟨h2, h3⟩⟩
    · exact Or.inl ⟨h1, Or.inr (Or.inl ⟨h2, h3⟩)⟩
    · exact Or.inr ⟨h1, h2, h3⟩
    · exact Or.inl ⟨h1, Or.inr (Or.inr (Or.inl ⟨h2, h3, h4⟩))⟩
    · exact Or.inl ⟨h1, Or.inr (Or.inr (Or.inr ⟨h2, h3, h4⟩))⟩
  · rintro (⟨h1, ⟨h2, h3⟩ | ⟨h2, h3⟩ | ⟨h2, h3, h4⟩ | ⟨h2, h3, h4⟩⟩ | ⟨h1, h2, h3⟩)
    · exact Or.inl (Or.inl (Or.inl (Or.inl ⟨h1, h2, h3⟩)))
    · exact Or.inl (Or.inl (Or.inl (Or.inr ⟨h1, h2, h3⟩)))
    · exact Or.inl (Or.inr ⟨h1, h2, h3, h4⟩)
    · exact Or.inr ⟨h1, h2, h3, h4⟩
    · exact Or.inl (Or.inl (Or.inr ⟨h1, h2, h3⟩))

theorem unblockedSliders_mono (b : ChessBoard) (dst through cand acc i : Nat)
    (h : acc.testBit i = true) : (unblockedSliders b dst through cand acc).testBit i = true := by
  unfold unblockedSliders
  exact (sliders_fold_bits (fun src => InBetween dst src &&& (b.allPieces &&& bbNot through))
    _ acc i).2 (Or.inl h)

theorem earlyExit_subset (b : ChessBoard) (dst mask i : Nat)
    (h : (getAttackingPieces b dst true mask).testBit i = true) :
    (getAttackingPieces b dst false mask).testBit i = true := by
  unfold getAttackingPieces at h ⊢
  simp only [Bool.false_eq_true, false_and, if_false, true_and] at h ⊢
  generalize (if b.sideToMove = Color.WHITE then b.blackPieces else b.whitePieces) = other
    at h ⊢
  generalize (if b.sideToMove = Color.WHITE then WhitePawnCaptures dst
    else BlackPawnCaptures dst) = ptab at h ⊢
  split_ifs at h with h1 h2
  · exact unblockedSliders_mono _ _ _ _ _ _ (unblockedSliders_mono _ _ _ _ _ _ h)
  · exact unblockedSliders_mono _ _ _ _ _ _ h
  · exact h

theorem earlyExit_nonempty (b : ChessBoard) (dst mask : Nat) :
    getAttackingPieces b dst true mask ≠ EmptyBitboard
      ↔ getAttackingPieces b dst false mask ≠ EmptyBitboard := by
  constructor
  · intro h
    obtain ⟨i, hi⟩ := (ne_zero_iff_bit _).1 h
    exact (ne_zero_iff_bit _).2 ⟨i, earlyExit_subset b dst mask i hi⟩
  · intro h
    unfold getAttackingPieces at h ⊢
    simp only [Bool.false_eq_true, false_and, if_false, true_and] at h ⊢
    generalize (if b.sideToMove = Color.WHITE then b.blackPieces else b.whitePieces) = other
      at h ⊢
    generalize (if b.sideToMove = Color.WHITE then WhitePawnCaptures dst
      else BlackPawnCaptures dst) = ptab at h ⊢
    split_ifs with h1 h2
    · exact h1
    · exact h2
    · exact h

/-- C27: for a square on the board, `isSquareAttacked(board, sq)` is true
exactly when some piece of the side not to move attacks `sq`, where a bishop,
rook or queen attacks along its line if every occupied square strictly between
is the square of the king of the side to move; and for every mask the result
of `getAttackingPieces` with `earlyExit = true` is a subset of the result with
`earlyExit = false` and is non-empty exactly when that one is. -/
theorem isSquareAttacked_iff (b : ChessBoard) (dst : Nat) (hd : dst < 64) (mask : Nat) :
    (isSquareAttacked b dst = true ↔
        ∃ src, EnemyAttacks b (b.piecesOf b.sideToMove KING) src dst)
    ∧ (∀ i, (getAttackingPieces b dst true mask).testBit i = true →
        (getAttackingPieces b dst false mask).testBit i = true)
    ∧ (getAttackingPieces b dst true mask ≠ EmptyBitboard
        ↔ getAttackingPieces b dst false mask ≠ EmptyBitboard) := by
  refine ⟨?_, earlyExit_subset b dst mask, earlyExit_nonempty b dst mask⟩
  have hking : (if b.sideToMove = Color.WHITE then b.whitePieces KING else b.blackPieces KING)
      = b.piecesOf b.sideToMove KING := by
    cases hs : b.sideToMove <;> simp [ChessBoard.piecesOf]
  unfold isSquareAttacked
  simp only [hking, decide_eq_true_eq, EmptyBitboard]
  rw [ne_zero_iff_bit]
  exact exists_congr (fun s => getAttackingPieces_bits b dst _ hd s)

theorem isSquareAttacked_iff_witness :
    ((52 : Nat) < 64
      ∧ isSquareAttacked (initFromFen zeroTables "4r2k/8/8/8/8/8/8/4K3 w - - 0 1") 52 = true
      ∧ getAttackingPieces (initFromFen zeroTables "4r2k/8/8/8/8/8/8/4K3 w - - 0 1") 52 true 0
          = OneShiftedBy 4)
    ∧ ∃ src, EnemyAttacks (initFromFen zeroTables "4r2k/8/8/8/8/8/8/4K3 w - - 0 1")
        ((initFromFen zeroTables "4r2k/8/8/8/8/8/8/4K3 w - - 0 1").piecesOf
          (initFromFen zeroTables "4r2k/8/8/8/8/8/8/4K3 w - - 0 1").sideToMove KING) src 52 :=
  ⟨by decide!,
   (isSquareAttacked_iff (initFromFen zeroTables "4r2k/8/8/8/8/8/8/4K3 w - - 0 1") 52
      (by decide) 0).1.1 (by decide!)⟩


/-! ### The validation pass of the generator -/

theorem attackBoardsOf_checking_bits (b : ChessBoard) (s : Nat) :
    (attackBoardsOf b).checkingPieces.testBit s = true ↔
      ((pawnAttackersOf b.sideToMove.flip (b.kingPosition b.sideToMove)
            &&& b.piecesOf b.sideToMove.flip PAWN
          ||| PieceMoves KNIGHT (b.kingPosition b.sideToMove)
            &&& b.piecesOf b.sideToMove.flip KNIGHT).testBit s = true
        ∨ (s ∈ squaresOf (PieceMoves BISHOP (b.kingPosition b.sideToMove)
              &&& (b.piecesOf b.sideToMove.flip BISHOP ||| b.piecesOf b.sideToMove.flip QUEEN))
            ∧ InBetween (b.kingPosition b.sideToMove) s &&& b.allPieces = 0))
        ∨ (s ∈ squaresOf (PieceMoves ROOK (b.kingPosition b.sideToMove)
              &&& (b.piecesOf b.sideToMove.flip ROOK ||| b.piecesOf b.sideToMove.flip QUEEN))
            ∧ InBetween (b.kingPosition b.sideToMove) s &&& b.allPieces = 0) := by
  rw [attackBoardsOf_eq, (attackBoards_fold_bits _ _ _ _ s).1,
    (attackBoards_fold_bits _ _ _ _ s).1]

theorem inCheck_shape (kn pw : Nat) (lB lR : List Nat) (F : Nat → Prop) [DecidablePred F] :
    ((if kn = 0 then
        if pw = 0 then
          if (∃ x ∈ lB, F x) then true else lR.any (fun d => decide (F d))
        else true
      else true) = true) ↔
      ∃ i, ((pw.testBit i = true ∨ kn.testBit i = true) ∨ i ∈ lB ∧ F i) ∨ i ∈ lR ∧ F i := by
  by_cases hkn : kn = 0
  · by_cases hpw : pw = 0
    · by_cases hB : ∃ x ∈ lB, F x
      · simp only [hkn, hpw, hB, if_true, true_iff]
        obtain ⟨x, hx, hF⟩ := hB
        exact ⟨x, Or.inl (Or.inr ⟨hx, hF⟩)⟩
      · simp only [hkn, hpw, hB, if_true, if_false, List.any_eq_true, decide_eq_true_eq,
          Nat.zero_testBit, Bool.false_eq_true, or_self, false_or]
        constructor
        · rintro ⟨x, hx, hF⟩
          exact ⟨x, Or.inr ⟨hx, hF⟩⟩
        · rintro ⟨x, hx | hx⟩
          · exact absurd ⟨x, hx⟩ hB
          · exact ⟨x, hx⟩
    · simp only [hkn, hpw, if_true, if_false, true_iff]
      obtain ⟨i, hi⟩ := (ne_zero_iff_bit pw).1 hpw
      exact ⟨i, Or.inl (Or.inl (Or.inl hi))⟩
  · simp only [hkn, if_false, true_iff]
    obtain ⟨i, hi⟩ := (ne_zero_iff_bit kn).1 hkn
    exact ⟨i, Or.inl (Or.inl (Or.inr hi))⟩

theorem isInCheck_other_iff (n : ChessBoard) :
    isInCheck n true = true ↔ (attackBoardsOf n.flipSide).checkingPieces ≠ 0 := by
  rw [ne_zero_iff_bit]
  simp only [attackBoardsOf_checking_bits]
  cases hs : n.sideToMove <;>
    simp only [isInCheck, hs, ChessBoard.flipSide, Color.flip, ChessBoard.piecesOf,
      ChessBoard.kingPosition, pawnAttackersOf, decide_True, decide_False, Bool.not_true,
      Bool.not_false, if_true, if_false, Bool.true_eq_false, Bool.false_eq_true,
      reduceCtorEq, EmptyBitboard, ne_eq, ite_not, List.any_eq_true, decide_eq_true_eq,
      Nat.testBit_or, Bool.or_eq_true]
  · exact inCheck_shape _ _ _ _ (fun x => InBetween n.blackKingPosition x &&& n.allPieces = 0)
  · exact inCheck_shape _ _ _ _ (fun x => InBetween n.whiteKingPosition x &&& n.allPieces = 0)

theorem doMove_record (T : Tables) (b : ChessBoard) (a : ChessMove) :
    doMove T b (doMoveRecord T b a) = doMove T b a := rfl

theorem doMove_moverKing (T : Tables) (b : ChessBoard) (m : ChessMove)
    (hk : b.kingPosition b.sideToMove < 64) (hd : m.dst < 64) :
    (doMove T b m).kingPosition b.sideToMove < 64 := by
  have h := (doMoveSteps_kings true T b m).1
  have e : (doMove T b m).kingPosition b.sideToMove
      = (doMovePromotion true T
          (doMoveCapture true T
            (doMoveSpecial true T
              (doMoveMovePiece true T (doMoveEnPassant true T b m) m (b.pieces m.src)) m
              (b.pieces m.src)) m ((doMoveEnPassant true T b m).pieces m.dst)) m
          (b.pieces m.src)).kingPosition b.sideToMove :=
    kingPosition_congr _ _ (doMoveFinish_struct true T _ _ _ _ _).2.2.2.2.1
      (doMoveFinish_struct true T _ _ _ _ _).2.2.2.2.2.1 _
  rw [e, h]
  split_ifs
  · exact hd
  · exact hk

theorem moverSafe_iff (T : Tables) (b : ChessBoard) (m : ChessMove)
    (hk : b.kingPosition b.sideToMove < 64) (hd : m.dst < 64) :
    isInCheck (doMove T b m) true = false ↔
      ¬ ∃ src, EnemyPieceAttacks (doMove T b m).flipSide 0 src
          ((doMove T b m).kingPosition b.sideToMove) := by
  have hside : (doMove T b m).sideToMove = b.sideToMove.flip :=
    doMoveImplementation_sideToMove true T b m
  have hf : (doMove T b m).flipSide.sideToMove = b.sideToMove := by
    show (doMove T b m).sideToMove.flip = _
    rw [hside, color_flip_flip]
  have hkp : (doMove T b m).flipSide.kingPosition (doMove T b m).flipSide.sideToMove
      = (doMove T b m).kingPosition b.sideToMove := by
    rw [hf]; cases b.sideToMove <;> rfl
  have hlt : (doMove T b m).flipSide.kingPosition (doMove T b m).flipSide.sideToMove < 64 := by
    rw [hkp]; exact doMove_moverKing T b m hk hd
  rw [← Bool.not_eq_true, isInCheck_other_iff, ne_zero_iff_bit, ← hkp]
  exact not_congr (exists_congr (fun s => attackBoardsOf_checking_iff _ hlt s))

theorem doubleCheck_sublist (T : Tables) (b : ChessBoard) (moveList : MoveList) :
    ((doubleCheckGeneratedMoves T b moveList).map ChessMove.key).Sublist
      (moveList.map ChessMove.key) := by
  unfold doubleCheckGeneratedMoves
  induction moveList with
  | nil => simp
  | cons a l ih =>
    rw [List.filterMap_cons]
    simp only []
    by_cases hc : b.pinnedPieces &&& OneShiftedBy a.src ≠ EmptyBitboard
        ∨ (b.pieces a.src = PAWN ∧ b.enPassant = a.dst)
    · rw [if_pos hc]
      by_cases hi : isInCheck (doMove T b a) true = true
      · rw [if_pos hi]
        exact List.Sublist.cons _ ih
      · rw [if_neg hi]
        exact List.Sublist.cons₂ _ ih
    · rw [if_neg hc]
      exact List.Sublist.cons₂ _ ih

/-- C24, refuted on its example `8/2p5/3p4/KP5r/1R3p1k/8/4P1P1/8`: after
e2-e4 the en-passant square is e3, and the reply f4xe3 (37 to 44) is not in the
list of `generateAllMoves`: played on a copy it takes the pawns on e4 and f4
off the fourth rank and leaves the black king on h4 attacked by the rook on
b4, so the validation pass erases it, like the capture b5xc6 (25 to 18) after
the black move c7-c5. -/
theorem generateAllMoves_drops_f4e3 :
    (doMove zeroTables (initFromFen zeroTables "8/2p5/3p4/KP5r/1R3p1k/8/4P1P1/8 w - - 0 1")
        (plainMove 52 36)).enPassant = 44
    ∧ isInCheck (doMove zeroTables
        (doMove zeroTables (initFromFen zeroTables "8/2p5/3p4/KP5r/1R3p1k/8/4P1P1/8 w - - 0 1")
          (plainMove 52 36)) (plainMove 37 44)) true = true
    ∧ (37, 44, NO_PIECE) ∉ (generateAllMoves zeroTables
        (doMove zeroTables (initFromFen zeroTables "8/2p5/3p4/KP5r/1R3p1k/8/4P1P1/8 w - - 0 1")
          (plainMove 52 36))).map ChessMove.key
    ∧ (25, 18, NO_PIECE) ∉ (generateAllMoves zeroTables
        (doMove zeroTables (initFromFen zeroTables "8/2p5/3p4/KP5r/1R3p1k/8/4P1P1/8 b - - 0 1")
          (plainMove 10 26))).map ChessMove.key := by
  decide!

/-- C24 (amended): let the king square of the side to move be on the board and
every move of the list have its destination on the board.  After
`doubleCheckGeneratedMoves(board, moveList)` every remaining move that starts
from a pinned square or is an en-passant capture leaves the king of the mover
attacked by no enemy pawn, knight, bishop, rook or queen once applied; every
move that is neither is kept; a move that is one of the two and leaves the king
unattacked is kept (with `movedPiece` and `capturedPiece` filled in); and the
remaining moves stand in the order they had.  On the example of the claim both
en-passant captures, f4xe3 after e2-e4 and b5xc6 after c7-c5, are erased. -/
theorem doubleCheckGeneratedMoves_spec (T : Tables) (b : ChessBoard) (moveList : MoveList)
    (hk : b.kingPosition b.sideToMove < 64) (hdst : ∀ m ∈ moveList, m.dst < 64) :
    (∀ m ∈ doubleCheckGeneratedMoves T b moveList,
        (b.pinnedPieces &&& OneShiftedBy m.src ≠ EmptyBitboard
          ∨ (b.pieces m.src = PAWN ∧ b.enPassant = m.dst)) →
        ¬ ∃ src, EnemyPieceAttacks (doMove T b m).flipSide 0 src
            ((doMove T b m).kingPosition b.sideToMove))
    ∧ (∀ m ∈ moveList,
        ¬ (b.pinnedPieces &&& OneShiftedBy m.src ≠ EmptyBitboard
          ∨ (b.pieces m.src = PAWN ∧ b.enPassant = m.dst)) →
        m ∈ doubleCheckGeneratedMoves T b moveList)
    ∧ (∀ m ∈ moveList,
        (b.pinnedPieces &&& OneShiftedBy m.src ≠ EmptyBitboard
          ∨ (b.pieces m.src = PAWN ∧ b.enPassant = m.dst)) →
        (¬ ∃ src, EnemyPieceAttacks (doMove T b m).flipSide 0 src
            ((doMove T b m).kingPosition b.sideToMove)) →
        doMoveRecord T b m ∈ doubleCheckGeneratedMoves T b moveList)
    ∧ ((doubleCheckGeneratedMoves T b moveList).map ChessMove.key).Sublist
        (moveList.map ChessMove.key) := by
  refine ⟨?_, ?_, ?_, doubleCheck_sublist T b moveList⟩
  · intro m hm hchk
    unfold doubleCheckGeneratedMoves at hm
    obtain ⟨a, ha, hfa⟩ := List.mem_filterMap.1 hm
    simp only [] at hfa
    by_cases hc : b.pinnedPieces &&& OneShiftedBy a.src ≠ EmptyBitboard
        ∨ (b.pieces a.src = PAWN ∧ b.enPassant = a.dst)
    · rw [if_pos hc] at hfa
      by_cases hi : isInCheck (doMove T b a) true = true
      · rw [if_pos hi] at hfa
        exact absurd hfa (by simp)
      · rw [if_neg hi] at hfa
        have hm' : m = doMoveRecord T b a := (Option.some.inj hfa).symm
        rw [hm', doMove_record]
        exact (moverSafe_iff T b a hk (hdst a ha)).1 (by simpa using hi)
    · rw [if_neg hc] at hfa
      have hm' : m = a := (Option.some.inj hfa).symm
      rw [hm'] at hchk
      exact absurd hchk hc
  · intro m hm hc
    unfold doubleCheckGeneratedMoves
    refine List.mem_filterMap.2 ⟨m, hm, ?_⟩
    simp only []
    rw [if_neg hc]
  · intro m hm hc hsafe
    unfold doubleCheckGeneratedMoves
    refine List.mem_filterMap.2 ⟨m, hm, ?_⟩
    simp only []
    have := (moverSafe_iff T b m hk (hdst m hm)).2 hsafe
    rw [if_pos hc, if_neg (by simp [this])]

theorem doubleCheckGeneratedMoves_spec_witness :
    ((doMove zeroTables (initFromFen zeroTables "8/2p5/3p4/KP5r/1R3p1k/8/4P1P1/8 w - - 0 1")
          (plainMove 52 36)).kingPosition
        (doMove zeroTables (initFromFen zeroTables "8/2p5/3p4/KP5r/1R3p1k/8/4P1P1/8 w - - 0 1")
          (plainMove 52 36)).sideToMove < 64
      ∧ (∀ m ∈ [plainMove 37 44, plainMove 37 45], m.dst < 64)
      ∧ doubleCheckGeneratedMoves zeroTables
          (doMove zeroTables (initFromFen zeroTables "8/2p5/3p4/KP5r/1R3p1k/8/4P1P1/8 w - - 0 1")
            (plainMove 52 36)) [plainMove 37 44, plainMove 37 45] = [plainMove 37 45])
    ∧ plainMove 37 45 ∈ doubleCheckGeneratedMoves zeroTables
        (doMove zeroTables (initFromFen zeroTables "8/2p5/3p4/KP5r/1R3p1k/8/4P1P1/8 w - - 0 1")
          (plainMove 52 36)) [plainMove 37 44, plainMove 37 45] :=
  ⟨by decide!,
   (doubleCheckGeneratedMoves_spec zeroTables
      (doMove zeroTables (initFromFen zeroTables "8/2p5/3p4/KP5r/1R3p1k/8/4P1P1/8 w - - 0 1")
        (plainMove 52 36)) [plainMove 37 44, plainMove 37 45] (by decide!) (by decide)).2.1
      (plainMove 37 45) (by simp) (by decide!)⟩


/-! ### Move ordering -/

theorem blackPawnCaptures_bits : ∀ p < 64, ∀ s < 64,
    (BlackPawnCaptures p).testBit s
      = (decide (s = p + 7 ∧ p % 8 ≠ 0) || decide (s = p + 9 ∧ p % 8 ≠ 7)) := by decide!

theorem whitePawnCaptures_bits : ∀ p < 64, ∀ s < 64,
    (WhitePawnCaptures p).testBit s
      = (decide (p = s + 9 ∧ p % 8 ≠ 0) || decide (p = s + 7 ∧ p % 8 ≠ 7)) := by decide!

theorem bbFile_bits : ∀ i < 64,
    (bbFile 0).testBit i = decide (i % 8 = 0) ∧ (bbFile 7).testBit i = decide (i % 8 = 7) := by
  decide!

theorem testBit_shl64 (x n s : Nat) :
    (shl64 x n).testBit s = (decide (s < 64) && (decide (n ≤ s) && x.testBit (s - n))) := by
  unfold shl64
  rw [Nat.testBit_mod_two_pow, Nat.testBit_shiftLeft]

theorem masked_pawn_bit (pawns file i : Nat) :
    (pawns &&& bbNot file).testBit i = (pawns.testBit i && (decide (i < 64) ^^ file.testBit i)) := by
  rw [Nat.testBit_and, testBit_bbNot]

theorem unsafeSquaresOf_bits (board : ChessBoard) (s : Nat) (hs : s < 64) :
    (unsafeSquaresOf board).testBit s = true ↔ AttackedByEnemyPawn board s := by
  unfold unsafeSquaresOf AttackedByEnemyPawn
  cases hc : board.sideToMove
  · simp only [if_true, Color.flip, ChessBoard.piecesOf, pawnCapturesOf, shiftBy, DOWN_LEFT,
      DOWN_RIGHT, Nat.testBit_or, Bool.or_eq_true]
    rw [if_neg (by decide), if_neg (by decide), testBit_shl64, testBit_shl64,
      masked_pawn_bit, masked_pawn_bit]
    simp only [show (7 : Int).toNat = 7 from rfl, show (9 : Int).toNat = 9 from rfl,
      Bool.and_eq_true, decide_eq_true_eq]
    constructor
    · rintro (⟨-, h7, hp, hf⟩ | ⟨-, h9, hp, hf⟩)
      · have hlt : s - 7 < 64 := by omega
        refine ⟨s - 7, hlt, hp, ?_⟩
        rw [blackPawnCaptures_bits _ hlt s hs]
        rw [(bbFile_bits _ hlt).1] at hf
        simp only [hlt, decide_True, Bool.true_xor, Bool.not_eq_true', decide_eq_false_iff_not]
          at hf
        simp only [Bool.or_eq_true, decide_eq_true_eq]
        exact Or.inl ⟨by omega, hf⟩
      · have hlt : s - 9 < 64 := by omega
        refine ⟨s - 9, hlt, hp, ?_⟩
        rw [blackPawnCaptures_bits _ hlt s hs]
        rw [(bbFile_bits _ hlt).2] at hf
        simp only [hlt, decide_True, Bool.true_xor, Bool.not_eq_true', decide_eq_false_iff_not]
          at hf
        simp only [Bool.or_eq_true, decide_eq_true_eq]
        exact Or.inr ⟨by omega, hf⟩
    · rintro ⟨p, hp, hb, hcap⟩
      rw [blackPawnCaptures_bits p hp s hs] at hcap
      simp only [Bool.or_eq_true, decide_eq_true_eq] at hcap
      rcases hcap with ⟨h1, h2⟩ | ⟨h1, h2⟩
      · left
        have e : s - 7 = p := by omega
        rw [e, (bbFile_bits p hp).1]
        exact ⟨hs, by omega, hb, by simp [hp, h2]⟩
      · right
        have e : s - 9 = p := by omega
        rw [e, (bbFile_bits p hp).2]
        exact ⟨hs, by omega, hb, by simp [hp, h2]⟩
  · simp only [if_false, reduceCtorEq, Color.flip, ChessBoard.piecesOf, pawnCapturesOf, shiftBy,
      UP_LEFT, UP_RIGHT, Nat.testBit_or, Bool.or_eq_true]
    rw [if_pos (by decide), if_pos (by decide), Nat.testBit_shiftRight, Nat.testBit_shiftRight,
      masked_pawn_bit, masked_pawn_bit]
    simp only [show (-(-9 : Int)).toNat = 9 from rfl, show (-(-7 : Int)).toNat = 7 from rfl,
      Bool.and_eq_true]
    constructor
    · rintro (⟨hp, hf⟩ | ⟨hp, hf⟩)
      · have hlt : 9 + s < 64 := by
          by_contra hge
          have : (decide (9 + s < 64) ^^ (bbFile 0).testBit (9 + s)) = false := by
            rw [testBit_of_lt_two_pow64 _ _ (by decide) (by omega)]
            simp [hge]
          rw [this] at hf
          exact Bool.false_ne_true hf
        refine ⟨9 + s, hlt, hp, ?_⟩
        rw [whitePawnCaptures_bits _ hlt s hs]
        rw [(bbFile_bits _ hlt).1] at hf
        simp only [hlt, decide_True, Bool.true_xor, Bool.not_eq_true', decide_eq_false_iff_not]
          at hf
        simp only [Bool.or_eq_true, decide_eq_true_eq]
        exact Or.inl ⟨by omega, hf⟩
      · have hlt : 7 + s < 64 := by
          by_contra hge
          have : (decide (7 + s < 64) ^^ (bbFile 7).testBit (7 + s)) = false := by
            rw [testBit_of_lt_two_pow64 _ _ (by decide) (by omega)]
            simp [hge]
          rw [this] at hf
          exact Bool.false_ne_true hf
        refine ⟨7 + s, hlt, hp, ?_⟩
        rw [whitePawnCaptures_bits _ hlt s hs]
        rw [(bbFile_bits _ hlt).2] at hf
        simp only [hlt, decide_True, Bool.true_xor, Bool.not_eq_true', decide_eq_false_iff_not]
          at hf
        simp only [Bool.or_eq_true, decide_eq_true_eq]
        exact Or.inr ⟨by omega, hf⟩
    · rintro ⟨p, hp, hb, hcap⟩
      rw [whitePawnCaptures_bits p hp s hs] at hcap
      simp only [Bool.or_eq_true, decide_eq_true_eq] at hcap
      rcases hcap with ⟨h1, h2⟩ | ⟨h1, h2⟩
      · left
        have e : 9 + s = p := by omega
        rw [e, (bbFile_bits p hp).1]
        exact ⟨hb, by simp [hp, h2]⟩
      · right
        have e : 7 + s = p := by omega
        rw [e, (bbFile_bits p hp).2]
        exact ⟨hb, by simp [hp, h2]⟩


/-- C28, refuted at `7k/8/2p5/4p3/3N4/8/8/4K3 w - - 0 1`: the knight on d4
(square 35) stands on a square the black pawn on e5 attacks.  Its capture
d4xc6 receives `BAD_CAPTURE_MOVE` and its move d4-f3, when that is the first
killer, receives `KILLER1_MOVE`; neither receives `UNSAFE_MOVE`, which only the
same quiet move gets when it is no killer. -/
theorem reorderMoves_capture_before_unsafe :
    (initFromFen zeroTables "7k/8/2p5/4p3/3N4/8/8/4K3 w - - 0 1").pieces 35 = KNIGHT
    ∧ AttackedByEnemyPawn (initFromFen zeroTables "7k/8/2p5/4p3/3N4/8/8/4K3 w - - 0 1") 35
    ∧ (unsafeSquaresOf (initFromFen zeroTables "7k/8/2p5/4p3/3N4/8/8/4K3 w - - 0 1")).testBit 35
        = true
    ∧ reorderMovesOrdinal (materialTables 32000)
        (initFromFen zeroTables "7k/8/2p5/4p3/3N4/8/8/4K3 w - - 0 1") false
        { principalVariation := [], killer1 := plainMove 0 0, killer2 := plainMove 0 0 }
        (fun _ _ => 0) (plainMove 35 18) = BAD_CAPTURE_MOVE
    ∧ reorderMovesOrdinal (materialTables 32000)
        (initFromFen zeroTables "7k/8/2p5/4p3/3N4/8/8/4K3 w - - 0 1") false
        { principalVariation := [], killer1 := plainMove 35 45, killer2 := plainMove 0 0 }
        (fun _ _ => 0) (plainMove 35 45) = KILLER1_MOVE
    ∧ reorderMovesOrdinal (materialTables 32000)
        (initFromFen zeroTables "7k/8/2p5/4p3/3N4/8/8/4K3 w - - 0 1") false
        { principalVariation := [], killer1 := plainMove 0 0, killer2 := plainMove 0 0 }
        (fun _ _ => 0) (plainMove 35 45) = UNSAFE_MOVE := by
  decide!

/-- C28 (amended): for a move that does not get `PV_MOVE`, `reorderMoves`
first looks at the destination square: a move onto a piece is classed GOOD,
EQUAL or BAD by comparing `MaterialParameters[captured].mg` with
`MaterialParameters[mover].mg`, whatever attacks its source square.  A move
onto an empty square that equals `killer1` gets `KILLER1_MOVE`, else one that
equals `killer2` gets `KILLER2_MOVE`.  Only among the remaining moves does a
move of a non-pawn piece whose source square is attacked by an enemy pawn get
`UNSAFE_MOVE`; the others get `BUTTERFLY_MOVE` plus their butterfly score. -/
theorem reorderMoves_ordinal_rules (T : Tables) (board : ChessBoard) (pvNode : Bool)
    (searchStack : SearchStack) (butterflyTable : Nat → Nat → Nat) (move : ChessMove)
    (hsrc : move.src < 64)
    (hpv : ¬ (pvNode = true ∧ searchStack.principalVariation.length > 0
      ∧ (searchStack.principalVariation.head?.map (fun m => m.same move)) = some true)) :
    (board.pieces move.dst ≠ NO_PIECE →
        reorderMovesOrdinal T board pvNode searchStack butterflyTable move
          = if (T.MaterialParameters (board.pieces move.dst)).mg
                > (T.MaterialParameters (board.pieces move.src)).mg then GOOD_CAPTURE_MOVE
            else if (T.MaterialParameters (board.pieces move.dst)).mg
                = (T.MaterialParameters (board.pieces move.src)).mg then EQUAL_CAPTURE_MOVE
            else BAD_CAPTURE_MOVE)
    ∧ (board.pieces move.dst = NO_PIECE → searchStack.killer1.same move = true →
        reorderMovesOrdinal T board pvNode searchStack butterflyTable move = KILLER1_MOVE)
    ∧ (board.pieces move.dst = NO_PIECE → searchStack.killer1.same move = false →
        searchStack.killer2.same move = true →
        reorderMovesOrdinal T board pvNode searchStack butterflyTable move = KILLER2_MOVE)
    ∧ (board.pieces move.dst = NO_PIECE → searchStack.killer1.same move = false →
        searchStack.killer2.same move = false →
        reorderMovesOrdinal T board pvNode searchStack butterflyTable move
          = if board.pieces move.src ≠ PAWN ∧ AttackedByEnemyPawn board move.src then UNSAFE_MOVE
            else BUTTERFLY_MOVE + (butterflyTable (board.pieces move.src) move.dst : Int)) := by
  have hu := unsafeSquaresOf_bits board move.src hsrc
  unfold reorderMovesOrdinal reorderOrdinal
  simp only []
  rw [if_neg hpv]
  refine ⟨?_, ?_, ?_, ?_⟩
  · intro hc
    rw [if_pos hc]
  · intro hc h1
    rw [if_neg (by simpa using hc), if_pos h1]
  · intro hc h1 h2
    rw [if_neg (by simpa using hc), if_neg (by simp [h1]), if_pos h2]
  · intro hc h1 h2
    rw [if_neg (by simpa using hc), if_neg (by simp [h1]), if_neg (by simp [h2])]
    have hiff : (board.pieces move.src ≠ PAWN
          ∧ unsafeSquaresOf board &&& OneShiftedBy move.src ≠ EmptyBitboard)
        ↔ (board.pieces move.src ≠ PAWN ∧ AttackedByEnemyPawn board move.src) := by
      rw [show (EmptyBitboard : Nat) = 0 from rfl, and_OneShiftedBy_ne_zero, hu]
    by_cases hq : board.pieces move.src ≠ PAWN ∧ AttackedByEnemyPawn board move.src
    · rw [if_pos hq, if_pos (hiff.2 hq)]
    · rw [if_neg hq, if_neg (fun h => hq (hiff.1 h))]

theorem reorderMoves_ordinal_rules_witness :
    ((35 : Nat) < 64
      ∧ (initFromFen zeroTables "7k/8/2p5/4p3/3N4/8/8/4K3 w - - 0 1").pieces 18 ≠ NO_PIECE)
    ∧ reorderMovesOrdinal (materialTables 32000)
        (initFromFen zeroTables "7k/8/2p5/4p3/3N4/8/8/4K3 w - - 0 1") false
        { principalVariation := [], killer1 := plainMove 0 0, killer2 := plainMove 0 0 }
        (fun _ _ => 0) (plainMove 35 18)
      = if ((materialTables 32000).MaterialParameters
              ((initFromFen zeroTables "7k/8/2p5/4p3/3N4/8/8/4K3 w - - 0 1").pieces 18)).mg
            > ((materialTables 32000).MaterialParameters
              ((initFromFen zeroTables "7k/8/2p5/4p3/3N4/8/8/4K3 w - - 0 1").pieces 35)).mg
          then GOOD_CAPTURE_MOVE
        else if ((materialTables 32000).MaterialParameters
              ((initFromFen zeroTables "7k/8/2p5/4p3/3N4/8/8/4K3 w - - 0 1").pieces 18)).mg
            = ((materialTables 32000).MaterialParameters
              ((initFromFen zeroTables "7k/8/2p5/4p3/3N4/8/8/4K3 w - - 0 1").pieces 35)).mg
          then EQUAL_CAPTURE_MOVE
        else BAD_CAPTURE_MOVE :=
  ⟨by decide!,
   (reorderMoves_ordinal_rules (materialTables 32000)
      (initFromFen zeroTables "7k/8/2p5/4p3/3N4/8/8/4K3 w - - 0 1") false
      { principalVariation := [], killer1 := plainMove 0 0, killer2 := plainMove 0 0 }
      (fun _ _ => 0) (plainMove 35 18) (by decide) (by decide)).1 (by decide!)⟩


/-! ### `doMove` with and without the incremental updates -/

theorem buildAttackBoards_withoutScalars (b : ChessBoard) :
    (buildAttackBoards b).withoutScalars = buildAttackBoards b.withoutScalars := rfl

theorem withoutScalars_piecesOf (b : ChessBoard) (c : Color) :
    b.withoutScalars.piecesOf c = b.piecesOf c := by
  cases c <;> rfl

theorem withoutScalars_sideToMove (b : ChessBoard) :
    b.withoutScalars.sideToMove = b.sideToMove := rfl

theorem withoutScalars_enPassant (b : ChessBoard) :
    b.withoutScalars.enPassant = b.enPassant := rfl

theorem withoutScalars_pieces (b : ChessBoard) :
    b.withoutScalars.pieces = b.pieces := rfl

theorem withoutScalars_castleRights (b : ChessBoard) :
    b.withoutScalars.castleRights = b.castleRights := rfl

theorem doMoveEnPassant_withoutScalars (pre : Bool) (T : Tables) (b : ChessBoard)
    (mv : ChessMove) :
    (doMoveEnPassant pre T b mv).withoutScalars = doMoveEnPassant false T b.withoutScalars mv := by
  by_cases h : mv.dst = b.enPassant ∧ b.pieces mv.src = PAWN
  · cases hs : b.sideToMove <;> cases pre <;>
      simp [doMoveEnPassant, ChessBoard.withoutScalars, hs, h.1.symm, h.2,
        ChessBoard.setPiecesOf, ChessBoard.piecesOf]
  · rw [doMoveEnPassant_skip pre T b mv h,
      doMoveEnPassant_skip false T b.withoutScalars mv h]

theorem doMoveMovePiece_withoutScalars (pre : Bool) (T : Tables) (b : ChessBoard)
    (mv : ChessMove) (k : Nat) :
    (doMoveMovePiece pre T b mv k).withoutScalars
      = doMoveMovePiece false T b.withoutScalars mv k := by
  cases hs : b.sideToMove <;> cases pre <;>
    simp [doMoveMovePiece, ChessBoard.withoutScalars, hs, ChessBoard.setPiecesOf,
      ChessBoard.piecesOf]

theorem doMoveCastleRook_withoutScalars (pre : Bool) (T : Tables) (b : ChessBoard) (c : Color)
    (r1 r2 p1 p2 : Nat) :
    (doMoveCastleRook pre T b c r1 r2 p1 p2).withoutScalars
      = doMoveCastleRook false T b.withoutScalars c r1 r2 p1 p2 := by
  cases c <;> cases pre <;>
    simp [doMoveCastleRook, ChessBoard.withoutScalars, ChessBoard.setPiecesOf,
      ChessBoard.piecesOf]

theorem doMoveSpecial_withoutScalars (pre : Bool) (T : Tables) (b : ChessBoard)
    (mv : ChessMove) (k : Nat) :
    (doMoveSpecial pre T b mv k).withoutScalars
      = doMoveSpecial false T b.withoutScalars mv k := by
  unfold doMoveSpecial
  simp only [withoutScalars_piecesOf, withoutScalars_sideToMove, withoutScalars_castleRights]
  by_cases hp : k = PAWN
  · simp only [if_pos hp]
    cases pre <;> simp only [Bool.false_eq_true, if_false, if_true] <;>
      split_ifs <;> rfl
  · simp only [if_neg hp]
    by_cases hr : k = ROOK
    · simp only [if_pos hr]
      split_ifs <;> rfl
    · simp only [if_neg hr]
      by_cases hk : k = KING
      · simp only [if_pos hk]
        split_ifs <;> first | rfl | exact doMoveCastleRook_withoutScalars _ _ _ _ _ _ _ _
      · simp only [if_neg hk]

theorem doMoveCapture_withoutScalars (pre : Bool) (T : Tables) (b : ChessBoard)
    (mv : ChessMove) (c : Nat) :
    (doMoveCapture pre T b mv c).withoutScalars
      = doMoveCapture false T b.withoutScalars mv c := by
  unfold doMoveCapture
  by_cases hc : c ≠ NO_PIECE
  · simp only [if_pos hc]
    cases hs : b.sideToMove <;> cases pre <;>
      simp only [ChessBoard.withoutScalars, hs, ChessBoard.setPiecesOf, ChessBoard.piecesOf,
        Bool.false_eq_true, if_false, if_true, reduceCtorEq] <;>
      split_ifs <;> rfl
  · simp only [if_neg hc]

theorem doMovePromotion_withoutScalars (pre : Bool) (T : Tables) (b : ChessBoard)
    (mv : ChessMove) (k : Nat) :
    (doMovePromotion pre T b mv k).withoutScalars
      = doMovePromotion false T b.withoutScalars mv k := by
  unfold doMovePromotion
  by_cases hc : k = PAWN ∧ mv.promotionPiece ≠ NO_PIECE
  · simp only [if_pos hc]
    cases hs : b.sideToMove <;> cases pre <;>
      simp only [ChessBoard.withoutScalars, hs, ChessBoard.setPiecesOf, ChessBoard.piecesOf,
        Bool.false_eq_true, if_false, if_true, reduceCtorEq]
  · simp only [if_neg hc]

theorem doMoveFinish_withoutScalars (pre : Bool) (T : Tables) (b : ChessBoard)
    (e cr k c : Nat) :
    (doMoveFinish pre T b e cr k c).withoutScalars
      = doMoveFinish false T b.withoutScalars e cr k c := by
  unfold doMoveFinish
  cases pre <;>
    simp only [ChessBoard.withoutScalars, Bool.false_eq_true, if_false, if_true] <;>
    split_ifs <;> rfl

theorem doMoveCore_withoutScalars (pre : Bool) (T : Tables) (b : ChessBoard)
    (mv : ChessMove) :
    (doMoveCore pre T b mv).withoutScalars = doMoveCore false T b.withoutScalars mv := by
  unfold doMoveCore
  simp only [withoutScalars_enPassant, withoutScalars_pieces]
  rw [doMoveFinish_withoutScalars, doMovePromotion_withoutScalars, doMoveCapture_withoutScalars,
    doMoveSpecial_withoutScalars, doMoveMovePiece_withoutScalars,
    doMoveEnPassant_withoutScalars]
  have h1 : (doMoveEnPassant pre T b mv).pieces mv.dst
      = (doMoveEnPassant false T b.withoutScalars mv).pieces mv.dst :=
    congrFun (congrArg ChessBoard.pieces (doMoveEnPassant_withoutScalars pre T b mv)) mv.dst
  have h2 : (doMoveMovePiece pre T (doMoveEnPassant pre T b mv) mv (b.pieces mv.src)).castleRights
      = (doMoveMovePiece false T (doMoveEnPassant false T b.withoutScalars mv) mv
          (b.pieces mv.src)).castleRights := by
    have := congrArg ChessBoard.castleRights
      (doMoveMovePiece_withoutScalars pre T (doMoveEnPassant pre T b mv) mv (b.pieces mv.src))
    rw [doMoveEnPassant_withoutScalars] at this
    exact this
  rw [h1, h2]

theorem doMoveImplementation_withoutScalars (pre : Bool) (T : Tables) (b : ChessBoard)
    (mv : ChessMove) :
    (doMoveImplementation pre T b mv).withoutScalars
      = doMoveImplementation false T b.withoutScalars mv := by
  unfold doMoveImplementation
  rw [buildAttackBoards_withoutScalars, doMoveCore_withoutScalars]

theorem withoutScalars_idem (b : ChessBoard) :
    b.withoutScalars.withoutScalars = b.withoutScalars := rfl

/-- Boards with the same structural part have successors with the same
structural part, whichever of the two variants of `doMove` is applied. -/
theorem doMoveImplementation_congr (pre pre' : Bool) (T : Tables) (b b' : ChessBoard)
    (mv : ChessMove) (h : b.withoutScalars = b'.withoutScalars) :
    (doMoveImplementation pre T b mv).withoutScalars
      = (doMoveImplementation pre' T b' mv).withoutScalars := by
  rw [doMoveImplementation_withoutScalars, doMoveImplementation_withoutScalars, h]

theorem doMoveEnPassant_keeps (T : Tables) (b : ChessBoard) (mv : ChessMove) :
    scalarsOf (doMoveEnPassant false T b mv) = scalarsOf b := by
  by_cases h : mv.dst = b.enPassant ∧ b.pieces mv.src = PAWN
  · cases hs : b.sideToMove <;>
      simp [doMoveEnPassant, scalarsOf, hs, h.1.symm, h.2, ChessBoard.setPiecesOf,
        ChessBoard.piecesOf]
  · rw [doMoveEnPassant_skip false T b mv h]

theorem doMoveMovePiece_keeps (T : Tables) (b : ChessBoard) (mv : ChessMove) (k : Nat) :
    scalarsOf (doMoveMovePiece false T b mv k) = scalarsOf b := by
  cases hs : b.sideToMove <;>
    simp [doMoveMovePiece, scalarsOf, hs, ChessBoard.setPiecesOf, ChessBoard.piecesOf]

theorem doMoveCastleRook_keeps (T : Tables) (b : ChessBoard) (c : Color)
    (r1 r2 p1 p2 : Nat) :
    scalarsOf (doMoveCastleRook false T b c r1 r2 p1 p2) = scalarsOf b := by
  cases c <;>
    simp [doMoveCastleRook, scalarsOf, ChessBoard.setPiecesOf, ChessBoard.piecesOf]

theorem doMoveSpecial_keeps (T : Tables) (b : ChessBoard) (mv : ChessMove) (k : Nat) :
    scalarsOf (doMoveSpecial false T b mv k) = scalarsOf b := by
  unfold doMoveSpecial
  by_cases hp : k = PAWN
  · simp only [if_pos hp, Bool.false_eq_true, if_false]
    split_ifs <;> rfl
  · simp only [if_neg hp]
    by_cases hr : k = ROOK
    · simp only [if_pos hr]
      split_ifs <;> rfl
    · simp only [if_neg hr]
      by_cases hk : k = KING
      · simp only [if_pos hk]
        split_ifs <;> rfl
      · simp only [if_neg hk]

theorem doMoveCapture_keeps (T : Tables) (b : ChessBoard) (mv : ChessMove) (c : Nat) :
    scalarsOf (doMoveCapture false T b mv c) = scalarsOf b := by
  unfold doMoveCapture
  by_cases hc : c ≠ NO_PIECE
  · simp only [if_pos hc]
    cases hs : b.sideToMove <;>
      simp only [scalarsOf, hs, ChessBoard.setPiecesOf, ChessBoard.piecesOf,
        Bool.false_eq_true, if_false, if_true, reduceCtorEq] <;>
      split_ifs <;> rfl
  · simp only [if_neg hc]

theorem doMovePromotion_keeps (T : Tables) (b : ChessBoard) (mv : ChessMove) (k : Nat) :
    scalarsOf (doMovePromotion false T b mv k) = scalarsOf b := by
  unfold doMovePromotion
  by_cases hc : k = PAWN ∧ mv.promotionPiece ≠ NO_PIECE
  · simp only [if_pos hc]
    cases hs : b.sideToMove <;>
      simp only [scalarsOf, hs, ChessBoard.setPiecesOf, ChessBoard.piecesOf,
        Bool.false_eq_true, if_false, if_true, reduceCtorEq]
  · simp only [if_neg hc]

theorem doMoveFinish_keeps (T : Tables) (b : ChessBoard) (e cr k c : Nat) :
    scalarsOf (doMoveFinish false T b e cr k c) = scalarsOf b := by
  unfold doMoveFinish
  simp only [scalarsOf, Bool.false_eq_true, if_false]
  split_ifs <;> rfl

theorem doMoveImplementation_keeps (T : Tables) (b : ChessBoard) (mv : ChessMove) :
    scalarsOf (doMoveImplementation false T b mv) = scalarsOf b := by
  have h0 : scalarsOf (doMoveImplementation false T b mv)
      = scalarsOf (doMoveCore false T b mv) := rfl
  rw [h0]
  unfold doMoveCore
  rw [doMoveFinish_keeps, doMovePromotion_keeps, doMoveCapture_keeps, doMoveSpecial_keeps,
    doMoveMovePiece_keeps, doMoveEnPassant_keeps]

/-- C23: for every board and move, `doMove<false>` and `doMove<true>` give
boards with the same mailbox, piece bitboards, `allPieces`, side to move,
castle rights, en-passant square, king squares, fifty-move counter and attack
cache (also the same full-move counter and null-move flag); and `doMove<false>`
leaves `hashValue`, `materialHashValue`, `pawnHashValue`, `materialEvaluation`
and `pstEvaluation` as they were. -/
theorem doMove_without_precalculation (T : Tables) (b : ChessBoard) (mv : ChessMove) :
    ((doMoveImplementation false T b mv).pieces = (doMoveImplementation true T b mv).pieces
      ∧ (doMoveImplementation false T b mv).whitePieces
          = (doMoveImplementation true T b mv).whitePieces
      ∧ (doMoveImplementation false T b mv).blackPieces
          = (doMoveImplementation true T b mv).blackPieces
      ∧ (doMoveImplementation false T b mv).allPieces
          = (doMoveImplementation true T b mv).allPieces
      ∧ (doMoveImplementation false T b mv).sideToMove
          = (doMoveImplementation true T b mv).sideToMove
      ∧ (doMoveImplementation false T b mv).castleRights
          = (doMoveImplementation true T b mv).castleRights
      ∧ (doMoveImplementation false T b mv).enPassant
          = (doMoveImplementation true T b mv).enPassant
      ∧ (doMoveImplementation false T b mv).whiteKingPosition
          = (doMoveImplementation true T b mv).whiteKingPosition
      ∧ (doMoveImplementation false T b mv).blackKingPosition
          = (doMoveImplementation true T b mv).blackKingPosition
      ∧ (doMoveImplementation false T b mv).fiftyMoveCount
          = (doMoveImplementation true T b mv).fiftyMoveCount)
    ∧ ((doMoveImplementation false T b mv).checkingPieces
          = (doMoveImplementation true T b mv).checkingPieces
      ∧ (doMoveImplementation false T b mv).pinnedPieces
          = (doMoveImplementation true T b mv).pinnedPieces
      ∧ (doMoveImplementation false T b mv).blockedPieces
          = (doMoveImplementation true T b mv).blockedPieces
      ∧ (doMoveImplementation false T b mv).inBetweenSquares
          = (doMoveImplementation true T b mv).inBetweenSquares)
    ∧ ((doMoveImplementation false T b mv).fullMoveCount
          = (doMoveImplementation true T b mv).fullMoveCount
      ∧ (doMoveImplementation false T b mv).nullMove
          = (doMoveImplementation true T b mv).nullMove)
    ∧ ((doMoveImplementation false T b mv).hashValue = b.hashValue
      ∧ (doMoveImplementation false T b mv).materialHashValue = b.materialHashValue
      ∧ (doMoveImplementation false T b mv).pawnHashValue = b.pawnHashValue
      ∧ (doMoveImplementation false T b mv).materialEvaluation = b.materialEvaluation
      ∧ (doMoveImplementation false T b mv).pstEvaluation = b.pstEvaluation) := by
  have h := doMoveImplementation_congr false true T b b mv rfl
  have k := doMoveImplementation_keeps T b mv
  unfold scalarsOf at k
  simp only [Prod.mk.injEq] at k
  have e0 := congrArg ChessBoard.pieces h
  have e1 := congrArg ChessBoard.whitePieces h
  have e2 := congrArg ChessBoard.blackPieces h
  have e3 := congrArg ChessBoard.allPieces h
  have e4 := congrArg ChessBoard.sideToMove h
  have e5 := congrArg ChessBoard.castleRights h
  have e6 := congrArg ChessBoard.enPassant h
  have e7 := congrArg ChessBoard.whiteKingPosition h
  have e8 := congrArg ChessBoard.blackKingPosition h
  have e9 := congrArg ChessBoard.fiftyMoveCount h
  have e10 := congrArg ChessBoard.checkingPieces h
  have e11 := congrArg ChessBoard.pinnedPieces h
  have e12 := congrArg ChessBoard.blockedPieces h
  have e13 := congrArg ChessBoard.inBetweenSquares h
  have e14 := congrArg ChessBoard.fullMoveCount h
  have e15 := congrArg ChessBoard.nullMove h
  exact ⟨⟨e0, e1, e2, e3, e4, e5, e6, e7, e8, e9⟩, ⟨e10, e11, e12, e13⟩, ⟨e14, e15⟩, k⟩


/-! ### Move generation reads the structural part of the board only -/

theorem isInCheck_withoutScalars (b : ChessBoard) (otherSide : Bool) :
    isInCheck b.withoutScalars otherSide = isInCheck b otherSide := rfl

theorem isInCheck_congr (b b' : ChessBoard) (otherSide : Bool)
    (h : b.withoutScalars = b'.withoutScalars) :
    isInCheck b otherSide = isInCheck b' otherSide := by
  rw [← isInCheck_withoutScalars b, ← isInCheck_withoutScalars b', h]

theorem doMoveRecord_withoutScalars (T : Tables) (b : ChessBoard) (mv : ChessMove) :
    doMoveRecord T b.withoutScalars mv = doMoveRecord T b mv := by
  unfold doMoveRecord
  have h := congrFun (congrArg ChessBoard.pieces
    (doMoveImplementation_congr true true T b.withoutScalars b mv rfl)) mv.dst
  have h1 := congrFun (congrArg ChessBoard.pieces
    (doMoveEnPassant_withoutScalars true T b mv)) mv.dst
  have h2 := congrFun (congrArg ChessBoard.pieces
    (doMoveEnPassant_withoutScalars true T b.withoutScalars mv)) mv.dst
  have h3 : (doMoveEnPassant true T b.withoutScalars mv).pieces mv.dst
      = (doMoveEnPassant true T b mv).pieces mv.dst := h2.trans h1.symm
  rw [h3]
  rfl

theorem doubleCheckGeneratedMoves_withoutScalars (T : Tables) (b : ChessBoard)
    (moveList : MoveList) :
    doubleCheckGeneratedMoves T b.withoutScalars moveList
      = doubleCheckGeneratedMoves T b moveList := by
  unfold doubleCheckGeneratedMoves
  congr 1
  funext move
  have h1 : isInCheck (doMove T b.withoutScalars move) true = isInCheck (doMove T b move) true :=
    isInCheck_congr _ _ _ (doMoveImplementation_congr true true T b.withoutScalars b move rfl)
  rw [h1, doMoveRecord_withoutScalars]
  rfl

theorem generateCheckEvasions_withoutScalars (b : ChessBoard) :
    generateCheckEvasions b.withoutScalars = generateCheckEvasions b := rfl

theorem generateAllMovesImplementation_withoutScalars (T : Tables) (b : ChessBoard)
    (moveList : MoveList) (countOnly : Bool) :
    generateAllMovesImplementation T b.withoutScalars moveList countOnly
      = generateAllMovesImplementation T b moveList countOnly := by
  unfold generateAllMovesImplementation
  simp only [doubleCheckGeneratedMoves_withoutScalars]
  rfl

theorem generateAllMovesImplementation_congr (T : Tables) (b b' : ChessBoard)
    (moveList : MoveList) (countOnly : Bool) (h : b.withoutScalars = b'.withoutScalars) :
    generateAllMovesImplementation T b moveList countOnly
      = generateAllMovesImplementation T b' moveList countOnly := by
  rw [← generateAllMovesImplementation_withoutScalars T b,
    ← generateAllMovesImplementation_withoutScalars T b', h]

theorem generateAllMovesImplementation_list (T : Tables) (b : ChessBoard)
    (moveList : MoveList) :
    (generateAllMovesImplementation T b moveList false).2 = generateAllMoves T b := by
  unfold generateAllMoves generateAllMovesImplementation
  by_cases h : isInCheck b = true
  · simp only [h, if_true]
  · simp only [h, if_false, Bool.false_eq_true, not_false_eq_true, if_true]


/-! ### Perft -/

theorem generateAllMovesImplementation_count (T : Tables) (b : ChessBoard)
    (moveList : MoveList) :
    (generateAllMovesImplementation T b moveList true).1 = (generateAllMoves T b).length := by
  unfold generateAllMoves generateAllMovesImplementation
  by_cases hc : isInCheck b = true
  · simp [hc]
  · by_cases hs : b.pinnedPieces ≠ EmptyBitboard ∨ b.enPassant ≠ NO_SQUARE
    · simp only [hc, hs]
      simp
    · have h1 : b.pinnedPieces = EmptyBitboard := by
        by_contra h; exact hs (Or.inl h)
      have h2 : b.enPassant = NO_SQUARE := by
        by_contra h; exact hs (Or.inr h)
      have hd : shouldDoubleCheckGeneratedMoves b = false := by
        simp [shouldDoubleCheckGeneratedMoves, h1, h2]
      simp only [hc, hs, hd]
      simp
      exact generate_loop_count b _ (0, moveList) (0, []) rfl

/-! ### Capture generation and en passant -/

/-- C21, refuted at `rnbqkbnr/ppp1pppp/8/8/3pP3/8/PPPP1PPP/RNBQKBNR b KQkq e3 0 3`:
the position satisfies invariants 1-7, Black is not in check, the en-passant
capture d4xe3 is in the list of `generateAllMoves` and leaves the black king
unattacked, and `generateAllCaptures` returns the empty list.  The en-passant
square is added to the pawn's destinations and then removed again by the
intersection with the squares the other side holds, which the empty en-passant
square is not among. -/
theorem generateAllCaptures_drops_enPassant :
    (Invariant1 (initFromFen zeroTables
        "rnbqkbnr/ppp1pppp/8/8/3pP3/8/PPPP1PPP/RNBQKBNR b KQkq e3 0 3")
      ∧ Invariant2 (initFromFen zeroTables
        "rnbqkbnr/ppp1pppp/8/8/3pP3/8/PPPP1PPP/RNBQKBNR b KQkq e3 0 3")
      ∧ Invariant3 (initFromFen zeroTables
        "rnbqkbnr/ppp1pppp/8/8/3pP3/8/PPPP1PPP/RNBQKBNR b KQkq e3 0 3")
      ∧ Invariant4 (initFromFen zeroTables
        "rnbqkbnr/ppp1pppp/8/8/3pP3/8/PPPP1PPP/RNBQKBNR b KQkq e3 0 3")
      ∧ Invariant6 (initFromFen zeroTables
        "rnbqkbnr/ppp1pppp/8/8/3pP3/8/PPPP1PPP/RNBQKBNR b KQkq e3 0 3")
      ∧ Invariant7 (initFromFen zeroTables
        "rnbqkbnr/ppp1pppp/8/8/3pP3/8/PPPP1PPP/RNBQKBNR b KQkq e3 0 3"))
    ∧ isInCheck (initFromFen zeroTables
        "rnbqkbnr/ppp1pppp/8/8/3pP3/8/PPPP1PPP/RNBQKBNR b KQkq e3 0 3") = false
    ∧ (initFromFen zeroTables
        "rnbqkbnr/ppp1pppp/8/8/3pP3/8/PPPP1PPP/RNBQKBNR b KQkq e3 0 3").enPassant = 44
    ∧ (35, 44, NO_PIECE) ∈ (generateAllMoves zeroTables (initFromFen zeroTables
        "rnbqkbnr/ppp1pppp/8/8/3pP3/8/PPPP1PPP/RNBQKBNR b KQkq e3 0 3")).map ChessMove.key
    ∧ isInCheck (doMove zeroTables (initFromFen zeroTables
        "rnbqkbnr/ppp1pppp/8/8/3pP3/8/PPPP1PPP/RNBQKBNR b KQkq e3 0 3") (plainMove 35 44)) true
        = false
    ∧ generateAllCaptures zeroTables (initFromFen zeroTables
        "rnbqkbnr/ppp1pppp/8/8/3pP3/8/PPPP1PPP/RNBQKBNR b KQkq e3 0 3") = [] := by
  decide!

/-! ### The attacker set of the static exchange evaluation -/

/-- C29, refuted at `3rk3/8/4p3/3r4/8/8/8/3QK3 w - - 0 1` for the capture
d1xd5: on entry to the loop the attacker set holds d8, e6 and d5; the first
round selects the pawn on e6 (square 20), and after it the set still holds e6
and has lost d8 (square 3), the lowest square of the set, which was not
selected. -/
theorem seeRound_removes_lowest_square :
    squaresOf (seeStart (materialTables 32000)
        (initFromFen zeroTables "3rk3/8/4p3/3r4/8/8/8/3QK3 w - - 0 1") D1 27).validAttackers
      = [3, 20, 27]
    ∧ seeSelected (initFromFen zeroTables "3rk3/8/4p3/3r4/8/8/8/3QK3 w - - 0 1")
        (seeStart (materialTables 32000)
          (initFromFen zeroTables "3rk3/8/4p3/3r4/8/8/8/3QK3 w - - 0 1") D1 27)
      = some (PAWN, 20)
    ∧ squaresOf (seeRound (materialTables 32000)
        (initFromFen zeroTables "3rk3/8/4p3/3r4/8/8/8/3QK3 w - - 0 1") 27
        (seeStart (materialTables 32000)
          (initFromFen zeroTables "3rk3/8/4p3/3r4/8/8/8/3QK3 w - - 0 1") D1 27)).1.validAttackers
      = [20, 27] := by
  decide!

/-! ### The transposition table in `search` -/

/-- C30, refuted for the result 5 in the window (0, 10): `search` chooses no
entry type and makes no call of `hashtable.insert`; and for an EXACT answer of
the table with enough depth it does not return at the probe. -/
theorem search_stores_no_exact_entry :
    storeEntryType 5 0 10 = HashtableEntryType.HASHENTRYTYPE_NONE
    ∧ searchStore true (initFromFen sampleTables startingFen) 5 0 10 3 4 = none
    ∧ searchProbe true false
        { entryType := HashtableEntryType.HASHENTRYTYPE_EXACT_VALUE, hashScore := 42,
          hashDepthLeft := 9 } 0 4 = none := by
  decide!

/-- C30 (amended): the entry type `search` chooses for a result `r` with window
`(alpha, beta)` is LOWER exactly when `r >= beta`, UPPER exactly when
`r < beta` and `r < alpha`, never EXACT, and no type otherwise;
`hashtable.insert` is called exactly when `r >= beta` or `r < alpha`, with the
hash of the board, `r` and the chosen type.  At the probe `search` returns a
score exactly in these cases: the node is not a PV node, the answer of the
table has at least the depth left, and it is a LOWER entry with a score
`>= alpha` or an UPPER entry with a score `<= alpha`; the score returned is the
stored one. -/
theorem search_hashtable_rules (board : ChessBoard) (r alpha beta : Int)
    (currentDepth depthLeft : Int) (pvNode : Bool) (answer : HashtableAnswer) (score : Int) :
    (storeEntryType r alpha beta = HashtableEntryType.HASHENTRYTYPE_LOWER_BOUND ↔ r ≥ beta)
    ∧ (storeEntryType r alpha beta = HashtableEntryType.HASHENTRYTYPE_UPPER_BOUND
        ↔ r < beta ∧ r < alpha)
    ∧ storeEntryType r alpha beta ≠ HashtableEntryType.HASHENTRYTYPE_EXACT_VALUE
    ∧ (searchStore true board r alpha beta currentDepth depthLeft
        = if r ≥ beta ∨ r < alpha then
            some { hashValue := board.hashValue, score := r, currentDepth := currentDepth,
                   depthLeft := depthLeft, entryType := storeEntryType r alpha beta,
                   custom := 0 }
          else none)
    ∧ (searchProbe true pvNode answer alpha depthLeft = some score ↔
        pvNode = false ∧ answer.hashDepthLeft ≥ depthLeft ∧ score = answer.hashScore
          ∧ ((answer.entryType = HashtableEntryType.HASHENTRYTYPE_LOWER_BOUND
                ∧ answer.hashScore ≥ alpha)
            ∨ (answer.entryType = HashtableEntryType.HASHENTRYTYPE_UPPER_BOUND
                ∧ answer.hashScore ≤ alpha))) := by
  refine ⟨?_, ?_, ?_, ?_, ?_⟩
  · unfold storeEntryType
    by_cases h1 : r ≥ beta
    · simp [h1]
    · by_cases h2 : r < alpha <;> simp [h1, h2]
  · unfold storeEntryType
    by_cases h1 : r ≥ beta
    · simp [h1]
    · by_cases h2 : r < alpha
      · simp [h1, h2]; omega
      · simp [h1, h2]
  · unfold storeEntryType
    by_cases h1 : r ≥ beta
    · simp [h1]
    · by_cases h2 : r < alpha <;> simp [h1, h2]
  · unfold searchStore storeEntryType
    by_cases h1 : r ≥ beta
    · simp [h1]
    · by_cases h2 : r < alpha <;> simp [h1, h2]
  · cases pvNode
    · by_cases hd : answer.hashDepthLeft ≥ depthLeft
      · have hc : checkHashtable false answer depthLeft = answer.entryType := by
          unfold checkHashtable
          by_cases hn : answer.entryType = HashtableEntryType.HASHENTRYTYPE_NONE
          · simp [hn]
          · simp [hn, hd]
        unfold searchProbe
        rw [if_pos rfl, hc]
        cases hty : answer.entryType
        · simp
        · simp
        · by_cases hs : answer.hashScore ≥ alpha
          · simp [hs, hd]; exact eq_comm
          · simp [hs]
        · by_cases hs : answer.hashScore ≤ alpha
          · simp [hs, hd]; exact eq_comm
          · simp [hs]
      · have hc : checkHashtable false answer depthLeft
            = HashtableEntryType.HASHENTRYTYPE_NONE := by
          unfold checkHashtable
          simp [hd]
        unfold searchProbe
        rw [if_pos rfl, hc]
        simp [hd]
    · unfold searchProbe checkHashtable
      simp

/-! ## Square colours (square.cpp) -/

theorem darkSquares_testBit (s : Nat) (hs : s < 64) :
    DarkSquares.testBit s = decide (s % 2 = 1) := by
  unfold DarkSquares
  interval_cases s <;> decide

theorem lightSquares_testBit (s : Nat) (hs : s < 64) :
    LightSquares.testBit s = decide (s % 2 = 0) := by
  unfold LightSquares
  interval_cases s <;> decide

/-- `IsDarkSquare` of square.cpp tests the parity of the file. -/
theorem Square.IsDarkSquare_eq (s : Nat) (hs : s < 64) :
    Square.IsDarkSquare s = decide (getFile s % 2 = 1) := by
  unfold Square.IsDarkSquare getFile
  have h := and_OneShiftedBy_ne_zero s DarkSquares
  rw [darkSquares_testBit s hs] at h
  simp only [EmptyBitboard]
  by_cases hp : s % 2 = 1
  · have h8 : s % 8 % 2 = 1 := by omega
    simp [h8, hp] at h ⊢; exact h
  · have h8 : ¬ s % 8 % 2 = 1 := by omega
    simp [h8, hp] at h ⊢; exact h

/-- C40: `IsDarkSquare` of square.cpp does not mark the dark squares of a
chessboard.  It answers `false` on A1, which is dark, and `true` on H1, which
is light; it gives A1 and A2, neighbours on the a-file, the same answer; and
`SquaresSameColorAs` keeps A2 next to A1 although the parities of
`file + rank` of the two squares differ. -/
theorem isDarkSquare_tests_file_parity :
    Square.IsDarkSquare A1 = false ∧ squareColor A1 = 1
      ∧ Square.IsDarkSquare H1 = true ∧ squareColor H1 = 0
      ∧ Square.IsDarkSquare A1 = Square.IsDarkSquare 48
      ∧ squareColor 48 ≠ squareColor A1
      ∧ SquaresSameColorAs (OneShiftedBy A1 ||| OneShiftedBy 48) A1
          = OneShiftedBy A1 ||| OneShiftedBy 48 := by
  decide

/-! ## The weak-king endgame function (function.h) -/

theorem kingDistance_sq (board : ChessBoard) :
    ((getFile board.whiteKingPosition : Int) - (getFile board.blackKingPosition : Int))
        * ((getFile board.whiteKingPosition : Int) - (getFile board.blackKingPosition : Int))
      + ((getRank board.whiteKingPosition : Int) - (getRank board.blackKingPosition : Int))
        * ((getRank board.whiteKingPosition : Int) - (getRank board.blackKingPosition : Int))
      = ((FileDistance board.whiteKingPosition board.blackKingPosition
          * FileDistance board.whiteKingPosition board.blackKingPosition
        + RankDistance board.whiteKingPosition board.blackKingPosition
          * RankDistance board.whiteKingPosition board.blackKingPosition : Nat) : Int) := by
  unfold FileDistance RankDistance
  push_cast
  rw [abs_mul_abs_self, abs_mul_abs_self]

theorem kingDistance_eq (board : ChessBoard) :
    kingDistance board
      = Nat.sqrt (FileDistance board.whiteKingPosition board.blackKingPosition
          * FileDistance board.whiteKingPosition board.blackKingPosition
        + RankDistance board.whiteKingPosition board.blackKingPosition
          * RankDistance board.whiteKingPosition board.blackKingPosition) := by
  unfold kingDistance
  simp only []
  rw [kingDistance_sq, Int.toNat_ofNat]

theorem fileDistance_le (s1 s2 : Nat) : FileDistance s1 s2 ≤ 7 := by
  unfold FileDistance getFile; omega

theorem rankDistance_le (s1 s2 : Nat) (h1 : s1 < 64) (h2 : s2 < 64) : RankDistance s1 s2 ≤ 7 := by
  unfold RankDistance getRank; omega

theorem cornerKingsBoard_facts :
    cornerKingsBoard.whiteKingPosition = A1 ∧ cornerKingsBoard.blackKingPosition = H8
      ∧ cornerKingsBoard.sideToMove = Color.WHITE
      ∧ cornerKingsBoard.materialEvaluation.eg = 736
      ∧ cornerKingsBoard.pstEvaluation.eg = 0 := by
  decide!

/-- With the kings on a1 and h8 the proximity term is `Proximity[9]`, whatever
the base score. -/
theorem weakKingEndgameFunction_corner (baseScore : Int) :
    chebyshevKingDistance cornerKingsBoard = 7
      ∧ kingDistance cornerKingsBoard = 9
      ∧ weakKingEndgameFunction baseScore cornerKingsBoard
          = baseScore + GeneralMate H8 + Proximity 9 + 0
      ∧ weakKingEndgameSpec baseScore cornerKingsBoard
          = baseScore + GeneralMate H8 + Proximity 7 + 0
      ∧ weakKingEndgameFunction baseScore cornerKingsBoard
          ≠ weakKingEndgameSpec baseScore cornerKingsBoard := by
  obtain ⟨hw, hb, hs, hm, hp⟩ := cornerKingsBoard_facts
  have hstrong : FindStrongSide cornerKingsBoard = Color.WHITE := by
    unfold FindStrongSide; simp [hm]
  have hc : chebyshevKingDistance cornerKingsBoard = 7 := by
    unfold chebyshevKingDistance FileDistance RankDistance; rw [hw, hb]; decide
  have hk : kingDistance cornerKingsBoard = 9 := by
    rw [kingDistance_eq]; unfold FileDistance RankDistance; rw [hw, hb]
    symm; rw [Nat.eq_sqrt]; decide
  have h1 : weakKingEndgameFunction baseScore cornerKingsBoard
      = baseScore + GeneralMate H8 + Proximity 9 + 0 := by
    unfold weakKingEndgameFunction; simp only [hstrong, hs, hk, hb, hp]; simp
  have h2 : weakKingEndgameSpec baseScore cornerKingsBoard
      = baseScore + GeneralMate H8 + Proximity 7 + 0 := by
    unfold weakKingEndgameSpec; simp only [hstrong, hs, hc, hb, hp]; simp
  refine ⟨hc, hk, h1, h2, ?_⟩
  rw [h1, h2]
  have e9 : Proximity 9 = 20 := by decide
  have e7 : Proximity 7 = 40 := by decide
  rw [e9, e7]; omega

/-- C31 (counterexample): with the kings on a1 and h8 (king and rook against
king, White to move, base score 0) the proximity term of
`weakKingEndgameFunction` is `Proximity[9]`, not the `Proximity[7]` of the
Chebyshev distance, so the score differs from the one of the specification's
formula. -/
theorem weakKingEndgameFunction_a1_h8 :
    chebyshevKingDistance cornerKingsBoard = 7
      ∧ kingDistance cornerKingsBoard = 9
      ∧ weakKingEndgameFunction 0 cornerKingsBoard = 0 + GeneralMate H8 + Proximity 9 + 0
      ∧ weakKingEndgameSpec 0 cornerKingsBoard = 0 + GeneralMate H8 + Proximity 7 + 0
      ∧ weakKingEndgameFunction 0 cornerKingsBoard ≠ weakKingEndgameSpec 0 cornerKingsBoard :=
  weakKingEndgameFunction_corner 0

/-- C31 (amended): seen from the strong side, `weakKingEndgameFunction` scores
`base + GeneralMate[weakKingSquare] + Proximity[d] + endgame PST`, where `d` is
the Euclidean distance of the two kings rounded down, the integer with
`d * d <= file * file + rank * rank < (d + 1) * (d + 1)` for the file and rank
distances of the kings; `d` is at least the Chebyshev distance and at most 9. -/
theorem weakKingEndgameFunction_euclidean (baseScore : Int) (board : ChessBoard)
    (hw : board.whiteKingPosition < 64) (hb : board.blackKingPosition < 64) :
    kingDistance board * kingDistance board
        ≤ FileDistance board.whiteKingPosition board.blackKingPosition
            * FileDistance board.whiteKingPosition board.blackKingPosition
          + RankDistance board.whiteKingPosition board.blackKingPosition
            * RankDistance board.whiteKingPosition board.blackKingPosition
      ∧ FileDistance board.whiteKingPosition board.blackKingPosition
            * FileDistance board.whiteKingPosition board.blackKingPosition
          + RankDistance board.whiteKingPosition board.blackKingPosition
            * RankDistance board.whiteKingPosition board.blackKingPosition
        < (kingDistance board + 1) * (kingDistance board + 1)
      ∧ chebyshevKingDistance board ≤ kingDistance board
      ∧ kingDistance board ≤ 9
      ∧ (if board.sideToMove = FindStrongSide board then 1 else -1)
          * weakKingEndgameFunction baseScore board
        = baseScore + GeneralMate (board.kingPosition (FindStrongSide board).flip)
            + Proximity (kingDistance board)
            + (if FindStrongSide board = Color.WHITE then board.pstEvaluation.eg
                else -board.pstEvaluation.eg) := by
  have hf := fileDistance_le board.whiteKingPosition board.blackKingPosition
  have hr := rankDistance_le board.whiteKingPosition board.blackKingPosition hw hb
  refine ⟨?_, ?_, ?_, ?_, ?_⟩
  · rw [kingDistance_eq]; exact Nat.sqrt_le _
  · rw [kingDistance_eq]; exact Nat.lt_succ_sqrt _
  · rw [kingDistance_eq]; unfold chebyshevKingDistance
    generalize FileDistance board.whiteKingPosition board.blackKingPosition = f
    generalize RankDistance board.whiteKingPosition board.blackKingPosition = r
    rw [Nat.le_sqrt]
    rcases le_total f r with h | h
    · rw [max_eq_right h]; exact Nat.le_add_left _ _
    · rw [max_eq_left h]; exact Nat.le_add_right _ _
  · rw [kingDistance_eq]
    generalize FileDistance board.whiteKingPosition board.blackKingPosition = f at hf
    generalize RankDistance board.whiteKingPosition board.blackKingPosition = r at hr
    have : Nat.sqrt (f * f + r * r) < 10 := by
      rw [Nat.sqrt_lt]; nlinarith
    omega
  · unfold weakKingEndgameFunction
    simp only []
    cases hs : FindStrongSide board <;> cases hm : board.sideToMove <;>
      simp [ChessBoard.kingPosition, Color.flip]

theorem weakKingEndgameFunction_euclidean_witness :
    (cornerKingsBoard.whiteKingPosition < 64 ∧ cornerKingsBoard.blackKingPosition < 64)
      ∧ (kingDistance cornerKingsBoard * kingDistance cornerKingsBoard
          ≤ FileDistance cornerKingsBoard.whiteKingPosition cornerKingsBoard.blackKingPosition
              * FileDistance cornerKingsBoard.whiteKingPosition cornerKingsBoard.blackKingPosition
            + RankDistance cornerKingsBoard.whiteKingPosition cornerKingsBoard.blackKingPosition
              * RankDistance cornerKingsBoard.whiteKingPosition cornerKingsBoard.blackKingPosition
        ∧ FileDistance cornerKingsBoard.whiteKingPosition cornerKingsBoard.blackKingPosition
              * FileDistance cornerKingsBoard.whiteKingPosition cornerKingsBoard.blackKingPosition
            + RankDistance cornerKingsBoard.whiteKingPosition cornerKingsBoard.blackKingPosition
              * RankDistance cornerKingsBoard.whiteKingPosition cornerKingsBoard.blackKingPosition
          < (kingDistance cornerKingsBoard + 1) * (kingDistance cornerKingsBoard + 1)
        ∧ chebyshevKingDistance cornerKingsBoard ≤ kingDistance cornerKingsBoard
        ∧ kingDistance cornerKingsBoard ≤ 9
        ∧ (if cornerKingsBoard.sideToMove = FindStrongSide cornerKingsBoard then 1 else -1)
            * weakKingEndgameFunction 0 cornerKingsBoard
          = 0 + GeneralMate (cornerKingsBoard.kingPosition (FindStrongSide cornerKingsBoard).flip)
              + Proximity (kingDistance cornerKingsBoard)
              + (if FindStrongSide cornerKingsBoard = Color.WHITE
                  then cornerKingsBoard.pstEvaluation.eg
                  else -cornerKingsBoard.pstEvaluation.eg)) :=
  ⟨⟨by decide!, by decide!⟩,
    weakKingEndgameFunction_euclidean 0 cornerKingsBoard (by decide!) (by decide!)⟩

/-! ## The bishop term of the evaluator (evaluator.cpp 343-360) -/

/-- C39: with eight black pawns on the files a, c, e and g (two on each) and a
white bishop on c1, `evaluateBishop` counts all eight pawns as pawns of the
bishop's colour and none as pawns of the other colour, and reads
`GoodBishopPawns[8]`, one element behind the end of the array of size 8. -/
theorem evaluateBishop_reads_index_8 (GoodBishopPawns : Nat → Evaluation) :
    popCount (eightPawnsBoard.blackPieces PAWN) = 8
      ∧ popCount (eightPawnsBoard.whitePieces PAWN) = 0
      ∧ eightPawnsBoard.pieces C1 = BISHOP
      ∧ popCount (SquaresSameColorAs (eightPawnsBoard.blackPieces PAWN) C1) = 8
      ∧ popCount (SquaresOppositeColorAs (eightPawnsBoard.blackPieces PAWN) C1) = 0
      ∧ evaluateBishop GoodBishopPawns eightPawnsBoard.blackPieces C1 false = none := by
  have h1 : popCount (SquaresSameColorAs (eightPawnsBoard.blackPieces PAWN) C1) = 8 := by decide!
  have h2 : popCount (SquaresOppositeColorAs (eightPawnsBoard.blackPieces PAWN) C1) = 0 := by
    decide!
  refine ⟨by decide!, by decide!, by decide!, h1, h2, ?_⟩
  unfold evaluateBishop
  simp only [h1, h2]
  simp [GoodBishopPawnsAt]

/-! ## Move ordering on the list (movegen.cpp 624-724) -/

theorem stableInsert_perm (m : ChessMove) (l : MoveList) : (stableInsert m l).Perm (m :: l) := by
  induction l with
  | nil => exact List.Perm.refl _
  | cons x rest ih =>
    unfold stableInsert
    split_ifs
    · exact (List.Perm.cons x ih).trans (List.Perm.swap m x rest)
    · exact List.Perm.refl _

theorem stableSortGreater_perm (l : MoveList) : (stableSortGreater l).Perm l := by
  induction l with
  | nil => exact List.Perm.refl _
  | cons m rest ih =>
    show (stableInsert m (stableSortGreater rest)).Perm (m :: rest)
    exact (stableInsert_perm m _).trans (List.Perm.cons m ih)

theorem stableInsert_sorted (m : ChessMove) (l : MoveList)
    (h : l.Pairwise (fun m1 m2 => m1.ordinal ≥ m2.ordinal)) :
    (stableInsert m l).Pairwise (fun m1 m2 => m1.ordinal ≥ m2.ordinal) := by
  induction l with
  | nil => exact List.pairwise_singleton _ _
  | cons x rest ih =>
    rw [List.pairwise_cons] at h
    unfold stableInsert
    split_ifs with hx
    · rw [List.pairwise_cons]
      refine ⟨?_, ih h.2⟩
      intro y hy
      have hy' := (List.Perm.mem_iff (stableInsert_perm m rest)).1 hy
      simp only [List.mem_cons] at hy'
      rcases hy' with rfl | hy'
      · have := of_decide_eq_true hx; omega
      · exact h.1 y hy'
    · rw [List.pairwise_cons]
      refine ⟨?_, List.pairwise_cons.2 h⟩
      have hx' : ¬ x.ordinal > m.ordinal := by
        intro hc; exact hx (decide_eq_true hc)
      intro y hy
      simp only [List.mem_cons] at hy
      rcases hy with rfl | hy
      · omega
      · have := h.1 y hy; omega

theorem stableSortGreater_sorted (l : MoveList) :
    (stableSortGreater l).Pairwise (fun m1 m2 => m1.ordinal ≥ m2.ordinal) := by
  induction l with
  | nil => exact List.Pairwise.nil
  | cons m rest ih => exact stableInsert_sorted m _ ih

/-- C38: `reorderMoves` changes only the ordinal field: the list keeps its
length and every move keeps its place with `src`, `dst`, `promotionPiece`,
`capturedPiece` and `movedPiece`; `reorderQuiescenceMoves` returns the moves of
its input in another order (their `(src, dst, promotion)` keys are a
permutation of those of the input; as a list of moves the result is a
permutation of the input with the new ordinals), and the ordinals of the
result do not increase along the list. -/
theorem reorderMoves_frame_and_quiescence_sorted (T : Tables) (board : ChessBoard)
    (pvNode : Bool) (searchStack : SearchStack) (butterflyTable : Nat → Nat → Nat)
    (moveList : MoveList) :
    (reorderMoves T board pvNode searchStack butterflyTable moveList).length = moveList.length
      ∧ (∀ i : Nat, ∀ m ∈ moveList[i]?,
          (reorderMoves T board pvNode searchStack butterflyTable moveList)[i]?
            = some { m with
                ordinal := reorderMovesOrdinal T board pvNode searchStack butterflyTable m })
      ∧ (reorderMoves T board pvNode searchStack butterflyTable moveList).map ChessMove.key
          = moveList.map ChessMove.key
      ∧ (reorderQuiescenceMoves T board moveList).Perm
          (moveList.map (fun move =>
            { move with ordinal := reorderQuiescenceOrdinal T board move }))
      ∧ ((reorderQuiescenceMoves T board moveList).map ChessMove.key).Perm
          (moveList.map ChessMove.key)
      ∧ (reorderQuiescenceMoves T board moveList).Pairwise
          (fun m1 m2 => m1.ordinal ≥ m2.ordinal) := by
  refine ⟨?_, ?_, ?_, ?_, ?_, ?_⟩
  · unfold reorderMoves; exact List.length_map _ _
  · intro i m hm
    unfold reorderMoves
    rw [List.getElem?_map]
    have : moveList[i]? = some m := hm
    rw [this]; rfl
  · unfold reorderMoves
    rw [List.map_map]
    apply List.map_congr_left
    intro m _; rfl
  · exact stableSortGreater_perm _
  · have h := (stableSortGreater_perm (moveList.map (fun move =>
      { move with ordinal := reorderQuiescenceOrdinal T board move }))).map ChessMove.key
    have e : (moveList.map (fun move =>
        { move with ordinal := reorderQuiescenceOrdinal T board move })).map ChessMove.key
        = moveList.map ChessMove.key := by
      rw [List.map_map]; apply List.map_congr_left; intro m _; rfl
    rw [e] at h; exact h
  · exact stableSortGreater_sorted _

/-! ## Static exchange evaluation: the accesses to `gain` -/

theorem seeRound_depth (T : Tables) (board : ChessBoard) (dst : Nat) (s : SeeState) :
    s.depth ≤ (seeRound T board dst s).1.depth := by
  unfold seeRound
  simp only []
  split
  · exact Nat.le_refl _
  · split_ifs <;> simp

theorem seeLoop_depth (T : Tables) (board : ChessBoard) (dst : Nat) (fuel : Nat) :
    ∀ s : SeeState, s.depth ≤ (seeLoop T board dst fuel s).depth := by
  induction fuel with
  | zero => intro s; exact Nat.le_refl _
  | succ n ih =>
    intro s
    unfold seeLoop
    split_ifs
    · exact (seeRound_depth T board dst s).trans (ih _)
    · exact seeRound_depth T board dst s

theorem seeUnwindGainIndices_neg_one (depth : Nat) (h : 1 ≤ depth) :
    (-1 : Int) ∈ seeUnwindGainIndices depth := by
  induction depth with
  | zero => omega
  | succ n ih =>
    unfold seeUnwindGainIndices
    rcases Nat.eq_zero_or_pos n with rfl | hn
    · simp
    · exact List.mem_append_right _ (ih hn)

/-- C34: whenever `staticExchangeEvaluation` gets to its loop it uses the index
`-1` of `gain`: the last round of the fold-back loop `while (depth--)` runs with
`depth = 0` and reads and writes `gain[depth - 1]`.  For the capture d1xd5 in
`4k3/8/8/3p4/8/8/8/3QK3 w - - 0 1`, a board with four pieces, the indices used
are `0, 1, 0, 0, 1, 0, 1, 0, -1, 0, -1, 0`. -/
theorem seeGainIndices_minus_one (T : Tables) (board : ChessBoard) (src dst : Nat) :
    (seeGainIndices T board src dst = [] ∨ (-1 : Int) ∈ seeGainIndices T board src dst)
      ∧ popCount (initFromFen zeroTables "4k3/8/8/3p4/8/8/8/3QK3 w - - 0 1").allPieces = 4
      ∧ seeGainIndices (materialTables 32000)
          (initFromFen zeroTables "4k3/8/8/3p4/8/8/8/3QK3 w - - 0 1") D1 27
        = [0, 1, 0, 0, 1, 0, 1, 0, -1, 0, -1, 0]
      ∧ ¬ (∀ i ∈ seeGainIndices (materialTables 32000)
            (initFromFen zeroTables "4k3/8/8/3p4/8/8/8/3QK3 w - - 0 1") D1 27,
            0 ≤ i ∧ i ≤ 31) := by
  have hc : seeGainIndices (materialTables 32000)
      (initFromFen zeroTables "4k3/8/8/3p4/8/8/8/3QK3 w - - 0 1") D1 27
      = [0, 1, 0, 0, 1, 0, 1, 0, -1, 0, -1, 0] := by decide!
  refine ⟨?_, by decide!, hc, ?_⟩
  · unfold seeGainIndices
    simp only []
    split_ifs
    · exact Or.inl rfl
    · exact Or.inl rfl
    · exact Or.inl rfl
    · right
      apply List.mem_append_left
      apply List.mem_append_right
      apply seeUnwindGainIndices_neg_one
      have h := seeLoop_depth T board dst ((seeStart T board src dst).validAttackers + 1)
        (seeStart T board src dst)
      have h1 : (seeStart T board src dst).depth = 1 := rfl
      omega
  · rw [hc]; decide

/-! ## Static exchange evaluation: the number of passes of the loop -/

theorem resetLowestSetBit_bits (v : Nat) (hv : v ≠ 0) :
    ∃ k, v.testBit k = true
      ∧ ∀ i, (ResetLowestSetBit v).testBit i = (v.testBit i && decide (i ≠ k)) := by
  induction v using Nat.binaryRec with
  | z => exact absurd rfl hv
  | f b n ih =>
    cases b with
    | true =>
      refine ⟨0, Nat.testBit_bit_zero true n, ?_⟩
      intro i
      unfold ResetLowestSetBit
      have e : Nat.bit true n - 1 = Nat.bit false n := by simp [Nat.bit]
      rw [e, Nat.testBit_and]
      cases i with
      | zero => rw [Nat.testBit_bit_zero, Nat.testBit_bit_zero]; rfl
      | succ i => rw [Nat.testBit_bit_succ, Nat.testBit_bit_succ]; simp
    | false =>
      have hn : n ≠ 0 := by
        rintro rfl; exact hv (by simp [Nat.bit])
      obtain ⟨k, hk, hbits⟩ := ih hn
      refine ⟨k + 1, by rw [Nat.testBit_bit_succ]; exact hk, ?_⟩
      intro i
      unfold ResetLowestSetBit at hbits ⊢
      have e : Nat.bit false n - 1 = Nat.bit true (n - 1) := by
        simp only [Nat.bit, cond_false, cond_true]; omega
      rw [e, Nat.testBit_and]
      cases i with
      | zero => rw [Nat.testBit_bit_zero, Nat.testBit_bit_zero]; rfl
      | succ i =>
        rw [Nat.testBit_bit_succ, Nat.testBit_bit_succ]
        have := hbits i
        rw [Nat.testBit_and] at this
        rw [this]; simp

theorem seeLoop_succ (T : Tables) (board : ChessBoard) (dst : Nat) (fuel : Nat) (s : SeeState) :
    seeLoop T board dst (fuel + 1) s
      = if (seeRound T board dst s).2 then seeLoop T board dst fuel (seeRound T board dst s).1
        else (seeRound T board dst s).1 := rfl

theorem seePasses_succ (T : Tables) (board : ChessBoard) (dst : Nat) (fuel : Nat)
    (s : SeeState) :
    seePasses T board dst (fuel + 1) s
      = if (seeRound T board dst s).2 then
          1 + seePasses T board dst fuel (seeRound T board dst s).1
        else 1 := rfl

theorem resetLowestSetBit_le (v : Nat) : ResetLowestSetBit v ≤ v := Nat.and_le_left

theorem popCount_resetLowestSetBit (v : Nat) (hv : v ≠ 0) (h64 : v < 2 ^ 64) :
    popCount (ResetLowestSetBit v) + 1 = popCount v := by
  obtain ⟨k, hk, hbits⟩ := resetLowestSetBit_bits v hv
  have hk64 : k < 64 := testBit_lt_of_lt v k h64 hk
  symm
  apply popCount_insert (ResetLowestSetBit v) v k hk64
  · rw [hbits]; simp
  · intro i _
    rw [hbits]
    by_cases hik : i = k
    · subst hik; simp [hk]
    · simp [hik]

/-- A pass of the loop after which the loop goes on has cleared exactly one
bit of `validAttackers`. -/
theorem seeRound_clears_one (T : Tables) (board : ChessBoard) (dst : Nat) (s : SeeState)
    (h64 : s.validAttackers < 2 ^ 64) (hgo : (seeRound T board dst s).2 = true) :
    (seeRound T board dst s).1.validAttackers = ResetLowestSetBit s.validAttackers
      ∧ (seeRound T board dst s).1.validAttackers ≠ 0
      ∧ (seeRound T board dst s).1.validAttackers < 2 ^ 64
      ∧ popCount (seeRound T board dst s).1.validAttackers + 1 = popCount s.validAttackers := by
  obtain ⟨e1, e2⟩ := seeRound_go T board dst s hgo
  have hv : s.validAttackers ≠ 0 := by
    intro h0; rw [h0] at e2; exact e2 rfl
  rw [e1]
  exact ⟨rfl, e2, lt_of_le_of_lt (resetLowestSetBit_le _) h64,
    popCount_resetLowestSetBit _ hv h64⟩

theorem seeLoop_fuel_popCount (T : Tables) (board : ChessBoard) (dst : Nat) (n : Nat) :
    ∀ (s : SeeState) (m : Nat), s.validAttackers < 2 ^ 64 →
      popCount s.validAttackers ≤ n + 1 → popCount s.validAttackers ≤ m + 1 →
      seeLoop T board dst (n + 1) s = seeLoop T board dst (m + 1) s
        ∧ seePasses T board dst (n + 1) s = seePasses T board dst (m + 1) s
        ∧ seePasses T board dst (n + 1) s ≤ max 1 (popCount s.validAttackers) := by
  induction n with
  | zero =>
    intro s m h64 hn hm
    have hstop : (seeRound T board dst s).2 = false := by
      by_contra hgo
      have hgo' : (seeRound T board dst s).2 = true := by simpa using hgo
      obtain ⟨-, h0, h64', hp⟩ := seeRound_clears_one T board dst s h64 hgo'
      have := (popCount_pos_iff _ h64').2 h0
      omega
    rw [seeLoop_succ T board dst 0 s, seeLoop_succ T board dst m s,
      seePasses_succ T board dst 0 s, seePasses_succ T board dst m s]
    simp [hstop]
  | succ n ih =>
    intro s m h64 hn hm
    by_cases hgo : (seeRound T board dst s).2 = true
    · obtain ⟨-, h0, h64', hp⟩ := seeRound_clears_one T board dst s h64 hgo
      have hpos := (popCount_pos_iff _ h64').2 h0
      cases m with
      | zero => omega
      | succ m =>
        obtain ⟨i1, i2, i3⟩ := ih (seeRound T board dst s).1 m h64' (by omega) (by omega)
        rw [seeLoop_succ T board dst (n + 1) s, seeLoop_succ T board dst (m + 1) s,
          seePasses_succ T board dst (n + 1) s, seePasses_succ T board dst (m + 1) s,
          if_pos hgo, if_pos hgo, if_pos hgo, if_pos hgo]
        refine ⟨i1, by rw [i2], ?_⟩
        have : max 1 (popCount (seeRound T board dst s).1.validAttackers)
            = popCount (seeRound T board dst s).1.validAttackers := max_eq_right hpos
        rw [this] at i3
        have : max 1 (popCount s.validAttackers) = popCount s.validAttackers :=
          max_eq_right (by omega)
        rw [this]; omega
    · rw [seeLoop_succ T board dst (n + 1) s, seeLoop_succ T board dst m s,
        seePasses_succ T board dst (n + 1) s, seePasses_succ T board dst m s,
        if_neg hgo, if_neg hgo, if_neg hgo, if_neg hgo]
      simp

theorem pawnCaptures_lt : ∀ s < 64, WhitePawnCaptures s < 2 ^ 64 ∧ BlackPawnCaptures s < 2 ^ 64 := by
  decide!

theorem and_lt_left64 (x y : Nat) (hx : x < 2 ^ 64) : x &&& y < 2 ^ 64 :=
  lt_of_le_of_lt Nat.and_le_left hx

theorem seeValidAttackers_lt (board : ChessBoard) (dst : Nat) (hd : dst < 64) :
    seeValidAttackers board dst < 2 ^ 64 := by
  unfold seeValidAttackers
  simp only [List.foldl]
  have hp := pawnCaptures_lt dst hd
  have hm : ∀ k ≤ 7, ∀ y, PieceMoves k dst &&& y < 2 ^ 64 :=
    fun k hk y => and_lt_left64 _ _ (PieceMoves_lt k hk dst hd)
  exact Nat.or_lt_two_pow (Nat.or_lt_two_pow (Nat.or_lt_two_pow (Nat.or_lt_two_pow
    (Nat.or_lt_two_pow (Nat.or_lt_two_pow (and_lt_left64 _ _ hp.1) (and_lt_left64 _ _ hp.2))
      (hm _ (by decide) _)) (hm _ (by decide) _)) (hm _ (by decide) _)) (hm _ (by decide) _))
    (hm _ (by decide) _)

theorem seeStart_validAttackers_lt (T : Tables) (board : ChessBoard) (src dst : Nat)
    (hs : src < 64) (hd : dst < 64) : (seeStart T board src dst).validAttackers < 2 ^ 64 := by
  show seeValidAttackers board dst ^^^ (OneShiftedBy src ^^^ OneShiftedBy dst) < 2 ^ 64
  exact Nat.xor_lt_two_pow (seeValidAttackers_lt board dst hd)
    (Nat.xor_lt_two_pow (OneShiftedBy_lt src hs) (OneShiftedBy_lt dst hd))

theorem popCount_le_64 (x : Nat) : popCount x ≤ 64 := by
  unfold popCount squaresOf
  exact (List.length_filter_le _ _).trans (by simp)

/-- C35: the loop of `staticExchangeEvaluation` ends for every board and every
pair of squares.  A pass after which the loop goes on has replaced the 64-bit
attacker set by `ResetLowestSetBit` of it, which has exactly one bit less; so
from the state on entry the loop makes at most 64 passes (at most as many as
the attacker set has bits): every bound of 64 or more passes gives the same
number of passes and the same final state, which is also the one the
definition of `staticExchangeEvaluation` uses. -/
theorem staticExchangeEvaluation_loop_bound (T : Tables) (board : ChessBoard) (src dst : Nat)
    (hs : src < 64) (hd : dst < 64) :
    (seeStart T board src dst).validAttackers < 2 ^ 64
      ∧ (∀ s : SeeState, s.validAttackers < 2 ^ 64 → (seeRound T board dst s).2 = true →
          (seeRound T board dst s).1.validAttackers = ResetLowestSetBit s.validAttackers
            ∧ popCount (seeRound T board dst s).1.validAttackers + 1
                = popCount s.validAttackers)
      ∧ (∀ fuel, 64 ≤ fuel →
          seeLoop T board dst fuel (seeStart T board src dst)
              = seeLoop T board dst 64 (seeStart T board src dst)
            ∧ seePasses T board dst fuel (seeStart T board src dst)
              = seePasses T board dst 64 (seeStart T board src dst))
      ∧ seePasses T board dst 64 (seeStart T board src dst)
          ≤ max 1 (popCount (seeStart T board src dst).validAttackers)
      ∧ seePasses T board dst 64 (seeStart T board src dst) ≤ 64
      ∧ seeLoop T board dst ((seeStart T board src dst).validAttackers + 1)
            (seeStart T board src dst)
          = seeLoop T board dst 64 (seeStart T board src dst) := by
  have h64 := seeStart_validAttackers_lt T board src dst hs hd
  have hp := popCount_le_64 (seeStart T board src dst).validAttackers
  have hb := (seeLoop_fuel_popCount T board dst 63 (seeStart T board src dst) 63 h64
    (by omega) (by omega)).2.2
  refine ⟨h64, ?_, ?_, hb, ?_, ?_⟩
  · intro s hs64 hgo
    obtain ⟨e1, -, -, e4⟩ := seeRound_clears_one T board dst s hs64 hgo
    exact ⟨e1, e4⟩
  · intro fuel hfuel
    obtain ⟨k, rfl⟩ : ∃ k, fuel = k + 1 := ⟨fuel - 1, by omega⟩
    obtain ⟨i1, i2, -⟩ := seeLoop_fuel_popCount T board dst k (seeStart T board src dst) 63 h64
      (by omega) (by omega)
    exact ⟨i1, i2⟩
  · have : max 1 (popCount (seeStart T board src dst).validAttackers) ≤ 64 := by
      rcases le_total 1 (popCount (seeStart T board src dst).validAttackers) with h | h
      · rw [max_eq_right h]; exact hp
      · rw [max_eq_left h]; norm_num
    exact hb.trans this
  · rw [seeLoop_fuel T board dst ((seeStart T board src dst).validAttackers + 1)
      (seeStart T board src dst) ((seeStart T board src dst).validAttackers + 64 + 1)
      (by omega) (by omega)]
    exact (seeLoop_fuel_popCount T board dst ((seeStart T board src dst).validAttackers + 64)
      (seeStart T board src dst) 63 h64 (by omega) (by omega)).1

theorem staticExchangeEvaluation_loop_bound_witness :
    (D1 < 64 ∧ 27 < 64)
      ∧ ((seeStart (materialTables 32000)
            (initFromFen zeroTables "3rk3/8/4p3/3r4/8/8/8/3QK3 w - - 0 1") D1 27).validAttackers
          < 2 ^ 64
        ∧ (∀ s : SeeState, s.validAttackers < 2 ^ 64 →
            (seeRound (materialTables 32000)
              (initFromFen zeroTables "3rk3/8/4p3/3r4/8/8/8/3QK3 w - - 0 1") 27 s).2 = true →
            (seeRound (materialTables 32000)
              (initFromFen zeroTables "3rk3/8/4p3/3r4/8/8/8/3QK3 w - - 0 1") 27 s).1.validAttackers
              = ResetLowestSetBit s.validAttackers
              ∧ popCount (seeRound (materialTables 32000)
                  (initFromFen zeroTables "3rk3/8/4p3/3r4/8/8/8/3QK3 w - - 0 1") 27
                  s).1.validAttackers + 1
                  = popCount s.validAttackers)
        ∧ (∀ fuel, 64 ≤ fuel →
            seeLoop (materialTables 32000)
                (initFromFen zeroTables "3rk3/8/4p3/3r4/8/8/8/3QK3 w - - 0 1") 27 fuel
                (seeStart (materialTables 32000)
                  (initFromFen zeroTables "3rk3/8/4p3/3r4/8/8/8/3QK3 w - - 0 1") D1 27)
              = seeLoop (materialTables 32000)
                (initFromFen zeroTables "3rk3/8/4p3/3r4/8/8/8/3QK3 w - - 0 1") 27 64
                (seeStart (materialTables 32000)
                  (initFromFen zeroTables "3rk3/8/4p3/3r4/8/8/8/3QK3 w - - 0 1") D1 27)
              ∧ seePasses (materialTables 32000)
                (initFromFen zeroTables "3rk3/8/4p3/3r4/8/8/8/3QK3 w - - 0 1") 27 fuel
                (seeStart (materialTables 32000)
                  (initFromFen zeroTables "3rk3/8/4p3/3r4/8/8/8/3QK3 w - - 0 1") D1 27)
              = seePasses (materialTables 32000)
                (initFromFen zeroTables "3rk3/8/4p3/3r4/8/8/8/3QK3 w - - 0 1") 27 64
                (seeStart (materialTables 32000)
                  (initFromFen zeroTables "3rk3/8/4p3/3r4/8/8/8/3QK3 w - - 0 1") D1 27))
        ∧ seePasses (materialTables 32000)
            (initFromFen zeroTables "3rk3/8/4p3/3r4/8/8/8/3QK3 w - - 0 1") 27 64
            (seeStart (materialTables 32000)
              (initFromFen zeroTables "3rk3/8/4p3/3r4/8/8/8/3QK3 w - - 0 1") D1 27)
            ≤ max 1 (popCount (seeStart (materialTables 32000)
                (initFromFen zeroTables "3rk3/8/4p3/3r4/8/8/8/3QK3 w - - 0 1") D1
                27).validAttackers)
        ∧ seePasses (materialTables 32000)
            (initFromFen zeroTables "3rk3/8/4p3/3r4/8/8/8/3QK3 w - - 0 1") 27 64
            (seeStart (materialTables 32000)
              (initFromFen zeroTables "3rk3/8/4p3/3r4/8/8/8/3QK3 w - - 0 1") D1 27) ≤ 64
        ∧ seeLoop (materialTables 32000)
            (initFromFen zeroTables "3rk3/8/4p3/3r4/8/8/8/3QK3 w - - 0 1") 27
            ((seeStart (materialTables 32000)
              (initFromFen zeroTables "3rk3/8/4p3/3r4/8/8/8/3QK3 w - - 0 1") D1
              27).validAttackers + 1)
            (seeStart (materialTables 32000)
              (initFromFen zeroTables "3rk3/8/4p3/3r4/8/8/8/3QK3 w - - 0 1") D1 27)
          = seeLoop (materialTables 32000)
            (initFromFen zeroTables "3rk3/8/4p3/3r4/8/8/8/3QK3 w - - 0 1") 27 64
            (seeStart (materialTables 32000)
              (initFromFen zeroTables "3rk3/8/4p3/3r4/8/8/8/3QK3 w - - 0 1") D1 27)) :=
  ⟨⟨by decide, by decide⟩,
    staticExchangeEvaluation_loop_bound (materialTables 32000)
      (initFromFen zeroTables "3rk3/8/4p3/3r4/8/8/8/3QK3 w - - 0 1") D1 27
      (by decide) (by decide)⟩

/-! ## Pawn chains (pawnevaluator.cpp 123-177) -/

theorem chainBoards_pawns :
    whiteChainBoard.whitePieces PAWN = OneShiftedBy 44 ||| OneShiftedBy 51
      ∧ whiteChainBoard.blackPieces PAWN = 0
      ∧ blackChainBoard.whitePieces PAWN = 0
      ∧ blackChainBoard.blackPieces PAWN = OneShiftedBy 11 ||| OneShiftedBy 20 := by
  decide!

theorem chainBoards_mirror :
    (∀ k < 8, blackChainBoard.mirror.whitePieces k = whiteChainBoard.whitePieces k
        ∧ blackChainBoard.mirror.blackPieces k = whiteChainBoard.blackPieces k)
      ∧ (∀ s < 64, blackChainBoard.mirror.pieces s = whiteChainBoard.pieces s)
      ∧ blackChainBoard.mirror.allPieces = whiteChainBoard.allPieces
      ∧ blackChainBoard.mirror.sideToMove = whiteChainBoard.sideToMove
      ∧ blackChainBoard.mirror.whiteKingPosition = whiteChainBoard.whiteKingPosition
      ∧ blackChainBoard.mirror.blackKingPosition = whiteChainBoard.blackKingPosition := by
  decide!

theorem evaluatePawnChain_whiteChainBoard (Back Front : Nat → Evaluation) (e : Evaluation) :
    evaluatePawnChain Back Front e whiteChainBoard = (e.add (Front 44)).add (Back 51) := by
  obtain ⟨h1, h2, -, -⟩ := chainBoards_pawns
  unfold evaluatePawnChain
  simp only [h1, h2]
  have c1 : squaresOf ((((OneShiftedBy 44 ||| OneShiftedBy 51) &&& bbNot (bbFile 0)) >>> 9
      ||| ((OneShiftedBy 44 ||| OneShiftedBy 51) &&& bbNot (bbFile 7)) >>> 7)
      &&& (OneShiftedBy 44 ||| OneShiftedBy 51)) = [44] := by decide!
  have c2 : squaresOf (BlackPawnCaptures 44 &&& (OneShiftedBy 44 ||| OneShiftedBy 51)) = [51] := by
    decide!
  have c3 : squaresOf ((shl64 (0 &&& bbNot (bbFile 0)) 7 ||| shl64 (0 &&& bbNot (bbFile 7)) 9)
      &&& 0) = [] := by decide!
  rw [c1, c3]
  simp only [List.foldl, c2]

theorem evaluatePawnChain_blackChainBoard (Back Front : Nat → Evaluation) (e : Evaluation) :
    evaluatePawnChain Back Front e blackChainBoard = e.sub (Front 44) := by
  obtain ⟨-, -, h1, h2⟩ := chainBoards_pawns
  unfold evaluatePawnChain
  simp only [h1, h2]
  have c1 : squaresOf ((((0 : Nat) &&& bbNot (bbFile 0)) >>> 9
      ||| ((0 : Nat) &&& bbNot (bbFile 7)) >>> 7) &&& 0) = [] := by decide!
  have c2 : squaresOf ((shl64 ((OneShiftedBy 11 ||| OneShiftedBy 20) &&& bbNot (bbFile 0)) 7
      ||| shl64 ((OneShiftedBy 11 ||| OneShiftedBy 20) &&& bbNot (bbFile 7)) 9)
      &&& (OneShiftedBy 11 ||| OneShiftedBy 20)) = [20] := by decide!
  have c3 : squaresOf (WhitePawnCaptures (FlipSqY 20) &&& (OneShiftedBy 11 ||| OneShiftedBy 20))
      = [] := by decide!
  rw [c1, c2]
  simp only [List.foldl, c3]
  have : FlipSqY 20 = 44 := by decide
  rw [this]

/-- C32: the pawn-chain term is not colour-symmetric.  With black pawns on d7
and e6 (d7 protects e6), `evaluatePawnChain` subtracts only
`PawnChainFrontPst` of the mirrored e6 and nothing for the protecting pawn: the
black branch looks for the protecting pawns around the mirrored square
(`WhitePawnCaptures[FlipSqY(dst)] & blackPawns`).  On the colour-mirrored
position, white pawns on d2 and e3, it adds `PawnChainFrontPst[e3]` and
`PawnChainBackPst[d2]`.  With a back-chain value of 1 everywhere the two
results are not each other's negation. -/
theorem evaluatePawnChain_not_symmetric (Back Front : Nat → Evaluation) :
    (∀ k < 8, blackChainBoard.mirror.whitePieces k = whiteChainBoard.whitePieces k
        ∧ blackChainBoard.mirror.blackPieces k = whiteChainBoard.blackPieces k)
      ∧ evaluatePawnChain Back Front ⟨0, 0⟩ blackChainBoard
          = (⟨0, 0⟩ : Evaluation).sub (Front 44)
      ∧ evaluatePawnChain Back Front ⟨0, 0⟩ whiteChainBoard
          = ((⟨0, 0⟩ : Evaluation).add (Front 44)).add (Back 51)
      ∧ evaluatePawnChain (fun _ => ⟨1, 1⟩) Front ⟨0, 0⟩ blackChainBoard.mirror
          ≠ (evaluatePawnChain (fun _ => ⟨1, 1⟩) Front ⟨0, 0⟩ blackChainBoard).smul (-1) := by
  refine ⟨chainBoards_mirror.1, evaluatePawnChain_blackChainBoard Back Front _,
    evaluatePawnChain_whiteChainBoard Back Front _, ?_⟩
  have hm : evaluatePawnChain (fun _ => ⟨1, 1⟩) Front ⟨0, 0⟩ blackChainBoard.mirror
      = evaluatePawnChain (fun _ => ⟨1, 1⟩) Front ⟨0, 0⟩ whiteChainBoard := by
    have h := chainBoards_mirror.1 PAWN (by decide)
    unfold evaluatePawnChain
    simp only [h.1, h.2]
  rw [hm, evaluatePawnChain_blackChainBoard, evaluatePawnChain_whiteChainBoard]
  simp only [Evaluation.add, Evaluation.sub, Evaluation.smul]
  intro h
  have := congrArg Evaluation.mg h
  simp at this

/-! ## The evaluator and the passed pawns of the pawn evaluator -/

/-- C33: the score of `evaluate` depends on the position evaluated before.  The
evaluator reads `pawnEvaluator.getPassedPawns(color)` for the rook and queen
terms before the call `pawnEvaluator.evaluate(board, ..)` that computes the
passed pawns of the board.  With a bonus of 32 for a rook behind a passed pawn
and all other parameters zero, three calls in a row with the window
`(-100000, 100000)`, on `4k3/p5pp/8/8/P7/8/8/R3K3 w - - 0 1` (the pawn on a4 is
not passed) and twice on `4k3/6pp/8/8/P7/8/8/R3K3 w - - 0 1` (the pawn on a4 is
passed), return 480, 608 and 640: the two calls on the same board differ,
the first one having used the passed pawns of the board before. -/
theorem evaluate_uses_passed_pawns_of_previous_board :
    (ChessPawnEvaluator.evaluateImplementation rookPasserParameters blockedPasserBoard).2
        Color.WHITE = EmptyBitboard
      ∧ (ChessPawnEvaluator.evaluateImplementation rookPasserParameters rookPasserBoard).2
        Color.WHITE = OneShiftedBy 32
      ∧ evaluateCalls rookPasserParameters (fun _ => none) 0 (-100000) 100000
          (fun _ => EmptyBitboard) [blockedPasserBoard, rookPasserBoard, rookPasserBoard]
        = some [480, 608, 640]
      ∧ evaluateCalls rookPasserParameters (fun _ => none) 0 (-100000) 100000
          (fun _ => EmptyBitboard) [rookPasserBoard, rookPasserBoard, rookPasserBoard]
        = some [608, 640, 640] := by
  decide!

/-! ## Castle rights through `doMove` -/

theorem stripRight_testBit (cr k i : Nat) :
    (stripRight cr (OneShiftedBy k)).testBit i = (cr.testBit i && decide (i ≠ k)) := by
  unfold stripRight
  rw [Nat.testBit_xor, Nat.testBit_or, testBit_OneShiftedBy]
  by_cases h : k = i
  · subst h; simp
  · have h' : ¬ i = k := fun e => h e.symm
    simp [h, h']

theorem stripRight_one (cr i : Nat) :
    (stripRight cr 1).testBit i = (cr.testBit i && !decide (i = 0)) := by
  have := stripRight_testBit cr 0 i
  simpa [OneShiftedBy] using this

theorem stripRight_two (cr i : Nat) :
    (stripRight cr 2).testBit i = (cr.testBit i && !decide (i = 1)) := by
  have := stripRight_testBit cr 1 i
  simpa [OneShiftedBy] using this

theorem stripRight_four (cr i : Nat) :
    (stripRight cr 4).testBit i = (cr.testBit i && !decide (i = 2)) := by
  have := stripRight_testBit cr 2 i
  simpa [OneShiftedBy] using this

theorem stripRight_eight (cr i : Nat) :
    (stripRight cr 8).testBit i = (cr.testBit i && !decide (i = 3)) := by
  have := stripRight_testBit cr 3 i
  simpa [OneShiftedBy] using this

theorem castle_consts :
    WHITE_OO = OneShiftedBy 0 ∧ WHITE_OOO = OneShiftedBy 1 ∧ BLACK_OO = OneShiftedBy 2
      ∧ BLACK_OOO = OneShiftedBy 3 := by decide

theorem testBit_three (i : Nat) : Nat.testBit 3 i = decide (i = 0 ∨ i = 1) := by
  rcases i with _ | _ | i
  · decide
  · decide
  · have : Nat.testBit 3 (i + 2) = false :=
      Nat.testBit_lt_two_pow (lt_of_lt_of_le (by norm_num)
        (Nat.pow_le_pow_right (by norm_num) (Nat.le_add_left 2 i)))
    rw [this]; simp

theorem testBit_twelve (i : Nat) : Nat.testBit 12 i = decide (i = 2 ∨ i = 3) := by
  rcases i with _ | _ | _ | _ | i
  · decide
  · decide
  · decide
  · decide
  · have : Nat.testBit 12 (i + 4) = false :=
      Nat.testBit_lt_two_pow (lt_of_lt_of_le (by norm_num)
        (Nat.pow_le_pow_right (by norm_num) (Nat.le_add_left 4 i)))
    rw [this]; simp

theorem right_iff (cr k : Nat) : cr &&& OneShiftedBy k ≠ CASTLE_NONE ↔ cr.testBit k = true :=
  and_OneShiftedBy_ne_zero k cr

theorem whiteAll_iff (cr : Nat) :
    cr &&& WHITE_ALL ≠ CASTLE_NONE ↔ (cr.testBit 0 = true ∨ cr.testBit 1 = true) := by
  show cr &&& 3 ≠ 0 ↔ _
  rw [and_ne_zero_iff]
  constructor
  · rintro ⟨i, h1, h2⟩
    rw [testBit_three] at h2
    rcases of_decide_eq_true h2 with rfl | rfl
    · exact Or.inl h1
    · exact Or.inr h1
  · rintro (h | h)
    · exact ⟨0, h, by decide⟩
    · exact ⟨1, h, by decide⟩

theorem blackAll_iff (cr : Nat) :
    cr &&& BLACK_ALL ≠ CASTLE_NONE ↔ (cr.testBit 2 = true ∨ cr.testBit 3 = true) := by
  show cr &&& 12 ≠ 0 ↔ _
  rw [and_ne_zero_iff]
  constructor
  · rintro ⟨i, h1, h2⟩
    rw [testBit_twelve] at h2
    rcases of_decide_eq_true h2 with rfl | rfl
    · exact Or.inl h1
    · exact Or.inr h1
  · rintro (h | h)
    · exact ⟨2, h, by decide⟩
    · exact ⟨3, h, by decide⟩

theorem doMoveCastleRook_castleRights (pre : Bool) (T : Tables) (b : ChessBoard)
    (color : Color) (rs rd ps pd : Nat) :
    (doMoveCastleRook pre T b color rs rd ps pd).castleRights = b.castleRights := by
  cases color <;> cases pre <;>
    simp [doMoveCastleRook, ChessBoard.setPiecesOf, ChessBoard.piecesOf]

/-- The castle rights after step 5 of `doMove`, bit by bit. -/
theorem doMoveSpecial_rights (pre : Bool) (T : Tables) (b : ChessBoard) (mv : ChessMove)
    (k i : Nat) :
    (doMoveSpecial pre T b mv k).castleRights.testBit i
      = (b.castleRights.testBit i
          && (!decide (k = KING) || (if b.sideToMove = Color.WHITE then decide (i = 2 ∨ i = 3)
                else decide (i = 0 ∨ i = 1)))
          && !(decide (k = ROOK) && (if b.sideToMove = Color.WHITE then
                (decide (mv.src = A1 ∧ i = 1) || decide (mv.src = H1 ∧ i = 0))
                else (decide (mv.src = A8 ∧ i = 3) || decide (mv.src = H8 ∧ i = 2))))) := by
  obtain ⟨c0, c1, c2, c3⟩ := castle_consts
  by_cases hk : k = KING
  · subst hk
    rw [doMoveSpecial_king_eq]
    cases hs : b.sideToMove <;> cases hc : castleRook _ mv.src mv.dst <;>
      simp only [doMoveCastleRook_castleRights] <;>
      simp [Nat.testBit_and, testBit_three, testBit_twelve]
  · have hk' : ¬ (k = 6) := hk
    by_cases h4 : k = ROOK
    · subst h4
      unfold doMoveSpecial
      cases hs : b.sideToMove
      · by_cases ha : mv.src = A1
        · have ha' : mv.src = 56 := ha
          simp [ha', stripRight_two]
        · have ha' : ¬ mv.src = 56 := ha
          by_cases hh : mv.src = H1
          · have hh' : mv.src = 63 := hh
            simp [hh', stripRight_one]
          · have hh' : ¬ mv.src = 63 := hh
            simp [ha', hh']
      · by_cases ha : mv.src = A8
        · have ha' : mv.src = 0 := ha
          simp [ha', stripRight_eight]
        · have ha' : ¬ mv.src = 0 := ha
          by_cases hh : mv.src = H8
          · have hh' : mv.src = 7 := hh
            simp [hh', stripRight_four]
          · have hh' : ¬ mv.src = 7 := hh
            simp [ha', hh']
    · have h4' : ¬ (k = 4) := h4
      by_cases h1 : k = 1
      · subst h1
        unfold doMoveSpecial
        cases pre <;> simp <;> split_ifs <;> simp
      · unfold doMoveSpecial
        simp [h1, h4', hk']

/-- The castle rights after step 6 of `doMove`, bit by bit. -/
theorem doMoveCapture_rights (pre : Bool) (T : Tables) (b : ChessBoard) (mv : ChessMove)
    (c i : Nat) :
    (doMoveCapture pre T b mv c).castleRights.testBit i
      = (b.castleRights.testBit i
          && !(decide (c = ROOK) && (if b.sideToMove = Color.WHITE then
                (decide (mv.dst = A8 ∧ i = 3) || decide (mv.dst = H8 ∧ i = 2))
                else (decide (mv.dst = A1 ∧ i = 1) || decide (mv.dst = H1 ∧ i = 0))))) := by
  obtain ⟨c0, c1, c2, c3⟩ := castle_consts
  by_cases hc : c = NO_PIECE
  · subst hc; rw [doMoveCapture_skip]; simp
  · have hc' : ¬ (c = 0) := hc
    by_cases h4 : c = ROOK
    · subst h4
      unfold doMoveCapture
      cases hs : b.sideToMove
      · by_cases ha : mv.dst = A8
        · have ha' : mv.dst = 0 := ha
          cases pre <;> simp [ha', stripRight_eight, ChessBoard.setPiecesOf]
        · have ha' : ¬ mv.dst = 0 := ha
          by_cases hh : mv.dst = H8
          · have hh' : mv.dst = 7 := hh
            cases pre <;> simp [hh', stripRight_four, ChessBoard.setPiecesOf]
          · have hh' : ¬ mv.dst = 7 := hh
            cases pre <;> simp [ha', hh', ChessBoard.setPiecesOf]
      · by_cases ha : mv.dst = A1
        · have ha' : mv.dst = 56 := ha
          cases pre <;> simp [ha', stripRight_two, ChessBoard.setPiecesOf]
        · have ha' : ¬ mv.dst = 56 := ha
          by_cases hh : mv.dst = H1
          · have hh' : mv.dst = 63 := hh
            cases pre <;> simp [hh', stripRight_one, ChessBoard.setPiecesOf]
          · have hh' : ¬ mv.dst = 63 := hh
            cases pre <;> simp [ha', hh', ChessBoard.setPiecesOf]
    · have h4' : ¬ (c = 4) := h4
      unfold doMoveCapture
      cases hs : b.sideToMove <;> cases pre <;>
        simp [hc', h4', ChessBoard.setPiecesOf] <;> split_ifs <;> simp

theorem doMovePromotion_castleRights (pre : Bool) (T : Tables) (b : ChessBoard) (mv : ChessMove)
    (k : Nat) : (doMovePromotion pre T b mv k).castleRights = b.castleRights := by
  unfold doMovePromotion
  cases hs : b.sideToMove <;> cases pre <;> simp [ChessBoard.setPiecesOf] <;>
    split_ifs <;> simp

theorem promoteBits_testBit (a : Nat → Nat) (p y j i : Nat) (hy : i ≠ y) :
    (promoteBits a p y j).testBit i = (a j).testBit i := by
  have hy' : ¬ (y = i) := fun e => hy e.symm
  simp only [promoteBits, setAt]
  split_ifs <;> subst_vars <;> simp [testBit_OneShiftedBy, hy']

/-- Away from the source and destination squares, and from the two rook squares
of a castling move, `doMove` leaves the bitboards of the side that moves as
they are. -/
theorem doMoveImplementation_own_bit (pre : Bool) (T : Tables) (b : ChessBoard)
    (mv : ChessMove) (j i : Nat) (hs : i ≠ mv.src) (hd : i ≠ mv.dst)
    (hr : b.pieces mv.src = KING → ∀ r, castleRook b.sideToMove mv.src mv.dst = some r →
      i ≠ r.1 ∧ i ≠ r.2) :
    ((doMoveImplementation pre T b mv).piecesOf b.sideToMove j).testBit i
      = (b.piecesOf b.sideToMove j).testBit i := by
  have key : ∀ (b1 b2 b3 b4 b5 b6 : ChessBoard), b1 = doMoveEnPassant pre T b mv →
      b2 = doMoveMovePiece pre T b1 mv (b.pieces mv.src) →
      b3 = doMoveSpecial pre T b2 mv (b.pieces mv.src) →
      b4 = doMoveCapture pre T b3 mv (b1.pieces mv.dst) →
      b5 = doMovePromotion pre T b4 mv (b.pieces mv.src) →
      b6 = doMoveFinish pre T b5 b.enPassant b2.castleRights (b.pieces mv.src)
        (b1.pieces mv.dst) →
      ((buildAttackBoards b6).piecesOf b.sideToMove j).testBit i
        = (b.piecesOf b.sideToMove j).testBit i := by
    intro b1 b2 b3 b4 b5 b6 h1 h2 h3 h4 h5 h6
    have s1 : b1.sideToMove = b.sideToMove := by
      rw [h1]; exact (doMoveEnPassant_scalars pre T b mv).1
    have s2 : b2.sideToMove = b.sideToMove := by
      rw [h2]; exact (doMoveMovePiece_scalars pre T b1 mv _).1.trans s1
    have s3 : b3.sideToMove = b.sideToMove := by
      rw [h3]; exact (doMoveSpecial_side pre T b2 mv _).trans s2
    have s4 : b4.sideToMove = b.sideToMove := by
      rw [h4]; exact (doMoveCapture_scalars pre T b3 mv _).1.trans s3
    have e1 : b1.piecesOf b.sideToMove = b.piecesOf b.sideToMove := by
      by_cases hep : mv.dst = b.enPassant ∧ b.pieces mv.src = PAWN
      · rw [h1]; exact (doMoveEnPassant_arrays pre T b mv hep).1
      · rw [h1, doMoveEnPassant_skip pre T b mv hep]
    have e2 : (b2.piecesOf b.sideToMove j).testBit i = (b1.piecesOf b.sideToMove j).testBit i := by
      have := (doMoveMovePiece_arrays pre T b1 mv (b.pieces mv.src)).1
      rw [s1, ← h2] at this
      rw [this]
      exact relocateBits_testBit _ _ _ _ _ _ hs hd
    have e3 : (b3.piecesOf b.sideToMove j).testBit i = (b2.piecesOf b.sideToMove j).testBit i := by
      by_cases hk : b.pieces mv.src = KING
      · cases hc : castleRook b.sideToMove mv.src mv.dst with
        | none =>
          have := (doMoveSpecial_king_plain pre T b2 mv (by rw [s2]; exact hc)).1
          rw [s2, ← hk, ← h3] at this
          rw [this]
        | some r =>
          have := (doMoveSpecial_king_castle pre T b2 mv r (by rw [s2]; exact hc)).1
          rw [s2, ← hk, ← h3] at this
          rw [this]
          exact relocateBits_testBit _ _ _ _ _ _ (hr hk r hc).1 (hr hk r hc).2
      · obtain ⟨w, k, _⟩ := doMoveSpecial_arrays_other pre T b2 mv (b.pieces mv.src) hk
        rw [← h3] at w k
        rw [piecesOf_congr b2 b3 w k _]
    have e4 : b4.piecesOf b.sideToMove = b3.piecesOf b.sideToMove := by
      by_cases hc : b1.pieces mv.dst = NO_PIECE
      · rw [h4, hc, doMoveCapture_skip]
      · have := (doMoveCapture_arrays pre T b3 mv _ hc).1
        rw [s3, ← h4] at this
        exact this
    have e5 : (b5.piecesOf b.sideToMove j).testBit i = (b4.piecesOf b.sideToMove j).testBit i := by
      by_cases hc : b.pieces mv.src = PAWN ∧ mv.promotionPiece ≠ NO_PIECE
      · have := (doMovePromotion_arrays pre T b4 mv _ hc).1
        rw [s4, ← h5] at this
        rw [this]
        exact promoteBits_testBit _ _ _ _ _ hd
      · rw [h5, doMovePromotion_skip pre T b4 mv _ hc]
    obtain ⟨f1, f2, _⟩ := doMoveFinish_struct pre T b5 b.enPassant b2.castleRights
      (b.pieces mv.src) (b1.pieces mv.dst)
    rw [← h6] at f1 f2
    have e6 : (buildAttackBoards b6).piecesOf b.sideToMove = b5.piecesOf b.sideToMove :=
      piecesOf_congr b5 (buildAttackBoards b6) f1 f2 _
    rw [e6, e5, e4, e3, e2, e1]
  exact key _ _ _ _ _ _ rfl rfl rfl rfl rfl rfl

/-- The castle rights after `doMove`, bit by bit: a right survives when it was
there, the moving piece is not the king of its colour, not the rook leaving its
corner, and the captured piece is not the rook on its corner. -/
theorem doMoveImplementation_rights (pre : Bool) (T : Tables) (b : ChessBoard)
    (mv : ChessMove) (i : Nat) :
    (doMoveImplementation pre T b mv).castleRights.testBit i
      = (b.castleRights.testBit i
          && (!decide (b.pieces mv.src = KING)
                || (if b.sideToMove = Color.WHITE then decide (i = 2 ∨ i = 3)
                    else decide (i = 0 ∨ i = 1)))
          && !(decide (b.pieces mv.src = ROOK) && (if b.sideToMove = Color.WHITE then
                (decide (mv.src = A1 ∧ i = 1) || decide (mv.src = H1 ∧ i = 0))
                else (decide (mv.src = A8 ∧ i = 3) || decide (mv.src = H8 ∧ i = 2))))
          && !(decide ((doMoveEnPassant pre T b mv).pieces mv.dst = ROOK)
                && (if b.sideToMove = Color.WHITE then
                  (decide (mv.dst = A8 ∧ i = 3) || decide (mv.dst = H8 ∧ i = 2))
                  else (decide (mv.dst = A1 ∧ i = 1) || decide (mv.dst = H1 ∧ i = 0))))) := by
  have h0 : (doMoveImplementation pre T b mv).castleRights
      = (doMovePromotion pre T
          (doMoveCapture pre T
            (doMoveSpecial pre T
              (doMoveMovePiece pre T (doMoveEnPassant pre T b mv) mv (b.pieces mv.src)) mv
              (b.pieces mv.src)) mv ((doMoveEnPassant pre T b mv).pieces mv.dst)) mv
          (b.pieces mv.src)).castleRights :=
    (doMoveFinish_struct pre T _ _ _ _ _).2.2.2.2.2.2.2.2
  rw [h0, doMovePromotion_castleRights, doMoveCapture_rights, doMoveSpecial_rights]
  have s1 := (doMoveEnPassant_scalars pre T b mv).1
  have s2 := (doMoveMovePiece_scalars pre T (doMoveEnPassant pre T b mv) mv
    (b.pieces mv.src)).1
  have s3 := doMoveSpecial_side pre T
    (doMoveMovePiece pre T (doMoveEnPassant pre T b mv) mv (b.pieces mv.src)) mv
    (b.pieces mv.src)
  rw [s3, s2, s1, (doMoveMovePiece_arrays pre T (doMoveEnPassant pre T b mv) mv
    (b.pieces mv.src)).2.2.2.2.1, doMoveEnPassant_castleRights]

theorem all_of_kind (b : ChessBoard) (h2 : Invariant2 b) (c : Color) (j s : Nat)
    (hj1 : 1 ≤ j) (hj6 : j ≤ 6) (h : (b.piecesOf c j).testBit s = true) :
    (b.piecesOf c ALL).testBit s = true := by
  cases c
  · show (b.whitePieces ALL).testBit s = true
    rw [h2.1, testBit_kindsUnion]; exact ⟨j, hj1, hj6, h⟩
  · show (b.blackPieces ALL).testBit s = true
    rw [h2.2, testBit_kindsUnion]; exact ⟨j, hj1, hj6, h⟩

theorem mailbox_of_kind (b : ChessBoard) (hm : MailboxAgrees b) (c : Color) (j s : Nat)
    (hs : s < 64) (hj1 : 1 ≤ j) (hj6 : j ≤ 6) (h : (b.piecesOf c j).testBit s = true) :
    b.pieces s = j := by
  cases c
  · exact (hm s hs j hj6 hj1).1 h
  · exact (hm s hs j hj6 hj1).2 h

/-- A piece of the side that moves which is not the moving piece stays where it
is, unless the king moves. -/
theorem doMove_own_piece_stays (pre : Bool) (T : Tables) (b : ChessBoard) (mv : ChessMove)
    (h2 : Invariant2 b) (hp : Playable b mv) (j s : Nat) (hj1 : 1 ≤ j) (hj6 : j ≤ 6)
    (hbit : (b.piecesOf b.sideToMove j).testBit s = true)
    (hk : b.pieces mv.src ≠ KING) (hsrc : s ≠ mv.src) :
    ((doMoveImplementation pre T b mv).piecesOf b.sideToMove j).testBit s = true := by
  obtain ⟨_, _, _, p4, _⟩ := hp
  have hd : s ≠ mv.dst := by
    intro e
    have := all_of_kind b h2 b.sideToMove j s hj1 hj6 hbit
    rw [e, p4] at this
    exact Bool.noConfusion this
  rw [doMoveImplementation_own_bit pre T b mv j s hsrc hd (fun h => absurd h hk)]
  exact hbit

/-- A piece of the side that does not move, other than a pawn, stays where it is
unless it is captured. -/
theorem doMove_other_piece_stays (pre : Bool) (T : Tables) (b : ChessBoard) (mv : ChessMove)
    (hm : MailboxAgrees b) (h7 : Invariant7 b) (hp : Playable b mv) (j s : Nat)
    (hs64 : s < 64) (hj2 : 2 ≤ j) (hj6 : j ≤ 6)
    (hbit : (b.piecesOf b.sideToMove.flip j).testBit s = true) (hdst : s ≠ mv.dst) :
    ((doMoveImplementation pre T b mv).piecesOf b.sideToMove.flip j).testBit s = true := by
  rw [doMoveImplementation_other_bit pre T b mv j s hdst,
    doMoveEnPassant_other_bit pre T b mv j s hdst]
  · exact hbit
  · rintro ⟨e, _⟩ hv
    have hne : b.enPassant ≠ NO_SQUARE := by
      rw [← e]; have := hp.2.1; simp only [NO_SQUARE]; omega
    obtain ⟨_, _, q3, _, q5, _⟩ := h7 hne
    have e1 := mailbox_of_kind b hm _ PAWN _ q3 (by simp) (by simp) q5
    have e2 := mailbox_of_kind b hm _ j s hs64 (by omega) hj6 hbit
    rw [← hv, e2] at e1
    simp only [PAWN] at e1
    omega

/-- The piece `doMove` records as captured is the one on the destination square
when that square is not empty. -/
theorem doMoveEnPassant_pieces_dst (pre : Bool) (T : Tables) (b : ChessBoard) (mv : ChessMove)
    (h7 : Invariant7 b) (hp : Playable b mv) (h : b.pieces mv.dst ≠ NO_PIECE) :
    (doMoveEnPassant pre T b mv).pieces mv.dst = b.pieces mv.dst := by
  by_cases hep : mv.dst = b.enPassant ∧ b.pieces mv.src = PAWN
  · exfalso
    have hne : b.enPassant ≠ NO_SQUARE := by
      rw [← hep.1]; have := hp.2.1; simp only [NO_SQUARE]; omega
    obtain ⟨_, _, _, q4, _⟩ := h7 hne
    rw [hep.1] at h
    exact h q4
  · rw [doMoveEnPassant_skip pre T b mv hep]

theorem doMoveImplementation_kings (pre : Bool) (T : Tables) (b : ChessBoard) (mv : ChessMove) :
    (doMoveImplementation pre T b mv).kingPosition b.sideToMove
        = (if b.pieces mv.src = KING then mv.dst else b.kingPosition b.sideToMove)
      ∧ (doMoveImplementation pre T b mv).kingPosition b.sideToMove.flip
        = b.kingPosition b.sideToMove.flip := by
  obtain ⟨k1, k2⟩ := doMoveSteps_kings pre T b mv
  obtain ⟨_, _, _, _, f5, f6, _⟩ := doMoveFinish_struct pre T
    (doMovePromotion pre T
      (doMoveCapture pre T
        (doMoveSpecial pre T
          (doMoveMovePiece pre T (doMoveEnPassant pre T b mv) mv (b.pieces mv.src)) mv
          (b.pieces mv.src)) mv ((doMoveEnPassant pre T b mv).pieces mv.dst)) mv
      (b.pieces mv.src)) b.enPassant
    (doMoveMovePiece pre T (doMoveEnPassant pre T b mv) mv (b.pieces mv.src)).castleRights
    (b.pieces mv.src) ((doMoveEnPassant pre T b mv).pieces mv.dst)
  obtain ⟨_, _, _, _, a5, a6, _⟩ := buildAttackBoards_struct (doMoveCore pre T b mv)
  have e : ∀ c, (doMoveImplementation pre T b mv).kingPosition c
      = (doMovePromotion pre T
      (doMoveCapture pre T
        (doMoveSpecial pre T
          (doMoveMovePiece pre T (doMoveEnPassant pre T b mv) mv (b.pieces mv.src)) mv
          (b.pieces mv.src)) mv ((doMoveEnPassant pre T b mv).pieces mv.dst)) mv
      (b.pieces mv.src)).kingPosition c :=
    fun c => kingPosition_congr _ _ (a5.trans f5) (a6.trans f6) c
  rw [e, e]
  exact ⟨k1, k2⟩

theorem own_rook_kept (pre : Bool) (T : Tables) (b : ChessBoard) (mv : ChessMove)
    (h2 : Invariant2 b) (hm : MailboxAgrees b) (hp : Playable b mv) (s : Nat) (hs64 : s < 64)
    (hbit : (b.piecesOf b.sideToMove ROOK).testBit s = true)
    (hk : b.pieces mv.src ≠ KING) (hr : ¬ (b.pieces mv.src = ROOK ∧ mv.src = s)) :
    ((doMoveImplementation pre T b mv).piecesOf b.sideToMove ROOK).testBit s = true := by
  apply doMove_own_piece_stays pre T b mv h2 hp ROOK s (by simp) (by simp) hbit hk
  intro e
  apply hr
  have := mailbox_of_kind b hm _ ROOK s hs64 (by simp) (by simp) hbit
  rw [e] at this
  exact ⟨this, e.symm⟩

theorem other_rook_kept (pre : Bool) (T : Tables) (b : ChessBoard) (mv : ChessMove)
    (hm : MailboxAgrees b) (h7 : Invariant7 b) (hp : Playable b mv) (s : Nat) (hs64 : s < 64)
    (hbit : (b.piecesOf b.sideToMove.flip ROOK).testBit s = true)
    (hr : ¬ ((doMoveEnPassant pre T b mv).pieces mv.dst = ROOK ∧ mv.dst = s)) :
    ((doMoveImplementation pre T b mv).piecesOf b.sideToMove.flip ROOK).testBit s = true := by
  apply doMove_other_piece_stays pre T b mv hm h7 hp ROOK s hs64 (by simp) (by simp) hbit
  intro e
  apply hr
  have h := mailbox_of_kind b hm _ ROOK s hs64 (by simp) (by simp) hbit
  rw [e] at h
  have hne : b.pieces mv.dst ≠ NO_PIECE := by rw [h]; simp
  rw [doMoveEnPassant_pieces_dst pre T b mv h7 hp hne]
  exact ⟨h, e.symm⟩

theorem doMoveImplementation_rights_iff (pre : Bool) (T : Tables) (b : ChessBoard)
    (mv : ChessMove) (i : Nat) :
    (doMoveImplementation pre T b mv).castleRights.testBit i = true ↔
      b.castleRights.testBit i = true
        ∧ (b.pieces mv.src = KING →
            if b.sideToMove = Color.WHITE then i = 2 ∨ i = 3 else i = 0 ∨ i = 1)
        ∧ ¬ (b.pieces mv.src = ROOK ∧
            if b.sideToMove = Color.WHITE then (mv.src = A1 ∧ i = 1) ∨ (mv.src = H1 ∧ i = 0)
            else (mv.src = A8 ∧ i = 3) ∨ (mv.src = H8 ∧ i = 2))
        ∧ ¬ ((doMoveEnPassant pre T b mv).pieces mv.dst = ROOK ∧
            if b.sideToMove = Color.WHITE then (mv.dst = A8 ∧ i = 3) ∨ (mv.dst = H8 ∧ i = 2)
            else (mv.dst = A1 ∧ i = 1) ∨ (mv.dst = H1 ∧ i = 0)) := by
  rw [doMoveImplementation_rights]
  cases hs : b.sideToMove <;>
    simp only [reduceCtorEq, if_true, if_false, Bool.and_eq_true, Bool.or_eq_true,
      Bool.not_eq_true', decide_eq_true_eq, decide_eq_false_iff_not, Bool.and_eq_false_imp,
      Bool.or_eq_false_iff, not_and, not_or] <;>
    tauto

/-- A move that `doMove` can be applied to keeps the castle rights backed by
their rooks. -/
theorem doMove_castleBacked (T : Tables) (b : ChessBoard) (m : ChessMove)
    (h2 : Invariant2 b) (hm : MailboxAgrees b) (h7 : Invariant7 b) (hp : Playable b m)
    (hc : CastleBacked b) : CastleBacked (doMove T b m) := by
  obtain ⟨c0, c1, c2, c3⟩ := castle_consts
  have R := doMoveImplementation_rights_iff true T b m
  obtain ⟨r0, r1, r2, r3⟩ := hc
  rw [c0, right_iff] at r0
  rw [c1, right_iff] at r1
  rw [c2, right_iff] at r2
  rw [c3, right_iff] at r3
  unfold CastleBacked
  rw [c0, c1, c2, c3, right_iff, right_iff, right_iff, right_iff]
  show ((doMoveImplementation true T b m).castleRights.testBit 0 = true → _)
    ∧ ((doMoveImplementation true T b m).castleRights.testBit 1 = true → _)
    ∧ ((doMoveImplementation true T b m).castleRights.testBit 2 = true → _)
    ∧ ((doMoveImplementation true T b m).castleRights.testBit 3 = true → _)
  rw [R 0, R 1, R 2, R 3]
  have ho := own_rook_kept true T b m h2 hm hp
  have hx := other_rook_kept true T b m hm h7 hp
  cases hs : b.sideToMove
  · rw [hs] at ho hx
    simp only [if_true]
    refine ⟨?_, ?_, ?_, ?_⟩
    · rintro ⟨g1, g2, g3, -⟩
      exact ho H1 (by decide) (r0 g1) (fun e => by have := g2 e; simp at this)
        (fun e => g3 ⟨e.1, Or.inr ⟨e.2, trivial⟩⟩)
    · rintro ⟨g1, g2, g3, -⟩
      exact ho A1 (by decide) (r1 g1) (fun e => by have := g2 e; simp at this)
        (fun e => g3 ⟨e.1, Or.inl ⟨e.2, trivial⟩⟩)
    · rintro ⟨g1, -, -, g4⟩
      exact hx H8 (by decide) (r2 g1) (fun e => g4 ⟨e.1, Or.inr ⟨e.2, trivial⟩⟩)
    · rintro ⟨g1, -, -, g4⟩
      exact hx A8 (by decide) (r3 g1) (fun e => g4 ⟨e.1, Or.inl ⟨e.2, trivial⟩⟩)
  · rw [hs] at ho hx
    simp only [reduceCtorEq, if_false]
    refine ⟨?_, ?_, ?_, ?_⟩
    · rintro ⟨g1, -, -, g4⟩
      exact hx H1 (by decide) (r0 g1) (fun e => g4 ⟨e.1, Or.inr ⟨e.2, trivial⟩⟩)
    · rintro ⟨g1, -, -, g4⟩
      exact hx A1 (by decide) (r1 g1) (fun e => g4 ⟨e.1, Or.inl ⟨e.2, trivial⟩⟩)
    · rintro ⟨g1, g2, g3, -⟩
      exact ho H8 (by decide) (r2 g1) (fun e => by have := g2 e; simp at this)
        (fun e => g3 ⟨e.1, Or.inr ⟨e.2, trivial⟩⟩)
    · rintro ⟨g1, g2, g3, -⟩
      exact ho A8 (by decide) (r3 g1) (fun e => by have := g2 e; simp at this)
        (fun e => g3 ⟨e.1, Or.inl ⟨e.2, trivial⟩⟩)

/-- In the other direction `doMove` sets no castle right, and a king move
leaves the mover without castle rights. -/
theorem doMove_rights_shrink (T : Tables) (b : ChessBoard) (m : ChessMove) :
    (∀ i, (doMove T b m).castleRights.testBit i = true → b.castleRights.testBit i = true)
      ∧ (b.pieces m.src = KING →
          (doMove T b m).castleRights
            &&& (if b.sideToMove = Color.WHITE then WHITE_ALL else BLACK_ALL) = CASTLE_NONE) := by
  have R := doMoveImplementation_rights_iff true T b m
  refine ⟨fun i h => ((R i).1 h).1, ?_⟩
  intro hk
  by_contra hne
  cases hs : b.sideToMove
  · rw [hs, if_pos rfl] at hne
    rcases (whiteAll_iff _).1 hne with h | h
    · have := ((R 0).1 h).2.1 hk
      rw [hs] at this; simp at this
    · have := ((R 1).1 h).2.1 hk
      rw [hs] at this; simp at this
  · rw [hs, if_neg (by simp)] at hne
    rcases (blackAll_iff _).1 hne with h | h
    · have := ((R 2).1 h).2.1 hk
      rw [hs] at this; simp at this
    · have := ((R 3).1 h).2.1 hk
      rw [hs] at this; simp at this

/-- A move that `doMove` can be applied to keeps the castle rights backed by
their kings. -/
theorem doMove_castleKingBacked (T : Tables) (b : ChessBoard) (m : ChessMove)
    (h4' : Invariant4 (doMove T b m)) (hk : CastleKingBacked b) :
    CastleKingBacked (doMove T b m) := by
  have R := doMoveImplementation_rights_iff true T b m
  obtain ⟨k1, k2⟩ := doMoveImplementation_kings true T b m
  obtain ⟨w1, w2, w3, w4⟩ := h4'
  obtain ⟨hkw, hkb⟩ := hk
  rw [whiteAll_iff] at hkw
  rw [blackAll_iff] at hkb
  unfold CastleKingBacked
  rw [whiteAll_iff, blackAll_iff]
  constructor
  · intro h
    have hpos : (doMove T b m).whiteKingPosition = E1 := by
      cases hs : b.sideToMove
      · rw [hs] at k1
        have hnk : b.pieces m.src ≠ KING := by
          intro e
          rcases h with h | h
          · have := ((R 0).1 h).2.1 e
            rw [hs] at this; simp at this
          · have := ((R 1).1 h).2.1 e
            rw [hs] at this; simp at this
        rw [if_neg hnk] at k1
        have hb : b.whiteKingPosition = E1 := by
          rcases h with h | h
          · exact (hkw (Or.inl ((R 0).1 h).1)).1
          · exact (hkw (Or.inr ((R 1).1 h).1)).1
        exact k1.trans hb
      · rw [hs] at k2
        have hb : b.whiteKingPosition = E1 := by
          rcases h with h | h
          · exact (hkw (Or.inl ((R 0).1 h).1)).1
          · exact (hkw (Or.inr ((R 1).1 h).1)).1
        exact k2.trans hb
    refine ⟨hpos, ?_⟩
    rw [w2, hpos, testBit_OneShiftedBy]; simp
  · intro h
    have hpos : (doMove T b m).blackKingPosition = E8 := by
      cases hs : b.sideToMove
      · rw [hs] at k2
        have hb : b.blackKingPosition = E8 := by
          rcases h with h | h
          · exact (hkb (Or.inl ((R 2).1 h).1)).1
          · exact (hkb (Or.inr ((R 3).1 h).1)).1
        exact k2.trans hb
      · rw [hs] at k1
        have hnk : b.pieces m.src ≠ KING := by
          intro e
          rcases h with h | h
          · have := ((R 2).1 h).2.1 e
            rw [hs] at this; simp at this
          · have := ((R 3).1 h).2.1 e
            rw [hs] at this; simp at this
        rw [if_neg hnk] at k1
        have hb : b.blackKingPosition = E8 := by
          rcases h with h | h
          · exact (hkb (Or.inl ((R 2).1 h).1)).1
          · exact (hkb (Or.inr ((R 3).1 h).1)).1
        exact k1.trans hb
    refine ⟨hpos, ?_⟩
    rw [w4, hpos, testBit_OneShiftedBy]; simp

/-- C37: castle rights stay backed by pieces.  On a board that satisfies
invariants 1-4, 6 and 7, whose mailbox names the kind each bitboard holds, whose
bitboards are 64-bit values and on which the king of the side not to move is
not attacked: if every castle right has its rook on the matching corner and its
king on the home square (E1, E8), the same holds on the board after `doMove` of
any move returned by `generateAllMoves`; every castle right of the new board
was one of the old board; and after a move of the king the side that moved has
no castle right. -/
theorem doMove_keeps_castle_rights_backed (T : Tables) (b : ChessBoard) (m : ChessMove)
    (h1 : Invariant1 b) (h2 : Invariant2 b) (h3 : Invariant3 b) (h4 : Invariant4 b)
    (hm : MailboxAgrees b) (h64 : Board64 b) (hc : CastleBacked b) (hk : CastleKingBacked b)
    (h6 : Invariant6 b) (h7 : Invariant7 b) (hsafe : OpponentSafe b)
    (hgen : m ∈ generateAllMoves T b) :
    CastleBacked (doMove T b m) ∧ CastleKingBacked (doMove T b m)
      ∧ (∀ i, (doMove T b m).castleRights.testBit i = true → b.castleRights.testBit i = true)
      ∧ (b.pieces m.src = KING →
          (doMove T b m).castleRights
            &&& (if b.sideToMove = Color.WHITE then WHITE_ALL else BLACK_ALL) = CASTLE_NONE) := by
  have hp := generated_playable T b h1 h2 h3 h4 hm h64 hc h6 h7 hsafe m hgen
  obtain ⟨-, -, -, k4, -, -⟩ := doMove_structure T b m h1 h2 h3 h4 hm h64 h7 hp
  exact ⟨doMove_castleBacked T b m h2 hm h7 hp hc, doMove_castleKingBacked T b m k4 hk,
    (doMove_rights_shrink T b m).1, (doMove_rights_shrink T b m).2⟩

theorem doMove_keeps_castle_rights_backed_witness :
    (Invariant1 (initFromFen zeroTables "r3k2r/8/8/8/8/8/8/R3K2R w KQkq - 0 1")
      ∧ Invariant2 (initFromFen zeroTables "r3k2r/8/8/8/8/8/8/R3K2R w KQkq - 0 1")
      ∧ Invariant3 (initFromFen zeroTables "r3k2r/8/8/8/8/8/8/R3K2R w KQkq - 0 1")
      ∧ Invariant4 (initFromFen zeroTables "r3k2r/8/8/8/8/8/8/R3K2R w KQkq - 0 1")
      ∧ MailboxAgrees (initFromFen zeroTables "r3k2r/8/8/8/8/8/8/R3K2R w KQkq - 0 1")
      ∧ Board64 (initFromFen zeroTables "r3k2r/8/8/8/8/8/8/R3K2R w KQkq - 0 1")
      ∧ CastleBacked (initFromFen zeroTables "r3k2r/8/8/8/8/8/8/R3K2R w KQkq - 0 1")
      ∧ CastleKingBacked (initFromFen zeroTables "r3k2r/8/8/8/8/8/8/R3K2R w KQkq - 0 1")
      ∧ Invariant6 (initFromFen zeroTables "r3k2r/8/8/8/8/8/8/R3K2R w KQkq - 0 1")
      ∧ Invariant7 (initFromFen zeroTables "r3k2r/8/8/8/8/8/8/R3K2R w KQkq - 0 1")
      ∧ OpponentSafe (initFromFen zeroTables "r3k2r/8/8/8/8/8/8/R3K2R w KQkq - 0 1")
      ∧ ({ ordinal := 0, src := 63, dst := 7, promotionPiece := NO_PIECE } : ChessMove)
          ∈ generateAllMoves zeroTables
              (initFromFen zeroTables "r3k2r/8/8/8/8/8/8/R3K2R w KQkq - 0 1"))
    ∧ (CastleBacked (doMove zeroTables
          (initFromFen zeroTables "r3k2r/8/8/8/8/8/8/R3K2R w KQkq - 0 1")
          { ordinal := 0, src := 63, dst := 7, promotionPiece := NO_PIECE })
      ∧ CastleKingBacked (doMove zeroTables
          (initFromFen zeroTables "r3k2r/8/8/8/8/8/8/R3K2R w KQkq - 0 1")
          { ordinal := 0, src := 63, dst := 7, promotionPiece := NO_PIECE })
      ∧ (∀ i, (doMove zeroTables
            (initFromFen zeroTables "r3k2r/8/8/8/8/8/8/R3K2R w KQkq - 0 1")
            { ordinal := 0, src := 63, dst := 7, promotionPiece := NO_PIECE }).castleRights.testBit
              i = true →
          (initFromFen zeroTables
            "r3k2r/8/8/8/8/8/8/R3K2R w KQkq - 0 1").castleRights.testBit i = true)
      ∧ ((initFromFen zeroTables "r3k2r/8/8/8/8/8/8/R3K2R w KQkq - 0 1").pieces
            ({ ordinal := 0, src := 63, dst := 7, promotionPiece := NO_PIECE } : ChessMove).src
            = KING →
          (doMove zeroTables
            (initFromFen zeroTables "r3k2r/8/8/8/8/8/8/R3K2R w KQkq - 0 1")
            { ordinal := 0, src := 63, dst := 7, promotionPiece := NO_PIECE }).castleRights
            &&& (if (initFromFen zeroTables
                  "r3k2r/8/8/8/8/8/8/R3K2R w KQkq - 0 1").sideToMove = Color.WHITE
                then WHITE_ALL else BLACK_ALL) = CASTLE_NONE)) :=
  ⟨by decide!,
    doMove_keeps_castle_rights_backed zeroTables
      (initFromFen zeroTables "r3k2r/8/8/8/8/8/8/R3K2R w KQkq - 0 1")
      { ordinal := 0, src := 63, dst := 7, promotionPiece := NO_PIECE }
      (by decide!) (by decide!) (by decide!) (by decide!) (by decide!) (by decide!)
      (by decide!) (by decide!) (by decide!) (by decide!) (by decide!) (by decide!)⟩

/-! ## Termination of the search -/

theorem returns_pure {α : Type} (x : α) : Returns (fun _ : Nat => some x) :=
  ⟨0, x, fun _ _ => rfl⟩

theorem returns_bind {α β : Type} {c : Nat → Option α} {g : α → Nat → Option β}
    (hc : Returns c) (hg : ∀ x, Returns (g x)) :
    Returns (fun k => (c k).bind (fun x => g x k)) := by
  obtain ⟨n, r, hn⟩ := hc
  obtain ⟨m, s, hm⟩ := hg r
  refine ⟨max n m, s, fun k hk => ?_⟩
  show (c k).bind (fun x => g x k) = some s
  rw [hn k (le_of_max_le_left hk)]
  exact hm k (le_of_max_le_right hk)

theorem returns_shift {α : Type} {c d : Nat → Option α} (h : ∀ k, c (k + 1) = d k)
    (hd : Returns d) : Returns c := by
  obtain ⟨n, r, hn⟩ := hd
  refine ⟨n + 1, r, fun k hk => ?_⟩
  obtain ⟨j, rfl⟩ : ∃ j, k = j + 1 := ⟨k - 1, by omega⟩
  rw [h j]
  exact hn j (by omega)

theorem returns_forMoves {S : Type} {step : Nat → S → ChessMove → Option (S × Bool)}
    (h : ∀ s m, Returns (fun k => step k s m)) :
    ∀ (l : MoveList) (s : S), Returns (fun k => forMoves (step k) l s) := by
  intro l
  induction l with
  | nil => intro s; exact returns_pure s
  | cons m rest ih =>
    intro s
    show Returns (fun k => (step k s m).bind
      (fun r => if r.2 then forMoves (step k) rest r.1 else some r.1))
    apply returns_bind (h s m)
    intro r
    by_cases hr : r.2 = true
    · simp only [hr, if_true]; exact ih r.1
    · simp only [hr, if_false]; exact returns_pure _

theorem quiescenceRecurse_returns {σ : Type} (rec : Nat → QuiescenceFn σ) (currentDepth : Int)
    (h : ∀ nodeType board alpha beta maxDepth members,
      Returns (fun k => rec k nodeType board alpha beta (currentDepth + 1) maxDepth members))
    (nodeType : NodeType) (nextBoard : ChessBoard) (alpha beta maxDepth : Int)
    (movesSearched : Nat) (members : σ) :
    Returns (fun k => quiescenceRecurse (rec k) nodeType nextBoard alpha beta currentDepth
      maxDepth movesSearched members) := by
  cases nodeType
  · unfold quiescenceRecurse
    simp only []
    by_cases h0 : movesSearched = 0
    · simp only [h0, if_true]
      exact returns_bind (h _ _ _ _ _ _) (fun _ => returns_pure _)
    · simp only [h0, if_false]
      apply returns_bind (h _ _ _ _ _ _)
      intro r
      split_ifs
      · exact returns_bind (h _ _ _ _ _ _) (fun _ => returns_pure _)
      · exact returns_pure _
  · exact returns_bind (h _ _ _ _ _ _) (fun _ => returns_pure _)
  · exact returns_bind (h _ _ _ _ _ _) (fun _ => returns_pure _)

theorem quiescenceMove_returns {σ : Type} (ops : SearcherOps σ) (T : Tables)
    (rec : Nat → QuiescenceFn σ) (currentDepth : Int)
    (h : ∀ nodeType board alpha beta maxDepth members,
      Returns (fun k => rec k nodeType board alpha beta (currentDepth + 1) maxDepth members))
    (nodeType : NodeType) (board : ChessBoard) (beta maxDepth : Int) (inCheck : Bool)
    (staticScore : Int) (loop : QuiescenceLoop σ) (move : ChessMove) :
    Returns (fun k => quiescenceMove ops T (rec k) nodeType board beta currentDepth maxDepth
      inCheck staticScore loop move) := by
  unfold quiescenceMove
  simp only []
  split_ifs
  · exact returns_pure _
  · exact returns_pure _
  · apply returns_bind (quiescenceRecurse_returns rec currentDepth h _ _ _ _ _ _ _)
    intro r
    split_ifs <;> exact returns_pure _

theorem quiescenceSearchBody_returns {σ : Type} (ops : SearcherOps σ) (T : Tables)
    (rec : Nat → QuiescenceFn σ) (currentDepth : Int)
    (h : currentDepth < ops.DepthMAX - 1 → ∀ nodeType board alpha beta maxDepth members,
      Returns (fun k => rec k nodeType board alpha beta (currentDepth + 1) maxDepth members))
    (nodeType : NodeType) (board : ChessBoard) (alpha beta maxDepth : Int) (members : σ) :
    Returns (fun k => quiescenceSearchBody ops T (rec k) nodeType board alpha beta currentDepth
      maxDepth members) := by
  unfold quiescenceSearchBody
  simp only []
  by_cases h1 : currentDepth ≥ ops.DepthMAX - 1
  · simp only [h1, if_true]; exact returns_pure _
  · simp only [h1, if_false]
    split_ifs <;>
      first
      | exact returns_pure _
      | exact returns_bind (returns_forMoves
          (fun s m => quiescenceMove_returns ops T rec currentDepth (h (by omega)) _ _ _ _ _ _ s m)
          _ _) (fun _ => returns_pure _)

/-- The function `quiescenceSearch` returns for all arguments. -/
theorem quiescenceSearch_returns {σ : Type} (ops : SearcherOps σ) (T : Tables) (a : Nat) :
    ∀ (currentDepth : Int), (ops.DepthMAX - 1 - currentDepth).toNat ≤ a →
      ∀ nodeType board alpha beta maxDepth members,
        Returns (fun k => quiescenceSearch ops T k nodeType board alpha beta currentDepth
          maxDepth members) := by
  induction a with
  | zero =>
    intro currentDepth ha nodeType board alpha beta maxDepth members
    refine returns_shift (d := fun k => quiescenceSearchBody ops T (quiescenceSearch ops T k)
      nodeType board alpha beta currentDepth maxDepth members) (fun k => rfl) ?_
    apply quiescenceSearchBody_returns
    intro hlt; omega
  | succ a ih =>
    intro currentDepth ha nodeType board alpha beta maxDepth members
    refine returns_shift (d := fun k => quiescenceSearchBody ops T (quiescenceSearch ops T k)
      nodeType board alpha beta currentDepth maxDepth members) (fun k => rfl) ?_
    apply quiescenceSearchBody_returns
    intro hlt nodeType' board' alpha' beta' maxDepth' members'
    exact ih (currentDepth + 1) (by omega) _ _ _ _ _ _

theorem searchRecurse_returns {σ : Type} (search : Nat → SearchFn σ) (currentDepth : Int)
    (h : ∀ nodeType board alpha beta maxDepth members,
      Returns (fun k => search k nodeType board alpha beta maxDepth (currentDepth + 1) members))
    (nodeType : NodeType) (nextBoard : ChessBoard) (alpha beta maxDepth extensions : Int)
    (searchedMoves : Nat) (members : σ) :
    Returns (fun k => searchRecurse (search k) nodeType nextBoard alpha beta maxDepth
      currentDepth extensions searchedMoves members) := by
  cases nodeType
  · unfold searchRecurse
    simp only []
    by_cases h0 : searchedMoves = 0
    · simp only [h0, if_true]
      exact returns_bind (h _ _ _ _ _ _) (fun _ => returns_pure _)
    · simp only [h0, if_false]
      apply returns_bind (h _ _ _ _ _ _)
      intro r
      split_ifs
      · exact returns_bind (h _ _ _ _ _ _) (fun _ => returns_pure _)
      · exact returns_pure _
  · unfold searchRecurse
    simp only []
    apply returns_bind (h _ _ _ _ _ _)
    intro r
    split_ifs
    · exact returns_bind (h _ _ _ _ _ _) (fun _ => returns_pure _)
    · exact returns_pure _
  · unfold searchRecurse
    simp only []
    apply returns_bind (h _ _ _ _ _ _)
    intro r
    split_ifs
    · exact returns_bind (h _ _ _ _ _ _) (fun _ => returns_pure _)
    · exact returns_pure _

theorem searchLoopMove_returns {σ : Type} (ops : SearcherOps σ) (T : Tables)
    (search : Nat → SearchFn σ) (currentDepth : Int)
    (h : ∀ nodeType board alpha beta maxDepth members,
      Returns (fun k => search k nodeType board alpha beta maxDepth (currentDepth + 1) members))
    (nodeType : NodeType) (board : ChessBoard) (beta maxDepth positionExtensions : Int)
    (loop : SearchLoopState σ) (move : ChessMove) :
    Returns (fun k => searchLoopMove ops T (search k) nodeType board beta maxDepth currentDepth
      positionExtensions loop move) := by
  unfold searchLoopMove
  simp only []
  apply returns_bind (searchRecurse_returns search currentDepth h _ _ _ _ _ _ _ _)
  intro r
  split_ifs <;> exact returns_pure _

theorem searchLoopBody_returns {σ : Type} (ops : SearcherOps σ) (T : Tables)
    (search : Nat → SearchFn σ) (searchLoop : Nat → SearchLoopFn σ)
    (maxDepth currentDepth : Int)
    (hS : ∀ nodeType board alpha beta maxDepth members,
      Returns (fun k => search k nodeType board alpha beta maxDepth (currentDepth + 1) members))
    (hL : maxDepth - currentDepth > 3 → ∀ nodeType board alpha beta moveList members,
      Returns (fun k => searchLoop k nodeType board alpha beta (maxDepth - 3) currentDepth
        moveList members))
    (nodeType : NodeType) (board : ChessBoard) (alpha beta : Int) (moveList : MoveList)
    (members : σ) :
    Returns (fun k => searchLoopBody ops T (search k) (searchLoop k) nodeType board alpha beta
      maxDepth currentDepth moveList members) := by
  unfold searchLoopBody
  simp only []
  have hloop : ∀ (o : MoveList × σ), Returns (fun k =>
      (forMoves
        (fun (loop : SearchLoopState σ × MoveList) move =>
          (searchLoopMove ops T (search k) nodeType board beta maxDepth currentDepth
            (if ops.enableAllSearchFeatures ∧ currentDepth ≥ 2 ∧ isInCheck board then 1 else 0)
            loop.1 move).bind
            (fun r => some ((r.1, if r.2 then loop.2.tail else loop.2), r.2)))
        o.1
        ({ visited := [], searchedMoves := 0, quietMoves := 0, bestScore := -ops.WIN_SCORE,
           alpha := alpha, members := o.2, returned := none }, o.1.tail)).bind
        (fun final =>
          match final.1.returned with
          | some nextScore => some (nextScore, final.1.visited ++ final.2, final.1.members)
          | none => some (final.1.bestScore, final.1.visited, final.1.members))) := by
    intro o
    apply returns_bind
    · apply returns_forMoves
      intro s m
      exact returns_bind (searchLoopMove_returns ops T search currentDepth hS _ _ _ _ _ _ _)
        (fun _ => returns_pure _)
    · intro final
      cases final.1.returned <;> exact returns_pure _
  by_cases hiid : ops.enableAllSearchFeatures = true ∧ maxDepth - currentDepth > 3
  · simp only [if_pos hiid]
    exact returns_bind (returns_bind (hL hiid.2 _ _ _ _ _ _) (fun _ => returns_pure _)) hloop
  · simp only [if_neg hiid]
    exact returns_bind (returns_pure _) hloop

theorem searchNullMove_returns {σ : Type} (ops : SearcherOps σ) (T : Tables)
    (search : Nat → SearchFn σ) (maxDepth currentDepth : Int)
    (hS : ∀ nodeType board alpha beta maxDepth members,
      Returns (fun k => search k nodeType board alpha beta maxDepth (currentDepth + 1) members))
    (hV : maxDepth - currentDepth > 2 → ∀ nodeType board alpha beta members,
      Returns (fun k => search k nodeType board alpha beta (maxDepth - 3) currentDepth members))
    (nodeType : NodeType) (board : ChessBoard) (alpha beta : Int)
    (hashtableEntryType : HashtableEntryType) (inCheck : Bool) (members : σ) :
    Returns (fun k => searchNullMove ops T (search k) nodeType board alpha beta maxDepth
      currentDepth hashtableEntryType inCheck members) := by
  unfold searchNullMove
  simp only []
  split_ifs with hc
  · apply returns_bind (hS _ _ _ _ _ _)
    intro r
    split_ifs
    · apply returns_bind (hV hc.2.2.2.2.2.2 _ _ _ _ _)
      intro v
      split_ifs <;> exact returns_pure _
    · exact returns_pure _
  · exact returns_pure _

theorem searchFinish_returns {σ : Type} (ops : SearcherOps σ) (T : Tables)
    (searchLoop : Nat → SearchLoopFn σ) (maxDepth currentDepth : Int)
    (hL : ∀ nodeType board alpha beta moveList members,
      Returns (fun k => searchLoop k nodeType board alpha beta maxDepth currentDepth moveList
        members))
    (nodeType : NodeType) (board : ChessBoard) (alpha beta : Int)
    (hashtableEntryType : HashtableEntryType) (inCheck isMateThreat : Bool) (members : σ) :
    Returns (fun k => searchFinish ops T (searchLoop k) nodeType board alpha beta maxDepth
      currentDepth hashtableEntryType inCheck isMateThreat members) := by
  unfold searchFinish
  simp only []
  split_ifs <;>
    first
    | exact returns_pure _
    | (apply returns_bind (hL _ _ _ _ _ _)
       intro r
       cases searchStore ops.enableAllSearchFeatures board r.1 alpha beta currentDepth
         (maxDepth - currentDepth) <;> exact returns_pure _)

theorem searchBody_returns {σ : Type} (ops : SearcherOps σ) (T : Tables)
    (quiescence : Nat → QuiescenceFn σ) (search : Nat → SearchFn σ)
    (searchLoop : Nat → SearchLoopFn σ) (maxDepth currentDepth : Int)
    (hQ : ∀ nodeType board alpha beta currentDepth maxDepth members,
      Returns (fun k => quiescence k nodeType board alpha beta currentDepth maxDepth members))
    (hS : ∀ nodeType board alpha beta maxDepth members,
      Returns (fun k => search k nodeType board alpha beta maxDepth (currentDepth + 1) members))
    (hV : maxDepth - currentDepth > 2 → ∀ nodeType board alpha beta members,
      Returns (fun k => search k nodeType board alpha beta (maxDepth - 3) currentDepth members))
    (hL : ∀ nodeType board alpha beta moveList members,
      Returns (fun k => searchLoop k nodeType board alpha beta maxDepth currentDepth moveList
        members))
    (nodeType : NodeType) (board : ChessBoard) (alpha beta : Int) (members : σ) :
    Returns (fun k => searchBody ops T (quiescence k) (search k) (searchLoop k) nodeType board
      alpha beta maxDepth currentDepth members) := by
  unfold searchBody
  simp only []
  split_ifs <;>
    first
    | exact returns_pure _
    | exact hQ _ _ _ _ _ _ _
    | (split
       · exact returns_pure _
       · apply returns_bind (searchNullMove_returns ops T search maxDepth currentDepth hS hV
           _ _ _ _ _ _ _)
         intro n
         split
         · exact returns_pure _
         · exact searchFinish_returns ops T searchLoop maxDepth currentDepth hL _ _ _ _ _ _ _ _)

theorem search_abort_returns {σ : Type} (ops : SearcherOps σ) (T : Tables) (currentDepth : Int)
    (h : currentDepth ≥ ops.DepthMAX - 1) (nodeType : NodeType) (board : ChessBoard)
    (alpha beta maxDepth : Int) (members : σ) :
    Returns (fun k => search ops T k nodeType board alpha beta maxDepth currentDepth members) := by
  refine returns_shift (d := fun k => searchBody ops T (quiescenceSearch ops T k)
    (search ops T k) (searchLoop ops T k) nodeType board alpha beta maxDepth currentDepth
    members) (fun k => rfl) ?_
  unfold searchBody
  simp only [if_pos h]
  exact returns_pure _

theorem searchLoop_returns_of_next {σ : Type} (ops : SearcherOps σ) (T : Tables)
    (currentDepth : Int)
    (hS : ∀ nodeType board alpha beta maxDepth members,
      Returns (fun k => search ops T k nodeType board alpha beta maxDepth (currentDepth + 1)
        members)) (n : Nat) :
    ∀ (maxDepth : Int), (maxDepth - currentDepth).toNat ≤ n →
      ∀ nodeType board alpha beta moveList members,
        Returns (fun k => searchLoop ops T k nodeType board alpha beta maxDepth currentDepth
          moveList members) := by
  induction n with
  | zero =>
    intro maxDepth hn nodeType board alpha beta moveList members
    refine returns_shift (d := fun k => searchLoopBody ops T (search ops T k)
      (searchLoop ops T k) nodeType board alpha beta maxDepth currentDepth moveList members)
      (fun k => rfl) ?_
    apply searchLoopBody_returns ops T _ _ maxDepth currentDepth hS
    intro hgt; omega
  | succ n ih =>
    intro maxDepth hn nodeType board alpha beta moveList members
    refine returns_shift (d := fun k => searchLoopBody ops T (search ops T k)
      (searchLoop ops T k) nodeType board alpha beta maxDepth currentDepth moveList members)
      (fun k => rfl) ?_
    apply searchLoopBody_returns ops T _ _ maxDepth currentDepth hS
    intro hgt nodeType' board' alpha' beta' moveList' members'
    exact ih (maxDepth - 3) (by omega) _ _ _ _ _ _

theorem search_returns_of_next {σ : Type} (ops : SearcherOps σ) (T : Tables)
    (currentDepth : Int)
    (hS : ∀ nodeType board alpha beta maxDepth members,
      Returns (fun k => search ops T k nodeType board alpha beta maxDepth (currentDepth + 1)
        members)) (n : Nat) :
    ∀ (maxDepth : Int), (maxDepth - currentDepth).toNat ≤ n →
      ∀ nodeType board alpha beta members,
        Returns (fun k => search ops T k nodeType board alpha beta maxDepth currentDepth
          members) := by
  have hQ : ∀ nodeType board alpha beta currentDepth maxDepth members,
      Returns (fun k => quiescenceSearch ops T k nodeType board alpha beta currentDepth maxDepth
        members) := fun nodeType board alpha beta currentDepth maxDepth members =>
    quiescenceSearch_returns ops T _ currentDepth (le_refl _) nodeType board alpha beta maxDepth
      members
  induction n with
  | zero =>
    intro maxDepth hn nodeType board alpha beta members
    refine returns_shift (d := fun k => searchBody ops T (quiescenceSearch ops T k)
      (search ops T k) (searchLoop ops T k) nodeType board alpha beta maxDepth currentDepth
      members) (fun k => rfl) ?_
    apply searchBody_returns ops T _ _ _ maxDepth currentDepth hQ hS
    · intro hgt; omega
    · intro nodeType' board' alpha' beta' moveList' members'
      exact searchLoop_returns_of_next ops T currentDepth hS _ maxDepth (le_refl _) _ _ _ _ _ _
  | succ n ih =>
    intro maxDepth hn nodeType board alpha beta members
    refine returns_shift (d := fun k => searchBody ops T (quiescenceSearch ops T k)
      (search ops T k) (searchLoop ops T k) nodeType board alpha beta maxDepth currentDepth
      members) (fun k => rfl) ?_
    apply searchBody_returns ops T _ _ _ maxDepth currentDepth hQ hS
    · intro hgt nodeType' board' alpha' beta' members'
      exact ih (maxDepth - 3) (by omega) _ _ _ _ _
    · intro nodeType' board' alpha' beta' moveList' members'
      exact searchLoop_returns_of_next ops T currentDepth hS _ maxDepth (le_refl _) _ _ _ _ _ _

theorem search_returns {σ : Type} (ops : SearcherOps σ) (T : Tables) (a : Nat) :
    ∀ (currentDepth : Int), (ops.DepthMAX - 1 - currentDepth).toNat ≤ a →
      ∀ nodeType board alpha beta maxDepth members,
        Returns (fun k => search ops T k nodeType board alpha beta maxDepth currentDepth
          members) := by
  induction a with
  | zero =>
    intro currentDepth ha nodeType board alpha beta maxDepth members
    exact search_abort_returns ops T currentDepth (by omega) _ _ _ _ _ _
  | succ a ih =>
    intro currentDepth ha nodeType board alpha beta maxDepth members
    exact search_returns_of_next ops T currentDepth
      (fun _ _ _ _ _ _ => ih (currentDepth + 1) (by omega) _ _ _ _ _ _) _ maxDepth (le_refl _)
      _ _ _ _ _

/-- C36: the three recursive functions of the searcher return.  For every
searcher state, board, window, node type and pair of depths there is a bound
on the nesting of calls from which on `search`, `searchLoop` and
`quiescenceSearch` each give one result: the recursion of `search` and
`quiescenceSearch` stops at `currentDepth ≥ DepthMAX - 1`, and the calls that
keep `currentDepth` (internal iterative deepening in `searchLoop`, the
verification search after a null move) lower `maxDepth` by three and are made
only while `maxDepth - currentDepth` is above three resp. two. -/
theorem search_functions_return {σ : Type} (ops : SearcherOps σ) (T : Tables)
    (nodeType : NodeType) (board : ChessBoard) (alpha beta maxDepth currentDepth : Int)
    (moveList : MoveList) (members : σ) :
    Returns (fun k => search ops T k nodeType board alpha beta maxDepth currentDepth members)
    ∧ Returns (fun k => searchLoop ops T k nodeType board alpha beta maxDepth currentDepth
        moveList members)
    ∧ Returns (fun k => quiescenceSearch ops T k nodeType board alpha beta currentDepth maxDepth
        members) :=
  ⟨search_returns ops T _ currentDepth (le_refl _) _ _ _ _ _ _,
   searchLoop_returns_of_next ops T currentDepth
     (fun _ _ _ _ _ _ => search_returns ops T _ (currentDepth + 1) (le_refl _) _ _ _ _ _ _)
     _ maxDepth (le_refl _) _ _ _ _ _ _,
   quiescenceSearch_returns ops T _ currentDepth (le_refl _) _ _ _ _ _ _⟩

/-! ## Checkmate, stalemate and perft against the rules of chess -/

/-- C14: at the checkmate `4k3/1b6/6p1/3pP3/4K3/r7/4n3/8 w - d6 0 1`
`checkBoardGameResult(board, history, checkMoveCount = true)` does not return
LOSS.  The board satisfies invariants 1-7 and the side not to move is not in
check; White is in check and has no legal move by the rules of chess; the
generator returns one move, the en-passant capture e5xd6 that leaves the white
king attacked by the bishop on b7, so the count is 1 and the function goes on to
the draw tests and returns NO_GAMERESULT.  At the claim's stalemate
`7k/5Q2/6K1/8/8/8/8/8 b - - 0 1`, where the generator returns no move, the
result is DRAW. -/
theorem checkBoardGameResult_checkmate_not_loss :
    (Invariant1 enPassantMateBoard ∧ Invariant2 enPassantMateBoard
      ∧ Invariant3 enPassantMateBoard ∧ Invariant4 enPassantMateBoard
      ∧ Invariant5 zeroTables enPassantMateBoard ∧ Invariant6 enPassantMateBoard
      ∧ Invariant7 enPassantMateBoard)
    ∧ isInCheck enPassantMateBoard true = false
    ∧ legalMoves enPassantMateBoard = []
    ∧ rulesInCheck enPassantMateBoard.placement enPassantMateBoard.sideToMove = true
    ∧ isInCheck enPassantMateBoard = true
    ∧ (generateAllMoves zeroTables enPassantMateBoard).map ChessMove.key = [(28, 19, 0)]
    ∧ isInCheck (doMove zeroTables enPassantMateBoard
        { ordinal := 0, src := 28, dst := 19, promotionPiece := NO_PIECE }) true = true
    ∧ generateAllMovesCount zeroTables enPassantMateBoard [] true = 1
    ∧ checkBoardGameResult zeroTables enPassantMateBoard [] true
        = TwoPlayerGameResult.NO_GAMERESULT
    ∧ checkBoardGameResult zeroTables enPassantMateBoard [] true ≠ TwoPlayerGameResult.LOSS
    ∧ legalMoves stalemateBoard = []
    ∧ rulesInCheck stalemateBoard.placement stalemateBoard.sideToMove = false
    ∧ checkBoardGameResult zeroTables stalemateBoard [] true = TwoPlayerGameResult.DRAW := by
  decide!

/-- C22: at `4k3/1b6/8/3pP3/4K3/8/8/8 w - d6 0 1` `perft(board, 1, 1)` returns 7
while the position has six legal moves, the six moves of the king: the seventh
move counted is the en-passant capture e5xd6 of the check-evasion generator,
which leaves the white king attacked by the bishop on b7.  The board satisfies
invariants 1-7 and the side not to move is not in check.  At the initial
position the two numbers agree, `perft(1) = 20`. -/
theorem perft_counts_illegal_enPassant :
    (Invariant1 enPassantCheckBoard ∧ Invariant2 enPassantCheckBoard
      ∧ Invariant3 enPassantCheckBoard ∧ Invariant4 enPassantCheckBoard
      ∧ Invariant5 zeroTables enPassantCheckBoard ∧ Invariant6 enPassantCheckBoard
      ∧ Invariant7 enPassantCheckBoard)
    ∧ isInCheck enPassantCheckBoard true = false
    ∧ (perft zeroTables 1 enPassantCheckBoard 1 1 (fun _ => [])).map Prod.fst = some 7
    ∧ legalMoves enPassantCheckBoard
        = [(36, 29, 0), (36, 35, 0), (36, 37, 0), (36, 43, 0), (36, 44, 0), (36, 45, 0)]
    ∧ legalMoveSequences zeroTables 1 enPassantCheckBoard = 6
    ∧ (perft zeroTables 1 enPassantCheckBoard 1 1 (fun _ => [])).map Prod.fst
        ≠ some (legalMoveSequences zeroTables 1 enPassantCheckBoard)
    ∧ (generateAllMoves zeroTables enPassantCheckBoard).map ChessMove.key
        = legalMoves enPassantCheckBoard ++ [(28, 19, 0)]
    ∧ rulesInCheck (rulesApply enPassantCheckBoard.placement enPassantCheckBoard.castleRights
        enPassantCheckBoard.enPassant 28 19 NO_PIECE) Color.WHITE = true
    ∧ isInCheck (doMove zeroTables enPassantCheckBoard
        { ordinal := 0, src := 28, dst := 19, promotionPiece := NO_PIECE }) true = true
    ∧ (perft zeroTables 1 (initFromFen zeroTables startingFen) 1 1 (fun _ => [])).map Prod.fst
        = some 20
    ∧ legalMoveSequences zeroTables 1 (initFromFen zeroTables startingFen) = 20 := by
  decide!
end JingWei
